import Mathlib

/-!
The s-city relay: a shallow embedding of the ingestion, storage and projection core.

Go strings are embedded as Lean strings (sequences of Unicode code points),
`int`/`int64` as `Int` (wrapping is made explicit where the source does
arithmetic that can overflow), slices as lists and database tables as lists of
rows in insertion order.  Every transaction of the source is one function from
a store to a result and the next store.

Scope of the string model: `strings.TrimSpace` follows `unicode.IsSpace` and
`strings.ToLower` follows `unicode.ToLower` (the ASCII letters and the case
table of the Unicode Character Database); `strings.EqualFold` compares the
lower-case forms, which is Go's case folding on the hex identifiers it is
called on.  Where the source cuts a string at a byte (`truncateGeohash`) or
reports bytes (`strconv.ParseUint`), the bytes are those of the UTF-8
encoding.  A `float64` is embedded with the rounding of IEEE 754.
-/

deriving instance DecidableEq for Except

namespace SCity

/-! ## Strings -/

/-- Go `unicode.IsSpace`: the Latin-1 spaces and the code points with the
White_Space property. -/
def isSpace (c : Char) : Bool :=
  let n := c.toNat
  n == 9 || n == 10 || n == 11 || n == 12 || n == 13 || n == 32 ||
  n == 0x85 || n == 0xA0 || n == 0x1680 || (0x2000 ≤ n && n ≤ 0x200A) ||
  n == 0x2028 || n == 0x2029 || n == 0x202F || n == 0x205F || n == 0x3000

/-- Drop the trailing run of characters satisfying `p`. -/
def dropEndWhile (p : Char → Bool) : List Char → List Char
  | [] => []
  | c :: cs =>
    match dropEndWhile p cs with
    | [] => if p c then [] else [c]
    | r => c :: r

/-- A list that is empty or starts with a character outside `p`. -/
def headOutside (p : Char → Bool) : List Char → Prop
  | [] => True
  | c :: _ => p c = false

/-- Go `strings.TrimSpace` on the characters of a string. -/
def trimChars (cs : List Char) : List Char :=
  dropEndWhile isSpace (cs.dropWhile isSpace)

/-- Go `strings.TrimSpace`. -/
def TrimSpace (s : String) : String := ⟨trimChars s.data⟩

/-- The lower-case mappings of package `unicode` (its `CaseRanges`: the simple
lower-case mappings of the Unicode Character Database, here for the code
points of Unicode 14.0, 1433 of them), as ranges
`(lo, hi, stride, image of lo)`: the code points `lo`, `lo + stride`, .. `hi`
have a lower-case form, and it lies as far from the image of `lo` as the code
point lies from `lo`.  The dotted capital I, U+0130, has the form `i`. -/
def lowerRanges : List (Nat × Nat × Nat × Nat) :=
  [(65, 90, 1, 97), (192, 214, 1, 224), (216, 222, 1, 248), (256, 302, 2, 257),
   (304, 304, 1, 105), (306, 310, 2, 307), (313, 327, 2, 314), (330, 374, 2, 331),
   (376, 376, 1, 255), (377, 381, 2, 378), (385, 385, 1, 595), (386, 388, 2, 387),
   (390, 390, 1, 596), (391, 391, 1, 392), (393, 394, 1, 598), (395, 395, 1, 396),
   (398, 398, 1, 477), (399, 399, 1, 601), (400, 400, 1, 603), (401, 401, 1, 402),
   (403, 403, 1, 608), (404, 404, 1, 611), (406, 406, 1, 617), (407, 407, 1, 616),
   (408, 408, 1, 409), (412, 412, 1, 623), (413, 413, 1, 626), (415, 415, 1, 629),
   (416, 420, 2, 417), (422, 422, 1, 640), (423, 423, 1, 424), (425, 425, 1, 643),
   (428, 428, 1, 429), (430, 430, 1, 648), (431, 431, 1, 432), (433, 434, 1, 650),
   (435, 437, 2, 436), (439, 439, 1, 658), (440, 440, 1, 441), (444, 444, 1, 445),
   (452, 452, 1, 454), (453, 453, 1, 454), (455, 455, 1, 457), (456, 456, 1, 457),
   (458, 458, 1, 460), (459, 475, 2, 460), (478, 494, 2, 479), (497, 497, 1, 499),
   (498, 500, 2, 499), (502, 502, 1, 405), (503, 503, 1, 447), (504, 542, 2, 505),
   (544, 544, 1, 414), (546, 562, 2, 547), (570, 570, 1, 11365), (571, 571, 1, 572),
   (573, 573, 1, 410), (574, 574, 1, 11366), (577, 577, 1, 578), (579, 579, 1, 384),
   (580, 580, 1, 649), (581, 581, 1, 652), (582, 590, 2, 583), (880, 882, 2, 881),
   (886, 886, 1, 887), (895, 895, 1, 1011), (902, 902, 1, 940), (904, 906, 1, 941),
   (908, 908, 1, 972), (910, 911, 1, 973), (913, 929, 1, 945), (931, 939, 1, 963),
   (975, 975, 1, 983), (984, 1006, 2, 985), (1012, 1012, 1, 952), (1015, 1015, 1, 1016),
   (1017, 1017, 1, 1010), (1018, 1018, 1, 1019), (1021, 1023, 1, 891), (1024, 1039, 1, 1104),
   (1040, 1071, 1, 1072), (1120, 1152, 2, 1121), (1162, 1214, 2, 1163), (1216, 1216, 1, 1231),
   (1217, 1229, 2, 1218), (1232, 1326, 2, 1233), (1329, 1366, 1, 1377), (4256, 4293, 1, 11520),
   (4295, 4295, 1, 11559), (4301, 4301, 1, 11565), (5024, 5103, 1, 43888),
   (5104, 5109, 1, 5112), (7312, 7354, 1, 4304), (7357, 7359, 1, 4349), (7680, 7828, 2, 7681),
   (7838, 7838, 1, 223), (7840, 7934, 2, 7841), (7944, 7951, 1, 7936), (7960, 7965, 1, 7952),
   (7976, 7983, 1, 7968), (7992, 7999, 1, 7984), (8008, 8013, 1, 8000), (8025, 8025, 1, 8017),
   (8027, 8027, 1, 8019), (8029, 8029, 1, 8021), (8031, 8031, 1, 8023), (8040, 8047, 1, 8032),
   (8072, 8079, 1, 8064), (8088, 8095, 1, 8080), (8104, 8111, 1, 8096), (8120, 8121, 1, 8112),
   (8122, 8123, 1, 8048), (8124, 8124, 1, 8115), (8136, 8139, 1, 8050), (8140, 8140, 1, 8131),
   (8152, 8153, 1, 8144), (8154, 8155, 1, 8054), (8168, 8169, 1, 8160), (8170, 8171, 1, 8058),
   (8172, 8172, 1, 8165), (8184, 8185, 1, 8056), (8186, 8187, 1, 8060), (8188, 8188, 1, 8179),
   (8486, 8486, 1, 969), (8490, 8490, 1, 107), (8491, 8491, 1, 229), (8498, 8498, 1, 8526),
   (8544, 8559, 1, 8560), (8579, 8579, 1, 8580), (9398, 9423, 1, 9424),
   (11264, 11311, 1, 11312), (11360, 11360, 1, 11361), (11362, 11362, 1, 619),
   (11363, 11363, 1, 7549), (11364, 11364, 1, 637), (11367, 11371, 2, 11368),
   (11373, 11373, 1, 593), (11374, 11374, 1, 625), (11375, 11375, 1, 592),
   (11376, 11376, 1, 594), (11378, 11378, 1, 11379), (11381, 11381, 1, 11382),
   (11390, 11391, 1, 575), (11392, 11490, 2, 11393), (11499, 11501, 2, 11500),
   (11506, 11506, 1, 11507), (42560, 42604, 2, 42561), (42624, 42650, 2, 42625),
   (42786, 42798, 2, 42787), (42802, 42862, 2, 42803), (42873, 42875, 2, 42874),
   (42877, 42877, 1, 7545), (42878, 42886, 2, 42879), (42891, 42891, 1, 42892),
   (42893, 42893, 1, 613), (42896, 42898, 2, 42897), (42902, 42920, 2, 42903),
   (42922, 42922, 1, 614), (42923, 42923, 1, 604), (42924, 42924, 1, 609),
   (42925, 42925, 1, 620), (42926, 42926, 1, 618), (42928, 42928, 1, 670),
   (42929, 42929, 1, 647), (42930, 42930, 1, 669), (42931, 42931, 1, 43859),
   (42932, 42946, 2, 42933), (42948, 42948, 1, 42900), (42949, 42949, 1, 642),
   (42950, 42950, 1, 7566), (42951, 42953, 2, 42952), (42960, 42960, 1, 42961),
   (42966, 42968, 2, 42967), (42997, 42997, 1, 42998), (65313, 65338, 1, 65345),
   (66560, 66599, 1, 66600), (66736, 66771, 1, 66776), (66928, 66938, 1, 66967),
   (66940, 66954, 1, 66979), (66956, 66962, 1, 66995), (66964, 66965, 1, 67003),
   (68736, 68786, 1, 68800), (71840, 71871, 1, 71872), (93760, 93791, 1, 93792),
   (125184, 125217, 1, 125218)]

/-- The code point `n` is one of the code points of the range. -/
def inLowerRange (r : Nat × Nat × Nat × Nat) (n : Nat) : Bool :=
  r.1 ≤ n && n ≤ r.2.1 && (n - r.1) % r.2.2.1 == 0

/-- Look a code point up in a list of ranges; a code point of no range is its
own lower case. -/
def lowerIn : List (Nat × Nat × Nat × Nat) → Nat → Nat
  | [], n => n
  | r :: rs, n => if inLowerRange r n then r.2.2.2 + (n - r.1) else lowerIn rs n

/-- Go `unicode.ToLower`: the ASCII letters directly, every other code point
through the case table. -/
def unicodeToLower (c : Char) : Char :=
  if c.toNat < 128 then c.toLower else Char.ofNat (lowerIn lowerRanges c.toNat)

/-- No code point of the range `r` has its lower-case form among the code
points of `q`: the images lie outside `q`, or at the odd places of a `q` that
holds every second code point. -/
def rangeClear (r q : Nat × Nat × Nat × Nat) : Bool :=
  r.2.2.2 + (r.2.1 - r.1) < q.1 || q.2.1 < r.2.2.2 ||
  (q.2.2.1 == 2 && q.1 ≤ r.2.2.2 && (r.2.2.2 - q.1) % 2 == 1 &&
    (r.2.2.1 == 2 || r.1 == r.2.1))

/-- No code point from `lo` to `hi` lies between `a` and `b`. -/
def apart (lo hi a b : Nat) : Bool := hi < a || b < lo

/-- No code point from `lo` to `hi` is a space of `unicode.IsSpace`. -/
def noSpace (lo hi : Nat) : Bool :=
  apart lo hi 9 13 && apart lo hi 32 32 && apart lo hi 0x85 0x85 && apart lo hi 0xA0 0xA0 &&
  apart lo hi 0x1680 0x1680 && apart lo hi 0x2000 0x200A && apart lo hi 0x2028 0x2029 &&
  apart lo hi 0x202F 0x202F && apart lo hi 0x205F 0x205F && apart lo hi 0x3000 0x3000

/-- The code points and the lower-case forms of a range are no spaces, and the
forms are code points of characters other than the ASCII capitals. -/
def rangeSound (r : Nat × Nat × Nat × Nat) : Bool :=
  noSpace r.1 r.2.1 && noSpace r.2.2.2 (r.2.2.2 + (r.2.1 - r.1)) &&
  apart r.2.2.2 (r.2.2.2 + (r.2.1 - r.1)) 65 90 &&
  apart r.2.2.2 (r.2.2.2 + (r.2.1 - r.1)) 0xD800 0xDFFF &&
  decide (r.2.2.2 + (r.2.1 - r.1) < 0x110000)

/-- Go `strings.ToLower`: `unicode.ToLower` on every code point. -/
def ToLower (s : String) : String := ⟨s.data.map unicodeToLower⟩

/-- Go `strings.EqualFold`, as equality of the lower-case forms.  The source
calls it on event ids and public keys: when both strings are ASCII, or one of
them is a string of hex digits, this is Go's simple case folding exactly;
beyond that the two differ on a few letters (Go folds the long s with `s`, and
keeps the dotted capital I apart from `i`). -/
def EqualFold (a b : String) : Bool := decide (ToLower a = ToLower b)

/-- The bytes of a Go string: the UTF-8 encoding of its code points. -/
def goBytes (s : String) : List UInt8 := s.data.flatMap String.utf8EncodeChar

/-- The errors of `leadingZeroBits`. -/
inductive PowIDError where
  /-- The error `fmt.Errorf("odd hex length")`. -/
  | oddHexLength
  /-- The error `&strconv.NumError{Func: "ParseUint", Num: num, Err: strconv.ErrSyntax}`
  of `strconv.ParseUint(num, 16, 8)`, where `num` is given by its bytes; its
  text is `strconv.ParseUint: parsing "num": invalid syntax`, with `num` quoted
  by `strconv.Quote`. -/
  | parseUintSyntax (num : List UInt8)
  deriving DecidableEq, Repr

/-- Lexicographic "less than" on character sequences, by code point (the
order of the UTF-8 bytes Go compares). -/
def ltChars : List Char → List Char → Bool
  | [], [] => false
  | [], _ :: _ => true
  | _ :: _, [] => false
  | a :: as, b :: bs =>
    if a.toNat < b.toNat then true
    else if b.toNat < a.toNat then false
    else ltChars as bs

/-- Go `strings.Compare`: -1, 0 or 1 by lexicographic order. -/
def stringsCompare (a b : String) : Int :=
  if ltChars a.data b.data then -1 else if a = b then 0 else 1

/-! ## Events and the event store -/

/-- The `models.Event` struct. -/
structure Event where
  ID : String
  PubKey : String
  CreatedAt : Int
  Kind : Int
  Tags : List (List String)
  Content : String
  Sig : String
deriving DecidableEq, Repr

/-- The `models.EventTag` struct: one row of `event_tags`. -/
structure EventTag where
  EventID : String
  TagIndex : Nat
  TagName : String
  TagValue : String
  TagArray : List String
deriving DecidableEq, Repr

/-- The `models.DeletedEvent` struct: one row of `deleted_events`. -/
structure DeletedEvent where
  EventID : String
  DeletedAt : Int
  DeletedBy : String
  Reason : String
deriving DecidableEq, Repr

/-- Modelled from the spec: the schema of the event tables, whose migration
files are not part of the sources.  `events` has primary key `id`;
`event_tags` rows belong to an event and go with it when the event row is
deleted; `deleted_events` has primary key `event_id`. -/
structure EventStore where
  events : List Event
  eventTags : List EventTag
  deleted : List DeletedEvent
deriving DecidableEq, Repr

/-- The empty event store. -/
def EventStore.empty : EventStore := ⟨[], [], []⟩

/-- Errors a storage call can return. -/
inductive StoreError where
  /-- A unique-key violation (SQLSTATE 23505). -/
  | duplicateKey (table : String)
  /-- `pgx.ErrNoRows`. -/
  | noRows
  /-- Any other database error. -/
  | other (msg : String)
deriving DecidableEq, Repr

/-- `EventTagsRepo.Normalize`, with the running index of the range loop. -/
def normalizeFrom (eventID : String) : Nat → List (List String) → List EventTag
  | _, [] => []
  | idx, tag :: rest =>
    match tag with
    | [] => normalizeFrom eventID (idx + 1) rest
    | name :: vals =>
      if name = "" then normalizeFrom eventID (idx + 1) rest
      else
        ⟨eventID, idx, name, vals.headD "", tag⟩ :: normalizeFrom eventID (idx + 1) rest

/-- `EventTagsRepo.Normalize`. -/
def Normalize (eventID : String) (tags : List (List String)) : List EventTag :=
  normalizeFrom eventID 0 tags

/-- SQL `DELETE FROM events WHERE id = $1` (tag rows go with the event). -/
def deleteEventRow (db : EventStore) (id : String) : EventStore :=
  { db with
    events := db.events.filter (fun e => e.ID ≠ id)
    eventTags :=
      if db.events.any (fun e => e.ID = id) then
        db.eventTags.filter (fun t => t.EventID ≠ id)
      else db.eventTags }

/-- SQL `DELETE FROM event_tags WHERE event_id = $1`. -/
def deleteTagRows (db : EventStore) (id : String) : EventStore :=
  { db with eventTags := db.eventTags.filter (fun t => t.EventID ≠ id) }

/-- `EventsRepo.insertEventTx`: insert the event row, then one tag row per
normalized tag.  A second row with the same id violates the primary key. -/
def insertEventTx (db : EventStore) (event : Event) : Except StoreError EventStore :=
  if db.events.any (fun e => e.ID = event.ID) then
    .error (.duplicateKey "events")
  else
    .ok { db with
          events := db.events ++ [event]
          eventTags := db.eventTags ++ Normalize event.ID event.Tags }

/-- `EventsRepo.InsertEvent`: one transaction around `insertEventTx`. -/
def InsertEvent (db : EventStore) (event : Event) : Except StoreError EventStore :=
  insertEventTx db event

/-- `compareReplaceableVersion`. -/
def compareReplaceableVersion (createdAtA : Int) (idA : String)
    (createdAtB : Int) (idB : String) : Int :=
  if createdAtA > createdAtB then 1
  else if createdAtA < createdAtB then -1
  else
    let idA := ToLower (TrimSpace idA)
    let idB := ToLower (TrimSpace idB)
    let c := stringsCompare idA idB
    if c = -1 then 1 else if c = 1 then -1 else 0

/-- The loop variables of `upsertLatestEventTx`. -/
structure ScanState where
  existingIDs : List String
  bestExistingID : String
  bestExistingCreatedAt : Int
  hasExisting : Bool
deriving DecidableEq, Repr

/-- One iteration of the `rows.Next()` loop of `upsertLatestEventTx`. -/
def scanRow (eventID : String) (st : ScanState) (row : String × Int) : ScanState :=
  let existingID := row.1
  let existingCreatedAt := row.2
  let st1 :=
    if !st.hasExisting ||
        compareReplaceableVersion existingCreatedAt existingID
          st.bestExistingCreatedAt st.bestExistingID > 0 then
      { st with bestExistingID := existingID
                bestExistingCreatedAt := existingCreatedAt
                hasExisting := true }
    else st
  if existingID ≠ eventID then
    { st1 with existingIDs := st1.existingIDs ++ [existingID] }
  else st1

/-- `EventsRepo.upsertLatestEventTx` on the rows the caller selected. -/
def upsertLatestEventTx (db : EventStore) (event : Event) (rows : List (String × Int)) :
    Except StoreError EventStore :=
  let st := rows.foldl (scanRow event.ID) ⟨[], "", 0, false⟩
  let c := compareReplaceableVersion event.CreatedAt event.ID
    st.bestExistingCreatedAt st.bestExistingID
  if st.hasExisting && (c = -1 || c = 0) then
    .ok db
  else
    let db1 := st.existingIDs.foldl deleteEventRow db
    let db2 := deleteTagRows db1 event.ID
    let db3 := deleteEventRow db2 event.ID
    insertEventTx db3 event

/-- SQL `WHERE e.pubkey = $1 AND e.kind = $2`. -/
def atAddress (pubKey : String) (kind : Int) (e : Event) : Bool :=
  decide (e.PubKey = pubKey ∧ e.Kind = kind)

/-- `EventsRepo.UpsertReplaceableEvent`: select the rows with the event's
`(pubkey, kind)` and hand them to `upsertLatestEventTx`, in one transaction. -/
def UpsertReplaceableEvent (db : EventStore) (event : Event) : Except StoreError EventStore :=
  let rows := (db.events.filter (atAddress event.PubKey event.Kind)).map
    (fun e => (e.ID, e.CreatedAt))
  upsertLatestEventTx db event rows

/-- `dTagValue` (`services/event_ingest.go`): the trimmed value of the first
tag of two or more elements whose trimmed name is `d`. -/
def dTagValue : List (List String) → String
  | [] => ""
  | tag :: rest =>
    match tag with
    | name :: value :: _ =>
      if TrimSpace name = "d" then TrimSpace value else dTagValue rest
    | _ => dTagValue rest

/-- The `WHERE` clause of `UpsertParameterizedReplaceableEvent` over the
`LEFT JOIN` of an event with its tag rows named `d`: with an empty `$3` the
event has no such row or one with an empty value, otherwise it has one whose
value is `$3`. -/
def matchesDTag (db : EventStore) (dTag : String) (e : Event) : Bool :=
  let dRows := db.eventTags.filter (fun t => t.EventID = e.ID ∧ t.TagName = "d")
  if dTag = "" then dRows.isEmpty || dRows.any (fun t => t.TagValue = "")
  else dRows.any (fun t => t.TagValue = dTag)

/-- `EventsRepo.UpsertParameterizedReplaceableEvent`. -/
def UpsertParameterizedReplaceableEvent (db : EventStore) (event : Event)
    (dTag : String) : Except StoreError EventStore :=
  let rows := (db.events.filter
    (fun e => atAddress event.PubKey event.Kind e && matchesDTag db dTag e)).map
    (fun e => (e.ID, e.CreatedAt))
  upsertLatestEventTx db event rows

/-- The call `Ingest` makes for a parameterized replaceable event. -/
def upsertParameterizedAsIngest (db : EventStore) (event : Event) :
    Except StoreError EventStore :=
  UpsertParameterizedReplaceableEvent db event (dTagValue event.Tags)

/-- The order replaceable events are ranked by: `b` is at least as good as `e`
when it is newer, or as new with an id that is not lexicographically larger. -/
def notWorse (b e : Event) : Prop :=
  e.CreatedAt < b.CreatedAt ∨ (e.CreatedAt = b.CreatedAt ∧ b.ID ≤ e.ID)

/-- The invariant of a run of replaceable upserts, between the events upserted
so far (`seen`) and the rows of `events`: every row was upserted, and at every
address that saw an upsert there is exactly one row, which is not worse than
any event upserted at that address. -/
def replaceableInv (seen events : List Event) : Prop :=
  (∀ e ∈ events, e ∈ seen) ∧
  ∀ (pk : String) (k : Int), (∃ e ∈ seen, atAddress pk k e = true) →
    ∃ b ∈ seen, atAddress pk k b = true ∧
      (∀ e ∈ seen, atAddress pk k e = true → notWorse b e) ∧
      events.filter (atAddress pk k) = [b]

/-! ## Group permissions (`storage/group_repo.go`, `models/group_permission.go`) -/

def PermissionAdmin : String := "admin"
def PermissionAddUser : String := "add-user"
def PermissionPromoteUser : String := "promote-user"
def PermissionRemoveUser : String := "remove-user"
def PermissionEditMetadata : String := "edit-metadata"
def PermissionCreateRole : String := "create-role"
def PermissionDeleteRole : String := "delete-role"
def PermissionDeleteEvent : String := "delete-event"
def PermissionCreateGroup : String := "create-group"
def PermissionDeleteGroup : String := "delete-group"
def PermissionCreateInvite : String := "create-invite"

/-- The normal form the permission rules are stated in: the lowercase of a
string with its surrounding whitespace removed. -/
def norm (s : String) : String := ToLower (TrimSpace s)

/-- `normalizePermission`. -/
def normalizePermission (permission : String) : String :=
  TrimSpace (ToLower permission)

/-- `defaultRolePermissions`. -/
def defaultRolePermissions (roleName : String) : List String :=
  if roleName = "admin" then
    [PermissionAddUser, PermissionPromoteUser, PermissionRemoveUser,
     PermissionEditMetadata, PermissionCreateRole, PermissionDeleteRole,
     PermissionDeleteEvent, PermissionCreateGroup, PermissionDeleteGroup,
     PermissionCreateInvite]
  else []

/-- One iteration of the two loops of `roleHasPermission` that fill the
`allowed` set (a Go map with empty values, embedded as the list of its keys). -/
def allowPermission (allowed : List String) (permission : String) : List String :=
  let normalized := normalizePermission permission
  if normalized ≠ "" then normalized :: allowed else allowed

/-- `roleHasPermission`. -/
def roleHasPermission (roleName : String) (rolePermissions : List String)
    (requiredPermission : String) : Bool :=
  let requiredPermission := normalizePermission requiredPermission
  if requiredPermission = "" then false
  else
    let roleName := TrimSpace (ToLower roleName)
    if roleName = "owner" then true
    else
      let allowed := (defaultRolePermissions roleName).foldl allowPermission []
      let allowed := rolePermissions.foldl allowPermission allowed
      if requiredPermission ∈ allowed then true
      else decide (PermissionAdmin ∈ allowed)

/-! ## Errors of the service layer

One constructor per `fmt.Errorf` / `errors.New` site of `services/*.go`; the
fields are the values the message is formatted with. -/

/-- The errors `ValidateEvent`, `Ingest` and the projection return. -/
inductive Err where
  /-- Message "invalid event id" -/
  | invalidEventID
  /-- Message "invalid event pubkey" -/
  | invalidEventPubKey
  /-- Message "invalid event signature format" -/
  | invalidSignatureFormat
  /-- Message "event created_at is required" -/
  | createdAtRequired
  /-- Message "event created_at out of allowed skew" -/
  | outOfAllowedSkew
  /-- Message "tag[i] is empty" -/
  | tagEmpty (i : Nat)
  /-- Message "tag[i] has empty name" -/
  | tagEmptyName (i : Nat)
  /-- Message "marshal canonical event payload: ..." -/
  | marshalPayload (cause : String)
  /-- Message "event id does not match payload" -/
  | idMismatch
  /-- Message "invalid signature", with the library's cause when it gave one -/
  | invalidSignature (cause : Option String)
  /-- Message "rate limit exceeded" -/
  | rateLimitExceeded
  /-- Message "invalid event id for pow: ..." -/
  | invalidPowID (cause : PowIDError)
  /-- Message "insufficient pow: have %d bits, need %d" -/
  | insufficientPow (have_ need : Int)
  /-- Message "pow nonce tag difficulty below required target" -/
  | powNonceBelowTarget
  /-- Message "kind %d events must be signed by relay" -/
  | relayOnlyKindSigner (kind : Int)
  /-- The sentinel `ErrDuplicateEvent`, "duplicate event" -/
  | duplicateEvent
  /-- An error of the storage layer, passed on unchanged. -/
  | storage (e : StoreError)
  /-- Message "not authorized" / "not authorized: missing %s permission" -/
  | notAuthorized (permission : String)
  /-- Message "role update missing role tag" -/
  | roleUpdateMissingRole
  /-- Message "delete-role missing role tag" -/
  | deleteRoleMissingRole
  /-- Message "put-user missing p tag" -/
  | putUserMissingP
  /-- Message "remove-user missing p tag" -/
  | removeUserMissingP
  /-- Message "invite event missing code" -/
  | inviteMissingCode
  /-- Message "join-request p tag must match event pubkey" -/
  | joinRequestPMismatch
  /-- Message "duplicate: user already member" -/
  | alreadyMember
  /-- Message "user is banned" -/
  | userBanned
  /-- Message "geohash precision exceeds level 6" -/
  | geohashPrecision
  /-- Message "sign canonical state event kind %d: ..." -/
  | signCanonical (kind : Int) (cause : String)
  /-- Message "signed canonical state event pubkey does not match relay pubkey" -/
  | signedPubKeyMismatch
  /-- Message "event_id and deleted_by are required" and the other delete errors -/
  | deleteRequest (msg : String)
deriving DecidableEq, Repr

/-! ## Validation (`services/validation.go`) -/

/-- The character class `[0-9a-fA-F]`. -/
def isHexChar (c : Char) : Bool :=
  let n := c.toNat
  (48 ≤ n && n ≤ 57) || (97 ≤ n && n ≤ 102) || (65 ≤ n && n ≤ 70)

/-- The regular expressions `hex64` and `hex128`: exactly `n` hex digits. -/
def matchesHex (n : Nat) (s : String) : Bool :=
  s.data.length == n && s.data.all isHexChar

/-- One lowercase hex digit of `hex.EncodeToString`. -/
def hexDigit (n : Nat) : Char :=
  if n < 10 then Char.ofNat (48 + n) else Char.ofNat (87 + n)

/-- Go `hex.EncodeToString`. -/
def hexEncodeToString (bytes : List UInt8) : String :=
  ⟨bytes.flatMap (fun b => [hexDigit (b.toNat / 16), hexDigit (b.toNat % 16)])⟩

/-- The value `ComputeEventID` marshals:
`[]any{0, strings.ToLower(pubKey), createdAt, kind, tags, content}`. -/
structure CanonicalPayload where
  pubKey : String
  createdAt : Int
  kind : Int
  tags : List (List String)
  content : String
deriving DecidableEq, Repr

/-- The library functions the services call, as parameters of the embedding:
`encoding/json`, `crypto/sha256` and the signature functions of `go-nostr`. -/
structure Crypto where
  /-- `json.Marshal` of the canonical payload. -/
  jsonMarshal : CanonicalPayload → Except String (List UInt8)
  /-- `sha256.Sum256`. -/
  sha256Sum : List UInt8 → List UInt8
  /-- `nostr.Event.CheckSignature`. -/
  checkSignature : Event → Except String Bool
  /-- `nostr.Event.Sign` with a private key: fills in `PubKey`, `ID`, `Sig`. -/
  signEvent : Event → String → Except String Event

/-- `ComputeEventID`. -/
def ComputeEventID (lib : Crypto) (pubKey : String) (createdAt : Int) (kind : Int)
    (tags : List (List String)) (content : String) : Except Err String :=
  match lib.jsonMarshal ⟨ToLower pubKey, createdAt, kind, tags, content⟩ with
  | .error cause => .error (.marshalPayload cause)
  | .ok encoded => .ok (hexEncodeToString (lib.sha256Sum encoded))

/-- `validateEventID`. -/
def validateEventID (lib : Crypto) (event : Event) : Except Err Unit :=
  match ComputeEventID lib event.PubKey event.CreatedAt event.Kind event.Tags event.Content with
  | .error e => .error e
  | .ok expected =>
    if !EqualFold expected event.ID then .error .idMismatch else .ok ()

/-- `validateSignatureFields`. -/
def validateSignatureFields (lib : Crypto) (event : Event) : Except Err Unit :=
  if !matchesHex 128 event.Sig then .error (.invalidSignature none)
  else
    let nostrEvent : Event :=
      { ID := ToLower event.ID
        PubKey := ToLower event.PubKey
        CreatedAt := event.CreatedAt
        Kind := event.Kind
        Tags := event.Tags
        Content := event.Content
        Sig := ToLower event.Sig }
    match lib.checkSignature nostrEvent with
    | .error cause => .error (.invalidSignature (some cause))
    | .ok ok => if !ok then .error (.invalidSignature none) else .ok ()

/-- Two's-complement wrap of an integer to the range of `int64`. -/
def wrap64 (x : Int) : Int := (x + 2 ^ 63) % 2 ^ 64 - 2 ^ 63

/-- `time.Second`, in nanoseconds. -/
def timeSecond : Int := 1000000000

/-- The skew test of `ValidateEvent`, in `int64` arithmetic: `maxSkew` is a
`time.Duration` in nanoseconds, `now` and `createdAt` are Unix seconds. -/
def skewExceeded (maxSkew now createdAt : Int) : Bool :=
  let skew := wrap64 (now - createdAt)
  let skew := if skew < 0 then wrap64 (-skew) else skew
  decide (wrap64 (skew * timeSecond) > maxSkew)

/-- The tag loop of `ValidateEvent`, with its running index. -/
def validateTags : Nat → List (List String) → Except Err Unit
  | _, [] => .ok ()
  | i, tag :: rest =>
    match tag with
    | [] => .error (.tagEmpty i)
    | name :: _ =>
      if TrimSpace name = "" then .error (.tagEmptyName i)
      else validateTags (i + 1) rest

/-- `Validator.ValidateEvent`, with the validator's `maxSkew` and the reading
`now` of `time.Now().Unix()`. -/
def ValidateEvent (lib : Crypto) (maxSkew now : Int) (event : Event) : Except Err Unit :=
  if !matchesHex 64 event.ID then .error .invalidEventID
  else if !matchesHex 64 event.PubKey then .error .invalidEventPubKey
  else if !matchesHex 128 event.Sig then .error .invalidSignatureFormat
  else if event.CreatedAt = 0 then .error .createdAtRequired
  else if skewExceeded maxSkew now event.CreatedAt then .error .outOfAllowedSkew
  else
    match validateTags 0 event.Tags with
    | .error e => .error e
    | .ok _ =>
      match validateEventID lib event with
      | .error e => .error e
      | .ok _ => validateSignatureFields lib event

/-- Lookup in a Go map with string keys, embedded as the list of its entries. -/
def mapGet {ν : Type} : List (String × ν) → String → Option ν
  | [], _ => none
  | (k, v) :: rest, key => if k = key then some v else mapGet rest key

/-- Store in a Go map with string keys. -/
def mapPut {ν : Type} : List (String × ν) → String → ν → List (String × ν)
  | [], key, v => [(key, v)]
  | (k, v0) :: rest, key, v =>
    if k = key then (k, v) :: rest else (k, v0) :: mapPut rest key v

/-! ## Abuse controls (`services/abuse_controls.go`) -/

/-- A finite `float64`: the value is `units` times `2^-1074`, the smallest
positive double, of which every finite double is a whole multiple.  Not every
whole number of units is a double; the operations below round to one. -/
structure float64 where
  units : Int
deriving DecidableEq, Repr

/-- The number of units in 1.0, `2^1074`. -/
def float64.one : Nat := 1 <<< 1074

/-- The quotient `num / den` rounded to the nearest whole number, a tie to the
even one. -/
def roundHalfEven (num den : Nat) : Nat :=
  let q := num / den
  let r := num % den
  if 2 * r < den then q else if den < 2 * r then q + 1 else if q % 2 = 0 then q else q + 1

/-- The place of the highest set bit of a positive number below `2^8192`: the
`e` with `2^e ≤ q < 2^(e+1)`. -/
def bitLog (q : Nat) : Nat :=
  [4096, 2048, 1024, 512, 256, 128, 64, 32, 16, 8, 4, 2, 1].foldl
    (fun e k => if q >>> (e + k) = 0 then e else e + k) 0

/-- The double nearest to `num / den` units, a tie to the one with the even
significand (the rounding of IEEE 754 arithmetic): below `2^53` units the
doubles are the whole numbers of units, and from `2^e` to `2^(e+1)` units,
`e ≥ 53`, they are the multiples of `2^(e-52)`.  The result is finite as long
as it stays below `2^1024`, that is `2^2098` units, as every value that `Allow`
computes from integers of 64 bits does. -/
def roundUnits (num den : Nat) : Nat :=
  let q := num / den
  if q < 2 ^ 53 then roundHalfEven num den
  else
    let s := 1 <<< (bitLog q - 52)
    s * roundHalfEven num (den * s)

/-- The double nearest to the exact result `num / den` (in units) of an
operation. -/
def float64.round (num : Int) (den : Nat) : float64 :=
  if num < 0 then ⟨-(roundUnits num.natAbs den : Nat)⟩ else ⟨(roundUnits num.natAbs den : Nat)⟩

/-- The conversion `float64(i)` of an integer. -/
def float64.ofInt (i : Int) : float64 := float64.round (i * float64.one) 1

/-- The sum `x + y` of two doubles. -/
def float64.add (x y : float64) : float64 := float64.round (x.units + y.units) 1

/-- The difference `x - y` of two doubles. -/
def float64.sub (x y : float64) : float64 := float64.round (x.units - y.units) 1

/-- The product `x * y` of two doubles. -/
def float64.mul (x y : float64) : float64 := float64.round (x.units * y.units) float64.one

/-- The quotient `x / y` of two doubles, `y` not zero (the source divides by
the constants 60 and 1e9). -/
def float64.div (x y : float64) : float64 :=
  if y.units < 0 then float64.round (-(x.units * float64.one)) y.units.natAbs
  else float64.round (x.units * float64.one) y.units.natAbs

/-- The comparison `x < y` of two doubles. -/
def float64.lt (x y : float64) : Bool := decide (x.units < y.units)

/-- `time.Duration.Seconds`: `float64(d / Second) + float64(d % Second) / 1e9`,
the integer division truncating. -/
def Seconds (d : Int) : float64 :=
  let sec := d.tdiv 1000000000
  let nsec := d.tmod 1000000000
  float64.add (float64.ofInt sec) (float64.div (float64.ofInt nsec) (float64.ofInt 1000000000))

/-- The `rateBucket` struct; `lastRefill` is a clock reading in nanoseconds. -/
structure rateBucket where
  tokens : float64
  lastRefill : Int
deriving DecidableEq

/-- The `AbuseControls` struct; the `buckets` map is the list of its entries,
one per key. -/
structure AbuseControls where
  burst : Int
  sustainedPerMinute : Int
  defaultPowBits : Int
  buckets : List (String × rateBucket)
deriving DecidableEq

/-- `NewAbuseControls`. -/
def NewAbuseControls (burst sustainedPerMinute defaultPowBits : Int) : AbuseControls :=
  ⟨burst, sustainedPerMinute, defaultPowBits, []⟩

/-- `time.Time.Sub`: the difference of two clock readings, saturated to the
range of `time.Duration`. -/
def timeSub (t u : Int) : Int :=
  let d := t - u
  if d > 2 ^ 63 - 1 then 2 ^ 63 - 1 else if d < -(2 ^ 63) then -(2 ^ 63) else d

/-- `minFloat`. -/
def minFloat (a b : float64) : float64 := if float64.lt a b then a else b

/-- `AbuseControls.Allow` at the clock reading `now` (nanoseconds): the answer
and the controls with the key's bucket updated.  Every operation on `float64`
is rounded by itself, as the compiler does where it does not fuse the
multiplication and the addition of the refill. -/
def AbuseControls.Allow (a : AbuseControls) (pubKey : String) (now : Int) :
    Bool × AbuseControls :=
  let bucket : rateBucket :=
    match mapGet a.buckets pubKey with
    | some b => b
    | none => ⟨float64.ofInt a.burst, now⟩
  let elapsed : float64 := Seconds (timeSub now bucket.lastRefill)
  let bucket : rateBucket :=
    if float64.lt (float64.ofInt 0) elapsed then
      let refillRate : float64 :=
        float64.div (float64.ofInt a.sustainedPerMinute) (float64.ofInt 60)
      ⟨minFloat (float64.ofInt a.burst)
        (float64.add bucket.tokens (float64.mul elapsed refillRate)), now⟩
    else bucket
  if float64.lt bucket.tokens (float64.ofInt 1) then
    (false, { a with buckets := mapPut a.buckets pubKey bucket })
  else
    let spent : rateBucket :=
      ⟨float64.sub bucket.tokens (float64.ofInt 1), bucket.lastRefill⟩
    (true, { a with buckets := mapPut a.buckets pubKey spent })

/-- The `kindPowBits` table. -/
def kindPowBits (kind : Int) : Option Int :=
  if kind = 9007 then some 28
  else if kind = 1020 then some 24
  else if kind = 0 then some 20
  else if kind = 30022 then some 16
  else if kind = 20002 then some 12
  else if kind = 10006 then some 12
  else if kind = 20011 then some 8
  else if kind = 20012 then some 8
  else none

/-- `AbuseControls.RequiredPowBits`. -/
def AbuseControls.RequiredPowBits (a : AbuseControls) (kind : Int) : Int :=
  match kindPowBits kind with
  | some bits => bits
  | none => a.defaultPowBits

/-- The value of a decimal digit. -/
def decVal (c : Char) : Option Nat :=
  let n := c.toNat
  if 48 ≤ n ∧ n ≤ 57 then some (n - 48) else none

/-- The value of a non-empty run of decimal digits, `acc` being the value read
so far. -/
def parseDecimal : Nat → List Char → Option Nat
  | acc, [] => some acc
  | acc, c :: cs =>
    match decVal c with
    | some d => parseDecimal (acc * 10 + d) cs
    | none => none

/-- Go `strconv.Atoi` on a 64-bit platform: an optional sign, one or more
decimal digits, and a value in the range of `int`; `none` is its error. -/
def Atoi (s : String) : Option Int :=
  let signed : Bool × List Char :=
    match s.data with
    | [] => (false, [])
    | c :: cs =>
      if c.toNat = 43 then (false, cs)
      else if c.toNat = 45 then (true, cs)
      else (false, c :: cs)
  match signed.2 with
  | [] => none
  | ds =>
    match parseDecimal 0 ds with
    | none => none
    | some n =>
      let v : Int := if signed.1 then -(n : Int) else n
      if -(2 ^ 63) ≤ v ∧ v ≤ 2 ^ 63 - 1 then some v else none

/-- `extractNonceDifficulty`. -/
def extractNonceDifficulty : List (List String) → Int
  | [] => 0
  | tag :: rest =>
    match tag with
    | name :: _ :: target :: _ =>
      if name ≠ "nonce" then extractNonceDifficulty rest
      else
        match Atoi target with
        | some bits => if bits > 0 then bits else extractNonceDifficulty rest
        | none => extractNonceDifficulty rest
    | _ => extractNonceDifficulty rest

/-- The value of a hex digit, as `strconv.ParseUint(_, 16, 8)` reads it. -/
def hexVal (c : Char) : Option Nat :=
  let n := c.toNat
  if 48 ≤ n ∧ n ≤ 57 then some (n - 48)
  else if 97 ≤ n ∧ n ≤ 102 then some (n - 87)
  else if 65 ≤ n ∧ n ≤ 70 then some (n - 55)
  else none

/-- The first loop of `leadingZeroBits`: the bytes two hex digits at a time.
The loop stops at the first pair of bytes that are not two hex digits, with the
error of `strconv.ParseUint` on that pair; up to there every character is one
byte, so the pair is the first two bytes of what is left. -/
def parseHexPairs : List Char → Except PowIDError (List Nat)
  | [] => .ok []
  | [a] => .error (.parseUintSyntax ((goBytes ⟨[a]⟩).take 2))
  | a :: b :: rest =>
    match hexVal a, hexVal b with
    | some x, some y =>
      match parseHexPairs rest with
      | .ok r => .ok ((16 * x + y) :: r)
      | .error e => .error e
    | _, _ => .error (.parseUintSyntax ((goBytes ⟨[a, b]⟩).take 2))

/-- The inner loop of `leadingZeroBits` on a non-zero byte: the number of
zero bits above its highest set bit, `i + 1` bits still to look at. -/
def leadingZerosFrom (b : Nat) : Nat → Nat
  | 0 => if (b >>> 0) &&& 1 = 0 then 1 else 0
  | i + 1 => if (b >>> (i + 1)) &&& 1 = 0 then 1 + leadingZerosFrom b i else 0

/-- The second loop of `leadingZeroBits`. -/
def countLeadingZeroBits : List Nat → Nat
  | [] => 0
  | b :: rest =>
    if b = 0 then 8 + countLeadingZeroBits rest
    else leadingZerosFrom b 7

/-- `leadingZeroBits`. -/
def leadingZeroBits (hexID : String) : Except PowIDError Int :=
  let hexID := TrimSpace hexID
  if hexID.utf8ByteSize % 2 ≠ 0 then .error .oddHexLength
  else
    match parseHexPairs hexID.data with
    | .error e => .error e
    | .ok bytes => .ok (countLeadingZeroBits bytes)

/-- `AbuseControls.ValidatePow`. -/
def ValidatePow (event : Event) (requiredBits : Int) : Except Err Unit :=
  if requiredBits ≤ 0 then .ok ()
  else
    match leadingZeroBits event.ID with
    | .error cause => .error (.invalidPowID cause)
    | .ok powBits =>
      if powBits < requiredBits then .error (.insufficientPow powBits requiredBits)
      else
        let tagDifficulty := extractNonceDifficulty event.Tags
        if tagDifficulty > 0 ∧ tagDifficulty < requiredBits then .error .powNonceBelowTarget
        else .ok ()

/-! ## Group store (`models/*.go`, `storage/group_repo.go`) -/

/-- The `models.Group` struct: one row of `groups`. -/
structure Group where
  GroupID : String
  Name : String
  About : String
  Picture : String
  Geohash : String
  IsPrivate : Bool
  IsRestricted : Bool
  IsVetted : Bool
  IsHidden : Bool
  IsClosed : Bool
  CreatedAt : Int
  CreatedBy : String
  UpdatedAt : Int
  UpdatedBy : String
deriving DecidableEq, Repr

/-- The `models.GroupRole` struct: one row of `group_roles`. -/
structure GroupRole where
  GroupID : String
  RoleName : String
  Description : String
  Permissions : List String
  CreatedAt : Int
  CreatedBy : String
  UpdatedAt : Int
  UpdatedBy : String
deriving DecidableEq, Repr

/-- The `models.GroupMember` struct: one row of `group_members`. -/
structure GroupMember where
  GroupID : String
  PubKey : String
  AddedAt : Int
  AddedBy : String
  RoleName : String
  PromotedAt : Int
  PromotedBy : String
deriving DecidableEq, Repr

/-- The `models.GroupBan` struct: one row of `group_bans`. -/
structure GroupBan where
  GroupID : String
  PubKey : String
  Reason : String
  BannedAt : Int
  BannedBy : String
  ExpiresAt : Int
deriving DecidableEq, Repr

/-- The `models.GroupInvite` struct: one row of `group_invites`. -/
structure GroupInvite where
  GroupID : String
  Code : String
  ExpiresAt : Int
  MaxUsageCount : Int
  UsageCount : Int
  CreatedAt : Int
  CreatedBy : String
deriving DecidableEq, Repr

/-- The `models.GroupJoinRequest` struct: one row of `group_join_requests`. -/
structure GroupJoinRequest where
  GroupID : String
  PubKey : String
  CreatedAt : Int
deriving DecidableEq, Repr

/-- The `models.GroupEvent` struct: one row of `group_events`. -/
structure GroupEvent where
  GroupID : String
  EventID : String
  CreatedAt : Int
deriving DecidableEq, Repr

/-- Modelled from the spec: the schema of the group tables, whose migration
files are not part of the sources.  The unique keys are the conflict targets
of the upserts: `groups (group_id)`, `group_roles (group_id, role_name)`,
`group_members (group_id, pubkey)`, `group_bans (group_id, pubkey)`,
`group_invites (group_id, code)`, `group_join_requests (group_id, pubkey)`
and `group_events (group_id, event_id)`. -/
structure GroupStore where
  groups : List Group
  roles : List GroupRole
  members : List GroupMember
  bans : List GroupBan
  invites : List GroupInvite
  joinRequests : List GroupJoinRequest
  groupEvents : List GroupEvent
deriving DecidableEq, Repr

/-- The empty group store. -/
def GroupStore.empty : GroupStore := ⟨[], [], [], [], [], [], []⟩

/-- SQL `INSERT ... ON CONFLICT (key) DO UPDATE SET ... WHERE ...`: the row
with the key of `new` is replaced by `update old new` (which is `old` when
the `WHERE` clause fails), and `new` is inserted when there is none. -/
def upsertRow {α : Type} (sameKey : α → α → Bool) (update : α → α → α)
    (rows : List α) (new : α) : List α :=
  if rows.any (sameKey new) then
    rows.map (fun old => if sameKey new old then update old new else old)
  else rows ++ [new]

/-- Go `len(s)`: the length of a string in bytes. -/
def goLen (s : String) : Nat := s.utf8ByteSize

/-- The `DO UPDATE` of `UpsertGroup`. -/
def updateGroup (old new : Group) : Group :=
  if new.UpdatedAt ≥ old.UpdatedAt then
    { old with
      Name := new.Name, About := new.About, Picture := new.Picture, Geohash := new.Geohash,
      IsPrivate := new.IsPrivate, IsRestricted := new.IsRestricted, IsVetted := new.IsVetted,
      IsHidden := new.IsHidden, IsClosed := new.IsClosed,
      UpdatedAt := new.UpdatedAt, UpdatedBy := new.UpdatedBy }
  else old

/-- `GroupRepo.UpsertGroup`. -/
def UpsertGroup (gs : GroupStore) (group : Group) : Except Err GroupStore :=
  if group.Geohash ≠ "" ∧ goLen group.Geohash > 6 then .error .geohashPrecision
  else
    .ok { gs with groups :=
            upsertRow (fun a b => a.GroupID = b.GroupID) updateGroup gs.groups group }

/-- `GroupRepo.CloseGroup`. -/
def CloseGroup (gs : GroupStore) (groupID : String) (updatedAt : Int) (updatedBy : String) :
    GroupStore :=
  { gs with groups := gs.groups.map (fun g =>
      if g.GroupID = groupID then
        { g with IsHidden := true, IsClosed := true, UpdatedAt := updatedAt,
                 UpdatedBy := updatedBy }
      else g) }

/-- The `DO UPDATE` of `UpsertRole`. -/
def updateRole (old new : GroupRole) : GroupRole :=
  if new.UpdatedAt ≥ old.UpdatedAt then
    { old with Description := new.Description, Permissions := new.Permissions,
               UpdatedAt := new.UpdatedAt, UpdatedBy := new.UpdatedBy }
  else old

/-- `GroupRepo.UpsertRole`. -/
def UpsertRole (gs : GroupStore) (role : GroupRole) : GroupStore :=
  let rows := upsertRow (fun a b => a.GroupID = b.GroupID ∧ a.RoleName = b.RoleName)
    updateRole gs.roles role
  { gs with roles := rows }

/-- `GroupRepo.DeleteRole`. -/
def DeleteRole (gs : GroupStore) (groupID roleName : String) : GroupStore :=
  { gs with roles := gs.roles.filter (fun r => ¬ (r.GroupID = groupID ∧ r.RoleName = roleName)) }

/-- The `DO UPDATE` of `UpsertMember`. -/
def updateMember (old new : GroupMember) : GroupMember :=
  if new.AddedAt ≥ old.AddedAt then
    { old with RoleName := new.RoleName, PromotedAt := new.PromotedAt,
               PromotedBy := new.PromotedBy, AddedAt := new.AddedAt, AddedBy := new.AddedBy }
  else old

/-- `GroupRepo.UpsertMember`. -/
def UpsertMember (gs : GroupStore) (member : GroupMember) : GroupStore :=
  let rows := upsertRow (fun a b => a.GroupID = b.GroupID ∧ a.PubKey = b.PubKey)
    updateMember gs.members member
  { gs with members := rows }

/-- `GroupRepo.RemoveMember`. -/
def RemoveMember (gs : GroupStore) (groupID pubKey : String) : GroupStore :=
  { gs with members :=
      gs.members.filter (fun m => ¬ (m.GroupID = groupID ∧ m.PubKey = pubKey)) }

/-- The `DO UPDATE` of `UpsertBan`. -/
def updateBan (old new : GroupBan) : GroupBan :=
  if new.BannedAt ≥ old.BannedAt then
    { old with Reason := new.Reason, BannedAt := new.BannedAt, BannedBy := new.BannedBy,
               ExpiresAt := new.ExpiresAt }
  else old

/-- `GroupRepo.UpsertBan`. -/
def UpsertBan (gs : GroupStore) (ban : GroupBan) : GroupStore :=
  let rows := upsertRow (fun a b => a.GroupID = b.GroupID ∧ a.PubKey = b.PubKey)
    updateBan gs.bans ban
  { gs with bans := rows }

/-- The `DO UPDATE` of `UpsertInvite`. -/
def updateInvite (old new : GroupInvite) : GroupInvite :=
  if new.CreatedAt ≥ old.CreatedAt then
    { old with ExpiresAt := new.ExpiresAt, MaxUsageCount := new.MaxUsageCount,
               UsageCount := new.UsageCount }
  else old

/-- `GroupRepo.UpsertInvite`. -/
def UpsertInvite (gs : GroupStore) (invite : GroupInvite) : GroupStore :=
  let rows := upsertRow (fun a b => a.GroupID = b.GroupID ∧ a.Code = b.Code)
    updateInvite gs.invites invite
  { gs with invites := rows }

/-- The `DO UPDATE` of `UpsertJoinRequest`. -/
def updateJoinRequest (old new : GroupJoinRequest) : GroupJoinRequest :=
  { old with CreatedAt := max old.CreatedAt new.CreatedAt }

/-- `GroupRepo.UpsertJoinRequest`. -/
def UpsertJoinRequest (gs : GroupStore) (req : GroupJoinRequest) : GroupStore :=
  let rows := upsertRow (fun a b => a.GroupID = b.GroupID ∧ a.PubKey = b.PubKey)
    updateJoinRequest gs.joinRequests req
  { gs with joinRequests := rows }

/-- `GroupRepo.DeleteJoinRequest`. -/
def DeleteJoinRequest (gs : GroupStore) (groupID pubKey : String) : GroupStore :=
  { gs with joinRequests :=
      gs.joinRequests.filter (fun r => ¬ (r.GroupID = groupID ∧ r.PubKey = pubKey)) }

/-- The `DO UPDATE` of `AddGroupEvent`. -/
def updateGroupEvent (old new : GroupEvent) : GroupEvent :=
  { old with CreatedAt := max old.CreatedAt new.CreatedAt }

/-- `GroupRepo.AddGroupEvent`. -/
def AddGroupEvent (gs : GroupStore) (ge : GroupEvent) : GroupStore :=
  let rows := upsertRow (fun a b => a.GroupID = b.GroupID ∧ a.EventID = b.EventID)
    updateGroupEvent gs.groupEvents ge
  { gs with groupEvents := rows }

/-- `GroupRepo.RemoveGroupEventByEventID`. -/
def RemoveGroupEventByEventID (gs : GroupStore) (eventID : String) : GroupStore :=
  { gs with groupEvents := gs.groupEvents.filter (fun ge => ge.EventID ≠ eventID) }

/-- `GroupRepo.GetGroup`; `none` is `pgx.ErrNoRows`. -/
def GetGroup (gs : GroupStore) (groupID : String) : Option Group :=
  gs.groups.find? (fun g => g.GroupID = groupID)

/-- The member row of `(groupID, pubKey)`. -/
def findMember (gs : GroupStore) (groupID pubKey : String) : Option GroupMember :=
  gs.members.find? (fun m => m.GroupID = groupID ∧ m.PubKey = pubKey)

/-- `GroupRepo.IsMember`. -/
def IsMember (gs : GroupStore) (groupID pubKey : String) : Bool :=
  (findMember gs groupID pubKey).isSome

/-- `GroupRepo.GetMemberRole`: the role name and whether the row exists. -/
def GetMemberRole (gs : GroupStore) (groupID pubKey : String) : String × Bool :=
  match findMember gs groupID pubKey with
  | some m => (m.RoleName, true)
  | none => ("", false)

/-- Insertion into a list ordered by `le`, after the elements that are not
larger (rows that compare equal keep their table order). -/
def insertBy {α : Type} (le : α → α → Bool) (x : α) : List α → List α
  | [] => [x]
  | y :: ys => if le y x then y :: insertBy le x ys else x :: y :: ys

/-- SQL `ORDER BY`, as a stable sort. -/
def orderBy {α : Type} (le : α → α → Bool) (rows : List α) : List α :=
  rows.foldl (fun acc x => insertBy le x acc) []

/-- `GroupRepo.ListMembers`: the group's members, `ORDER BY added_at ASC`. -/
def ListMembers (gs : GroupStore) (groupID : String) : List GroupMember :=
  orderBy (fun a b => decide (a.AddedAt ≤ b.AddedAt))
    (gs.members.filter (fun m => m.GroupID = groupID))

/-- `GroupRepo.ListRoles`: the group's roles, `ORDER BY role_name ASC` (names
compared by code point). -/
def ListRoles (gs : GroupStore) (groupID : String) : List GroupRole :=
  orderBy (fun a b => !ltChars b.RoleName.data a.RoleName.data)
    (gs.roles.filter (fun r => r.GroupID = groupID))

/-- `GroupRepo.HasPermission`. -/
def HasPermission (gs : GroupStore) (groupID pubKey permission : String) : Bool :=
  match GetGroup gs groupID with
  | none => false
  | some g =>
    let member := findMember gs groupID pubKey
    let roleName : String :=
      match member with
      | some m => m.RoleName
      | none => ""
    let permissions : List String :=
      match member with
      | some m =>
        match gs.roles.find? (fun r => r.GroupID = groupID ∧ r.RoleName = m.RoleName) with
        | some r => r.Permissions
        | none => []
      | none => []
    if g.CreatedBy = pubKey then true
    else roleHasPermission roleName permissions permission

/-- `GroupRepo.IsBanned` at the reading `now` of `time.Now().Unix()`. -/
def IsBanned (gs : GroupStore) (now : Int) (groupID pubKey : String) : Bool :=
  match gs.bans.find? (fun b => b.GroupID = groupID ∧ b.PubKey = pubKey) with
  | none => false
  | some b => if b.ExpiresAt = 0 then true else decide (b.ExpiresAt ≥ now)

/-- `GroupVettingService.JoinRequiresApproval`. -/
def JoinRequiresApproval (gs : GroupStore) (groupID : String) : Bool :=
  match GetGroup gs groupID with
  | none => true
  | some g => g.IsVetted

/-- `GroupVettingService.CanAutoApprove`. -/
def CanAutoApprove (gs : GroupStore) (now : Int) (groupID pubKey : String) : Bool :=
  if JoinRequiresApproval gs groupID then false
  else !IsBanned gs now groupID pubKey

/-! ## Projection helpers (`services/group_projection.go`) -/

/-- `firstTagValue`. -/
def firstTagValue : List (List String) → String → String
  | [], _ => ""
  | tag :: rest, tagName =>
    match tag with
    | name :: value :: _ => if name = tagName then value else firstTagValue rest tagName
    | _ => firstTagValue rest tagName

/-- `hasTag`. -/
def hasTag : List (List String) → String → Bool
  | [], _ => false
  | tag :: rest, tagName =>
    match tag with
    | name :: _ => if name = tagName then true else hasTag rest tagName
    | [] => hasTag rest tagName

/-- `parsePutUserTag`: the member key and the role of the first usable `p` tag. -/
def parsePutUserTag : List (List String) → Except Err (String × String)
  | [] => .error .putUserMissingP
  | tag :: rest =>
    match tag with
    | name :: value :: more =>
      if name ≠ "p" then parsePutUserTag rest
      else
        let pubKey := TrimSpace value
        if pubKey = "" then .error .putUserMissingP
        else
          let role : String :=
            match more with
            | r :: _ => TrimSpace r
            | [] => ""
          .ok (pubKey, role)
    | _ => parsePutUserTag rest

/-- `joinRequestPubKey`. -/
def joinRequestPubKey (event : Event) : Except Err String :=
  let requestKey := TrimSpace (firstTagValue event.Tags "p")
  if requestKey = "" then .ok (TrimSpace event.PubKey)
  else if !EqualFold requestKey (TrimSpace event.PubKey) then .error .joinRequestPMismatch
  else .ok requestKey

/-- `parseBoolTag`. -/
def parseBoolTag (raw : String) : Bool :=
  let normalized := TrimSpace (ToLower raw)
  normalized = "1" || normalized = "true" || normalized = "yes" || normalized = "on"

/-- `tagBoolValue`: the value and whether the tag is present. -/
def tagBoolValue : List (List String) → String → Bool × Bool
  | [], _ => (false, false)
  | tag :: rest, tagName =>
    match tag with
    | [] => tagBoolValue rest tagName
    | name :: vals =>
      if name ≠ tagName then tagBoolValue rest tagName
      else
        match vals with
        | [] => (true, true)
        | value :: _ =>
          let raw := TrimSpace value
          if raw = "" then (true, true) else (parseBoolTag raw, true)

/-- `parseInt64Tag`; `strconv.ParseInt(raw, 10, 64)` reads what `Atoi` reads. -/
def parseInt64Tag (raw : String) : Int :=
  if raw = "" then 0
  else
    match Atoi raw with
    | some v => v
    | none => 0

/-- Go `strings.Split(s, ",")` on the characters of `s`. -/
def splitComma : List Char → List (List Char)
  | [] => [[]]
  | c :: cs =>
    if c.toNat = 44 then [] :: splitComma cs
    else
      match splitComma cs with
      | [] => [[c]]
      | h :: t => (c :: h) :: t

/-- `parseCSVTag`. -/
def parseCSVTag (raw : String) : List String :=
  let raw := TrimSpace raw
  if raw = "" then []
  else
    ((splitComma raw.data).map (fun p => TrimSpace ⟨p⟩)).filter (fun p => p ≠ "")

/-- `truncateGeohash`, on the bytes of the Go string: `gh[:6]` keeps six
bytes, whether or not the sixth byte ends a character. -/
def truncateGeohash (gh : List UInt8) : List UInt8 :=
  if gh.length ≤ 6 then gh else gh.take 6

/-- The longest prefix of whole characters that fits in `n` bytes. -/
def takeBytes : Nat → List Char → List Char
  | _, [] => []
  | n, c :: cs => if c.utf8Size ≤ n then c :: takeBytes (n - c.utf8Size) cs else []

/-- The characters of the bytes `truncateGeohash` keeps: the geohash of at
most six bytes, and else its characters that lie within the first six bytes.
These are the bytes of `truncateGeohash` whenever the sixth byte ends a
character (`truncateGeohashText_bytes`); where it does not, the six bytes of
the source end in a part of a character and are not the UTF-8 text of any
string of code points, and this string is the text before that part. -/
def truncateGeohashText (gh : String) : String :=
  if goLen gh ≤ 6 then gh else ⟨takeBytes 6 gh.data⟩

/-- `defaultString`. -/
def defaultString (value fallback : String) : String :=
  if TrimSpace value = "" then fallback else value

/-- `ownerRolePermissions`. -/
def ownerRolePermissions : List String :=
  [PermissionAddUser, PermissionPromoteUser, PermissionRemoveUser,
   PermissionEditMetadata, PermissionCreateRole, PermissionDeleteRole,
   PermissionDeleteEvent, PermissionCreateGroup, PermissionDeleteGroup,
   PermissionCreateInvite]

/-- `relayOnlyKind` (`services/event_ingest.go`). -/
def relayOnlyKind (kind : Int) : Bool :=
  kind = 39000 || kind = 39001 || kind = 39002 || kind = 39003

/-- The closure `appendUnique` of `canonicalStateKindsForSource`. -/
def appendUnique (kinds : List Int) (eventKind : Int) : List Int :=
  if eventKind ∈ kinds then kinds else kinds ++ [eventKind]

/-- `canonicalStateKindsForSource`. -/
def canonicalStateKindsForSource (kind : Int) (membershipChanged adminsChanged : Bool) :
    List Int :=
  let kinds : List Int :=
    if kind = 9007 then
      appendUnique (appendUnique (appendUnique (appendUnique [] 39000) 39002) 39003) 39001
    else if kind = 9002 ∨ kind = 9008 then appendUnique [] 39000
    else if kind = 9003 ∨ kind = 9004 then appendUnique [] 39003
    else if kind = 9000 ∨ kind = 9001 ∨ kind = 9022 then
      if membershipChanged then appendUnique [] 39002 else []
    else if kind = 9021 then
      if membershipChanged then appendUnique [] 39002 else []
    else []
  if kind = 9000 ∧ adminsChanged then appendUnique kinds 39001 else kinds

/-- `normalizeRoleName`. -/
def normalizeRoleName (roleName : String) : String :=
  TrimSpace (ToLower roleName)

/-- `roleGrantsAdmin`. -/
def roleGrantsAdmin (roleName : String) (permissions : List String) : Bool :=
  let roleName := normalizeRoleName roleName
  if roleName = "" then false
  else if roleName = "owner" ∨ roleName = "admin" then true
  else permissions.any (fun permission => normalizePermission permission = PermissionAdmin)

/-- `adminAssignmentChanged`; a role missing from the map has no permissions. -/
def adminAssignmentChanged (previousRole requestedRole : String)
    (rolePermissionsByRole : List (String × List String)) : Bool :=
  let previousRole := normalizeRoleName previousRole
  let requestedRole := normalizeRoleName requestedRole
  if previousRole = requestedRole then false
  else
    let previousWasAdmin :=
      roleGrantsAdmin previousRole ((mapGet rolePermissionsByRole previousRole).getD [])
    let requestedIsAdmin :=
      roleGrantsAdmin requestedRole ((mapGet rolePermissionsByRole requestedRole).getD [])
    if previousWasAdmin ≠ requestedIsAdmin then true
    else previousWasAdmin && requestedIsAdmin

/-- `GroupProjectionService.rolePermissionsByName`. -/
def rolePermissionsByName (gs : GroupStore) (groupID : String) : List (String × List String) :=
  (ListRoles gs groupID).foldl
    (fun out role => mapPut out (normalizeRoleName role.RoleName) role.Permissions) []

/-- `groupMetadataStateTags`. -/
def groupMetadataStateTags (group : Group) : List (List String) :=
  [["d", group.GroupID]]
    ++ (if group.Name ≠ "" then [["name", group.Name]] else [])
    ++ (if group.Picture ≠ "" then [["picture", group.Picture]] else [])
    ++ (if group.About ≠ "" then [["about", group.About]] else [])
    ++ (if group.Geohash ≠ "" then [["g", truncateGeohashText group.Geohash]] else [])
    ++ (if group.IsPrivate then [["private"]] else [])
    ++ (if group.IsRestricted then [["restricted"]] else [])
    ++ (if group.IsVetted then [["vetted"]] else [])
    ++ (if group.IsHidden then [["hidden"]] else [])
    ++ (if group.IsClosed then [["closed"]] else [])

/-- `groupMembersStateTags`. -/
def groupMembersStateTags (groupID : String) (members : List GroupMember) :
    List (List String) :=
  [["d", groupID]] ++ members.map (fun member => ["p", member.PubKey])

/-- `groupRolesStateTags`. -/
def groupRolesStateTags (groupID : String) (roles : List GroupRole) : List (List String) :=
  [["d", groupID]] ++ roles.map (fun role =>
    if role.Description ≠ "" then ["role", role.RoleName, role.Description]
    else ["role", role.RoleName])

/-- The tag list `emitAdminsStateEvent` builds for kind 39001 from the group
it loaded, the members it listed and the role permissions by role name. -/
def groupAdminsStateTags (groupID : String) (group : Group) (members : List GroupMember)
    (rolePermissionsByRole : List (String × List String)) : List (List String) :=
  let adminRolesByPubKey : List (String × String) :=
    members.foldl (fun m member =>
      let roleName := defaultString member.RoleName "member"
      let normalizedRole := normalizeRoleName roleName
      if roleGrantsAdmin normalizedRole ((mapGet rolePermissionsByRole normalizedRole).getD [])
      then mapPut m member.PubKey roleName else m) []
  let adminRolesByPubKey :=
    if group.CreatedBy ≠ "" then
      match mapGet adminRolesByPubKey group.CreatedBy with
      | some _ => adminRolesByPubKey
      | none => mapPut adminRolesByPubKey group.CreatedBy "owner"
    else adminRolesByPubKey
  let pubKeys := orderBy (fun a b => !ltChars b.data a.data)
    (adminRolesByPubKey.map (fun kv => kv.1))
  [["d", groupID]] ++ pubKeys.map (fun pubKey =>
    ["p", pubKey, defaultString ((mapGet adminRolesByPubKey pubKey).getD "") "owner"])

/-- The closed vocabulary of permissions (`models/group_permission.go`). -/
def permissionVocabulary : List String :=
  [PermissionAdmin, PermissionAddUser, PermissionPromoteUser, PermissionRemoveUser,
   PermissionEditMetadata, PermissionCreateRole, PermissionDeleteRole,
   PermissionDeleteEvent, PermissionCreateGroup, PermissionDeleteGroup,
   PermissionCreateInvite]

/-- Two group stores with the same rows in every table but `group_events`. -/
def sameGroupTables (a b : GroupStore) : Prop :=
  a.groups = b.groups ∧ a.roles = b.roles ∧ a.members = b.members ∧ a.bans = b.bans ∧
  a.invites = b.invites ∧ a.joinRequests = b.joinRequests

/-! ## The relay state and the projection (`services/group_projection.go`) -/

/-- Everything the services read and write: the two stores, the metrics
counters (`lib.Metrics`) and the rate limiter's buckets. -/
structure RelayState where
  events : EventStore
  groups : GroupStore
  metrics : List (String × Nat)
  abuse : AbuseControls
deriving DecidableEq

/-- `Metrics.Inc`. -/
def RelayState.Inc (st : RelayState) (name : String) : RelayState :=
  { st with metrics := mapPut st.metrics name ((mapGet st.metrics name).getD 0 + 1) }

/-- The readings of the clock one call takes: `time.Now().Unix()` in
`ValidateEvent` (seconds), `time.Now()` for `Allow` (nanoseconds) and
`time.Now().Unix()` in `IsBanned` (seconds). -/
structure Clock where
  validate : Int
  allow : Int
  ban : Int
deriving DecidableEq, Repr

/-- The fields of `GroupProjectionService` that are not state: whether an
events repository is attached, and the relay's keys. -/
structure ProjectionConfig where
  hasEventsRepo : Bool
  relayPubKey : String
  relayPrivKey : String
deriving DecidableEq, Repr

/-- `GroupProjectionService.requirePermission`. -/
def requirePermission (gs : GroupStore) (groupID pubKey permission : String) :
    Except Err Unit :=
  if !HasPermission gs groupID pubKey permission then .error (.notAuthorized permission)
  else .ok ()

/-- `EventsRepo.GetEvent`; `none` is `pgx.ErrNoRows`. -/
def GetEvent (db : EventStore) (eventID : String) : Option Event :=
  db.events.find? (fun e => e.ID = eventID)

/-- `EventsRepo.MarkDeleted`. -/
def MarkDeleted (db : EventStore) (deleted : DeletedEvent) : EventStore :=
  let rows := upsertRow (fun a b => a.EventID = b.EventID) (fun _ new => new)
    db.deleted deleted
  { db with deleted := rows }

/-- `GroupProjectionService.upsertCanonicalStateEvent`.  The source calls the
events repository without a nil check; the embedding is of the calls made
with a repository attached (`syncCanonicalStateEvents` checks for it before
it emits). -/
def upsertCanonicalStateEvent (lib : Crypto) (cfg : ProjectionConfig) (st : RelayState)
    (kind : Int) (groupID : String) (createdAt : Int) (tags : List (List String)) :
    Except Err Unit × RelayState :=
  let nostrEvent : Event :=
    { ID := "", PubKey := "", CreatedAt := createdAt, Kind := kind, Tags := tags,
      Content := "", Sig := "" }
  match lib.signEvent nostrEvent cfg.relayPrivKey with
  | .error cause => (.error (.signCanonical kind cause), st)
  | .ok nostrEvent =>
    if !EqualFold nostrEvent.PubKey cfg.relayPubKey then (.error .signedPubKeyMismatch, st)
    else
      let event : Event :=
        { ID := nostrEvent.ID, PubKey := ToLower nostrEvent.PubKey, CreatedAt := createdAt,
          Kind := kind, Tags := tags, Content := "", Sig := nostrEvent.Sig }
      match UpsertParameterizedReplaceableEvent st.events event groupID with
      | .error e => (.error (.storage e), st)
      | .ok db =>
        let gs := AddGroupEvent st.groups ⟨groupID, event.ID, createdAt⟩
        (.ok (), { st with events := db, groups := gs })

/-- `emitGroupMetadataStateEvent`. -/
def emitGroupMetadataStateEvent (lib : Crypto) (cfg : ProjectionConfig) (st : RelayState)
    (groupID : String) (createdAt : Int) : Except Err Unit × RelayState :=
  match GetGroup st.groups groupID with
  | none => (.error (.storage .noRows), st)
  | some group =>
    upsertCanonicalStateEvent lib cfg st 39000 groupID createdAt (groupMetadataStateTags group)

/-- `emitMembersStateEvent`. -/
def emitMembersStateEvent (lib : Crypto) (cfg : ProjectionConfig) (st : RelayState)
    (groupID : String) (createdAt : Int) : Except Err Unit × RelayState :=
  upsertCanonicalStateEvent lib cfg st 39002 groupID createdAt
    (groupMembersStateTags groupID (ListMembers st.groups groupID))

/-- `emitAdminsStateEvent`. -/
def emitAdminsStateEvent (lib : Crypto) (cfg : ProjectionConfig) (st : RelayState)
    (groupID : String) (createdAt : Int) : Except Err Unit × RelayState :=
  match GetGroup st.groups groupID with
  | none => (.error (.storage .noRows), st)
  | some group =>
    upsertCanonicalStateEvent lib cfg st 39001 groupID createdAt
      (groupAdminsStateTags groupID group (ListMembers st.groups groupID)
        (rolePermissionsByName st.groups groupID))

/-- `emitRolesStateEvent`. -/
def emitRolesStateEvent (lib : Crypto) (cfg : ProjectionConfig) (st : RelayState)
    (groupID : String) (createdAt : Int) : Except Err Unit × RelayState :=
  upsertCanonicalStateEvent lib cfg st 39003 groupID createdAt
    (groupRolesStateTags groupID (ListRoles st.groups groupID))

/-- The loop of `syncCanonicalStateEvents` over the kinds to emit. -/
def emitKinds (lib : Crypto) (cfg : ProjectionConfig) (groupID : String) (createdAt : Int) :
    RelayState → List Int → Except Err Unit × RelayState
  | st, [] => (.ok (), st)
  | st, kind :: rest =>
    let r : Except Err Unit × RelayState :=
      if kind = 39000 then emitGroupMetadataStateEvent lib cfg st groupID createdAt
      else if kind = 39001 then emitAdminsStateEvent lib cfg st groupID createdAt
      else if kind = 39002 then emitMembersStateEvent lib cfg st groupID createdAt
      else if kind = 39003 then emitRolesStateEvent lib cfg st groupID createdAt
      else (.ok (), st)
    match r.1 with
    | .error e => (.error e, r.2)
    | .ok _ => emitKinds lib cfg groupID createdAt r.2 rest

/-- `syncCanonicalStateEvents`. -/
def syncCanonicalStateEvents (lib : Crypto) (cfg : ProjectionConfig) (st : RelayState)
    (source : Event) (groupID : String) (membershipChanged adminsChanged : Bool) :
    Except Err Unit × RelayState :=
  if !cfg.hasEventsRepo || TrimSpace cfg.relayPubKey = "" || TrimSpace cfg.relayPrivKey = ""
  then (.ok (), st)
  else
    emitKinds lib cfg groupID source.CreatedAt st
      (canonicalStateKindsForSource source.Kind membershipChanged adminsChanged)

/-- The `models.Group` the kind 9007 handler builds from the event. -/
def createdGroup (event : Event) (groupID : String) : Group :=
  { GroupID := groupID
    Name := firstTagValue event.Tags "name"
    About := firstTagValue event.Tags "about"
    Picture := firstTagValue event.Tags "picture"
    Geohash := truncateGeohashText (firstTagValue event.Tags "g")
    IsPrivate := (tagBoolValue event.Tags "private").1
    IsRestricted := (tagBoolValue event.Tags "restricted").1
    IsVetted := (tagBoolValue event.Tags "vetted").1
    IsHidden := (tagBoolValue event.Tags "hidden").1
    IsClosed := (tagBoolValue event.Tags "closed").1
    CreatedAt := event.CreatedAt
    CreatedBy := event.PubKey
    UpdatedAt := event.CreatedAt
    UpdatedBy := event.PubKey }

/-- The `owner` role the kind 9007 handler upserts. -/
def ownerRole (event : Event) (groupID : String) : GroupRole :=
  { GroupID := groupID, RoleName := "owner", Description := "Group owner",
    Permissions := ownerRolePermissions, CreatedAt := event.CreatedAt,
    CreatedBy := event.PubKey, UpdatedAt := event.CreatedAt, UpdatedBy := event.PubKey }

/-- The member row the kind 9007 handler upserts for the author. -/
def ownerMember (event : Event) (groupID : String) : GroupMember :=
  { GroupID := groupID, PubKey := event.PubKey, AddedAt := event.CreatedAt,
    AddedBy := event.PubKey, RoleName := "owner", PromotedAt := 0, PromotedBy := "" }

/-- The handler of kind 9007 (create group). -/
def applyCreateGroup (st : RelayState) (event : Event) (groupID : String) :
    Except Err (Bool × Bool) × RelayState :=
  match UpsertGroup st.groups (createdGroup event groupID) with
  | .error e => (.error e, st)
  | .ok gs =>
    let gs := UpsertRole gs (ownerRole event groupID)
    let gs := UpsertMember gs (ownerMember event groupID)
    (.ok (true, true), { st with groups := gs })

/-- The field updates of the kind 9002 handler on the group it edits, field
by field: a string field is replaced by a non-empty tag value, a flag by a
tag that is present, `updated_*` by the event, and `created_*` by the event
when `created_at` is zero. -/
def editedGroup (existing : Group) (event : Event) : Group :=
  { GroupID := existing.GroupID
    Name :=
      if firstTagValue event.Tags "name" ≠ "" then firstTagValue event.Tags "name"
      else existing.Name
    About :=
      if firstTagValue event.Tags "about" ≠ "" then firstTagValue event.Tags "about"
      else existing.About
    Picture :=
      if firstTagValue event.Tags "picture" ≠ "" then firstTagValue event.Tags "picture"
      else existing.Picture
    Geohash :=
      if firstTagValue event.Tags "g" ≠ "" then truncateGeohashText (firstTagValue event.Tags "g")
      else existing.Geohash
    IsPrivate :=
      if (tagBoolValue event.Tags "private").2 then (tagBoolValue event.Tags "private").1
      else existing.IsPrivate
    IsRestricted :=
      if (tagBoolValue event.Tags "restricted").2 then (tagBoolValue event.Tags "restricted").1
      else existing.IsRestricted
    IsVetted :=
      if (tagBoolValue event.Tags "vetted").2 then (tagBoolValue event.Tags "vetted").1
      else existing.IsVetted
    IsHidden :=
      if (tagBoolValue event.Tags "hidden").2 then (tagBoolValue event.Tags "hidden").1
      else existing.IsHidden
    IsClosed :=
      if (tagBoolValue event.Tags "closed").2 then (tagBoolValue event.Tags "closed").1
      else existing.IsClosed
    CreatedAt := if existing.CreatedAt = 0 then event.CreatedAt else existing.CreatedAt
    CreatedBy := if existing.CreatedAt = 0 then event.PubKey else existing.CreatedBy
    UpdatedAt := event.CreatedAt
    UpdatedBy := event.PubKey }

/-- The zero `models.Group` with the three fields the kind 9002 handler sets
when the group does not exist. -/
def newGroupFor (event : Event) (groupID : String) : Group :=
  { GroupID := groupID, Name := "", About := "", Picture := "", Geohash := "",
    IsPrivate := false, IsRestricted := false, IsVetted := false, IsHidden := false,
    IsClosed := false, CreatedAt := event.CreatedAt, CreatedBy := event.PubKey,
    UpdatedAt := 0, UpdatedBy := "" }

/-- The handler of kind 9002 (edit metadata). -/
def applyEditMetadata (st : RelayState) (event : Event) (groupID : String) :
    Except Err (Bool × Bool) × RelayState :=
  let checked : Except Err Group :=
    match GetGroup st.groups groupID with
    | some existing =>
      match requirePermission st.groups groupID event.PubKey PermissionEditMetadata with
      | .error e => .error e
      | .ok _ => .ok existing
    | none => .ok (newGroupFor event groupID)
  match checked with
  | .error e => (.error e, st)
  | .ok existing =>
    match UpsertGroup st.groups (editedGroup existing event) with
    | .error e => (.error e, st)
    | .ok gs => (.ok (false, false), { st with groups := gs })

/-- The role name the kinds 9003 and 9004 read: the `role` tag, else `d`. -/
def roleTagName (event : Event) : String :=
  let roleName := firstTagValue event.Tags "role"
  if roleName = "" then firstTagValue event.Tags "d" else roleName

/-- The handler of kind 9003 (put role). -/
def applyPutRole (st : RelayState) (event : Event) (groupID : String) :
    Except Err (Bool × Bool) × RelayState :=
  match requirePermission st.groups groupID event.PubKey PermissionCreateRole with
  | .error e => (.error e, st)
  | .ok _ =>
    let roleName := roleTagName event
    if roleName = "" then (.error .roleUpdateMissingRole, st)
    else
      let permissions := parseCSVTag (firstTagValue event.Tags "permissions")
      let permissions :=
        if permissions.length = 0 then parseCSVTag (firstTagValue event.Tags "perm")
        else permissions
      let gs := UpsertRole st.groups
        { GroupID := groupID, RoleName := roleName,
          Description := firstTagValue event.Tags "description",
          Permissions := permissions, CreatedAt := event.CreatedAt,
          CreatedBy := event.PubKey, UpdatedAt := event.CreatedAt,
          UpdatedBy := event.PubKey }
      (.ok (false, false), { st with groups := gs })

/-- The handler of kind 9004 (delete role). -/
def applyDeleteRole (st : RelayState) (event : Event) (groupID : String) :
    Except Err (Bool × Bool) × RelayState :=
  match requirePermission st.groups groupID event.PubKey PermissionDeleteRole with
  | .error e => (.error e, st)
  | .ok _ =>
    let roleName := roleTagName event
    if roleName = "" then (.error .deleteRoleMissingRole, st)
    else (.ok (false, false), { st with groups := DeleteRole st.groups groupID roleName })

/-- The role a kind 9000 event asks for: the third element of the `p` tag,
else the trimmed `role` tag, else `member`. -/
def requestedRoleOf (event : Event) (tagRole : String) : String :=
  let requestedRole :=
    if tagRole = "" then TrimSpace (firstTagValue event.Tags "role") else tagRole
  if requestedRole = "" then "member" else requestedRole

/-- The handler of kind 9000 (put user). -/
def applyPutUser (st : RelayState) (event : Event) (groupID : String) :
    Except Err (Bool × Bool) × RelayState :=
  match parsePutUserTag event.Tags with
  | .error e => (.error e, st)
  | .ok (memberKey, tagRole) =>
    let requestedRole := requestedRoleOf event tagRole
    let previous := GetMemberRole st.groups groupID memberKey
    let requiredPermission :=
      if previous.2 then PermissionPromoteUser else PermissionAddUser
    match requirePermission st.groups groupID event.PubKey requiredPermission with
    | .error e => (.error e, st)
    | .ok _ =>
      let second : Except Err Unit :=
        if requestedRole ≠ "member" then
          requirePermission st.groups groupID event.PubKey PermissionPromoteUser
        else .ok ()
      match second with
      | .error e => (.error e, st)
      | .ok _ =>
        let adminRoleChanged := adminAssignmentChanged previous.1 requestedRole
          (rolePermissionsByName st.groups groupID)
        let gs := UpsertMember st.groups
          { GroupID := groupID, PubKey := memberKey, AddedAt := event.CreatedAt,
            AddedBy := event.PubKey, RoleName := requestedRole,
            PromotedAt := event.CreatedAt, PromotedBy := event.PubKey }
        let gs := DeleteJoinRequest gs groupID memberKey
        (.ok (true, adminRoleChanged), { st with groups := gs })

/-- The handler of kind 9001 (remove user). -/
def applyRemoveUser (st : RelayState) (event : Event) (groupID : String) :
    Except Err (Bool × Bool) × RelayState :=
  match requirePermission st.groups groupID event.PubKey PermissionRemoveUser with
  | .error e => (.error e, st)
  | .ok _ =>
    let memberKey := firstTagValue event.Tags "p"
    if memberKey = "" then (.error .removeUserMissingP, st)
    else
      let gs := RemoveMember st.groups groupID memberKey
      let gs :=
        if hasTag event.Tags "ban" then
          let reason := TrimSpace (firstTagValue event.Tags "reason")
          let reason :=
            if reason = "" then TrimSpace (firstTagValue event.Tags "ban") else reason
          UpsertBan gs
            { GroupID := groupID, PubKey := memberKey, Reason := reason,
              BannedAt := event.CreatedAt, BannedBy := event.PubKey,
              ExpiresAt := parseInt64Tag (firstTagValue event.Tags "expires_at") }
        else gs
      (.ok (true, false), { st with groups := gs })

/-- The handler of kind 9009 (create invite). -/
def applyCreateInvite (st : RelayState) (event : Event) (groupID : String) :
    Except Err (Bool × Bool) × RelayState :=
  match requirePermission st.groups groupID event.PubKey PermissionCreateInvite with
  | .error e => (.error e, st)
  | .ok _ =>
    let code := firstTagValue event.Tags "code"
    let code := if code = "" then firstTagValue event.Tags "invite" else code
    if code = "" then (.error .inviteMissingCode, st)
    else
      let gs := UpsertInvite st.groups
        { GroupID := groupID, Code := code,
          ExpiresAt := parseInt64Tag (firstTagValue event.Tags "expires_at"),
          MaxUsageCount := parseInt64Tag (firstTagValue event.Tags "max_usage_count"),
          UsageCount := parseInt64Tag (firstTagValue event.Tags "usage_count"),
          CreatedAt := event.CreatedAt, CreatedBy := event.PubKey }
      (.ok (false, false), { st with groups := gs })

/-- The handler of kind 9021 (join request). -/
def applyJoinRequest (clock : Clock) (st : RelayState) (event : Event) (groupID : String) :
    Except Err (Bool × Bool) × RelayState :=
  match joinRequestPubKey event with
  | .error e => (.error e, st)
  | .ok requestKey =>
    if IsMember st.groups groupID requestKey then (.error .alreadyMember, st)
    else if IsBanned st.groups clock.ban groupID requestKey then (.error .userBanned, st)
    else if CanAutoApprove st.groups clock.ban groupID requestKey then
      let gs := UpsertMember st.groups
        { GroupID := groupID, PubKey := requestKey, AddedAt := event.CreatedAt,
          AddedBy := event.PubKey, RoleName := "member", PromotedAt := 0, PromotedBy := "" }
      (.ok (true, false), { st with groups := gs })
    else
      let gs := UpsertJoinRequest st.groups ⟨groupID, requestKey, event.CreatedAt⟩
      (.ok (false, false), { st with groups := gs })

/-- The handler of kind 9022 (leave). -/
def applyLeave (st : RelayState) (event : Event) (groupID : String) :
    Except Err (Bool × Bool) × RelayState :=
  let gs := RemoveMember st.groups groupID event.PubKey
  let gs := DeleteJoinRequest gs groupID event.PubKey
  (.ok (true, false), { st with groups := gs })

/-- The handler of kind 9008 (delete group). -/
def applyDeleteGroup (st : RelayState) (event : Event) (groupID : String) :
    Except Err (Bool × Bool) × RelayState :=
  match requirePermission st.groups groupID event.PubKey PermissionDeleteGroup with
  | .error e => (.error e, st)
  | .ok _ =>
    (.ok (false, false),
      { st with groups := CloseGroup st.groups groupID event.CreatedAt event.PubKey })

/-- The handler of kind 9005 (delete event). -/
def applyDeleteEvent (cfg : ProjectionConfig) (st : RelayState) (event : Event)
    (groupID : String) : Except Err (Bool × Bool) × RelayState :=
  match requirePermission st.groups groupID event.PubKey PermissionDeleteEvent with
  | .error e => (.error e, st)
  | .ok _ =>
    let eventID := TrimSpace (firstTagValue event.Tags "e")
    if eventID = "" then (.ok (false, false), st)
    else
      let gs := RemoveGroupEventByEventID st.groups eventID
      let db :=
        if cfg.hasEventsRepo then
          match GetEvent st.events eventID with
          | none => st.events
          | some _ =>
            let reason := TrimSpace (firstTagValue event.Tags "reason")
            let reason := if reason = "" then "group moderation delete" else reason
            MarkDeleted st.events ⟨eventID, event.CreatedAt, event.PubKey, reason⟩
        else st.events
      (.ok (false, false), { st with groups := gs, events := db })

/-- The `switch event.Kind` of `ApplyEvent`: the handler's result
`(membershipChanged, adminsChanged)` and the state it leaves. -/
def applyHandler (cfg : ProjectionConfig) (clock : Clock) (st : RelayState) (event : Event)
    (groupID : String) : Except Err (Bool × Bool) × RelayState :=
  if event.Kind = 9007 then applyCreateGroup st event groupID
  else if event.Kind = 9002 then applyEditMetadata st event groupID
  else if event.Kind = 9003 then applyPutRole st event groupID
  else if event.Kind = 9004 then applyDeleteRole st event groupID
  else if event.Kind = 9000 then applyPutUser st event groupID
  else if event.Kind = 9001 then applyRemoveUser st event groupID
  else if event.Kind = 9009 then applyCreateInvite st event groupID
  else if event.Kind = 9021 then applyJoinRequest clock st event groupID
  else if event.Kind = 9022 then applyLeave st event groupID
  else if event.Kind = 9008 then applyDeleteGroup st event groupID
  else if event.Kind = 9005 then applyDeleteEvent cfg st event groupID
  else (.ok (false, false), st)

/-- The group id `ApplyEvent` resolves: the `h` tag, or the `d` tag of a
relay-only kind. -/
def resolveGroupID (event : Event) : String :=
  let groupID := firstTagValue event.Tags "h"
  if groupID = "" ∧ relayOnlyKind event.Kind then firstTagValue event.Tags "d" else groupID

/-- `GroupProjectionService.ApplyEvent`. -/
def ApplyEvent (lib : Crypto) (cfg : ProjectionConfig) (clock : Clock) (st : RelayState)
    (event : Event) : Except Err Unit × RelayState :=
  let groupID := resolveGroupID event
  if groupID = "" then (.ok (), st)
  else
    match applyHandler cfg clock st event groupID with
    | (.error e, st1) => (.error e, st1)
    | (.ok flags, st1) =>
      match syncCanonicalStateEvents lib cfg st1 event groupID flags.1 flags.2 with
      | (.error e, st2) => (.error e, st2)
      | (.ok _, st2) =>
        let gs := AddGroupEvent st2.groups ⟨groupID, event.ID, event.CreatedAt⟩
        (.ok (), ({ st2 with groups := gs }).Inc "group_projection_applied_total")

/-- `GroupProjectionService.ApproveJoinRequest`. -/
def ApproveJoinRequest (lib : Crypto) (cfg : ProjectionConfig) (st : RelayState)
    (groupID pubKey approvedBy : String) (approvedAt : Int) : Except Err Unit × RelayState :=
  match requirePermission st.groups groupID approvedBy PermissionAddUser with
  | .error e => (.error e, st)
  | .ok _ =>
    let gs := UpsertMember st.groups
      { GroupID := groupID, PubKey := pubKey, AddedAt := approvedAt, AddedBy := approvedBy,
        RoleName := "member", PromotedAt := approvedAt, PromotedBy := approvedBy }
    let gs := DeleteJoinRequest gs groupID pubKey
    let st1 : RelayState := { st with groups := gs }
    match emitMembersStateEvent lib cfg st1 groupID approvedAt with
    | (.error e, st2) => (.error e, st2)
    | (.ok _, st2) => (.ok (), st2.Inc "group_join_approved_total")

/-! ## Ingestion (`services/event_ingest.go`) -/

/-- The `storageMode` constants. -/
inductive storageMode where
  | storageModeRegular
  | storageModeReplaceable
  | storageModeEphemeral
  | storageModeParameterizedReplaceable
deriving DecidableEq, Repr

/-- `eventStorageMode`. -/
def eventStorageMode (kind : Int) : storageMode :=
  if kind = 0 ∨ kind = 3 ∨ (kind ≥ 10000 ∧ kind ≤ 19999) then .storageModeReplaceable
  else if kind ≥ 20000 ∧ kind ≤ 29999 then .storageModeEphemeral
  else if kind ≥ 30000 ∧ kind ≤ 39999 then .storageModeParameterizedReplaceable
  else .storageModeRegular

/-- The fields of `EventIngestService` that are not state: the validator's
`maxSkew` (nanoseconds), the relay pubkey as the constructor stored it, and
the projection service when there is one. -/
structure IngestConfig where
  maxSkew : Int
  relayPubKey : String
  projection : Option ProjectionConfig
deriving DecidableEq, Repr

/-- `NewEventIngestService`: the relay pubkey is trimmed and lower-cased. -/
def NewEventIngestService (maxSkew : Int) (projection : Option ProjectionConfig)
    (relayPubKey : String) : IngestConfig :=
  ⟨maxSkew, ToLower (TrimSpace relayPubKey), projection⟩

/-- The storage dispatch of `Ingest`. -/
def storeEvent (st : RelayState) (event : Event) : Except Err Unit × RelayState :=
  match eventStorageMode event.Kind with
  | .storageModeEphemeral => (.ok (), st)
  | .storageModeReplaceable =>
    match UpsertReplaceableEvent st.events event with
    | .error e => (.error (.storage e), st)
    | .ok db => (.ok (), ({ st with events := db }).Inc "events_ingested_total")
  | .storageModeParameterizedReplaceable =>
    match UpsertParameterizedReplaceableEvent st.events event (dTagValue event.Tags) with
    | .error e => (.error (.storage e), st)
    | .ok db => (.ok (), ({ st with events := db }).Inc "events_ingested_total")
  | .storageModeRegular =>
    match InsertEvent st.events event with
    | .error (.duplicateKey _) => (.error .duplicateEvent, st.Inc "events_duplicate_total")
    | .error e => (.error (.storage e), st)
    | .ok db => (.ok (), ({ st with events := db }).Inc "events_ingested_total")

/-- `EventIngestService.Ingest`. -/
def Ingest (lib : Crypto) (cfg : IngestConfig) (clock : Clock) (st : RelayState)
    (event : Event) : Except Err Unit × RelayState :=
  match ValidateEvent lib cfg.maxSkew clock.validate event with
  | .error e => (.error e, st.Inc "events_rejected_validation_total")
  | .ok _ =>
    let allowed := st.abuse.Allow event.PubKey clock.allow
    let st : RelayState := { st with abuse := allowed.2 }
    if !allowed.1 then (.error .rateLimitExceeded, st.Inc "events_rejected_rate_limit_total")
    else
      match ValidatePow event (st.abuse.RequiredPowBits event.Kind) with
      | .error e => (.error e, st.Inc "events_rejected_pow_total")
      | .ok _ =>
        if relayOnlyKind event.Kind ∧ !EqualFold event.PubKey cfg.relayPubKey then
          (.error (.relayOnlyKindSigner event.Kind),
            st.Inc "events_rejected_validation_total")
        else
          match storeEvent st event with
          | (.error e, st1) => (.error e, st1)
          | (.ok _, st1) =>
            match cfg.projection with
            | none => (.ok (), st1)
            | some pcfg =>
              match ApplyEvent lib pcfg clock st1 event with
              | (.error e, st2) => (.error e, st2.Inc "group_projection_errors_total")
              | (.ok _, st2) => (.ok (), st2)

/-! ## A fixed instance of the library functions

The theorems below hold for every `Crypto`.  To evaluate the services on
concrete events they are applied to this instance: the payload is marshalled
to the code points of its pubkey and content, the digest is the sum of the
payload bytes repeated 32 times, every signature verifies, and signing uses
the private key itself as the public key. -/

/-- The sample digest input. -/
def sampleMarshal (p : CanonicalPayload) : Except String (List UInt8) :=
  .ok ((p.pubKey.data ++ p.content.data).map (fun c => c.toNat.toUInt8))

/-- The sample digest. -/
def sampleSum (bytes : List UInt8) : List UInt8 :=
  List.replicate 32 (bytes.foldl (fun a b => a + b) 0)

/-- The sample library instance. -/
def sampleCrypto : Crypto where
  jsonMarshal := sampleMarshal
  sha256Sum := sampleSum
  checkSignature := fun _ => .ok true
  signEvent := fun ev priv =>
    .ok { ev with
          PubKey := priv,
          ID := hexEncodeToString (sampleSum ((priv.data ++ ev.Content.data).map
            (fun c => c.toNat.toUInt8))),
          Sig := ⟨List.replicate 128 (Char.ofNat 48)⟩ }

/-- Sixty-four times the character `c`. -/
def repeat64 (c : Char) : String := ⟨List.replicate 64 c⟩

/-- A string of 128 zeros, the shape of a signature. -/
def sampleSig : String := ⟨List.replicate 128 (Char.ofNat 48)⟩

/-- A relay state with empty stores, no counters and fresh abuse controls. -/
def RelayState.initial (burst sustainedPerMinute defaultPowBits : Int) : RelayState :=
  ⟨EventStore.empty, GroupStore.empty, [], NewAbuseControls burst sustainedPerMinute
    defaultPowBits⟩

/-- A sample clock: 1700000000 s for the validator and the ban check, the same
instant in nanoseconds for the rate limiter. -/
def sampleClock : Clock := ⟨1700000000, 1700000000000000000, 1700000000⟩

/-- A sample ingest service: 300 s of allowed skew, no projection attached. -/
def sampleIngest : IngestConfig :=
  NewEventIngestService 300000000000 none
    "bbbbbbbbbbbbbbbbbbbbbbbbbbbbbbbbbbbbbbbbbbbbbbbbbbbbbbbbbbbbbbbb"

/-- A sample ephemeral event of the key `aa..a`, valid for `sampleCrypto`. -/
def sampleNote : Event :=
  ⟨"abababababababababababababababababababababababababababababababab",
   "aaaaaaaaaaaaaaaaaaaaaaaaaaaaaaaaaaaaaaaaaaaaaaaaaaaaaaaaaaaaaaaa",
   1700000000, 20000, [], "k", sampleSig⟩

/-- The same event with the pubkey written in uppercase hex. -/
def sampleNoteUpper : Event :=
  { sampleNote with
    PubKey := "AAAAAAAAAAAAAAAAAAAAAAAAAAAAAAAAAAAAAAAAAAAAAAAAAAAAAAAAAAAAAAAA" }

/-- A sample projection service without an events repository and without
relay keys, as the repository's moderation tests build it. -/
def sampleProjection : ProjectionConfig := ⟨false, "", ""⟩

/-- A kind-9002 event of a key that is nobody in the group `group-x`. -/
def strangerEdit : Event :=
  ⟨"evt-edit", "stranger-pub", 110, 9002, [["h", "group-x"], ["name", "oops"]], "", "sig"⟩

/-- A state whose only group, `group-1`, was created by `alice-pub` and has
`bob-pub` as a plain member since time 50. -/
def groupOfAlice : RelayState :=
  { RelayState.initial 30 120 0 with
    groups :=
      { GroupStore.empty with
        groups := [⟨"group-1", "Group One", "", "", "", false, false, false, false, false,
                    10, "alice-pub", 10, "alice-pub"⟩],
        members := [⟨"group-1", "bob-pub", 50, "alice-pub", "member", 0, ""⟩] } }

/-- A kind-9007 event of `bob-pub` for the existing group `group-1`. -/
def bobCreate : Event :=
  ⟨"evt-create", "bob-pub", 100, 9007, [["h", "group-1"], ["name", "Mine"]], "", "sig"⟩

/-! ## Helper predicates and sample events of the projection -/

/-- The errors that name a relay-only kind. -/
def Err.isRelaySigner : Err → Bool
  | .relayOnlyKindSigner _ => true
  | _ => false

/-- A kind-39000 event of the key `aa..a`, which is not the relay key of
`sampleIngest`; valid for `sampleCrypto`. -/
def relayKindNote : Event :=
  { sampleNote with Kind := 39000, Tags := [["d", "group-1"]] }

/-- A kind-9008 event of `alice-pub`, the creator of `group-1`, created at
time 5: before the time 10 at which `groupOfAlice` holds the group's last
update. -/
def aliceClose : Event :=
  ⟨"evt-close", "alice-pub", 5, 9008, [["h", "group-1"]], "", "sig"⟩

/-- A `models.Group` for `group-1` with `updated_at` 5 and other columns that
differ from the row `groupOfAlice` holds. -/
def staleGroup : Group :=
  ⟨"group-1", "Renamed", "about", "pic", "u4pru", true, true, true, true, true,
    5, "mallory-pub", 5, "mallory-pub"⟩

/-- The member row the kind 9000 handler upserts. -/
def putUserMember (event : Event) (groupID memberKey requestedRole : String) : GroupMember :=
  { GroupID := groupID, PubKey := memberKey, AddedAt := event.CreatedAt,
    AddedBy := event.PubKey, RoleName := requestedRole,
    PromotedAt := event.CreatedAt, PromotedBy := event.PubKey }

/-- A kind-9000 event of the plain member `bob-pub` of `group-1`, who asks to
add `carol-pub` with the role `member`. -/
def bobAddsCarol : Event :=
  ⟨"evt-put", "bob-pub", 120, 9000, [["h", "group-1"], ["p", "carol-pub", "member"]], "",
    "sig"⟩

/-- The member row the kind 9021 handler upserts on auto-approval. -/
def joinedMember (event : Event) (groupID requestKey : String) : GroupMember :=
  { GroupID := groupID, PubKey := requestKey, AddedAt := event.CreatedAt,
    AddedBy := event.PubKey, RoleName := "member", PromotedAt := 0, PromotedBy := "" }

/-- A kind-9021 event of `carol-pub` for `group-1`. -/
def carolJoins : Event :=
  ⟨"evt-join", "carol-pub", 130, 9021, [["h", "group-1"]], "", "sig"⟩

/-! ## Deletion (`services/event_delete.go`) -/

/-- What the database does with the three statements of one `DeleteEvent`
call, as far as the rows do not decide it: `some err` for a statement that
fails with the driver error `err` (a lost connection, a cancelled context), and
then changes no row; `none` for a statement that is carried out. -/
structure DeleteFaults where
  GetEvent : Option String
  MarkDeleted : Option String
  RemoveGroupEventByEventID : Option String
  deriving DecidableEq, Repr

/-- No statement fails. -/
def noFaults : DeleteFaults := ⟨none, none, none⟩

/-- `GroupProjectionService.ApplyDeletion`; `dbErr` is the error of the `Exec`
of `RemoveGroupEventByEventID`, if it fails. -/
def ApplyDeletion (dbErr : Option String) (st : RelayState) (eventID : String) :
    Except Err Unit × RelayState :=
  match dbErr with
  | some err => (.error (.storage (.other ("remove group event mapping: " ++ err))), st)
  | none =>
    let gs := RemoveGroupEventByEventID st.groups eventID
    (.ok (), ({ st with groups := gs }).Inc "group_projection_deletion_applied_total")

/-- `EventDeleteService.DeleteEvent`: `hasProjection` tells whether the
service was built with a projection, `now` is the reading of
`time.Now().Unix()`, `faults` the failures of the database. -/
def DeleteEvent (hasProjection : Bool) (now : Int) (faults : DeleteFaults) (st : RelayState)
    (req : DeletedEvent) : Except Err Unit × RelayState :=
  if req.EventID = "" ∨ req.DeletedBy = "" then
    (.error (.deleteRequest "event_id and deleted_by are required"), st)
  else
    let req : DeletedEvent := if req.DeletedAt = 0 then { req with DeletedAt := now } else req
    match faults.GetEvent with
    | some err => (.error (.storage (.other err)), st)
    | none =>
      match GetEvent st.events req.EventID with
      | none => (.error (.storage .noRows), st)
      | some event =>
        if event.PubKey ≠ req.DeletedBy then
          (.error (.deleteRequest "delete not authorized for this pubkey"), st)
        else
          match faults.MarkDeleted with
          | some err => (.error (.storage (.other ("upsert deleted event: " ++ err))), st)
          | none =>
            let db := MarkDeleted st.events req
            let st1 := ({ st with events := db }).Inc "events_deleted_total"
            if hasProjection then
              match ApplyDeletion faults.RemoveGroupEventByEventID st1 req.EventID with
              | (.error e, st2) => (.error e, st2)
              | (.ok _, st2) => (.ok (), st2)
            else (.ok (), st1)

/-- The event of the repository's deletion test, by `alice`. -/
def aliceNote : Event :=
  ⟨"evt-delete-1", "alice", 100, 1, [["t", "nostr"]], "hello", "sig"⟩

/-- A relay state whose event store holds `aliceNote` only. -/
def storeOfAlice : RelayState :=
  { RelayState.initial 30 120 0 with
    events := ⟨[aliceNote], Normalize aliceNote.ID aliceNote.Tags, []⟩ }

/-! ## Queries (`storage/events_repo.go`, `services/event_query.go`) -/

/-- The `storage.EventFilter` struct; a nil pointer is `none`. -/
structure EventFilter where
  Author : String
  Kind : Option Int
  Since : Option Int
  Until : Option Int
  UntilID : String
  Tag : String
  Limit : Int
  IncludeDeleted : Bool
deriving DecidableEq, Repr

/-- Go `strings.SplitN(raw, ":", 2)` when it returns two parts: the text
before the first colon and the text after it. -/
def splitColon : List Char → Option (List Char × List Char)
  | [] => none
  | c :: cs =>
    if c.toNat = 58 then some ([], cs)
    else
      match splitColon cs with
      | some (name, value) => some (c :: name, value)
      | none => none

/-- `parseTagFilter`. -/
def parseTagFilter (raw : String) : String × String :=
  match splitColon raw.data with
  | some (name, value) => (TrimSpace ⟨name⟩, TrimSpace ⟨value⟩)
  | none => ("", TrimSpace raw)

/-- The `limit` that `QueryEvents` binds: 100 by default, at most 500. -/
def queryLimit (filter : EventFilter) : Nat :=
  let limit := filter.Limit
  let limit := if limit ≤ 0 then 100 else limit
  let limit := if limit > 500 then 500 else limit
  limit.toNat

/-- The `LEFT JOIN deleted_events d ON d.event_id = e.id` finds a row. -/
def hasTombstone (db : EventStore) (e : Event) : Bool :=
  db.deleted.any (fun d => d.EventID = e.ID)

/-- The `until` condition of `QueryEvents`: a keyset cursor when `UntilID` is
not blank, an upper bound on `created_at` otherwise (ids compared by code
point). -/
def untilCondition (filter : EventFilter) (e : Event) : Bool :=
  match filter.Until with
  | none => true
  | some u =>
    if TrimSpace filter.UntilID ≠ "" then
      decide (e.CreatedAt < u) ||
        (decide (e.CreatedAt = u) && ltChars filter.UntilID.data e.ID.data)
    else decide (e.CreatedAt ≤ u)

/-- The `tag` condition of `QueryEvents`: an `EXISTS` over the tag rows of the
event. -/
def tagCondition (db : EventStore) (filter : EventFilter) (e : Event) : Bool :=
  if filter.Tag = "" then true
  else
    let parsed := parseTagFilter filter.Tag
    if parsed.1 ≠ "" then
      db.eventTags.any (fun t =>
        decide (t.EventID = e.ID ∧ t.TagName = parsed.1 ∧ t.TagValue = parsed.2))
    else
      db.eventTags.any (fun t => decide (t.EventID = e.ID ∧ t.TagValue = parsed.2))

/-- The conditions of the `WHERE` clause of `QueryEvents` on author, kind and
`since`. -/
def plainConditions (filter : EventFilter) (e : Event) : Bool :=
  (decide (filter.Author = "") || decide (e.PubKey = filter.Author)) &&
  (match filter.Kind with
    | none => true
    | some k => decide (e.Kind = k)) &&
  (match filter.Since with
    | none => true
    | some s => decide (e.CreatedAt ≥ s))

/-- The `WHERE` clause of `QueryEvents`. -/
def matchesFilter (db : EventStore) (filter : EventFilter) (e : Event) : Bool :=
  (filter.IncludeDeleted || !hasTombstone db e) &&
    plainConditions filter e && untilCondition filter e && tagCondition db filter e

/-- `ORDER BY e.created_at DESC, e.id ASC`: whether `a` is not placed after
`b` (ids compared by code point). -/
def queryOrder (a b : Event) : Bool :=
  decide (a.CreatedAt > b.CreatedAt) ||
    (decide (a.CreatedAt = b.CreatedAt) && !ltChars b.ID.data a.ID.data)

/-- The rows `QueryEvents` selects, in the order of the `ORDER BY`, before
the `LIMIT`. -/
def selectEvents (db : EventStore) (filter : EventFilter) : List Event :=
  orderBy queryOrder (db.events.filter (matchesFilter db filter))

/-- `EventsRepo.QueryEvents`. -/
def QueryEvents (db : EventStore) (filter : EventFilter) : List Event :=
  (selectEvents db filter).take (queryLimit filter)

/-- `EventQueryService.QueryEvents`. -/
def EventQueryService.QueryEvents (db : EventStore) (filter : EventFilter) : List Event :=
  let filter : EventFilter := { filter with IncludeDeleted := false }
  SCity.QueryEvents db filter

/-- The store of the repository's query test after the four inserts. -/
def queryTestStore : EventStore :=
  let events : List Event :=
    [⟨"event-a", "alice", 100, 1, [["t", "nostr"], ["e", "root"]], "a", "sig"⟩,
     ⟨"event-b", "alice", 101, 1, [["t", "nostr"]], "b", "sig"⟩,
     ⟨"event-d", "alice", 101, 1, [["t", "nostr"]], "d", "sig"⟩,
     ⟨"event-c", "bob", 101, 2, [["t", "other"]], "c", "sig"⟩]
  ⟨events, events.flatMap (fun e => Normalize e.ID e.Tags), []⟩

/-- A filter with no condition and the given limit. -/
def EventFilter.all (limit : Int) : EventFilter :=
  ⟨"", none, none, none, "", "", limit, false⟩

/-- The store of the repository's query test after `event-b` was marked
deleted. -/
def queryTestStoreDeleted : EventStore :=
  MarkDeleted queryTestStore ⟨"event-b", 200, "alice", "test"⟩

/-- The filter of the page after the event `e`: `filter` with the keyset
cursor `Until`, `UntilID` set to `e`, as the paging loop of `QueryNostrFilter`
sets it from the last event of a page. -/
def cursorAfter (filter : EventFilter) (e : Event) : EventFilter :=
  { filter with Until := some e.CreatedAt, UntilID := e.ID }

/-- The place of `a` is strictly before the place of `b` in the order
`created_at DESC, id ASC`. -/
def queryBefore (a b : Event) : Prop :=
  b.CreatedAt < a.CreatedAt ∨ (a.CreatedAt = b.CreatedAt ∧ a.ID < b.ID)

instance (a b : Event) : Decidable (queryBefore a b) := by
  unfold queryBefore
  exact inferInstance

/-! ## A signer for the canonical state events -/

/-- A stand-in for `nostr.Event.Sign` in evaluations of the canonical
emission: the private key serves as public key, and the id is the text of the
kind, the `created_at` and the tags, so that events of two kinds never get the
same id. -/
def canonSign (ev : Event) (priv : String) : Except String Event :=
  .ok { ev with
        PubKey := priv,
        ID := String.intercalate "|"
          (toString ev.Kind :: toString ev.CreatedAt :: ev.Tags.map (String.intercalate ",")),
        Sig := sampleSig }

/-- The sample library instance with `canonSign` as signer. -/
def canonCrypto : Crypto :=
  { sampleCrypto with signEvent := canonSign }

/-- A projection service with an events repository and the relay keys set. -/
def canonProjection : ProjectionConfig := ⟨true, "relay-key", "relay-key"⟩

/-- The rows `UpsertParameterizedReplaceableEvent` selects for the address
`(pubKey, kind, dTag)`. -/
def canonicalRows (db : EventStore) (pubKey : String) (kind : Int) (dTag : String) :
    List Event :=
  db.events.filter (fun e => atAddress pubKey kind e && matchesDTag db dTag e)

/-- The tag rows of the event with the id `eventID`. -/
def tagRowsOf (db : EventStore) (eventID : String) : List EventTag :=
  db.eventTags.filter (fun t => decide (t.EventID = eventID))

/-- A kind-9000 event of `alice-pub`, created at 200, that adds `carol-pub` to
`group-1`. -/
def aliceAddsCarol : Event :=
  ⟨"evt-add-carol", "alice-pub", 200, 9000, [["h", "group-1"], ["p", "carol-pub"]], "", "sig"⟩

/-- A kind-9000 event of `alice-pub`, created at 150, that adds `dave-pub` to
`group-1`. -/
def aliceAddsDave : Event :=
  ⟨"evt-add-dave", "alice-pub", 150, 9000, [["h", "group-1"], ["p", "dave-pub"]], "", "sig"⟩

/-- The id `id` is the one the relay's key gives to some event of the kind
`kind`. -/
def signedAs (lib : Crypto) (cfg : ProjectionConfig) (kind : Int) (id : String) : Prop :=
  ∃ e r, e.Kind = kind ∧ lib.signEvent e cfg.relayPrivKey = .ok r ∧ r.ID = id

/-- The member snapshot `s` is held for the group: it is the one row of the
address `(pubKey, 39002, groupID)` and the only row of the store with its
id. -/
def snapshotHeld (db : EventStore) (pubKey groupID : String) (s : Event) : Prop :=
  canonicalRows db pubKey 39002 groupID = [s] ∧ ∀ r ∈ db.events, r.ID = s.ID → r = s

/-- A kind-9007 event of `alice-pub`, created at 300, for the new group
`group-2`. -/
def aliceCreates : Event :=
  ⟨"evt-create-2", "alice-pub", 300, 9007, [["h", "group-2"], ["name", "Second"]], "", "sig"⟩

/-! ## The admins snapshot, part by part -/

/-- The role name the loop of `emitAdminsStateEvent` gives a member:
`defaultString(member.RoleName, "member")`. -/
def memberRoleName (member : GroupMember) : String :=
  defaultString member.RoleName "member"

/-- The test of the loop of `emitAdminsStateEvent`: the member's normalised
role grants admin with the permissions stored for it. -/
def memberIsAdmin (rolePermissionsByRole : List (String × List String))
    (member : GroupMember) : Bool :=
  roleGrantsAdmin (normalizeRoleName (memberRoleName member))
    ((mapGet rolePermissionsByRole (normalizeRoleName (memberRoleName member))).getD [])

/-- The map `adminRolesByPubKey` of `emitAdminsStateEvent` after its loop over
the members. -/
def adminRolesOfMembers (members : List GroupMember)
    (rolePermissionsByRole : List (String × List String)) : List (String × String) :=
  members.foldl (fun m member =>
    if memberIsAdmin rolePermissionsByRole member
    then mapPut m member.PubKey (memberRoleName member) else m) []

/-- The map `adminRolesByPubKey` of `emitAdminsStateEvent` after the creator
was added. -/
def adminRolesWithCreator (group : Group) (members : List GroupMember)
    (rolePermissionsByRole : List (String × List String)) : List (String × String) :=
  if group.CreatedBy ≠ "" then
    match mapGet (adminRolesOfMembers members rolePermissionsByRole) group.CreatedBy with
    | some _ => adminRolesOfMembers members rolePermissionsByRole
    | none => mapPut (adminRolesOfMembers members rolePermissionsByRole) group.CreatedBy "owner"
  else adminRolesOfMembers members rolePermissionsByRole

/-! ## Proof of work, as the specification words it -/

/-- The four bits of the value of a hex digit, most significant first. -/
def nibbleBits (v : Nat) : List Bool :=
  [v.testBit 3, v.testBit 2, v.testBit 1, v.testBit 0]

/-- The bits of the byte sequence a string of hex digits encodes, read
big-endian: four bits per digit, in the order of the digits. -/
def hexStringBits (cs : List Char) : List Bool :=
  cs.flatMap (fun c => nibbleBits ((hexVal c).getD 0))

/-- The number of leading zero bits of a bit sequence. -/
def leadingZeroCount (bits : List Bool) : Nat :=
  (bits.takeWhile (fun b => !b)).length

/-- A valid hex string, in the specification's words: even length and hex
digits only. -/
def isHexString (s : String) : Bool :=
  s.length % 2 == 0 && s.data.all isHexChar

/-- The target a tag declares, in the specification's words: the third
element of a `nonce` tag of three or more elements, when it parses to a
positive integer. -/
def declaredNonceTarget (tag : List String) : Option Int :=
  match tag with
  | name :: _ :: target :: _ =>
    if name = "nonce" then
      match Atoi target with
      | some bits => if bits > 0 then some bits else none
      | none => none
    else none
  | _ => none

/-! ## Sequences of rate-limit calls -/

/-- A sequence of `Allow` calls, each a key and a clock reading: the answers
in order and the controls after the last call. -/
def allowCalls (a : AbuseControls) : List (String × Int) → List Bool × AbuseControls
  | [] => ([], a)
  | call :: rest =>
    ((a.Allow call.1 call.2).1 :: (allowCalls (a.Allow call.1 call.2).2 rest).1,
      (allowCalls (a.Allow call.1 call.2).2 rest).2)

/-- The answers given to the calls of one key, out of the answers to a
sequence of calls. -/
def answersFor (key : String) : List (String × Int) → List Bool → List Bool
  | call :: calls, answer :: answers =>
    if call.1 = key then answer :: answersFor key calls answers
    else answersFor key calls answers
  | _, _ => []

/-- The refill step of `Allow` on the bucket of the key. -/
def refillBucket (burst sustainedPerMinute : Int) (bucket : rateBucket) (now : Int) :
    rateBucket :=
  let elapsed : float64 := Seconds (timeSub now bucket.lastRefill)
  if float64.lt (float64.ofInt 0) elapsed then
    let refillRate : float64 :=
      float64.div (float64.ofInt sustainedPerMinute) (float64.ofInt 60)
    ⟨minFloat (float64.ofInt burst)
      (float64.add bucket.tokens (float64.mul elapsed refillRate)), now⟩
  else bucket

/-- The body of `Allow` on the bucket of the key: refill, then spend. -/
def spendToken (burst sustainedPerMinute : Int) (bucket : rateBucket) (now : Int) :
    Bool × rateBucket :=
  if float64.lt (refillBucket burst sustainedPerMinute bucket now).tokens (float64.ofInt 1) then
    (false, refillBucket burst sustainedPerMinute bucket now)
  else
    (true, ⟨float64.sub (refillBucket burst sustainedPerMinute bucket now).tokens
        (float64.ofInt 1),
      (refillBucket burst sustainedPerMinute bucket now).lastRefill⟩)

/-- The calls of one key on its bucket (`none`: no bucket yet, the first call
makes a full one). -/
def bucketCalls (burst sustainedPerMinute : Int) :
    Option rateBucket → List Int → List Bool × Option rateBucket
  | bucket, [] => ([], bucket)
  | bucket, now :: rest =>
    ((spendToken burst sustainedPerMinute (bucket.getD ⟨float64.ofInt burst, now⟩) now).1 ::
      (bucketCalls burst sustainedPerMinute
        (some (spendToken burst sustainedPerMinute
          (bucket.getD ⟨float64.ofInt burst, now⟩) now).2) rest).1,
     (bucketCalls burst sustainedPerMinute
        (some (spendToken burst sustainedPerMinute
          (bucket.getD ⟨float64.ofInt burst, now⟩) now).2) rest).2)

/-! ## Sequences of projection steps -/

/-- A sequence of `ApplyEvent` calls: the results in order and the state after
the last call. -/
def applyEvents (lib : Crypto) (cfg : ProjectionConfig) (clock : Clock) (st : RelayState) :
    List Event → List (Except Err Unit) × RelayState
  | [] => ([], st)
  | event :: rest =>
    ((ApplyEvent lib cfg clock st event).1 ::
        (applyEvents lib cfg clock (ApplyEvent lib cfg clock st event).2 rest).1,
      (applyEvents lib cfg clock (ApplyEvent lib cfg clock st event).2 rest).2)

/-- The pair is a row of `group_join_requests`. -/
def hasJoinRequest (gs : GroupStore) (groupID pubKey : String) : Bool :=
  gs.joinRequests.any (fun r => decide (r.GroupID = groupID ∧ r.PubKey = pubKey))

/-- A kind-9007 event of `alice-pub` that creates the vetted group `group-v`. -/
def aliceCreatesVetted : Event :=
  ⟨"evt-create-v", "alice-pub", 100, 9007, [["h", "group-v"], ["name", "Vetted"], ["vetted"]],
    "", "sig"⟩

/-- A kind-9021 event of `carol-pub` for `group-v`. -/
def carolAsks : Event :=
  ⟨"evt-join-v1", "carol-pub", 110, 9021, [["h", "group-v"]], "", "sig"⟩

/-- A kind-9002 event of `alice-pub` that ends the vetting of `group-v`. -/
def aliceOpens : Event :=
  ⟨"evt-edit-v", "alice-pub", 120, 9002, [["h", "group-v"], ["vetted", "false"]], "", "sig"⟩

/-- A second kind-9021 event of `carol-pub` for `group-v`. -/
def carolAsksAgain : Event :=
  ⟨"evt-join-v2", "carol-pub", 130, 9021, [["h", "group-v"]], "", "sig"⟩

/-- A kind-9007 event of `carol-pub` that creates `group-v`. -/
def carolCreates : Event :=
  ⟨"evt-create-c", "carol-pub", 140, 9007, [["h", "group-v"], ["name", "Own"]], "", "sig"⟩

/-! ## Nostr filters (`services/event_query.go`) -/

/-- The fields of `nostr.Filter` that `QueryNostrFilter` reads; the `Tags`
map is the list of its entries, ranged over in list order. -/
structure NostrFilter where
  IDs : List String
  Kinds : List Int
  Authors : List String
  Tags : List (String × List String)
  Since : Option Int
  Until : Option Int
  Limit : Int
deriving DecidableEq, Repr

/-- Go `strings.TrimPrefix`. -/
def TrimPrefix (s pre : String) : String :=
  if pre.data.isPrefixOf s.data then ⟨s.data.drop pre.data.length⟩ else s

/-- `stringInSlice`. -/
def stringInSlice (value : String) : List String → Bool
  | [] => false
  | candidate :: rest => if candidate = value then true else stringInSlice value rest

/-- `intInSlice`. -/
def intInSlice (value : Int) : List Int → Bool
  | [] => false
  | candidate :: rest => if candidate = value then true else intInSlice value rest

/-- `eventHasAnyTagValue`. -/
def eventHasAnyTagValue : List (List String) → String → List String → Bool
  | [], _, _ => false
  | tag :: rest, tagName, values =>
    match tag with
    | name :: value :: _ =>
      if name ≠ tagName then eventHasAnyTagValue rest tagName values
      else if stringInSlice value values then true
      else eventHasAnyTagValue rest tagName values
    | _ => eventHasAnyTagValue rest tagName values

/-- `matchesNostrFilter`. -/
def matchesNostrFilter (event : Event) (filter : NostrFilter) : Bool :=
  if filter.IDs.length > 0 ∧ stringInSlice event.ID filter.IDs = false then false
  else if filter.Authors.length > 0 ∧ stringInSlice event.PubKey filter.Authors = false
  then false
  else if filter.Kinds.length > 0 ∧ intInSlice event.Kind filter.Kinds = false then false
  else if (match filter.Since with
      | some since => decide (event.CreatedAt < since)
      | none => false) then false
  else if (match filter.Until with
      | some u => decide (event.CreatedAt > u)
      | none => false) then false
  else
    filter.Tags.all (fun entry =>
      eventHasAnyTagValue event.Tags (TrimPrefix entry.1 "#") entry.2)

/-- The tag of the coarse query of `QueryNostrFilter`: the name of the first
entry of `Tags` that has values, a colon, and the first of its values. -/
def coarseTag : List (String × List String) → String
  | [] => ""
  | entry :: rest =>
    match entry.2 with
    | [] => coarseTag rest
    | first :: _ => TrimPrefix entry.1 "#" ++ ":" ++ first

/-- The coarse query of `QueryNostrFilter`. -/
def coarseFilter (filter : NostrFilter) : EventFilter :=
  { Author := match filter.Authors with
      | [author] => author
      | _ => ""
    Kind := match filter.Kinds with
      | [kind] => some kind
      | _ => none
    Since := filter.Since
    Until := none
    UntilID := ""
    Tag := coarseTag filter.Tags
    Limit := 500
    IncludeDeleted := false }

/-- The `targetLimit` of `QueryNostrFilter`. -/
def targetLimit (filter : NostrFilter) : Int :=
  if filter.Limit ≤ 0 then 100 else filter.Limit

/-- The variables of the paging loop of `QueryNostrFilter`. -/
structure PageState where
  filtered : List Event
  seen : List String
  untilCursor : Option Int
  untilIDCursor : String
deriving DecidableEq, Repr

/-- The inner loop of `QueryNostrFilter` over one page: the events kept and
the ids seen. -/
def scanPage (filter : NostrFilter) :
    List Event → List Event × List String → List Event × List String
  | [], acc => acc
  | event :: rest, (filtered, seen) =>
    if event.ID ∈ seen then scanPage filter rest (filtered, seen)
    else if matchesNostrFilter event filter then
      if ((filtered ++ [event]).length : Int) ≥ targetLimit filter then
        (filtered ++ [event], event.ID :: seen)
      else scanPage filter rest (filtered ++ [event], event.ID :: seen)
    else scanPage filter rest (filtered, event.ID :: seen)

/-- The query of one round of the paging loop. -/
def pageQuery (coarse : EventFilter) (st : PageState) : EventFilter :=
  match st.untilCursor with
  | some u => { coarse with Until := some u, UntilID := st.untilIDCursor }
  | none => coarse

/-- The paging loop of `QueryNostrFilter`, at most `fuel` rounds; `none` when
the rounds run out before the loop ends. -/
def queryLoop (db : EventStore) (filter : NostrFilter) (coarse : EventFilter) :
    Nat → PageState → Option (List Event)
  | 0, _ => none
  | fuel + 1, st =>
    if ¬ ((st.filtered.length : Int) < targetLimit filter) then some st.filtered
    else
      let query := pageQuery coarse st
      let events := EventQueryService.QueryEvents db query
      match events.getLast? with
      | none => some st.filtered
      | some oldest =>
        let scanned := scanPage filter events (st.filtered, st.seen)
        if (scanned.1.length : Int) ≥ targetLimit filter ∨ (events.length : Int) < query.Limit
        then some scanned.1
        else if (match coarse.Since with
            | some since => decide (oldest.CreatedAt < since)
            | none => false) then some scanned.1
        else if st.untilCursor = some oldest.CreatedAt ∧ oldest.ID = st.untilIDCursor
        then some scanned.1
        else queryLoop db filter coarse fuel
          ⟨scanned.1, scanned.2, some oldest.CreatedAt, oldest.ID⟩

/-- `EventQueryService.QueryNostrFilter`, with at most `fuel` rounds of its
paging loop. -/
def QueryNostrFilter (fuel : Nat) (db : EventStore) (filter : NostrFilter) :
    Option (List Event) :=
  queryLoop db filter (coarseFilter filter) fuel ⟨[], [], filter.Until, ""⟩

/-- A filter for the events tagged `t` with `nostr` or with `other`. -/
def twoTopicsFilter : NostrFilter :=
  ⟨[], [], [], [("#t", ["nostr", "other"])], none, none, 0⟩

/-- A filter for the events of `alice` or `bob`, of kind 1 or 2. -/
def twoAuthorsFilter : NostrFilter :=
  ⟨[], [1, 2], ["alice", "bob"], [], none, none, 0⟩

/-- A kind-9003 event of `alice-pub` that stores, in `group-1`, a role whose
name is one space, with the `admin` permission. -/
def aliceNamesBlankRole : Event :=
  ⟨"evt-role", "alice-pub", 60, 9003,
    [["h", "group-1"], ["role", " "], ["permissions", "admin"]], "", "sig"⟩

/-! # Theorems -/

set_option maxRecDepth 20000

/-! ## Lemmas on the string model -/

theorem lowerRanges_clear :
    lowerRanges.all (fun r => lowerRanges.all (fun q => rangeClear r q)) = true := by
  decide!

theorem lowerRanges_sound : lowerRanges.all rangeSound = true := by
  decide!


theorem toNat_ofNat_valid (m : Nat) (h : m < 0xD800 ∨ (0xDFFF < m ∧ m < 0x110000)) :
    (Char.ofNat m).toNat = m := by
  have hv : m.isValidChar := h
  unfold Char.ofNat
  rw [dif_pos hv]
  rfl

theorem lowerIn_cases (rs : List (Nat × Nat × Nat × Nat)) (n : Nat) :
    (lowerIn rs n = n ∧ ∀ q ∈ rs, inLowerRange q n = false) ∨
    ∃ r ∈ rs, inLowerRange r n = true ∧ lowerIn rs n = r.2.2.2 + (n - r.1) := by
  induction rs with
  | nil => left; exact ⟨rfl, by simp⟩
  | cons r rs ih =>
    by_cases hr : inLowerRange r n = true
    · right
      exact ⟨r, List.mem_cons_self _ _, hr, by simp [lowerIn, hr]⟩
    · have hr2 : inLowerRange r n = false := by simpa using hr
      have e : lowerIn (r :: rs) n = lowerIn rs n := by simp [lowerIn, hr2]
      rcases ih with ⟨h1, h2⟩ | ⟨q, hq, h1, h2⟩
      · left
        refine ⟨by rw [e, h1], ?_⟩
        intro q hq
        rcases List.mem_cons.1 hq with rfl | hq
        · exact hr2
        · exact h2 q hq
      · right
        exact ⟨q, List.mem_cons_of_mem _ hq, h1, by rw [e, h2]⟩

theorem lowerIn_eq_self (rs : List (Nat × Nat × Nat × Nat)) (n : Nat)
    (h : ∀ q ∈ rs, inLowerRange q n = false) : lowerIn rs n = n := by
  rcases lowerIn_cases rs n with ⟨h1, _⟩ | ⟨r, hr, h1, _⟩
  · exact h1
  · rw [h r hr] at h1
    cases h1

theorem rangeClear_spec (r q : Nat × Nat × Nat × Nat) (n : Nat)
    (hc : rangeClear r q = true) (hr : inLowerRange r n = true) :
    inLowerRange q (r.2.2.2 + (n - r.1)) = false := by
  obtain ⟨lo, hi, s, dlo⟩ := r
  obtain ⟨lo2, hi2, s2, dlo2⟩ := q
  simp only [rangeClear, inLowerRange, Bool.or_eq_true, Bool.and_eq_true, decide_eq_true_eq,
    beq_iff_eq] at hc hr
  simp only [inLowerRange]
  obtain ⟨⟨h1, h2⟩, h3⟩ := hr
  rcases hc with (hc | hc) | ⟨⟨⟨hs2, h4⟩, h5⟩, h6⟩
  · have : ¬ lo2 ≤ dlo + (n - lo) := by omega
    simp [this]
  · have : ¬ dlo + (n - lo) ≤ hi2 := by omega
    simp [this]
  · subst hs2
    have : ¬ (dlo + (n - lo) - lo2) % 2 = 0 := by
      rcases h6 with h6 | h6
      · subst h6
        omega
      · omega
    simp [this]

theorem apart_spec (lo hi a b n : Nat) (h : apart lo hi a b = true) (h1 : lo ≤ n)
    (h2 : n ≤ hi) : n < a ∨ b < n := by
  simp only [apart, Bool.or_eq_true, decide_eq_true_eq] at h
  omega

theorem noSpace_spec (lo hi : Nat) (c : Char) (h : noSpace lo hi = true)
    (h1 : lo ≤ c.toNat) (h2 : c.toNat ≤ hi) : isSpace c = false := by
  simp only [noSpace, Bool.and_eq_true] at h
  obtain ⟨⟨⟨⟨⟨⟨⟨⟨⟨a1, a2⟩, a3⟩, a4⟩, a5⟩, a6⟩, a7⟩, a8⟩, a9⟩, a10⟩ := h
  have b1 := apart_spec _ _ _ _ _ a1 h1 h2
  have b2 := apart_spec _ _ _ _ _ a2 h1 h2
  have b3 := apart_spec _ _ _ _ _ a3 h1 h2
  have b4 := apart_spec _ _ _ _ _ a4 h1 h2
  have b5 := apart_spec _ _ _ _ _ a5 h1 h2
  have b6 := apart_spec _ _ _ _ _ a6 h1 h2
  have b7 := apart_spec _ _ _ _ _ a7 h1 h2
  have b8 := apart_spec _ _ _ _ _ a8 h1 h2
  have b9 := apart_spec _ _ _ _ _ a9 h1 h2
  have b10 := apart_spec _ _ _ _ _ a10 h1 h2
  clear a1 a2 a3 a4 a5 a6 a7 a8 a9 a10 h1 h2
  simp only [isSpace]
  generalize c.toNat = n at *
  simp only [Bool.or_eq_false_iff, Bool.and_eq_false_iff, beq_eq_false_iff_ne, ne_eq,
    decide_eq_false_iff_not]
  refine ⟨⟨⟨⟨⟨⟨⟨⟨⟨⟨⟨⟨⟨⟨?_, ?_⟩, ?_⟩, ?_⟩, ?_⟩, ?_⟩, ?_⟩, ?_⟩, ?_⟩, ?_⟩, ?_⟩, ?_⟩, ?_⟩, ?_⟩, ?_⟩
  · clear b2 b3 b4 b5 b6 b7 b8 b9 b10; omega
  · clear b2 b3 b4 b5 b6 b7 b8 b9 b10; omega
  · clear b2 b3 b4 b5 b6 b7 b8 b9 b10; omega
  · clear b2 b3 b4 b5 b6 b7 b8 b9 b10; omega
  · clear b2 b3 b4 b5 b6 b7 b8 b9 b10; omega
  · clear b1 b3 b4 b5 b6 b7 b8 b9 b10; omega
  · clear b1 b2 b4 b5 b6 b7 b8 b9 b10; omega
  · clear b1 b2 b3 b5 b6 b7 b8 b9 b10; omega
  · clear b1 b2 b3 b4 b6 b7 b8 b9 b10; omega
  · clear b1 b2 b3 b4 b5 b7 b8 b9 b10; omega
  · clear b1 b2 b3 b4 b5 b6 b8 b9 b10; omega
  · clear b1 b2 b3 b4 b5 b6 b8 b9 b10; omega
  · clear b1 b2 b3 b4 b5 b6 b7 b9 b10; omega
  · clear b1 b2 b3 b4 b5 b6 b7 b8 b10; omega
  · clear b1 b2 b3 b4 b5 b6 b7 b8 b9; omega

theorem rangeSound_spec (r : Nat × Nat × Nat × Nat) (n : Nat)
    (hs : rangeSound r = true) (hr : inLowerRange r n = true) (c d : Char)
    (hc : c.toNat = n) (hd : d.toNat = r.2.2.2 + (n - r.1)) :
    isSpace c = false ∧ isSpace d = false ∧ ¬ (d.toNat ≥ 65 ∧ d.toNat ≤ 90) := by
  obtain ⟨lo, hi, s, dlo⟩ := r
  simp only [rangeSound, inLowerRange, Bool.and_eq_true, decide_eq_true_eq] at hs hr
  obtain ⟨⟨⟨⟨s1, s2⟩, s3⟩, _⟩, _⟩ := hs
  obtain ⟨⟨h1, h2⟩, _⟩ := hr
  have hd : d.toNat = dlo + (n - lo) := hd
  have g1 : dlo ≤ d.toNat := by omega
  have g2 : d.toNat ≤ dlo + (hi - lo) := by omega
  refine ⟨noSpace_spec lo hi c s1 (by omega) (by omega), noSpace_spec _ _ d s2 g1 g2, ?_⟩
  have := apart_spec _ _ _ _ _ s3 g1 g2
  omega

theorem rangeSound_valid (r : Nat × Nat × Nat × Nat) (n : Nat)
    (hs : rangeSound r = true) (hr : inLowerRange r n = true) :
    r.2.2.2 + (n - r.1) < 0xD800 ∨
      (0xDFFF < r.2.2.2 + (n - r.1) ∧ r.2.2.2 + (n - r.1) < 0x110000) := by
  obtain ⟨lo, hi, s, dlo⟩ := r
  simp only [rangeSound, inLowerRange, Bool.and_eq_true, decide_eq_true_eq] at hs hr
  obtain ⟨⟨_, s4⟩, s5⟩ := hs
  obtain ⟨⟨h1, h2⟩, _⟩ := hr
  have := apart_spec _ _ _ _ (dlo + (n - lo)) s4 (by omega) (by omega)
  show dlo + (n - lo) < 0xD800 ∨ (0xDFFF < dlo + (n - lo) ∧ dlo + (n - lo) < 0x110000)
  omega

theorem isSpace_asciiLower (c : Char) : isSpace c.toLower = isSpace c := by
  unfold Char.toLower
  simp only []
  split
  · rename_i h
    obtain ⟨h1, h2⟩ := h
    have hc : isSpace c = false := by
      simp only [isSpace]
      generalize c.toNat = n at *
      interval_cases n <;> rfl
    rw [hc]
    generalize c.toNat = n at *
    interval_cases n <;> rfl
  · rfl

theorem asciiLower_asciiLower (c : Char) : c.toLower.toLower = c.toLower := by
  by_cases h : c.toNat ≥ 65 ∧ c.toNat ≤ 90
  · have : c.toLower = Char.ofNat (c.toNat + 32) := by
      unfold Char.toLower; simp only []; rw [if_pos h]
    rw [this]
    obtain ⟨h1, h2⟩ := h
    generalize c.toNat = n at *
    interval_cases n <;> rfl
  · have : c.toLower = c := by
      unfold Char.toLower; simp only []; rw [if_neg h]
    rw [this, this]

theorem asciiLower_toNat_lt (c : Char) (h : c.toNat < 128) : c.toLower.toNat < 128 := by
  by_cases h2 : c.toNat ≥ 65 ∧ c.toNat ≤ 90
  · have : c.toLower = Char.ofNat (c.toNat + 32) := by
      unfold Char.toLower; simp only []; rw [if_pos h2]
    rw [this]
    obtain ⟨h1, h2⟩ := h2
    generalize c.toNat = n at *
    interval_cases n <;> decide
  · have : c.toLower = c := by
      unfold Char.toLower; simp only []; rw [if_neg h2]
    rw [this]; exact h

/-- What `unicodeToLower` does to a character: the ASCII mapping, nothing, or
the step to the lower-case form of a range of the table. -/
theorem unicodeToLower_cases (c : Char) :
    (c.toNat < 128 ∧ unicodeToLower c = c.toLower) ∨
    (128 ≤ c.toNat ∧ unicodeToLower c = c) ∨
    (128 ≤ c.toNat ∧ ∃ r ∈ lowerRanges, inLowerRange r c.toNat = true ∧
      (unicodeToLower c).toNat = r.2.2.2 + (c.toNat - r.1)) := by
  by_cases h : c.toNat < 128
  · left
    exact ⟨h, by simp [unicodeToLower, h]⟩
  · right
    have e : unicodeToLower c = Char.ofNat (lowerIn lowerRanges c.toNat) := by
      simp [unicodeToLower, h]
    rcases lowerIn_cases lowerRanges c.toNat with ⟨h1, _⟩ | ⟨r, hr, h1, h2⟩
    · left
      refine ⟨by omega, ?_⟩
      rw [e, h1, Char.ofNat_toNat]
    · right
      refine ⟨by omega, r, hr, h1, ?_⟩
      have hs := List.all_eq_true.1 lowerRanges_sound r hr
      rw [e, h2]
      exact toNat_ofNat_valid _ (rangeSound_valid r c.toNat hs h1)

theorem unicodeToLower_fixed (d : Char) (h : ∀ q ∈ lowerRanges, inLowerRange q d.toNat = false)
    (h2 : ¬ (d.toNat ≥ 65 ∧ d.toNat ≤ 90)) : unicodeToLower d = d := by
  by_cases hd : d.toNat < 128
  · have : d.toLower = d := by
      unfold Char.toLower; simp only []; rw [if_neg h2]
    simp [unicodeToLower, hd, this]
  · simp only [unicodeToLower, hd, if_false]
    rw [lowerIn_eq_self _ _ h, Char.ofNat_toNat]

theorem isSpace_toLower (c : Char) : isSpace (unicodeToLower c) = isSpace c := by
  rcases unicodeToLower_cases c with ⟨_, h⟩ | ⟨_, h⟩ | ⟨_, r, hr, h1, h2⟩
  · rw [h, isSpace_asciiLower]
  · rw [h]
  · have hs := List.all_eq_true.1 lowerRanges_sound r hr
    have := rangeSound_spec r c.toNat hs h1 c (unicodeToLower c) rfl h2
    rw [this.1, this.2.1]

theorem toLower_toLower (c : Char) :
    unicodeToLower (unicodeToLower c) = unicodeToLower c := by
  rcases unicodeToLower_cases c with ⟨hc, h⟩ | ⟨_, h⟩ | ⟨_, r, hr, h1, h2⟩
  · rw [h]
    have := asciiLower_toNat_lt c hc
    simp only [unicodeToLower, this, if_true]
    exact asciiLower_asciiLower c
  · rw [h, h]
  · have hs := List.all_eq_true.1 lowerRanges_sound r hr
    have hd := rangeSound_spec r c.toNat hs h1 c (unicodeToLower c) rfl h2
    apply unicodeToLower_fixed _ _ hd.2.2
    intro q hq
    rw [h2]
    have hcl := List.all_eq_true.1 (List.all_eq_true.1 lowerRanges_clear r hr) q hq
    exact rangeClear_spec r q c.toNat hcl h1

theorem unicodeToLower_ascii (c : Char) (h : c.toNat < 128) : unicodeToLower c = c.toLower := by
  simp [unicodeToLower, h]

/-- Letters beyond ASCII are lower-cased: the dotted capital I of a role name
and of a permission, the capital E with acute of an id. -/
theorem ToLower_beyond_ascii :
    ToLower "ADM\u0130N" = "admin" ∧ ToLower "\u00c9" = "\u00e9" ∧ ToLower "\u212a" = "k" ∧
    roleHasPermission "ADM\u0130N" [] "add-user" = true ∧
    roleHasPermission "admin" [] "ED\u0130T-METADATA" = true ∧
    compareReplaceableVersion 1 "\u00c9" 1 "\u00e9" = 0 ∧
    roleGrantsAdmin "ADM\u0130N" [] = true := by decide

theorem dropWhile_isSpace_map_toLower (l : List Char) :
    (l.map unicodeToLower).dropWhile isSpace = (l.dropWhile isSpace).map unicodeToLower := by
  induction l with
  | nil => rfl
  | cons c cs ih =>
    simp only [List.map_cons, List.dropWhile_cons, isSpace_toLower]
    split
    · exact ih
    · rfl

theorem dropEndWhile_isSpace_map_toLower (l : List Char) :
    dropEndWhile isSpace (l.map unicodeToLower) = (dropEndWhile isSpace l).map unicodeToLower := by
  induction l with
  | nil => rfl
  | cons c cs ih =>
    simp only [List.map_cons, dropEndWhile, ih, isSpace_toLower]
    cases h : dropEndWhile isSpace cs with
    | nil =>
      simp only [List.map_nil]
      split <;> rfl
    | cons d ds => simp

theorem trimChars_map_toLower (l : List Char) :
    trimChars (l.map unicodeToLower) = (trimChars l).map unicodeToLower := by
  simp only [trimChars, dropWhile_isSpace_map_toLower, dropEndWhile_isSpace_map_toLower]

theorem dropEndWhile_idem (p : Char → Bool) (l : List Char) :
    dropEndWhile p (dropEndWhile p l) = dropEndWhile p l := by
  induction l with
  | nil => rfl
  | cons c cs ih =>
    cases h : dropEndWhile p cs with
    | nil =>
      have e1 : dropEndWhile p (c :: cs) = if p c then [] else [c] := by
        rw [dropEndWhile, h]
      rw [e1]
      by_cases hc : p c = true
      · simp [hc, dropEndWhile]
      · simp [hc, dropEndWhile]
    | cons d ds =>
      have e1 : dropEndWhile p (c :: cs) = c :: d :: ds := by
        rw [dropEndWhile, h]
      rw [h] at ih
      rw [e1, dropEndWhile, ih]

theorem headOutside_dropWhile (p : Char → Bool) (l : List Char) :
    headOutside p (l.dropWhile p) := by
  induction l with
  | nil => trivial
  | cons c cs ih =>
    simp only [List.dropWhile_cons]
    split
    · exact ih
    · rename_i h
      simpa [headOutside] using h

theorem headOutside_dropEndWhile (p : Char → Bool) (l : List Char)
    (h : headOutside p l) : headOutside p (dropEndWhile p l) := by
  cases l with
  | nil => trivial
  | cons c cs =>
    simp only [headOutside] at h
    simp only [dropEndWhile]
    cases dropEndWhile p cs with
    | nil => simp [h, headOutside]
    | cons d ds => simpa [headOutside] using h

theorem dropWhile_of_headOutside (p : Char → Bool) (l : List Char)
    (h : headOutside p l) : l.dropWhile p = l := by
  cases l with
  | nil => rfl
  | cons c cs =>
    simp only [headOutside] at h
    simp [List.dropWhile_cons, h]

theorem trimChars_idem (l : List Char) : trimChars (trimChars l) = trimChars l := by
  unfold trimChars
  rw [dropWhile_of_headOutside _ _
    (headOutside_dropEndWhile _ _ (headOutside_dropWhile _ _)), dropEndWhile_idem]

theorem map_toLower_idem (l : List Char) :
    (l.map unicodeToLower).map unicodeToLower = l.map unicodeToLower := by
  rw [List.map_map]
  apply List.map_congr_left
  intro c _
  exact toLower_toLower c

theorem normalizePermission_idem (s : String) :
    normalizePermission (normalizePermission s) = normalizePermission s := by
  have h1 : (trimChars (s.data.map unicodeToLower)).map unicodeToLower
      = trimChars (s.data.map unicodeToLower) := by
    rw [trimChars_map_toLower, map_toLower_idem]
  simp only [normalizePermission, TrimSpace, ToLower]
  rw [h1, trimChars_idem]

theorem norm_eq_normalizePermission (s : String) : norm s = normalizePermission s := by
  simp only [norm, normalizePermission, TrimSpace, ToLower, trimChars_map_toLower]

/-! ## Role permissions -/

theorem mem_foldl_allowPermission (x : String) (l : List String) :
    ∀ acc : List String, x ∈ l.foldl allowPermission acc ↔
      x ∈ acc ∨ (x ≠ "" ∧ x ∈ l.map normalizePermission) := by
  induction l with
  | nil => intro acc; simp
  | cons p ps ih =>
    intro acc
    rw [List.foldl_cons, ih]
    simp only [allowPermission, List.map_cons, List.mem_cons]
    by_cases hp : normalizePermission p = ""
    · simp only [hp, ne_eq, not_true_eq_false, if_false]
      constructor
      · rintro (h | ⟨h1, h2⟩)
        · exact Or.inl h
        · exact Or.inr ⟨h1, Or.inr h2⟩
      · rintro (h | ⟨h1, h2 | h2⟩)
        · exact Or.inl h
        · exact absurd h2 h1
        · exact Or.inr ⟨h1, h2⟩
    · simp only [hp, ne_eq, not_false_eq_true, if_true, List.mem_cons]
      constructor
      · rintro ((h | h) | ⟨h1, h2⟩)
        · exact Or.inr ⟨by rw [h]; exact hp, Or.inl h⟩
        · exact Or.inl h
        · exact Or.inr ⟨h1, Or.inr h2⟩
      · rintro (h | ⟨h1, h2 | h2⟩)
        · exact Or.inl (Or.inr h)
        · exact Or.inl (Or.inl h2)
        · exact Or.inr ⟨h1, h2⟩

/-- What `roleHasPermission` decides, in terms of the code's own normal form. -/
theorem roleHasPermission_iff (roleName : String) (rolePermissions : List String)
    (required : String) :
    roleHasPermission roleName rolePermissions required = true ↔
      normalizePermission required ≠ "" ∧
      (normalizePermission roleName = "owner" ∨
        normalizePermission required ∈
          (rolePermissions ++ defaultRolePermissions (normalizePermission roleName)).map
            normalizePermission ∨
        "admin" ∈
          (rolePermissions ++ defaultRolePermissions (normalizePermission roleName)).map
            normalizePermission) := by
  unfold roleHasPermission
  simp only []
  by_cases hreq : normalizePermission required = ""
  · simp [hreq]
  · by_cases hown : TrimSpace (ToLower roleName) = "owner"
    · have hown2 : normalizePermission roleName = "owner" := hown
      simp [hreq, hown, hown2]
    · have hown2 : ¬ normalizePermission roleName = "owner" := hown
      have hadm : ("admin" : String) ≠ "" := by decide
      simp only [hreq, hown, hown2, if_false, ne_eq, not_false_eq_true, true_and, false_or,
        List.map_append, List.mem_append, PermissionAdmin]
      have key : ∀ x : String, x ≠ "" →
          (x ∈ List.foldl allowPermission
                (List.foldl allowPermission []
                  (defaultRolePermissions (TrimSpace (ToLower roleName)))) rolePermissions ↔
            x ∈ rolePermissions.map normalizePermission ∨
            x ∈ (defaultRolePermissions (normalizePermission roleName)).map
              normalizePermission) := by
        intro x hx
        rw [mem_foldl_allowPermission, mem_foldl_allowPermission]
        simp only [List.not_mem_nil, false_or, normalizePermission]
        constructor
        · rintro (⟨_, h⟩ | ⟨_, h⟩)
          · exact Or.inr h
          · exact Or.inl h
        · rintro (h | h)
          · exact Or.inr ⟨hx, h⟩
          · exact Or.inl ⟨hx, h⟩
      by_cases hin : normalizePermission required ∈ List.foldl allowPermission
                (List.foldl allowPermission []
                  (defaultRolePermissions (TrimSpace (ToLower roleName)))) rolePermissions
      · simp only [hin, if_true, true_iff]
        exact Or.inl ((key _ hreq).1 hin)
      · simp only [hin, if_false, decide_eq_true_eq]
        rw [key _ hadm]
        constructor
        · intro h; exact Or.inr h
        · rintro (h | h)
          · exact absurd ((key _ hreq).2 h) hin
          · exact h

/-- C9: `roleHasPermission(role, perms, required)` is true exactly when the
normal form of `required` is non-empty and the normal form of `role` is
`owner`, or the normal form of `required` or `admin` occurs among the
normalised stored permissions together with the defaults of the normalised
role.  Hence a role whose permissions contain `admin` is granted every
non-blank permission, and the answer does not change when the role, the stored
permissions and the required permission are replaced by their normal forms. -/
theorem C9_roleHasPermission_spec (roleName : String) (rolePermissions : List String)
    (required : String) :
    (roleHasPermission roleName rolePermissions required = true ↔
      norm required ≠ "" ∧
      (norm roleName = "owner" ∨
        norm required ∈
          (rolePermissions ++ defaultRolePermissions (norm roleName)).map norm ∨
        "admin" ∈
          (rolePermissions ++ defaultRolePermissions (norm roleName)).map norm)) ∧
    ("admin" ∈ rolePermissions.map norm → norm required ≠ "" →
      roleHasPermission roleName rolePermissions required = true) ∧
    roleHasPermission roleName rolePermissions required =
      roleHasPermission (norm roleName) (rolePermissions.map norm) (norm required) := by
  have hn : norm = normalizePermission := funext norm_eq_normalizePermission
  rw [hn]
  refine ⟨roleHasPermission_iff _ _ _, ?_, ?_⟩
  · intro hadm hreq
    rw [roleHasPermission_iff]
    refine ⟨hreq, Or.inr (Or.inr ?_)⟩
    rw [List.map_append]
    exact List.mem_append_left _ hadm
  · rw [Bool.eq_iff_iff, roleHasPermission_iff, roleHasPermission_iff]
    simp only [normalizePermission_idem, List.map_append, List.map_map]
    have hcomp : (normalizePermission ∘ normalizePermission) = normalizePermission :=
      funext normalizePermission_idem
    rw [hcomp]

/-- C10 (counterexample): the default `admin` role is denied the `admin`
permission, which a role holding the `admin` permission is granted. -/
theorem C10_counterexample :
    ("member" : String) ≠ "owner" ∧
    roleHasPermission "admin" [] "admin" = false ∧
    roleHasPermission "member" ["admin"] "admin" = true ∧
    roleHasPermission "admin" [] "foo" = false ∧
    roleHasPermission "member" ["admin"] "foo" = true := by decide

/-- C10 (amended): a role holding the `admin` permission is granted exactly
the non-blank permissions; the default `admin` role is granted exactly the
ten vocabulary permissions other than `admin`; so the two agree on every
required permission whose normal form is one of those ten (and on blank ones),
and differ on every other. -/
theorem C10_admin_defaults_vs_admin_permission (r required : String) :
    roleHasPermission r ["admin"] required = decide (norm required ≠ "") ∧
    roleHasPermission "admin" [] required =
      decide (norm required ∈ defaultRolePermissions "admin") ∧
    (roleHasPermission "admin" [] required = roleHasPermission r ["admin"] required ↔
      (norm required = "" ∨ norm required ∈ defaultRolePermissions "admin")) := by
  have hn : norm = normalizePermission := funext norm_eq_normalizePermission
  rw [hn]
  have h1 : roleHasPermission r ["admin"] required
      = decide (normalizePermission required ≠ "") := by
    rw [Bool.eq_iff_iff, roleHasPermission_iff]
    simp only [decide_eq_true_eq, ne_eq, List.map_append, List.map_cons, List.mem_append,
      List.mem_cons]
    constructor
    · intro h; exact h.1
    · intro h
      refine ⟨h, Or.inr (Or.inr (Or.inl (Or.inl ?_)))⟩
      decide
  have hdef : (defaultRolePermissions "admin").map normalizePermission
      = defaultRolePermissions "admin" := by decide
  have hnadm : normalizePermission "admin" = "admin" := by decide
  have hnot : ("admin" : String) ∉ defaultRolePermissions "admin" := by decide
  have hblank : ("" : String) ∉ defaultRolePermissions "admin" := by decide
  have h2 : roleHasPermission "admin" [] required
      = decide (normalizePermission required ∈ defaultRolePermissions "admin") := by
    rw [Bool.eq_iff_iff, roleHasPermission_iff]
    simp only [decide_eq_true_eq, hnadm, List.nil_append, hdef]
    constructor
    · rintro ⟨_, h | h | h⟩
      · exact absurd h (by decide)
      · exact h
      · exact absurd h hnot
    · intro h
      refine ⟨?_, Or.inr (Or.inl h)⟩
      intro hb
      rw [hb] at h
      exact hblank h
  refine ⟨h1, h2, ?_⟩
  rw [h1, h2]
  by_cases hb : normalizePermission required = ""
  · simp [hb, hblank]
  · simp [hb]

/-! ## Lexicographic order -/

theorem char_lt_iff (c d : Char) : c.toNat < d.toNat ↔ c < d := Iff.rfl

theorem ltChars_iff_lt : ∀ a b : List Char, ltChars a b = true ↔ List.lt a b := by
  intro a
  induction a with
  | nil =>
    intro b
    cases b with
    | nil =>
      simp only [ltChars, Bool.false_eq_true, false_iff]
      intro h
      cases h
    | cons d ds =>
      simp only [ltChars, true_iff]
      exact List.lt.nil d ds
  | cons c cs ih =>
    intro b
    cases b with
    | nil =>
      simp only [ltChars, Bool.false_eq_true, false_iff]
      intro h
      cases h
    | cons d ds =>
      simp only [ltChars, char_lt_iff]
      constructor
      · intro h
        by_cases h1 : c < d
        · exact List.lt.head cs ds h1
        · by_cases h2 : d < c
          · simp [h1, h2] at h
          · simp only [h1, h2, if_false] at h
            exact List.lt.tail h1 h2 ((ih ds).1 h)
      · intro h
        cases h with
        | head _ _ h1 => simp [h1]
        | tail h1 h2 h3 =>
          simp only [h1, h2, if_false]
          exact (ih ds).2 h3

theorem ltChars_data_iff (a b : String) : ltChars a.data b.data = true ↔ a < b :=
  (ltChars_iff_lt a.data b.data).trans
    ((List.lt_iff_lex_lt a.data b.data).trans String.lt_iff_toList_lt.symm)

theorem ltChars_irrefl (a : String) : ltChars a.data a.data = false := by
  have h := ltChars_data_iff a a
  cases hc : ltChars a.data a.data with
  | false => rfl
  | true => exact absurd (h.1 hc) (lt_irrefl a)

theorem stringsCompare_eq_neg_one (a b : String) : stringsCompare a b = -1 ↔ a < b := by
  unfold stringsCompare
  by_cases h : ltChars a.data b.data = true
  · simp [h, (ltChars_data_iff a b).1 h]
  · have h2 : ¬ a < b := fun hlt => h ((ltChars_data_iff a b).2 hlt)
    by_cases he : a = b
    · subst he
      simp [ltChars_irrefl]
    · simp [h, h2, he]

theorem stringsCompare_eq_one (a b : String) : stringsCompare a b = 1 ↔ b < a := by
  unfold stringsCompare
  by_cases h : ltChars a.data b.data = true
  · have h1 := (ltChars_data_iff a b).1 h
    simp [h, not_lt_of_gt h1]
  · have h2 : ¬ a < b := fun hlt => h ((ltChars_data_iff a b).2 hlt)
    by_cases he : a = b
    · subst he
      simp [ltChars_irrefl]
    · have hf : ltChars a.data b.data = false := by simpa using h
      simp only [hf, he, if_false, Bool.false_eq_true, true_iff]
      rcases lt_trichotomy a b with h3 | h3 | h3
      · exact absurd h3 h2
      · exact absurd h3 he
      · exact h3

/-- What `compareReplaceableVersion` returns on ids that are their own normal form. -/
theorem compareReplaceableVersion_pos (tA : Int) (idA : String) (tB : Int) (idB : String)
    (hA : ToLower (TrimSpace idA) = idA) (hB : ToLower (TrimSpace idB) = idB) :
    (compareReplaceableVersion tA idA tB idB = 1 ↔ (tB < tA ∨ (tA = tB ∧ idA < idB))) ∧
    (compareReplaceableVersion tA idA tB idB = -1 ∨ compareReplaceableVersion tA idA tB idB = 0 ↔
      (tA < tB ∨ (tA = tB ∧ idB ≤ idA))) := by
  unfold compareReplaceableVersion
  simp only [hA, hB]
  by_cases h1 : tA > tB
  · have : ¬ tA < tB := by omega
    have : ¬ tA = tB := by omega
    simp [*]
  · by_cases h2 : tA < tB
    · simp only [if_neg h1, if_pos h2]
      refine ⟨⟨fun h => absurd h (by decide), ?_⟩, ⟨fun _ => Or.inl h2, fun _ => by simp⟩⟩
      rintro (h | ⟨h, _⟩) <;> omega
    · have heq : tA = tB := by omega
      subst heq
      simp only [h1, h2, if_false, lt_self_iff_false, false_or, true_and]
      by_cases c1 : stringsCompare idA idB = -1
      · have := (stringsCompare_eq_neg_one _ _).1 c1
        simp [c1, this, not_le_of_gt this]
      · have n1 : ¬ idA < idB := fun h => c1 ((stringsCompare_eq_neg_one _ _).2 h)
        by_cases c2 : stringsCompare idA idB = 1
        · have := (stringsCompare_eq_one _ _).1 c2
          simp [c1, c2, n1, le_of_lt this]
        · simp [c1, c2, n1, not_lt.1 n1]

/-! ## Replaceable upsert -/

theorem compareReplaceableVersion_cases (tA : Int) (idA : String) (tB : Int) (idB : String) :
    compareReplaceableVersion tA idA tB idB = 1 ∨
    compareReplaceableVersion tA idA tB idB = -1 ∨
    compareReplaceableVersion tA idA tB idB = 0 := by
  unfold compareReplaceableVersion
  simp only []
  split
  · exact Or.inl rfl
  · split
    · exact Or.inr (Or.inl rfl)
    · split
      · exact Or.inl rfl
      · split
        · exact Or.inr (Or.inl rfl)
        · exact Or.inr (Or.inr rfl)

theorem insertEventTx_after_delete (db : EventStore) (ev : Event) :
    ∃ db2, insertEventTx (deleteEventRow db ev.ID) ev = .ok db2 ∧
      db2.events = db.events.filter (fun e => e.ID ≠ ev.ID) ++ [ev] := by
  have h : (deleteEventRow db ev.ID).events.any (fun e => e.ID = ev.ID) = false := by
    simp [deleteEventRow]
  unfold insertEventTx
  rw [h]
  exact ⟨_, rfl, rfl⟩

theorem upsertLatestEventTx_nil (db : EventStore) (ev : Event) :
    ∃ db2, upsertLatestEventTx db ev [] = .ok db2 ∧
      db2.events = db.events.filter (fun e => e.ID ≠ ev.ID) ++ [ev] := by
  unfold upsertLatestEventTx
  simp only [List.foldl_nil, Bool.false_and, Bool.false_eq_true, if_false]
  exact insertEventTx_after_delete (deleteTagRows db ev.ID) ev

theorem upsertLatestEventTx_keep (db : EventStore) (ev b : Event)
    (h : compareReplaceableVersion ev.CreatedAt ev.ID b.CreatedAt b.ID = -1 ∨
         compareReplaceableVersion ev.CreatedAt ev.ID b.CreatedAt b.ID = 0) :
    upsertLatestEventTx db ev [(b.ID, b.CreatedAt)] = .ok db := by
  unfold upsertLatestEventTx
  simp only [List.foldl_cons, List.foldl_nil, scanRow, Bool.not_false, Bool.true_or, if_true]
  by_cases hne : b.ID = ev.ID
  · rw [hne] at h
    rcases h with h | h <;> simp [hne, h]
  · rcases h with h | h <;> simp [hne, h]

theorem upsertLatestEventTx_replace (db : EventStore) (ev b : Event)
    (h : compareReplaceableVersion ev.CreatedAt ev.ID b.CreatedAt b.ID = 1)
    (hne : b.ID ≠ ev.ID) :
    ∃ db2, upsertLatestEventTx db ev [(b.ID, b.CreatedAt)] = .ok db2 ∧
      db2.events =
        (db.events.filter (fun e => e.ID ≠ b.ID)).filter (fun e => e.ID ≠ ev.ID) ++ [ev] := by
  unfold upsertLatestEventTx
  simp only [List.foldl_cons, List.foldl_nil, scanRow, Bool.not_false, Bool.true_or, if_true,
    hne, ne_eq, not_false_eq_true, List.nil_append, h]
  simp only [show ((1 : Int) = -1) = False from by decide,
    show ((1 : Int) = 0) = False from by decide, decide_False, Bool.or_self, Bool.and_false,
    Bool.false_eq_true, if_false]
  exact insertEventTx_after_delete (deleteTagRows (deleteEventRow db b.ID) ev.ID) ev

theorem atAddress_iff (pk : String) (k : Int) (e : Event) :
    atAddress pk k e = true ↔ e.PubKey = pk ∧ e.Kind = k := by
  simp [atAddress]

theorem notWorse_refl (e : Event) : notWorse e e := Or.inr ⟨rfl, le_refl _⟩

theorem notWorse_of_better (ev b e : Event)
    (h1 : b.CreatedAt < ev.CreatedAt ∨ (ev.CreatedAt = b.CreatedAt ∧ ev.ID < b.ID))
    (h2 : notWorse b e) : notWorse ev e := by
  rcases h1 with h1 | ⟨h1, h1b⟩ <;> rcases h2 with h2 | ⟨h2, h2b⟩
  · exact Or.inl (by omega)
  · exact Or.inl (by omega)
  · exact Or.inl (by omega)
  · exact Or.inr ⟨by omega, le_of_lt (lt_of_lt_of_le h1b h2b)⟩

/-- The invariant survives the insert branch of the upsert: the rows at the
event's address are removed, the rows elsewhere are kept, and the event is
not worse than any event seen at its address. -/
theorem replaceableInv_insert (seen events : List Event) (ev : Event) (keep : Event → Bool)
    (hkeepOther : ∀ e ∈ events, atAddress ev.PubKey ev.Kind e = false → keep e = true)
    (hkeepSame : ∀ e ∈ events, atAddress ev.PubKey ev.Kind e = true → keep e = false)
    (hdom : ∀ e ∈ seen, atAddress ev.PubKey ev.Kind e = true → notWorse ev e)
    (hinv : replaceableInv seen events) :
    replaceableInv (seen ++ [ev]) (events.filter keep ++ [ev]) := by
  obtain ⟨hsub, hbest⟩ := hinv
  refine ⟨?_, ?_⟩
  · intro e he
    rcases List.mem_append.1 he with he | he
    · exact List.mem_append_left _ (hsub e (List.mem_filter.1 he).1)
    · exact List.mem_append_right _ he
  · intro pk k hex
    by_cases hat : atAddress pk k ev = true
    · have hpk := (atAddress_iff pk k ev).1 hat
      obtain ⟨hp, hk⟩ := hpk
      subst hp; subst hk
      refine ⟨ev, List.mem_append_right _ (List.mem_singleton.2 rfl), hat, ?_, ?_⟩
      · intro e he hae
        rcases List.mem_append.1 he with he | he
        · exact hdom e he hae
        · rw [List.mem_singleton.1 he]; exact notWorse_refl ev
      · rw [List.filter_append, List.filter_filter]
        have h1 : List.filter (fun a => atAddress ev.PubKey ev.Kind a && keep a) events = [] := by
          rw [List.filter_eq_nil_iff]
          intro e he
          by_cases hae : atAddress ev.PubKey ev.Kind e = true
          · simp [hae, hkeepSame e he hae]
          · simp [hae]
        rw [h1]
        simp [hat]
    · have hat2 : atAddress pk k ev = false := by simpa using hat
      obtain ⟨e0, he0, hae0⟩ := hex
      have he0s : e0 ∈ seen := by
        rcases List.mem_append.1 he0 with h | h
        · exact h
        · rw [List.mem_singleton.1 h] at hae0; exact absurd hae0 hat
      obtain ⟨b, hb, hab, hbdom, hbf⟩ := hbest pk k ⟨e0, he0s, hae0⟩
      refine ⟨b, List.mem_append_left _ hb, hab, ?_, ?_⟩
      · intro e he hae
        rcases List.mem_append.1 he with he | he
        · exact hbdom e he hae
        · rw [List.mem_singleton.1 he] at hae; exact absurd hae hat
      · rw [List.filter_append, List.filter_filter]
        have h1 : List.filter (fun a => atAddress pk k a && keep a) events
            = List.filter (atAddress pk k) events := by
          apply List.filter_congr
          intro e he
          by_cases hae : atAddress pk k e = true
          · have hne : atAddress ev.PubKey ev.Kind e = false := by
              cases hc : atAddress ev.PubKey ev.Kind e with
              | false => rfl
              | true =>
                have h3 := (atAddress_iff _ _ _).1 hc
                have h4 := (atAddress_iff _ _ _).1 hae
                exfalso
                apply hat
                rw [atAddress_iff]
                exact ⟨h3.1.symm.trans h4.1 |>.symm ▸ rfl, h3.2.symm.trans h4.2 |>.symm ▸ rfl⟩
            simp [hae, hkeepOther e he hne]
          · simp [hae]
        rw [h1, hbf]
        simp [hat2]

theorem replaceableInv_keep (seen events : List Event) (ev b : Event)
    (hb : events.filter (atAddress ev.PubKey ev.Kind) = [b])
    (hdom : notWorse b ev)
    (hinv : replaceableInv seen events) :
    replaceableInv (seen ++ [ev]) events := by
  obtain ⟨hsub, hbest⟩ := hinv
  refine ⟨fun e he => List.mem_append_left _ (hsub e he), ?_⟩
  intro pk k hex
  by_cases hat : atAddress pk k ev = true
  · obtain ⟨hp, hk⟩ := (atAddress_iff pk k ev).1 hat
    subst hp; subst hk
    have hbmem : b ∈ events.filter (atAddress ev.PubKey ev.Kind) := by
      rw [hb]; exact List.mem_singleton.2 rfl
    obtain ⟨hbe, hba⟩ := List.mem_filter.1 hbmem
    obtain ⟨b2, hb2, hab2, hdom2, hf2⟩ := hbest _ _ ⟨b, hsub b hbe, hba⟩
    have hbb : b2 = b := by
      rw [hb] at hf2
      exact (List.cons.inj hf2).1.symm
    subst hbb
    refine ⟨b2, List.mem_append_left _ hb2, hab2, ?_, hf2⟩
    intro e he hae
    rcases List.mem_append.1 he with he | he
    · exact hdom2 e he hae
    · rw [List.mem_singleton.1 he]; exact hdom
  · obtain ⟨e0, he0, hae0⟩ := hex
    have he0s : e0 ∈ seen := by
      rcases List.mem_append.1 he0 with h | h
      · exact h
      · rw [List.mem_singleton.1 h] at hae0; exact absurd hae0 hat
    obtain ⟨b2, hb2, hab2, hdom2, hf2⟩ := hbest pk k ⟨e0, he0s, hae0⟩
    refine ⟨b2, List.mem_append_left _ hb2, hab2, ?_, hf2⟩
    intro e he hae
    rcases List.mem_append.1 he with he | he
    · exact hdom2 e he hae
    · rw [List.mem_singleton.1 he] at hae; exact absurd hae hat

/-- One call of `UpsertReplaceableEvent` succeeds and keeps the invariant. -/
theorem UpsertReplaceableEvent_step (seen : List Event) (db : EventStore) (ev : Event)
    (hid : ∀ e1 ∈ seen ++ [ev], ∀ e2 ∈ seen ++ [ev], e1.ID = e2.ID → e1 = e2)
    (hnorm : ∀ e ∈ seen ++ [ev], ToLower (TrimSpace e.ID) = e.ID)
    (hinv : replaceableInv seen db.events) :
    ∃ db2, UpsertReplaceableEvent db ev = .ok db2 ∧
      replaceableInv (seen ++ [ev]) db2.events := by
  have hevm : ev ∈ seen ++ [ev] := List.mem_append_right _ (List.mem_singleton.2 rfl)
  have hsub := hinv.1
  unfold UpsertReplaceableEvent
  simp only []
  by_cases hex : ∃ e ∈ seen, atAddress ev.PubKey ev.Kind e = true
  · obtain ⟨b, hb, hab, hdom, hf⟩ := hinv.2 _ _ hex
    have hbm : b ∈ seen ++ [ev] := List.mem_append_left _ hb
    rw [hf]
    simp only [List.map_cons, List.map_nil]
    have hcmp := compareReplaceableVersion_pos ev.CreatedAt ev.ID b.CreatedAt b.ID
      (hnorm ev hevm) (hnorm b hbm)
    rcases compareReplaceableVersion_cases ev.CreatedAt ev.ID b.CreatedAt b.ID with hc | hc
    · have hbetter := hcmp.1.1 hc
      have hne : b.ID ≠ ev.ID := by
        intro h
        have hbe : b = ev := hid b hbm ev hevm h
        rw [hbe] at hbetter
        rcases hbetter with h1 | ⟨_, h1⟩
        · exact lt_irrefl _ h1
        · exact lt_irrefl _ h1
      obtain ⟨db2, h1, h2⟩ := upsertLatestEventTx_replace db ev b hc hne
      refine ⟨db2, h1, ?_⟩
      rw [h2, List.filter_filter]
      apply replaceableInv_insert seen db.events ev _ ?_ ?_ ?_ hinv
      · intro e he hae
        have hes : e ∈ seen ++ [ev] := List.mem_append_left _ (hsub e he)
        have h3 : e.ID ≠ ev.ID := by
          intro h
          have := hid e hes ev hevm h
          rw [this] at hae
          simp [atAddress] at hae
        have h4 : e.ID ≠ b.ID := by
          intro h
          have := hid e hes b hbm h
          rw [this, hab] at hae
          exact Bool.noConfusion hae
        simp [h3, h4]
      · intro e he hae
        have hem : e ∈ db.events.filter (atAddress ev.PubKey ev.Kind) :=
          List.mem_filter.2 ⟨he, hae⟩
        rw [hf] at hem
        rw [List.mem_singleton.1 hem]
        simp
      · intro e he hae
        refine notWorse_of_better ev b e ?_ (hdom e he hae)
        rcases hbetter with h | ⟨h, h5⟩
        · exact Or.inl h
        · exact Or.inr ⟨h, h5⟩
    · rw [upsertLatestEventTx_keep db ev b hc]
      refine ⟨db, rfl, replaceableInv_keep seen db.events ev b hf ?_ hinv⟩
      rcases hcmp.2.1 hc with h | ⟨h, h5⟩
      · exact Or.inl h
      · exact Or.inr ⟨h, h5⟩
  · have hnil : db.events.filter (atAddress ev.PubKey ev.Kind) = [] := by
      rw [List.filter_eq_nil_iff]
      intro e he hae
      exact hex ⟨e, hsub e he, hae⟩
    rw [hnil]
    simp only [List.map_nil]
    obtain ⟨db2, h1, h2⟩ := upsertLatestEventTx_nil db ev
    refine ⟨db2, h1, ?_⟩
    rw [h2]
    apply replaceableInv_insert seen db.events ev _ ?_ ?_ ?_ hinv
    · intro e he hae
      have hes : e ∈ seen ++ [ev] := List.mem_append_left _ (hsub e he)
      have h3 : e.ID ≠ ev.ID := by
        intro h
        have := hid e hes ev hevm h
        rw [this] at hae
        simp [atAddress] at hae
      simp [h3]
    · intro e he hae
      exact absurd ⟨e, hsub e he, hae⟩ hex
    · intro e he hae
      exact absurd ⟨e, he, hae⟩ hex

/-- A run of `UpsertReplaceableEvent` calls succeeds and keeps the invariant. -/
theorem UpsertReplaceableEvent_run (rest : List Event) :
    ∀ (seen : List Event) (db : EventStore),
      (∀ e1 ∈ seen ++ rest, ∀ e2 ∈ seen ++ rest, e1.ID = e2.ID → e1 = e2) →
      (∀ e ∈ seen ++ rest, ToLower (TrimSpace e.ID) = e.ID) →
      replaceableInv seen db.events →
      ∃ db2, rest.foldlM UpsertReplaceableEvent db = .ok db2 ∧
        replaceableInv (seen ++ rest) db2.events := by
  induction rest with
  | nil =>
    intro seen db _ _ hinv
    exact ⟨db, rfl, by simpa using hinv⟩
  | cons ev rest ih =>
    intro seen db hid hnorm hinv
    have hsubl : ∀ e, e ∈ seen ++ [ev] → e ∈ seen ++ ev :: rest := by
      intro e he
      rcases List.mem_append.1 he with h | h
      · exact List.mem_append_left _ h
      · exact List.mem_append_right _ (by rw [List.mem_singleton.1 h]; exact List.mem_cons_self _ _)
    obtain ⟨db1, h1, hinv1⟩ := UpsertReplaceableEvent_step seen db ev
      (fun e1 h1 e2 h2 => hid e1 (hsubl e1 h1) e2 (hsubl e2 h2))
      (fun e h => hnorm e (hsubl e h)) hinv
    have heq : seen ++ ev :: rest = (seen ++ [ev]) ++ rest := by simp
    rw [heq] at hid hnorm ⊢
    obtain ⟨db2, h2, hinv2⟩ := ih (seen ++ [ev]) db1 hid hnorm hinv1
    refine ⟨db2, ?_, hinv2⟩
    rw [List.foldlM_cons, h1]
    exact h2

/-- C1: a run of `UpsertReplaceableEvent` calls on the empty store, over
events that are identical when they share an id and whose ids carry no
uppercase letters or surrounding whitespace, succeeds, and afterwards every
`(pubkey, kind)` at which an event was upserted holds exactly one stored
event: the upserted one with the greatest `created_at`, the
lexicographically smallest id breaking ties. -/
theorem C1_replaceable_upsert_keeps_best (evs : List Event)
    (hid : ∀ e1 ∈ evs, ∀ e2 ∈ evs, e1.ID = e2.ID → e1 = e2)
    (hnorm : ∀ e ∈ evs, ToLower e.ID = e.ID ∧ TrimSpace e.ID = e.ID) :
    ∃ db, evs.foldlM UpsertReplaceableEvent EventStore.empty = .ok db ∧
      ∀ (pk : String) (k : Int), (∃ e ∈ evs, e.PubKey = pk ∧ e.Kind = k) →
        ∃ b ∈ evs, b.PubKey = pk ∧ b.Kind = k ∧
          (∀ e ∈ evs, e.PubKey = pk → e.Kind = k →
            e.CreatedAt < b.CreatedAt ∨ (e.CreatedAt = b.CreatedAt ∧ b.ID ≤ e.ID)) ∧
          db.events.filter (fun e => e.PubKey = pk ∧ e.Kind = k) = [b] := by
  have hinv0 : replaceableInv [] EventStore.empty.events := by
    refine ⟨fun e he => absurd he (List.not_mem_nil e), ?_⟩
    rintro pk k ⟨e, he, _⟩
    cases he
  obtain ⟨db, hrun, hsub, hbest⟩ := UpsertReplaceableEvent_run evs [] EventStore.empty
    (by simpa using hid)
    (by
      intro e he
      have := hnorm e (by simpa using he)
      rw [this.2, this.1])
    hinv0
  refine ⟨db, hrun, ?_⟩
  intro pk k hex
  obtain ⟨e0, he0, hp0, hk0⟩ := hex
  obtain ⟨b, hb, hab, hdom, hf⟩ := hbest pk k
    ⟨e0, by simpa using he0, (atAddress_iff pk k e0).2 ⟨hp0, hk0⟩⟩
  obtain ⟨hbp, hbk⟩ := (atAddress_iff pk k b).1 hab
  refine ⟨b, by simpa using hb, hbp, hbk, ?_, hf⟩
  intro e he hp hk
  exact hdom e (by simpa using he) ((atAddress_iff pk k e).2 ⟨hp, hk⟩)

/-- C1 (witness): the run of the repository's integration test, `r1`, then the
older `r0-old`, then `r0` with the same timestamp and a smaller id, then the
newer `r2`. -/
theorem C1_replaceable_upsert_witness :
    ∃ db, [(⟨"r1", "alice", 100, 0, [], "v1", "sig"⟩ : Event),
           ⟨"r0-old", "alice", 99, 0, [], "old", "sig"⟩,
           ⟨"r0", "alice", 100, 0, [], "tie-lower-id", "sig"⟩,
           ⟨"r2", "alice", 101, 0, [], "newest", "sig"⟩].foldlM
          UpsertReplaceableEvent EventStore.empty = .ok db ∧
      ∀ (pk : String) (k : Int),
        (∃ e ∈ [(⟨"r1", "alice", 100, 0, [], "v1", "sig"⟩ : Event),
           ⟨"r0-old", "alice", 99, 0, [], "old", "sig"⟩,
           ⟨"r0", "alice", 100, 0, [], "tie-lower-id", "sig"⟩,
           ⟨"r2", "alice", 101, 0, [], "newest", "sig"⟩], e.PubKey = pk ∧ e.Kind = k) →
        ∃ b ∈ [(⟨"r1", "alice", 100, 0, [], "v1", "sig"⟩ : Event),
           ⟨"r0-old", "alice", 99, 0, [], "old", "sig"⟩,
           ⟨"r0", "alice", 100, 0, [], "tie-lower-id", "sig"⟩,
           ⟨"r2", "alice", 101, 0, [], "newest", "sig"⟩], b.PubKey = pk ∧ b.Kind = k ∧
          (∀ e ∈ [(⟨"r1", "alice", 100, 0, [], "v1", "sig"⟩ : Event),
           ⟨"r0-old", "alice", 99, 0, [], "old", "sig"⟩,
           ⟨"r0", "alice", 100, 0, [], "tie-lower-id", "sig"⟩,
           ⟨"r2", "alice", 101, 0, [], "newest", "sig"⟩], e.PubKey = pk → e.Kind = k →
            e.CreatedAt < b.CreatedAt ∨ (e.CreatedAt = b.CreatedAt ∧ b.ID ≤ e.ID)) ∧
          db.events.filter (fun e => e.PubKey = pk ∧ e.Kind = k) = [b] :=
  C1_replaceable_upsert_keeps_best _ (by decide) (by decide)

/-! ## Parameterized replaceable upsert -/

/-- C2 (the code at the failing inputs): two kind-30000 events of one author
whose only `d` tag is `" room "` both have the address `room`, yet after the
two calls `Ingest` issues both are stored, because the tag row keeps the
untrimmed value and the lookup uses the trimmed one.  And an event with the
tags `d = x`, `d = y` (address `x`) is deleted by a newer event with the
single tag `d = y` (address `y`), because the lookup matches any `d` row. -/
theorem C2_parameterized_upsert_misses_address :
    dTagValue [["d", " room "]] = "room" ∧
    ([(⟨"p1", "alice", 100, 30000, [["d", " room "]], "old", "sig"⟩ : Event),
      ⟨"p2", "alice", 101, 30000, [["d", " room "]], "new", "sig"⟩].foldlM
        upsertParameterizedAsIngest EventStore.empty).map
      (fun db => db.events.map (fun e => e.ID)) = .ok ["p1", "p2"] ∧
    dTagValue [["d", "x"], ["d", "y"]] = "x" ∧ dTagValue [["d", "y"]] = "y" ∧
    ([(⟨"q1", "alice", 100, 30000, [["d", "x"], ["d", "y"]], "", "sig"⟩ : Event),
      ⟨"q2", "alice", 101, 30000, [["d", "y"]], "", "sig"⟩].foldlM
        upsertParameterizedAsIngest EventStore.empty).map
      (fun db => db.events.map (fun e => e.ID)) = .ok ["q2"] := by
  decide

/-! ## Validation -/

theorem hexDigit_toLower (n : Nat) (h : n < 16) :
    unicodeToLower (hexDigit n) = hexDigit n := by
  interval_cases n <;> decide

theorem hexEncode_chars_lower (bytes : List UInt8) :
    List.map unicodeToLower
      (bytes.flatMap (fun b => [hexDigit (b.toNat / 16), hexDigit (b.toNat % 16)])) =
      bytes.flatMap (fun b => [hexDigit (b.toNat / 16), hexDigit (b.toNat % 16)]) := by
  induction bytes with
  | nil => rfl
  | cons b bs ih =>
    have hb : b.toNat < 256 := b.toNat_lt_size
    simp only [List.flatMap_cons, List.map_append, List.map_cons, List.map_nil, ih]
    rw [hexDigit_toLower _ (by omega), hexDigit_toLower _ (by omega)]

theorem hexEncode_lower (bytes : List UInt8) :
    ToLower (hexEncodeToString bytes) = hexEncodeToString bytes := by
  unfold ToLower hexEncodeToString
  congr 1
  exact hexEncode_chars_lower bytes

/-- An accepted event passed every check of `ValidateEvent`. -/
theorem ValidateEvent_ok (lib : Crypto) (maxSkew now : Int) (ev : Event)
    (h : ValidateEvent lib maxSkew now ev = .ok ()) :
    matchesHex 64 ev.ID = true ∧ matchesHex 64 ev.PubKey = true ∧
    matchesHex 128 ev.Sig = true ∧ ev.CreatedAt ≠ 0 ∧
    skewExceeded maxSkew now ev.CreatedAt = false ∧
    validateTags 0 ev.Tags = .ok () ∧ validateEventID lib ev = .ok () ∧
    validateSignatureFields lib ev = .ok () := by
  unfold ValidateEvent at h
  by_cases h1 : matchesHex 64 ev.ID = true
  · by_cases h2 : matchesHex 64 ev.PubKey = true
    · by_cases h3 : matchesHex 128 ev.Sig = true
      · by_cases h4 : ev.CreatedAt = 0
        · simp [h1, h2, h3, h4] at h
        · by_cases h5 : skewExceeded maxSkew now ev.CreatedAt = true
          · simp [h1, h2, h3, h4, h5] at h
          · simp only [h1, h2, h3, h4, h5, Bool.not_true, Bool.false_eq_true, if_false] at h
            cases h6 : validateTags 0 ev.Tags with
            | error e => rw [h6] at h; simp at h
            | ok u =>
              rw [h6] at h
              cases h7 : validateEventID lib ev with
              | error e => rw [h7] at h; simp at h
              | ok u2 =>
                rw [h7] at h
                simp only [] at h
                exact ⟨h1, h2, h3, h4, by simpa using h5, rfl, rfl, h⟩
      · simp [h1, h2, h3] at h
    · simp [h1, h2] at h
  · simp [h1] at h

/-- C3 (counterexample): an event whose id is the canonical id in uppercase is
accepted, and its id is not the string `ComputeEventID` returns. -/
theorem C3_counterexample :
    ValidateEvent sampleCrypto 300000000000 1700000000
      ⟨"ABABABABABABABABABABABABABABABABABABABABABABABABABABABABABABABAB",
       "aaaaaaaaaaaaaaaaaaaaaaaaaaaaaaaaaaaaaaaaaaaaaaaaaaaaaaaaaaaaaaaa",
       1700000000, 1, [], "k", sampleSig⟩ = .ok () ∧
    ComputeEventID sampleCrypto
      "aaaaaaaaaaaaaaaaaaaaaaaaaaaaaaaaaaaaaaaaaaaaaaaaaaaaaaaaaaaaaaaa"
      1700000000 1 [] "k" =
      .ok "abababababababababababababababababababababababababababababababab" ∧
    ("ABABABABABABABABABABABABABABABABABABABABABABABABABABABABABABABAB" : String) ≠
      "abababababababababababababababababababababababababababababababab" := by
  decide

/-- C3 (amended): for every event `ValidateEvent` accepts, the lowercase of
`event.ID` is exactly the string `ComputeEventID` returns for its fields. -/
theorem C3_accepted_id_matches_up_to_case (lib : Crypto) (maxSkew now : Int) (ev : Event)
    (h : ValidateEvent lib maxSkew now ev = .ok ()) :
    ComputeEventID lib ev.PubKey ev.CreatedAt ev.Kind ev.Tags ev.Content =
      .ok (ToLower ev.ID) := by
  have hid := (ValidateEvent_ok lib maxSkew now ev h).2.2.2.2.2.2.1
  unfold validateEventID at hid
  cases hc : ComputeEventID lib ev.PubKey ev.CreatedAt ev.Kind ev.Tags ev.Content with
  | error e => rw [hc] at hid; simp at hid
  | ok expected =>
    rw [hc] at hid
    simp only [] at hid
    by_cases hf : EqualFold expected ev.ID = true
    · have hlow : ToLower expected = expected := by
        unfold ComputeEventID at hc
        cases hm : lib.jsonMarshal ⟨ToLower ev.PubKey, ev.CreatedAt, ev.Kind, ev.Tags,
            ev.Content⟩ with
        | error c => rw [hm] at hc; simp at hc
        | ok enc =>
          rw [hm] at hc
          simp only [Except.ok.injEq] at hc
          rw [← hc]
          exact hexEncode_lower _
      have : ToLower expected = ToLower ev.ID := by simpa [EqualFold] using hf
      rw [← this, hlow]
    · simp [hf] at hid

/-- C3 (witness): the accepted uppercase event of the counterexample. -/
theorem C3_accepted_id_witness :
    ComputeEventID sampleCrypto
      "aaaaaaaaaaaaaaaaaaaaaaaaaaaaaaaaaaaaaaaaaaaaaaaaaaaaaaaaaaaaaaaa"
      1700000000 1 [] "k" =
      .ok (ToLower "ABABABABABABABABABABABABABABABABABABABABABABABABABABABABABABABAB") :=
  C3_accepted_id_matches_up_to_case sampleCrypto 300000000000 1700000000
    ⟨"ABABABABABABABABABABABABABABABABABABABABABABABABABABABABABABABAB",
     "aaaaaaaaaaaaaaaaaaaaaaaaaaaaaaaaaaaaaaaaaaaaaaaaaaaaaaaaaaaaaaaa",
     1700000000, 1, [], "k", sampleSig⟩ (by decide)

/-- C4 (the code at the failing input): with `maxSkew` 300 s and the clock at
1700000000, an event created 2^55 seconds earlier passes the skew test,
because the skew times `time.Second` wraps to 0 in `int64`; the event is
accepted although it is far outside the allowed skew. -/
theorem C4_skew_check_wraps :
    (1700000000 : Int) - (-36028795318963968) = 2 ^ 55 ∧
    wrap64 (2 ^ 55 * timeSecond) = 0 ∧
    skewExceeded 300000000000 1700000000 (-36028795318963968) = false ∧
    ValidateEvent sampleCrypto 300000000000 1700000000
      ⟨"abababababababababababababababababababababababababababababababab",
       "aaaaaaaaaaaaaaaaaaaaaaaaaaaaaaaaaaaaaaaaaaaaaaaaaaaaaaaaaaaaaaaa",
       -36028795318963968, 1, [], "k", sampleSig⟩ = .ok () ∧
    ¬ (|(1700000000 : Int) - (-36028795318963968)| * 1000000000 ≤ 300000000000) := by
  refine ⟨by norm_num, by norm_num [wrap64, timeSecond], ?_, by decide, by norm_num⟩
  simp only [skewExceeded, wrap64, timeSecond]
  norm_num

/-! ## Ingestion -/

/-- C5: `Ingest` is fail-fast.  When validation fails, `Ingest` returns that
error and the state is the old one with only the validation counter
incremented: no token is drawn and nothing is stored or projected.  When the
rate limiter refuses, when the PoW check fails or when a relay-only kind is
not signed by the relay, `Ingest` returns that stage's error and the state
differs from the old one only in the author's bucket and one rejection
counter: the event store with its tag index and every group table are
unchanged. -/
theorem C5_ingest_fail_fast (lib : Crypto) (cfg : IngestConfig) (clock : Clock)
    (st : RelayState) (ev : Event) :
    (∀ e, ValidateEvent lib cfg.maxSkew clock.validate ev = .error e →
      Ingest lib cfg clock st ev = (.error e, st.Inc "events_rejected_validation_total") ∧
      (Ingest lib cfg clock st ev).2.events = st.events ∧
      (Ingest lib cfg clock st ev).2.groups = st.groups ∧
      (Ingest lib cfg clock st ev).2.abuse = st.abuse) ∧
    (ValidateEvent lib cfg.maxSkew clock.validate ev = .ok () →
      (st.abuse.Allow ev.PubKey clock.allow).1 = false →
      Ingest lib cfg clock st ev =
        (.error .rateLimitExceeded,
          ({ st with abuse := (st.abuse.Allow ev.PubKey clock.allow).2 }).Inc
            "events_rejected_rate_limit_total") ∧
      (Ingest lib cfg clock st ev).2.events = st.events ∧
      (Ingest lib cfg clock st ev).2.groups = st.groups) ∧
    (∀ e, ValidateEvent lib cfg.maxSkew clock.validate ev = .ok () →
      (st.abuse.Allow ev.PubKey clock.allow).1 = true →
      ValidatePow ev ((st.abuse.Allow ev.PubKey clock.allow).2.RequiredPowBits ev.Kind)
        = .error e →
      Ingest lib cfg clock st ev =
        (.error e,
          ({ st with abuse := (st.abuse.Allow ev.PubKey clock.allow).2 }).Inc
            "events_rejected_pow_total") ∧
      (Ingest lib cfg clock st ev).2.events = st.events ∧
      (Ingest lib cfg clock st ev).2.groups = st.groups) ∧
    (ValidateEvent lib cfg.maxSkew clock.validate ev = .ok () →
      (st.abuse.Allow ev.PubKey clock.allow).1 = true →
      ValidatePow ev ((st.abuse.Allow ev.PubKey clock.allow).2.RequiredPowBits ev.Kind)
        = .ok () →
      relayOnlyKind ev.Kind = true → EqualFold ev.PubKey cfg.relayPubKey = false →
      Ingest lib cfg clock st ev =
        (.error (.relayOnlyKindSigner ev.Kind),
          ({ st with abuse := (st.abuse.Allow ev.PubKey clock.allow).2 }).Inc
            "events_rejected_validation_total") ∧
      (Ingest lib cfg clock st ev).2.events = st.events ∧
      (Ingest lib cfg clock st ev).2.groups = st.groups) := by
  refine ⟨?_, ?_, ?_, ?_⟩
  · intro e hv
    have h : Ingest lib cfg clock st ev
        = (.error e, st.Inc "events_rejected_validation_total") := by
      unfold Ingest
      rw [hv]
    rw [h]
    exact ⟨rfl, rfl, rfl, rfl⟩
  · intro hv ha
    have h : Ingest lib cfg clock st ev =
        (.error .rateLimitExceeded,
          ({ st with abuse := (st.abuse.Allow ev.PubKey clock.allow).2 }).Inc
            "events_rejected_rate_limit_total") := by
      unfold Ingest
      rw [hv]
      simp only [ha, Bool.not_false, if_true]
    rw [h]
    exact ⟨rfl, rfl, rfl⟩
  · intro e hv ha hp
    have h : Ingest lib cfg clock st ev =
        (.error e,
          ({ st with abuse := (st.abuse.Allow ev.PubKey clock.allow).2 }).Inc
            "events_rejected_pow_total") := by
      unfold Ingest
      rw [hv]
      simp only [ha, Bool.not_true, Bool.false_eq_true, if_false, hp]
    rw [h]
    exact ⟨rfl, rfl, rfl⟩
  · intro hv ha hp hr hf
    have h : Ingest lib cfg clock st ev =
        (.error (.relayOnlyKindSigner ev.Kind),
          ({ st with abuse := (st.abuse.Allow ev.PubKey clock.allow).2 }).Inc
            "events_rejected_validation_total") := by
      unfold Ingest
      rw [hv]
      simp only [ha, Bool.not_true, Bool.false_eq_true, if_false, hp, hr, hf, Bool.not_false,
        and_self, if_true]
    rw [h]
    exact ⟨rfl, rfl, rfl⟩

theorem mapGet_mapPut_self {ν : Type} (m : List (String × ν)) (key : String) (v : ν) :
    mapGet (mapPut m key v) key = some v := by
  induction m with
  | nil => simp [mapPut, mapGet]
  | cons kv rest ih =>
    obtain ⟨k, v0⟩ := kv
    by_cases h : k = key
    · simp [mapPut, mapGet, h]
    · simp [mapPut, mapGet, h, ih]

theorem mapGet_mapPut_other {ν : Type} (m : List (String × ν)) (key other : String) (v : ν)
    (hne : key ≠ other) : mapGet (mapPut m key v) other = mapGet m other := by
  induction m with
  | nil => simp [mapPut, mapGet, hne]
  | cons kv rest ih =>
    obtain ⟨k, v0⟩ := kv
    by_cases h : k = key
    · subst h
      simp [mapPut, mapGet, hne]
    · by_cases h2 : k = other
      · subst h2
        simp [mapPut, mapGet, h]
      · simp [mapPut, mapGet, h, h2, ih]

/-! ## Arithmetic of `float64` -/

theorem float64_samples :
    float64.ofInt 0 = ⟨0⟩ ∧ float64.ofInt 1 = ⟨float64.one⟩ ∧ Seconds 0 = ⟨0⟩ ∧
    bitLog 1 = 0 ∧ bitLog 7 = 2 ∧ bitLog 8 = 3 ∧ bitLog float64.one = 1074 ∧
    (float64.div (float64.ofInt 1) (float64.ofInt 10)).units
      = ((3602879701896397 * 1 <<< 1019 : Nat) : Int) ∧
    (float64.add (float64.div (float64.ofInt 1) (float64.ofInt 10))
      (float64.div (float64.ofInt 2) (float64.ofInt 10))).units
      = ((5404319552844596 * 1 <<< 1020 : Nat) : Int) := by decide

/-- The unit count of 1.0 is a power of two. -/
theorem one_eq_pow : ∃ n, 53 ≤ n ∧ float64.one = 2 ^ n := by
  have h : ∀ n : Nat, 1 <<< n = 2 ^ n := Nat.one_shiftLeft
  exact ⟨1074, by decide, h 1074⟩

theorem bitLog_fold (q : Nat) (l : List Nat) :
    ∀ e, q >>> e ≠ 0 →
      q >>> (l.foldl (fun e k => if q >>> (e + k) = 0 then e else e + k) e) ≠ 0 := by
  induction l with
  | nil => intro e h; exact h
  | cons k ks ih =>
    intro e h
    rw [List.foldl_cons]
    apply ih
    split
    · exact h
    · assumption

/-- The power of two `bitLog` finds is not above the number. -/
theorem pow_bitLog_le (q : Nat) (h : 0 < q) : 2 ^ bitLog q ≤ q := by
  have h1 : q >>> bitLog q ≠ 0 := by
    unfold bitLog
    apply bitLog_fold
    simp only [Nat.shiftRight_zero]
    omega
  rw [Nat.shiftRight_eq_div_pow] at h1
  by_contra hlt
  exact h1 (Nat.div_eq_of_lt (by omega))

theorem le_roundHalfEven (num den : Nat) : num / den ≤ roundHalfEven num den := by
  unfold roundHalfEven
  simp only []
  split_ifs <;> omega

theorem roundHalfEven_of_dvd (num den : Nat) (hd : 0 < den) (h : den ∣ num) :
    den * roundHalfEven num den = num := by
  unfold roundHalfEven
  simp only []
  have hr : num % den = 0 := Nat.mod_eq_zero_of_dvd h
  rw [hr, if_pos (by omega)]
  exact Nat.mul_div_cancel' h

/-- A whole number of tokens below `2^53` is a double. -/
theorem roundUnits_exact (k : Nat) (hk : k < 2 ^ 53) :
    roundUnits (k * float64.one) 1 = k * float64.one := by
  obtain ⟨n, hn, hU⟩ := one_eq_pow
  generalize float64.one = U at hU ⊢
  subst hU
  unfold roundUnits
  simp only [Nat.div_one]
  split
  · have := roundHalfEven_of_dvd (k * 2 ^ n) 1 (by omega) (one_dvd _)
    omega
  · rename_i hq
    have hpos : 0 < k * 2 ^ n := by
      by_contra h0
      have : k * 2 ^ n = 0 := by omega
      rw [this] at hq
      exact hq (by decide)
    have hle := pow_bitLog_le _ hpos
    have hlt : bitLog (k * 2 ^ n) < 53 + n := by
      by_contra hge
      have h2 : 2 ^ (53 + n) ≤ 2 ^ bitLog (k * 2 ^ n) :=
        Nat.pow_le_pow_right (by omega) (by omega)
      have h3 : k * 2 ^ n < 2 ^ 53 * 2 ^ n :=
        Nat.mul_lt_mul_of_pos_right hk (by positivity)
      rw [← pow_add] at h3
      omega
    rw [Nat.one_shiftLeft, one_mul]
    apply roundHalfEven_of_dvd _ _ (by positivity)
    exact Dvd.dvd.mul_left (pow_dvd_pow 2 (by omega)) k

/-- Rounding does not take a value of one or more below one. -/
theorem one_le_roundUnits (m : Nat) (h : float64.one ≤ m) : float64.one ≤ roundUnits m 1 := by
  obtain ⟨n, hn, hU⟩ := one_eq_pow
  generalize float64.one = U at hU h ⊢
  subst hU
  have hone : (2 : Nat) ^ 53 ≤ 2 ^ n := Nat.pow_le_pow_right (by omega) hn
  unfold roundUnits
  simp only [Nat.div_one]
  have hq : ¬ m < 2 ^ 53 := by omega
  rw [if_neg hq, Nat.one_shiftLeft, one_mul]
  have hle := pow_bitLog_le m (by omega)
  have hfl := le_roundHalfEven m (2 ^ (bitLog m - 52))
  have hsle : 2 ^ (bitLog m - 52) ≤ m :=
    le_trans (Nat.pow_le_pow_right (by omega) (by omega)) hle
  by_cases hj : bitLog m - 52 ≤ n
  · obtain ⟨c, hc⟩ : 2 ^ (bitLog m - 52) ∣ 2 ^ n := pow_dvd_pow 2 hj
    have hc2 : c ≤ m / 2 ^ (bitLog m - 52) := by
      rw [Nat.le_div_iff_mul_le (by positivity), mul_comm, ← hc]
      exact h
    calc 2 ^ n = 2 ^ (bitLog m - 52) * c := hc
      _ ≤ 2 ^ (bitLog m - 52) * roundHalfEven m (2 ^ (bitLog m - 52)) :=
        Nat.mul_le_mul_left _ (le_trans hc2 hfl)
  · have h1 : 1 ≤ m / 2 ^ (bitLog m - 52) := by
      rw [Nat.le_div_iff_mul_le (by positivity)]
      omega
    have h2 : 2 ^ n ≤ 2 ^ (bitLog m - 52) :=
      Nat.pow_le_pow_right (by omega) (by omega)
    calc 2 ^ n ≤ 2 ^ (bitLog m - 52) * 1 := by omega
      _ ≤ 2 ^ (bitLog m - 52) * roundHalfEven m (2 ^ (bitLog m - 52)) :=
        Nat.mul_le_mul_left _ (le_trans h1 hfl)


theorem round_nonneg (m : Nat) (den : Nat) :
    float64.round (m : Int) den = ⟨(roundUnits m den : Nat)⟩ := by
  unfold float64.round
  rw [if_neg (by omega), Int.natAbs_ofNat]

/-- The conversion of a whole number below `2^53` is exact. -/
theorem ofInt_exact (k : Nat) (hk : k < 2 ^ 53) :
    float64.ofInt (k : Int) = ⟨((k * float64.one : Nat) : Int)⟩ := by
  unfold float64.ofInt
  rw [← Int.ofNat_mul, round_nonneg, roundUnits_exact k hk]

/-- One token less than a whole number of tokens below `2^53` is exact. -/
theorem sub_one_exact (k : Nat) (hk : k + 1 < 2 ^ 53) :
    float64.sub ⟨(((k + 1) * float64.one : Nat) : Int)⟩ (float64.ofInt 1)
      = ⟨((k * float64.one : Nat) : Int)⟩ := by
  have h1 : float64.ofInt 1 = ⟨((float64.one : Nat) : Int)⟩ := float64_samples.2.1
  rw [h1]
  unfold float64.sub
  have e : (((k + 1) * float64.one : Nat) : Int) - ((float64.one : Nat) : Int)
      = ((k * float64.one : Nat) : Int) := by
    push_cast
    ring
  simp only [e]
  rw [round_nonneg, roundUnits_exact k (by omega)]

/-- The conversion of an integer that is at least one is at least one. -/
theorem one_le_ofInt (b : Int) (hb : 1 ≤ b) :
    float64.lt (float64.ofInt b) (float64.ofInt 1) = false := by
  have h1 : float64.ofInt 1 = ⟨((float64.one : Nat) : Int)⟩ := float64_samples.2.1
  rw [h1]
  obtain ⟨m, rfl⟩ := Int.eq_ofNat_of_zero_le (by omega : 0 ≤ b)
  unfold float64.ofInt
  rw [← Int.ofNat_mul, round_nonneg]
  unfold float64.lt
  simp only [decide_eq_false_iff_not, not_lt, Int.ofNat_le]
  apply one_le_roundUnits
  have : 1 ≤ m := by omega
  calc float64.one = 1 * float64.one := (one_mul _).symm
    _ ≤ m * float64.one := Nat.mul_le_mul_right _ this

theorem timeSub_self (t : Int) : timeSub t t = 0 := by
  unfold timeSub
  simp

/-- At the instant of its last refill a bucket is not refilled. -/
theorem refillBucket_instant (burst rate : Int) (x : float64) (t : Int) :
    refillBucket burst rate ⟨x, t⟩ t = ⟨x, t⟩ := by
  unfold refillBucket
  simp only [timeSub_self]
  have h : float64.lt (float64.ofInt 0) (Seconds 0) = false := by decide
  rw [h]
  rfl

theorem spendToken_instant_zero (burst rate : Int) (t : Int) :
    spendToken burst rate ⟨⟨0⟩, t⟩ t = (false, ⟨⟨0⟩, t⟩) := by
  unfold spendToken
  rw [refillBucket_instant]
  have h : float64.lt ⟨0⟩ (float64.ofInt 1) = true := by decide
  simp only [h, if_true]

theorem spendToken_instant_succ (burst rate : Int) (t : Int) (k : Nat) (hk : k + 1 < 2 ^ 53) :
    spendToken burst rate ⟨⟨(((k + 1) * float64.one : Nat) : Int)⟩, t⟩ t
      = (true, ⟨⟨((k * float64.one : Nat) : Int)⟩, t⟩) := by
  unfold spendToken
  rw [refillBucket_instant]
  have h : float64.lt ⟨(((k + 1) * float64.one : Nat) : Int)⟩ (float64.ofInt 1) = false := by
    have := one_le_ofInt ((k + 1 : Nat) : Int) (by omega)
    rw [ofInt_exact (k + 1) hk] at this
    exact this
  simp only [h, Bool.false_eq_true, if_false, sub_one_exact k hk]

/-- Calls at one instant on a bucket last refilled at that instant, holding a
whole number of tokens below `2^53`: one call is allowed per token. -/
theorem bucketCalls_instant (burst rate : Int) (t : Int) :
    ∀ (n k : Nat), k < 2 ^ 53 →
      (bucketCalls burst rate (some ⟨⟨((k * float64.one : Nat) : Int)⟩, t⟩)
        (List.replicate n t)).1.count true = min n k := by
  intro n
  induction n with
  | zero => intro k _; simp [bucketCalls]
  | succ n ih =>
    intro k hk
    simp only [List.replicate_succ, bucketCalls, Option.getD_some]
    cases k with
    | zero =>
      have hz : (⟨((0 * float64.one : Nat) : Int)⟩ : float64) = ⟨0⟩ := by simp
      rw [hz, spendToken_instant_zero]
      have := ih 0 (by decide)
      rw [hz] at this
      simp only [List.count_cons_of_ne (by decide : true ≠ false)] at this ⊢
      rw [this]
      simp
    | succ k =>
      rw [spendToken_instant_succ burst rate t k hk]
      simp only [List.count_cons_self]
      rw [ih k (by omega)]
      omega

/-! ## `Allow` on the bucket of the key -/

theorem Allow_eq_spendToken (a : AbuseControls) (key : String) (now : Int) :
    a.Allow key now =
      ((spendToken a.burst a.sustainedPerMinute
          ((mapGet a.buckets key).getD ⟨float64.ofInt a.burst, now⟩) now).1,
        AbuseControls.mk a.burst a.sustainedPerMinute a.defaultPowBits
          (mapPut a.buckets key (spendToken a.burst a.sustainedPerMinute
            ((mapGet a.buckets key).getD ⟨float64.ofInt a.burst, now⟩) now).2)) := by
  unfold AbuseControls.Allow spendToken refillBucket
  cases mapGet a.buckets key with
  | none =>
    simp only [Option.getD_none]
    split_ifs <;> rfl
  | some b =>
    simp only [Option.getD_some]
    split_ifs <;> rfl

theorem Allow_burst (a : AbuseControls) (key : String) (now : Int) :
    (a.Allow key now).2.burst = a.burst ∧
    (a.Allow key now).2.sustainedPerMinute = a.sustainedPerMinute := by
  rw [Allow_eq_spendToken]
  exact ⟨rfl, rfl⟩

theorem Allow_bucket_self (a : AbuseControls) (key : String) (now : Int) :
    mapGet (a.Allow key now).2.buckets key =
      some (spendToken a.burst a.sustainedPerMinute
        ((mapGet a.buckets key).getD ⟨float64.ofInt a.burst, now⟩) now).2 := by
  rw [Allow_eq_spendToken]
  exact mapGet_mapPut_self _ _ _

theorem Allow_bucket_other (a : AbuseControls) (key other : String) (now : Int)
    (h : other ≠ key) :
    mapGet (a.Allow other now).2.buckets key = mapGet a.buckets key := by
  rw [Allow_eq_spendToken]
  exact mapGet_mapPut_other _ _ _ _ h

/-- A key without a bucket is allowed when the burst is at least one, and its
new bucket holds one token less than the burst. -/
theorem Allow_fresh (a : AbuseControls) (key : String) (now : Int)
    (hnone : mapGet a.buckets key = none) (hb : 1 ≤ a.burst) :
    a.Allow key now =
      (true, AbuseControls.mk a.burst a.sustainedPerMinute a.defaultPowBits
        (mapPut a.buckets key
          ⟨float64.sub (float64.ofInt a.burst) (float64.ofInt 1), now⟩)) := by
  rw [Allow_eq_spendToken, hnone]
  simp only [Option.getD_none]
  unfold spendToken
  rw [refillBucket_instant, one_le_ofInt a.burst hb]
  rfl

/-- Two keys that differ as strings draw from two buckets: with no bucket for
either and a burst of at least one, both are allowed at the same instant,
whatever the burst. -/
theorem Allow_two_spellings (a : AbuseControls) (k1 k2 : String) (now : Int)
    (h1 : mapGet a.buckets k1 = none) (h2 : mapGet a.buckets k2 = none)
    (hne : k1 ≠ k2) (hb : 1 ≤ a.burst) :
    (a.Allow k1 now).1 = true ∧ ((a.Allow k1 now).2.Allow k2 now).1 = true := by
  rw [Allow_fresh a k1 now h1 hb]
  refine ⟨rfl, ?_⟩
  have h3 := Allow_fresh
    (AbuseControls.mk a.burst a.sustainedPerMinute a.defaultPowBits
      (mapPut a.buckets k1 ⟨float64.sub (float64.ofInt a.burst) (float64.ofInt 1), now⟩)) k2 now
    (by simpa [mapGet_mapPut_other _ _ _ _ hne] using h2) hb
  simp only [h3]

/-- `Ingest` of an ephemeral event that passes every check, with no
projection attached: accepted, and only the author's bucket changes. -/
theorem Ingest_ephemeral (lib : Crypto) (cfg : IngestConfig) (clock : Clock)
    (st : RelayState) (ev : Event) (a2 : AbuseControls)
    (hv : ValidateEvent lib cfg.maxSkew clock.validate ev = .ok ())
    (ha : st.abuse.Allow ev.PubKey clock.allow = (true, a2))
    (hp : ValidatePow ev (a2.RequiredPowBits ev.Kind) = .ok ())
    (hr : relayOnlyKind ev.Kind = false)
    (hm : eventStorageMode ev.Kind = .storageModeEphemeral)
    (hproj : cfg.projection = none) :
    Ingest lib cfg clock st ev = (.ok (), { st with abuse := a2 }) := by
  unfold Ingest
  rw [hv]
  simp only [ha, Bool.not_true, Bool.false_eq_true, if_false, hp, hr, false_and, storeEvent,
    hm, hproj]

/-- C6 (the code at the failing input): with a burst of 1, an event of the key
`aa..a` and, at the same instant, the same event with the key spelled
`AA..A` are both accepted by `Ingest`, while a second event under the first
spelling is refused: the bucket is chosen by the spelling of the pubkey. -/
theorem C6_rate_limit_keyed_by_spelling :
    EqualFold sampleNote.PubKey sampleNoteUpper.PubKey = true ∧
    (Ingest sampleCrypto sampleIngest sampleClock (RelayState.initial 1 120 0)
      sampleNote).1 = .ok () ∧
    (Ingest sampleCrypto sampleIngest sampleClock
      (Ingest sampleCrypto sampleIngest sampleClock (RelayState.initial 1 120 0)
        sampleNote).2 sampleNoteUpper).1 = .ok () ∧
    (Ingest sampleCrypto sampleIngest sampleClock
      (Ingest sampleCrypto sampleIngest sampleClock (RelayState.initial 1 120 0)
        sampleNote).2 sampleNote).1 = .error .rateLimitExceeded := by
  have hv1 : ValidateEvent sampleCrypto sampleIngest.maxSkew sampleClock.validate sampleNote
      = .ok () := by decide
  have hv2 : ValidateEvent sampleCrypto sampleIngest.maxSkew sampleClock.validate
      sampleNoteUpper = .ok () := by decide
  have hne : sampleNote.PubKey ≠ sampleNoteUpper.PubKey := by decide
  -- the first call draws the only token of the bucket `aa..a`
  have ha1 : (RelayState.initial 1 120 0).abuse.Allow sampleNote.PubKey sampleClock.allow
      = (true, ⟨1, 120, 0, [(sampleNote.PubKey,
          ⟨float64.sub (float64.ofInt 1) (float64.ofInt 1), sampleClock.allow⟩)]⟩) := by
    have := Allow_fresh (NewAbuseControls 1 120 0) sampleNote.PubKey sampleClock.allow rfl
      (by decide)
    simpa [RelayState.initial, NewAbuseControls, mapPut] using this
  have h1 := Ingest_ephemeral sampleCrypto sampleIngest sampleClock
    (RelayState.initial 1 120 0) sampleNote _ hv1 ha1 rfl rfl rfl rfl
  rw [h1]
  refine ⟨by decide, rfl, ?_, ?_⟩
  · have ha2 : (⟨1, 120, 0, [(sampleNote.PubKey,
          ⟨float64.sub (float64.ofInt 1) (float64.ofInt 1), sampleClock.allow⟩)]⟩ :
        AbuseControls).Allow sampleNoteUpper.PubKey sampleClock.allow
        = (true, ⟨1, 120, 0, [(sampleNote.PubKey,
              ⟨float64.sub (float64.ofInt 1) (float64.ofInt 1), sampleClock.allow⟩),
            (sampleNoteUpper.PubKey,
              ⟨float64.sub (float64.ofInt 1) (float64.ofInt 1), sampleClock.allow⟩)]⟩) := by
      have := Allow_fresh
        ⟨1, 120, 0, [(sampleNote.PubKey,
          ⟨float64.sub (float64.ofInt 1) (float64.ofInt 1), sampleClock.allow⟩)]⟩
        sampleNoteUpper.PubKey sampleClock.allow
        (by simp [mapGet, hne]) (by decide)
      simpa [mapPut, hne] using this
    have h2 := Ingest_ephemeral sampleCrypto sampleIngest sampleClock
      (RelayState.mk (RelayState.initial 1 120 0).events (RelayState.initial 1 120 0).groups
        (RelayState.initial 1 120 0).metrics
        ⟨1, 120, 0, [(sampleNote.PubKey,
          ⟨float64.sub (float64.ofInt 1) (float64.ofInt 1), sampleClock.allow⟩)]⟩)
      sampleNoteUpper _ hv2 ha2 rfl rfl rfl rfl
    rw [h2]
  · have ha3 : ((⟨1, 120, 0, [(sampleNote.PubKey,
          ⟨float64.sub (float64.ofInt 1) (float64.ofInt 1), sampleClock.allow⟩)]⟩ :
        AbuseControls).Allow sampleNote.PubKey sampleClock.allow).1 = false := by
      decide
    unfold Ingest
    rw [hv1]
    simp only [ha3, Bool.not_false, if_true]

/-! ## Projection: what the canonical emission leaves alone -/

theorem sameGroupTables_refl (a : GroupStore) : sameGroupTables a a :=
  ⟨rfl, rfl, rfl, rfl, rfl, rfl⟩

theorem sameGroupTables_trans {a b c : GroupStore} (h1 : sameGroupTables a b)
    (h2 : sameGroupTables b c) : sameGroupTables a c :=
  ⟨h1.1.trans h2.1, h1.2.1.trans h2.2.1, h1.2.2.1.trans h2.2.2.1,
    h1.2.2.2.1.trans h2.2.2.2.1, h1.2.2.2.2.1.trans h2.2.2.2.2.1,
    h1.2.2.2.2.2.trans h2.2.2.2.2.2⟩

theorem upsertCanonicalStateEvent_frame (lib : Crypto) (cfg : ProjectionConfig)
    (st : RelayState) (kind : Int) (groupID : String) (createdAt : Int)
    (tags : List (List String)) :
    sameGroupTables (upsertCanonicalStateEvent lib cfg st kind groupID createdAt tags).2.groups
      st.groups := by
  unfold upsertCanonicalStateEvent
  simp only []
  split
  · exact sameGroupTables_refl _
  · split
    · exact sameGroupTables_refl _
    · split
      · exact sameGroupTables_refl _
      · exact ⟨rfl, rfl, rfl, rfl, rfl, rfl⟩

theorem emitKinds_frame (lib : Crypto) (cfg : ProjectionConfig) (groupID : String)
    (createdAt : Int) (kinds : List Int) :
    ∀ st : RelayState,
      sameGroupTables (emitKinds lib cfg groupID createdAt st kinds).2.groups st.groups := by
  induction kinds with
  | nil => intro st; exact sameGroupTables_refl _
  | cons kind rest ih =>
    intro st
    have hstep : ∀ r : Except Err Unit × RelayState, sameGroupTables r.2.groups st.groups →
        sameGroupTables
          (match r.1 with
            | .error e => ((.error e, r.2) : Except Err Unit × RelayState)
            | .ok _ => emitKinds lib cfg groupID createdAt r.2 rest).2.groups st.groups := by
      intro r hr
      cases h : r.1 with
      | error e => exact hr
      | ok u => exact sameGroupTables_trans (ih r.2) hr
    unfold emitKinds
    apply hstep
    split
    · unfold emitGroupMetadataStateEvent
      split
      · exact sameGroupTables_refl _
      · exact upsertCanonicalStateEvent_frame ..
    · split
      · unfold emitAdminsStateEvent
        split
        · exact sameGroupTables_refl _
        · exact upsertCanonicalStateEvent_frame ..
      · split
        · exact upsertCanonicalStateEvent_frame ..
        · split
          · exact upsertCanonicalStateEvent_frame ..
          · exact sameGroupTables_refl _

theorem syncCanonicalStateEvents_frame (lib : Crypto) (cfg : ProjectionConfig)
    (st : RelayState) (source : Event) (groupID : String) (mc ac : Bool) :
    sameGroupTables (syncCanonicalStateEvents lib cfg st source groupID mc ac).2.groups
      st.groups := by
  unfold syncCanonicalStateEvents
  split
  · exact sameGroupTables_refl _
  · exact emitKinds_frame ..

/-- After `ApplyEvent` every group table but `group_events` is as the kind's
handler left it. -/
theorem ApplyEvent_tables (lib : Crypto) (cfg : ProjectionConfig) (clock : Clock)
    (st : RelayState) (ev : Event) (hg : resolveGroupID ev ≠ "") :
    sameGroupTables (ApplyEvent lib cfg clock st ev).2.groups
      (applyHandler cfg clock st ev (resolveGroupID ev)).2.groups := by
  unfold ApplyEvent
  simp only [hg, if_false]
  rcases h : applyHandler cfg clock st ev (resolveGroupID ev) with ⟨r, st1⟩
  cases r with
  | error e => exact sameGroupTables_refl _
  | ok flags =>
    simp only []
    have hs := syncCanonicalStateEvents_frame lib cfg st1 ev (resolveGroupID ev) flags.1 flags.2
    rcases h2 : syncCanonicalStateEvents lib cfg st1 ev (resolveGroupID ev) flags.1 flags.2
      with ⟨r2, st2⟩
    rw [h2] at hs
    cases r2 with
    | error e => exact hs
    | ok u => exact hs

/-! ## Upserts and lookups -/

theorem find?_map_update {α : Type} (key : α → Bool) (f : α → α)
    (hkeep : ∀ r, key (f r) = key r) (rows : List α) :
    (rows.map f).find? key = (rows.find? key).map f := by
  induction rows with
  | nil => rfl
  | cons r rs ih =>
    simp only [List.map_cons, List.find?_cons, hkeep]
    cases key r with
    | true => rfl
    | false => exact ih

/-- The row an upsert leaves under a key: the updated row when there was one,
the new row otherwise. -/
theorem find?_upsertRow {α : Type} (key : α → Bool) (sameKey : α → α → Bool)
    (update : α → α → α) (rows : List α) (new : α)
    (hk : ∀ r, sameKey new r = key r) (hnew : key new = true)
    (hupd : ∀ old, key (update old new) = key old) :
    (upsertRow sameKey update rows new).find? key =
      some (((rows.find? key).map (fun old => update old new)).getD new) := by
  have hfun : sameKey new = key := funext hk
  unfold upsertRow
  rw [hfun]
  by_cases hany : rows.any key = true
  · rw [if_pos hany]
    rw [find?_map_update key (fun old => if key old = true then update old new else old)
      (by
        intro r
        by_cases hr : key r = true
        · simp [hr, hupd]
        · simp [hr])]
    cases hf : rows.find? key with
    | none =>
      rw [List.find?_eq_none] at hf
      rw [List.any_eq_true] at hany
      obtain ⟨x, hx, hkx⟩ := hany
      exact absurd hkx (hf x hx)
    | some old =>
      have := List.find?_some hf
      simp [this]
  · rw [if_neg hany]
    have hnone : rows.find? key = none := by
      rw [List.find?_eq_none]
      intro x hx hkx
      exact hany (List.any_eq_true.2 ⟨x, hx, hkx⟩)
    rw [List.find?_append, hnone]
    simp [hnew]

/-- An upsert leaves the rows under every other key as they were. -/
theorem find?_upsertRow_other {α : Type} (key : α → Bool) (sameKey : α → α → Bool)
    (update : α → α → α) (rows : List α) (new : α)
    (hother : ∀ r, sameKey new r = true → key r = false)
    (hnew : key new = false)
    (hupd : ∀ old, sameKey new old = true → key (update old new) = false) :
    (upsertRow sameKey update rows new).find? key = rows.find? key := by
  have hmap : ∀ rs : List α,
      List.find? key (rs.map (fun old => if sameKey new old then update old new else old))
        = List.find? key rs := by
    intro rs
    induction rs with
    | nil => rfl
    | cons r rs ih =>
      simp only [List.map_cons, List.find?_cons]
      by_cases hs : sameKey new r = true
      · simp only [hs, if_true, hupd r hs, hother r hs]
        exact ih
      · simp only [hs, Bool.false_eq_true, if_false]
        cases key r with
        | true => rfl
        | false => exact ih
  unfold upsertRow
  split
  · exact hmap rows
  · rw [List.find?_append]
    simp [hnew]

/-! ## Projection: metadata edits and group creation -/

theorem utf8Size_takeBytes (l : List Char) :
    ∀ n : Nat, String.utf8ByteSize.go (takeBytes n l) ≤ n := by
  induction l with
  | nil => intro n; simp [takeBytes, String.utf8ByteSize.go]
  | cons c cs ih =>
    intro n
    unfold takeBytes
    split
    · rename_i h
      simp only [String.utf8ByteSize.go]
      have := ih (n - c.utf8Size)
      omega
    · simp [String.utf8ByteSize.go]

theorem goLen_truncateGeohashText (gh : String) : goLen (truncateGeohashText gh) ≤ 6 := by
  unfold truncateGeohashText
  split
  · assumption
  · exact utf8Size_takeBytes gh.data 6

theorem UpsertGroup_ok (gs : GroupStore) (group : Group)
    (h : group.Geohash = "" ∨ goLen group.Geohash ≤ 6) :
    ∃ gs2, UpsertGroup gs group = .ok gs2 ∧
      gs2.groups = upsertRow (fun a b => a.GroupID = b.GroupID) updateGroup gs.groups group ∧
      gs2.roles = gs.roles ∧ gs2.members = gs.members := by
  unfold UpsertGroup
  have : ¬ (group.Geohash ≠ "" ∧ goLen group.Geohash > 6) := by
    rintro ⟨h1, h2⟩
    rcases h with h | h
    · exact h1 h
    · omega
  rw [if_neg this]
  exact ⟨_, rfl, rfl, rfl, rfl⟩

theorem GetGroup_upsert (rows : List Group) (group : Group) :
    List.find? (fun g => decide (g.GroupID = group.GroupID))
      (upsertRow (fun a b => a.GroupID = b.GroupID) updateGroup rows group) =
      some (((rows.find? (fun g => decide (g.GroupID = group.GroupID))).map
        (fun old => updateGroup old group)).getD group) := by
  refine find?_upsertRow (fun g => decide (g.GroupID = group.GroupID))
    (fun a b => decide (a.GroupID = b.GroupID)) updateGroup rows group ?_ ?_ ?_
  · intro r
    simp only [decide_eq_decide]
    exact eq_comm
  · simp
  · intro old
    unfold updateGroup
    split <;> rfl

theorem HasPermission_congr (a b : GroupStore) (h : sameGroupTables a b)
    (groupID pubKey permission : String) :
    HasPermission a groupID pubKey permission = HasPermission b groupID pubKey permission := by
  unfold HasPermission GetGroup findMember
  rw [h.1, h.2.1, h.2.2.1]

/-- C7 (counterexample): on a store with no groups, a kind-9002 event of a key
without any permission creates the group row, with that key as creator. -/
theorem C7_counterexample :
    (RelayState.initial 30 120 0).groups.groups = [] ∧
    HasPermission (RelayState.initial 30 120 0).groups "group-x" strangerEdit.PubKey
      PermissionEditMetadata = false ∧
    (ApplyEvent sampleCrypto sampleProjection sampleClock (RelayState.initial 30 120 0)
      strangerEdit).2.groups.groups =
      [⟨"group-x", "oops", "", "", "", false, false, false, false, false,
        110, "stranger-pub", 110, "stranger-pub"⟩] := by
  decide

/-- C7 (amended): for a kind-9002 event that carries a group id, `ApplyEvent`
changes the `groups` table only if the author has the edit-metadata
permission in that group or no group with that id exists; and when no group
with that id exists, no permission is checked and the group row is created
with the event's author as `created_by`. -/
theorem C7_edit_metadata_needs_permission_or_new_group (lib : Crypto)
    (cfg : ProjectionConfig) (clock : Clock) (st : RelayState) (ev : Event)
    (hk : ev.Kind = 9002) (hg : resolveGroupID ev ≠ "") :
    ((ApplyEvent lib cfg clock st ev).2.groups.groups ≠ st.groups.groups →
      HasPermission st.groups (resolveGroupID ev) ev.PubKey PermissionEditMetadata = true ∨
      GetGroup st.groups (resolveGroupID ev) = none) ∧
    (GetGroup st.groups (resolveGroupID ev) = none →
      ∃ g, GetGroup (ApplyEvent lib cfg clock st ev).2.groups (resolveGroupID ev) = some g ∧
        g.CreatedBy = ev.PubKey) := by
  have htab := (ApplyEvent_tables lib cfg clock st ev hg).1
  have hh : applyHandler cfg clock st ev (resolveGroupID ev)
      = applyEditMetadata st ev (resolveGroupID ev) := by
    unfold applyHandler
    simp [hk]
  rw [hh] at htab
  refine ⟨?_, ?_⟩
  · intro hchg
    by_contra hcon
    rw [not_or] at hcon
    obtain ⟨hperm, hsome⟩ := hcon
    apply hchg
    rw [htab]
    cases hgg : GetGroup st.groups (resolveGroupID ev) with
    | none => exact absurd hgg hsome
    | some existing =>
      have hp : HasPermission st.groups (resolveGroupID ev) ev.PubKey PermissionEditMetadata
          = false := by simpa using hperm
      unfold applyEditMetadata
      simp [hgg, requirePermission, hp]
  · intro hnone
    have hgeo : (editedGroup (newGroupFor ev (resolveGroupID ev)) ev).Geohash = "" ∨
        goLen (editedGroup (newGroupFor ev (resolveGroupID ev)) ev).Geohash ≤ 6 := by
      simp only [editedGroup, newGroupFor]
      split
      · exact Or.inr (goLen_truncateGeohashText _)
      · exact Or.inl rfl
    obtain ⟨gs2, hup, hrows, _, _⟩ := UpsertGroup_ok st.groups _ hgeo
    have hres : (applyEditMetadata st ev (resolveGroupID ev)).2.groups.groups =
        upsertRow (fun a b => a.GroupID = b.GroupID) updateGroup st.groups.groups
          (editedGroup (newGroupFor ev (resolveGroupID ev)) ev) := by
      unfold applyEditMetadata
      simp only [hnone, hup]
      exact hrows
    refine ⟨editedGroup (newGroupFor ev (resolveGroupID ev)) ev, ?_, ?_⟩
    · unfold GetGroup
      rw [htab, hres]
      have := GetGroup_upsert st.groups.groups
        (editedGroup (newGroupFor ev (resolveGroupID ev)) ev)
      have hid : (editedGroup (newGroupFor ev (resolveGroupID ev)) ev).GroupID
          = resolveGroupID ev := rfl
      rw [hid] at this
      rw [this]
      unfold GetGroup at hnone
      rw [hnone]
      rfl
    · simp only [editedGroup, newGroupFor]
      split <;> rfl

/-- C7 (witness): the stranger's edit of the missing group `group-x`. -/
theorem C7_edit_metadata_witness :
    ((ApplyEvent sampleCrypto sampleProjection sampleClock (RelayState.initial 30 120 0)
        strangerEdit).2.groups.groups ≠ (RelayState.initial 30 120 0).groups.groups →
      HasPermission (RelayState.initial 30 120 0).groups (resolveGroupID strangerEdit)
        strangerEdit.PubKey PermissionEditMetadata = true ∨
      GetGroup (RelayState.initial 30 120 0).groups (resolveGroupID strangerEdit) = none) ∧
    (GetGroup (RelayState.initial 30 120 0).groups (resolveGroupID strangerEdit) = none →
      ∃ g, GetGroup (ApplyEvent sampleCrypto sampleProjection sampleClock
          (RelayState.initial 30 120 0) strangerEdit).2.groups
          (resolveGroupID strangerEdit) = some g ∧
        g.CreatedBy = strangerEdit.PubKey) :=
  C7_edit_metadata_needs_permission_or_new_group sampleCrypto sampleProjection sampleClock
    (RelayState.initial 30 120 0) strangerEdit (by decide) (by decide)

theorem findMember_upsert (rows : List GroupMember) (member : GroupMember) :
    List.find? (fun m => decide (m.GroupID = member.GroupID ∧ m.PubKey = member.PubKey))
      (upsertRow (fun a b => a.GroupID = b.GroupID ∧ a.PubKey = b.PubKey) updateMember
        rows member) =
      some (((rows.find?
        (fun m => decide (m.GroupID = member.GroupID ∧ m.PubKey = member.PubKey))).map
        (fun old => updateMember old member)).getD member) := by
  refine find?_upsertRow
    (fun m => decide (m.GroupID = member.GroupID ∧ m.PubKey = member.PubKey))
    (fun a b => decide (a.GroupID = b.GroupID ∧ a.PubKey = b.PubKey)) updateMember
    rows member ?_ ?_ ?_
  · intro r
    simp only [decide_eq_decide]
    constructor
    · rintro ⟨h1, h2⟩; exact ⟨h1.symm, h2.symm⟩
    · rintro ⟨h1, h2⟩; exact ⟨h1.symm, h2.symm⟩
  · simp
  · intro old
    unfold updateMember
    split <;> rfl

theorem roleHasPermission_owner (permissions : List String) (permission : String)
    (h : normalizePermission permission ≠ "") :
    roleHasPermission "owner" permissions permission = true := by
  rw [roleHasPermission_iff]
  exact ⟨h, Or.inl (by decide)⟩

/-- C8: for a kind-9007 event that carries a group id, the handler checks no
permission and succeeds; afterwards the author is a member of the group with
role `owner` and `HasPermission` grants the author every permission of the
vocabulary.  This holds also when the group existed, provided the event is
not older than a member row already stored for the author, and the existing
group keeps its `created_by`. -/
theorem C8_create_group_makes_author_owner (lib : Crypto) (cfg : ProjectionConfig)
    (clock : Clock) (st : RelayState) (ev : Event)
    (hk : ev.Kind = 9007) (hg : resolveGroupID ev ≠ "")
    (hnew : ∀ m, findMember st.groups (resolveGroupID ev) ev.PubKey = some m →
      m.AddedAt ≤ ev.CreatedAt) :
    (applyHandler cfg clock st ev (resolveGroupID ev)).1 = .ok (true, true) ∧
    (∃ m, findMember (ApplyEvent lib cfg clock st ev).2.groups (resolveGroupID ev) ev.PubKey
        = some m ∧ m.RoleName = "owner") ∧
    (∀ p ∈ permissionVocabulary,
      HasPermission (ApplyEvent lib cfg clock st ev).2.groups (resolveGroupID ev) ev.PubKey p
        = true) ∧
    (∀ g, GetGroup st.groups (resolveGroupID ev) = some g →
      ∃ g2, GetGroup (ApplyEvent lib cfg clock st ev).2.groups (resolveGroupID ev) = some g2 ∧
        g2.CreatedBy = g.CreatedBy) := by
  have htab := ApplyEvent_tables lib cfg clock st ev hg
  have hh : applyHandler cfg clock st ev (resolveGroupID ev)
      = applyCreateGroup st ev (resolveGroupID ev) := by
    unfold applyHandler
    simp [hk]
  rw [hh] at htab ⊢
  -- the three writes of the handler
  obtain ⟨gs1, hup, hrows, hroles1, hmem1⟩ := UpsertGroup_ok st.groups
    (createdGroup ev (resolveGroupID ev)) (Or.inr (goLen_truncateGeohashText _))
  have hres1 : (applyCreateGroup st ev (resolveGroupID ev)).1 = .ok (true, true) := by
    unfold applyCreateGroup
    simp only [hup]
  have hres2 : (applyCreateGroup st ev (resolveGroupID ev)).2.groups =
      UpsertMember (UpsertRole gs1 (ownerRole ev (resolveGroupID ev)))
        (ownerMember ev (resolveGroupID ev)) := by
    unfold applyCreateGroup
    simp only [hup]
  rw [hres2] at htab
  simp only [UpsertMember, UpsertRole] at htab
  obtain ⟨hgroups, hroles, hmembers, _⟩ := htab
  simp only [hmem1, hrows] at hgroups hmembers
  -- the author's member row
  have hmember : ∃ m, findMember (ApplyEvent lib cfg clock st ev).2.groups (resolveGroupID ev)
      ev.PubKey = some m ∧ m.RoleName = "owner" := by
    unfold findMember
    rw [hmembers]
    have := findMember_upsert st.groups.members (ownerMember ev (resolveGroupID ev))
    simp only [ownerMember] at this ⊢
    rw [this]
    refine ⟨_, rfl, ?_⟩
    cases hf : List.find? (fun m => decide (m.GroupID = resolveGroupID ev ∧ m.PubKey = ev.PubKey))
        st.groups.members with
    | none => rfl
    | some old =>
      have hold := hnew old hf
      simp only [Option.map_some', Option.getD_some, updateMember]
      rw [if_pos hold]
  -- the group row
  have hgroup : ∃ g2, GetGroup (ApplyEvent lib cfg clock st ev).2.groups (resolveGroupID ev)
      = some g2 ∧ ∀ g, GetGroup st.groups (resolveGroupID ev) = some g →
        g2.CreatedBy = g.CreatedBy := by
    unfold GetGroup
    rw [hgroups]
    have := GetGroup_upsert st.groups.groups (createdGroup ev (resolveGroupID ev))
    have hid : (createdGroup ev (resolveGroupID ev)).GroupID = resolveGroupID ev := rfl
    rw [hid] at this
    rw [this]
    refine ⟨_, rfl, ?_⟩
    intro g hgg
    rw [hgg]
    simp only [Option.map_some', Option.getD_some, updateGroup]
    split <;> rfl
  refine ⟨hres1, hmember, ?_, ?_⟩
  · intro p hp
    obtain ⟨m, hm, hrole⟩ := hmember
    obtain ⟨g2, hg2, _⟩ := hgroup
    unfold HasPermission
    rw [hg2, hm]
    simp only [hrole]
    split
    · rfl
    · apply roleHasPermission_owner
      revert p
      decide
  · intro g hgg
    obtain ⟨g2, hg2, hcb⟩ := hgroup
    exact ⟨g2, hg2, hcb g hgg⟩

/-- C8 (witness): `bob-pub`, a plain member since time 50 of the group
`group-1` that `alice-pub` created, sends a kind-9007 event for it at 100. -/
theorem C8_create_group_witness :
    (applyHandler sampleProjection sampleClock groupOfAlice bobCreate
      (resolveGroupID bobCreate)).1 = .ok (true, true) ∧
    (∃ m, findMember (ApplyEvent sampleCrypto sampleProjection sampleClock groupOfAlice
        bobCreate).2.groups (resolveGroupID bobCreate) bobCreate.PubKey
        = some m ∧ m.RoleName = "owner") ∧
    (∀ p ∈ permissionVocabulary,
      HasPermission (ApplyEvent sampleCrypto sampleProjection sampleClock groupOfAlice
        bobCreate).2.groups (resolveGroupID bobCreate) bobCreate.PubKey p = true) ∧
    (∀ g, GetGroup groupOfAlice.groups (resolveGroupID bobCreate) = some g →
      ∃ g2, GetGroup (ApplyEvent sampleCrypto sampleProjection sampleClock groupOfAlice
        bobCreate).2.groups (resolveGroupID bobCreate) = some g2 ∧
        g2.CreatedBy = g.CreatedBy) :=
  C8_create_group_makes_author_owner sampleCrypto sampleProjection sampleClock groupOfAlice
    bobCreate (by decide) (by decide) (by
      intro m hm
      have h0 : findMember groupOfAlice.groups (resolveGroupID bobCreate) bobCreate.PubKey
          = some ⟨"group-1", "bob-pub", 50, "alice-pub", "member", 0, ""⟩ := by decide
      rw [h0] at hm
      cases hm
      decide)

/-! ## Ingestion: relay-only kinds and storage modes -/

theorem requirePermission_error (gs : GroupStore) (groupID pubKey permission : String)
    (e : Err) (h : requirePermission gs groupID pubKey permission = .error e) :
    e = .notAuthorized permission := by
  unfold requirePermission at h
  split at h
  · injection h with h; exact h.symm
  · cases h

theorem parsePutUserTag_error (tags : List (List String)) (e : Err)
    (h : parsePutUserTag tags = .error e) : e = .putUserMissingP := by
  induction tags with
  | nil => unfold parsePutUserTag at h; injection h with h; exact h.symm
  | cons tag rest ih =>
    unfold parsePutUserTag at h
    split at h
    · split at h
      · exact ih h
      · simp only [] at h
        split at h
        · injection h with h; exact h.symm
        · cases h
    · exact ih h

theorem upsertCanonicalStateEvent_error (lib : Crypto) (cfg : ProjectionConfig)
    (st : RelayState) (kind : Int) (groupID : String) (createdAt : Int)
    (tags : List (List String)) (e : Err)
    (h : (upsertCanonicalStateEvent lib cfg st kind groupID createdAt tags).1 = .error e) :
    e.isRelaySigner = false := by
  unfold upsertCanonicalStateEvent at h
  simp only [] at h
  split at h
  · injection h with h; subst h; rfl
  · split at h
    · injection h with h; subst h; rfl
    · split at h
      · injection h with h; subst h; rfl
      · cases h

theorem emitKinds_error (lib : Crypto) (cfg : ProjectionConfig) (groupID : String)
    (createdAt : Int) (kinds : List Int) :
    ∀ (st : RelayState) (e : Err),
      (emitKinds lib cfg groupID createdAt st kinds).1 = .error e → e.isRelaySigner = false := by
  induction kinds with
  | nil => intro st e h; cases h
  | cons kind rest ih =>
    intro st e h
    unfold emitKinds at h
    simp only [] at h
    split at h
    · rename_i e2 heq
      injection h with h; subst h
      split at heq
      · unfold emitGroupMetadataStateEvent at heq
        split at heq
        · injection heq with heq; subst heq; rfl
        · exact upsertCanonicalStateEvent_error _ _ _ _ _ _ _ _ heq
      · split at heq
        · unfold emitAdminsStateEvent at heq
          split at heq
          · injection heq with heq; subst heq; rfl
          · exact upsertCanonicalStateEvent_error _ _ _ _ _ _ _ _ heq
        · split at heq
          · exact upsertCanonicalStateEvent_error _ _ _ _ _ _ _ _ heq
          · split at heq
            · exact upsertCanonicalStateEvent_error _ _ _ _ _ _ _ _ heq
            · cases heq
    · exact ih _ _ h

theorem UpsertGroup_error (gs : GroupStore) (group : Group) (e : Err)
    (h : UpsertGroup gs group = .error e) : e = .geohashPrecision := by
  unfold UpsertGroup at h
  split at h
  · injection h with h; exact h.symm
  · cases h

theorem joinRequestPubKey_error (event : Event) (e : Err)
    (h : joinRequestPubKey event = .error e) : e = .joinRequestPMismatch := by
  unfold joinRequestPubKey at h
  simp only [] at h
  split at h
  · cases h
  · split at h
    · injection h with h; exact h.symm
    · cases h

theorem applyCreateGroup_error (st : RelayState) (event : Event) (groupID : String) (e : Err)
    (h : (applyCreateGroup st event groupID).1 = .error e) : e.isRelaySigner = false := by
  unfold applyCreateGroup at h
  split at h
  · rename_i e2 heq
    injection h with h; subst h
    rw [UpsertGroup_error _ _ _ heq]; rfl
  · cases h

theorem applyEditMetadata_error (st : RelayState) (event : Event) (groupID : String) (e : Err)
    (h : (applyEditMetadata st event groupID).1 = .error e) : e.isRelaySigner = false := by
  unfold applyEditMetadata at h
  simp only [] at h
  split at h
  · rename_i e2 heq
    injection h with h; subst h
    split at heq
    · split at heq
      · rename_i e3 heq3
        injection heq with heq; subst heq
        rw [requirePermission_error _ _ _ _ _ heq3]; rfl
      · cases heq
    · cases heq
  · split at h
    · rename_i e2 heq
      injection h with h; subst h
      rw [UpsertGroup_error _ _ _ heq]; rfl
    · cases h

theorem applyPutRole_error (st : RelayState) (event : Event) (groupID : String) (e : Err)
    (h : (applyPutRole st event groupID).1 = .error e) : e.isRelaySigner = false := by
  unfold applyPutRole at h
  split at h
  · rename_i e2 heq
    injection h with h; subst h
    rw [requirePermission_error _ _ _ _ _ heq]; rfl
  · simp only [] at h
    split at h
    · injection h with h; subst h; rfl
    · cases h

theorem applyDeleteRole_error (st : RelayState) (event : Event) (groupID : String) (e : Err)
    (h : (applyDeleteRole st event groupID).1 = .error e) : e.isRelaySigner = false := by
  unfold applyDeleteRole at h
  split at h
  · rename_i e2 heq
    injection h with h; subst h
    rw [requirePermission_error _ _ _ _ _ heq]; rfl
  · simp only [] at h
    split at h
    · injection h with h; subst h; rfl
    · cases h

theorem applyPutUser_error (st : RelayState) (event : Event) (groupID : String) (e : Err)
    (h : (applyPutUser st event groupID).1 = .error e) : e.isRelaySigner = false := by
  unfold applyPutUser at h
  split at h
  · rename_i e2 heq
    injection h with h; subst h
    rw [parsePutUserTag_error _ _ heq]; rfl
  · simp only [] at h
    split at h
    · rename_i e2 heq
      injection h with h; subst h
      rw [requirePermission_error _ _ _ _ _ heq]; rfl
    · split at h
      · rename_i e2 heq
        injection h with h; subst h
        split at heq
        · rw [requirePermission_error _ _ _ _ _ heq]; rfl
        · cases heq
      · cases h

theorem applyRemoveUser_error (st : RelayState) (event : Event) (groupID : String) (e : Err)
    (h : (applyRemoveUser st event groupID).1 = .error e) : e.isRelaySigner = false := by
  unfold applyRemoveUser at h
  split at h
  · rename_i e2 heq
    injection h with h; subst h
    rw [requirePermission_error _ _ _ _ _ heq]; rfl
  · simp only [] at h
    split at h
    · injection h with h; subst h; rfl
    · cases h

theorem applyCreateInvite_error (st : RelayState) (event : Event) (groupID : String) (e : Err)
    (h : (applyCreateInvite st event groupID).1 = .error e) : e.isRelaySigner = false := by
  unfold applyCreateInvite at h
  split at h
  · rename_i e2 heq
    injection h with h; subst h
    rw [requirePermission_error _ _ _ _ _ heq]; rfl
  · simp only [] at h
    split at h <;> (try split at h) <;>
      first
        | (injection h with h; subst h; rfl)
        | cases h

theorem applyJoinRequest_error (clock : Clock) (st : RelayState) (event : Event)
    (groupID : String) (e : Err)
    (h : (applyJoinRequest clock st event groupID).1 = .error e) : e.isRelaySigner = false := by
  unfold applyJoinRequest at h
  split at h
  · rename_i e2 heq
    injection h with h; subst h
    rw [joinRequestPubKey_error _ _ heq]; rfl
  · split at h
    · injection h with h; subst h; rfl
    · split at h
      · injection h with h; subst h; rfl
      · split at h <;> cases h

theorem applyDeleteGroup_error (st : RelayState) (event : Event) (groupID : String) (e : Err)
    (h : (applyDeleteGroup st event groupID).1 = .error e) : e.isRelaySigner = false := by
  unfold applyDeleteGroup at h
  split at h
  · rename_i e2 heq
    injection h with h; subst h
    rw [requirePermission_error _ _ _ _ _ heq]; rfl
  · cases h

theorem applyDeleteEvent_error (cfg : ProjectionConfig) (st : RelayState) (event : Event)
    (groupID : String) (e : Err)
    (h : (applyDeleteEvent cfg st event groupID).1 = .error e) : e.isRelaySigner = false := by
  unfold applyDeleteEvent at h
  split at h
  · rename_i e2 heq
    injection h with h; subst h
    rw [requirePermission_error _ _ _ _ _ heq]; rfl
  · simp only [] at h
    split at h <;> cases h

/-- A branch keeps a property both of its arms have. -/
theorem ite_noSigner {α : Type} {c : Prop} [Decidable c] {a b : Except Err α × RelayState}
    (ha : ∀ e, a.1 = .error e → e.isRelaySigner = false)
    (hb : ∀ e, b.1 = .error e → e.isRelaySigner = false) :
    ∀ e, (if c then a else b).1 = .error e → e.isRelaySigner = false := by
  split
  · exact ha
  · exact hb

theorem applyHandler_error (cfg : ProjectionConfig) (clock : Clock) (st : RelayState)
    (event : Event) (groupID : String) :
    ∀ e, (applyHandler cfg clock st event groupID).1 = .error e →
      e.isRelaySigner = false := by
  unfold applyHandler
  refine ite_noSigner (applyCreateGroup_error _ _ _) ?_
  refine ite_noSigner (applyEditMetadata_error _ _ _) ?_
  refine ite_noSigner (applyPutRole_error _ _ _) ?_
  refine ite_noSigner (applyDeleteRole_error _ _ _) ?_
  refine ite_noSigner (applyPutUser_error _ _ _) ?_
  refine ite_noSigner (applyRemoveUser_error _ _ _) ?_
  refine ite_noSigner (applyCreateInvite_error _ _ _) ?_
  refine ite_noSigner (applyJoinRequest_error _ _ _ _) ?_
  refine ite_noSigner (fun e h => by cases h) ?_
  refine ite_noSigner (applyDeleteGroup_error _ _ _) ?_
  refine ite_noSigner (applyDeleteEvent_error _ _ _ _) ?_
  intro e h; cases h

theorem ApplyEvent_error (lib : Crypto) (cfg : ProjectionConfig) (clock : Clock)
    (st : RelayState) (event : Event) (e : Err)
    (h : (ApplyEvent lib cfg clock st event).1 = .error e) : e.isRelaySigner = false := by
  unfold ApplyEvent at h
  simp only [] at h
  split at h
  · cases h
  · split at h
    · rename_i e2 st1 heq
      injection h with h; subst h
      exact applyHandler_error cfg clock st event _ _ (by rw [heq])
    · rename_i flags st1 heq
      split at h
      · rename_i e2 st2 heq2
        injection h with h; subst h
        unfold syncCanonicalStateEvents at heq2
        split at heq2
        · cases heq2
        · exact emitKinds_error _ _ _ _ _ _ _ (by rw [heq2])
      · cases h

theorem storeEvent_error (st : RelayState) (event : Event) (e : Err)
    (h : (storeEvent st event).1 = .error e) : e.isRelaySigner = false := by
  unfold storeEvent at h
  split at h
  · cases h
  · split at h
    · injection h with h; subst h; rfl
    · cases h
  · split at h
    · injection h with h; subst h; rfl
    · cases h
  · split at h
    · injection h with h; subst h; rfl
    · injection h with h; subst h; rfl
    · cases h

/-- C19: for an event that passes validation, the rate limit and the PoW
check, `Ingest` returns the error "kind N events must be signed by relay"
exactly when the kind is one of 39000, 39001, 39002, 39003 and the pubkey is
not equal, letter case ignored, to the relay pubkey the service holds; the
`N` of the message is the event's kind, and on this rejection the event store
and the group tables are as they were. -/
theorem C19_relay_only_kinds_need_relay_signer (lib : Crypto) (cfg : IngestConfig)
    (clock : Clock) (st : RelayState) (event : Event)
    (hv : ValidateEvent lib cfg.maxSkew clock.validate event = .ok ())
    (ha : (st.abuse.Allow event.PubKey clock.allow).1 = true)
    (hp : ValidatePow event
      ((st.abuse.Allow event.PubKey clock.allow).2.RequiredPowBits event.Kind) = .ok ()) :
    ((∃ n, (Ingest lib cfg clock st event).1 = .error (.relayOnlyKindSigner n)) ↔
      (event.Kind = 39000 ∨ event.Kind = 39001 ∨ event.Kind = 39002 ∨ event.Kind = 39003) ∧
        EqualFold event.PubKey cfg.relayPubKey = false) ∧
    (∀ n, (Ingest lib cfg clock st event).1 = .error (.relayOnlyKindSigner n) →
      n = event.Kind ∧
      (Ingest lib cfg clock st event).2.events = st.events ∧
      (Ingest lib cfg clock st event).2.groups = st.groups) := by
  have hkind : relayOnlyKind event.Kind = true ↔
      (event.Kind = 39000 ∨ event.Kind = 39001 ∨ event.Kind = 39002 ∨ event.Kind = 39003) := by
    simp [relayOnlyKind, or_assoc]
  by_cases hc : relayOnlyKind event.Kind = true ∧ EqualFold event.PubKey cfg.relayPubKey = false
  · have h : Ingest lib cfg clock st event =
        (.error (.relayOnlyKindSigner event.Kind),
          ({ st with abuse := (st.abuse.Allow event.PubKey clock.allow).2 }).Inc
            "events_rejected_validation_total") := by
      unfold Ingest
      rw [hv]
      simp only [ha, Bool.not_true, Bool.false_eq_true, if_false, hp, hc.1, hc.2,
        Bool.not_false, and_self, if_true]
    rw [h]
    refine ⟨⟨fun _ => ⟨hkind.1 hc.1, hc.2⟩, fun _ => ⟨event.Kind, rfl⟩⟩, ?_⟩
    intro n hn
    injection hn with hn
    injection hn with hn
    exact ⟨hn.symm, rfl, rfl⟩
  · have hno : ∀ n, (Ingest lib cfg clock st event).1 ≠ .error (.relayOnlyKindSigner n) := by
      intro n hn
      have hc2 : ¬ (relayOnlyKind event.Kind = true ∧
          (!EqualFold event.PubKey cfg.relayPubKey) = true) := by
        intro h; apply hc; refine ⟨h.1, ?_⟩
        simpa using h.2
      unfold Ingest at hn
      rw [hv] at hn
      simp only [ha, Bool.not_true, Bool.false_eq_true, if_false, hp, hc2] at hn
      split at hn
      · rename_i e st1 heq
        injection hn with hn; subst hn
        have := storeEvent_error _ event _ (by rw [heq])
        cases this
      · rename_i u st1 heq
        split at hn
        · cases hn
        · rename_i pcfg hproj
          split at hn
          · rename_i e st2 heq2
            injection hn with hn; subst hn
            have := ApplyEvent_error lib pcfg clock st1 event _ (by rw [heq2])
            cases this
          · cases hn
    refine ⟨⟨fun ⟨n, hn⟩ => absurd hn (hno n), fun h => absurd ⟨hkind.2 h.1, h.2⟩ hc⟩, ?_⟩
    intro n hn
    exact absurd hn (hno n)

/-- C19 (witness): a valid kind-39000 event signed by the key `aa..a` while
the relay key is `bb..b`. -/
theorem C19_relay_only_witness :
    ((∃ n, (Ingest sampleCrypto sampleIngest sampleClock (RelayState.initial 30 120 0)
        relayKindNote).1 = .error (.relayOnlyKindSigner n)) ↔
      (relayKindNote.Kind = 39000 ∨ relayKindNote.Kind = 39001 ∨ relayKindNote.Kind = 39002 ∨
        relayKindNote.Kind = 39003) ∧
        EqualFold relayKindNote.PubKey sampleIngest.relayPubKey = false) ∧
    (∀ n, (Ingest sampleCrypto sampleIngest sampleClock (RelayState.initial 30 120 0)
        relayKindNote).1 = .error (.relayOnlyKindSigner n) →
      n = relayKindNote.Kind ∧
      (Ingest sampleCrypto sampleIngest sampleClock (RelayState.initial 30 120 0)
        relayKindNote).2.events = (RelayState.initial 30 120 0).events ∧
      (Ingest sampleCrypto sampleIngest sampleClock (RelayState.initial 30 120 0)
        relayKindNote).2.groups = (RelayState.initial 30 120 0).groups) :=
  C19_relay_only_kinds_need_relay_signer sampleCrypto sampleIngest sampleClock
    (RelayState.initial 30 120 0) relayKindNote (by decide)
    (by
      have h := Allow_fresh (RelayState.initial 30 120 0).abuse relayKindNote.PubKey
        sampleClock.allow rfl (by decide)
      rw [h])
    (by
      have h := Allow_fresh (RelayState.initial 30 120 0).abuse relayKindNote.PubKey
        sampleClock.allow rfl (by decide)
      rw [h]
      rfl)

theorem applyHandler_default (cfg : ProjectionConfig) (clock : Clock) (st : RelayState)
    (event : Event) (groupID : String) (h1 : 20000 ≤ event.Kind) :
    applyHandler cfg clock st event groupID = (.ok (false, false), st) := by
  unfold applyHandler
  have e1 : ¬ event.Kind = 9007 := by omega
  have e2 : ¬ event.Kind = 9002 := by omega
  have e3 : ¬ event.Kind = 9003 := by omega
  have e4 : ¬ event.Kind = 9004 := by omega
  have e5 : ¬ event.Kind = 9000 := by omega
  have e6 : ¬ event.Kind = 9001 := by omega
  have e7 : ¬ event.Kind = 9009 := by omega
  have e8 : ¬ event.Kind = 9021 := by omega
  have e9 : ¬ event.Kind = 9022 := by omega
  have e10 : ¬ event.Kind = 9008 := by omega
  have e11 : ¬ event.Kind = 9005 := by omega
  simp only [e1, e2, e3, e4, e5, e6, e7, e8, e9, e10, e11, if_false]

theorem canonicalStateKinds_default (kind : Int) (a b : Bool) (h1 : 20000 ≤ kind) :
    canonicalStateKindsForSource kind a b = [] := by
  unfold canonicalStateKindsForSource
  have e1 : ¬ kind = 9007 := by omega
  have e2 : ¬ (kind = 9002 ∨ kind = 9008) := by omega
  have e3 : ¬ (kind = 9003 ∨ kind = 9004) := by omega
  have e4 : ¬ (kind = 9000 ∨ kind = 9001 ∨ kind = 9022) := by omega
  have e5 : ¬ kind = 9021 := by omega
  have e6 : ¬ (kind = 9000 ∧ b = true) := by omega
  simp only [e1, e2, e3, e4, e5, e6, if_false]

theorem ApplyEvent_other_kind (lib : Crypto) (cfg : ProjectionConfig) (clock : Clock)
    (st : RelayState) (event : Event) (h1 : 20000 ≤ event.Kind) :
    (ApplyEvent lib cfg clock st event).1 = .ok () ∧
    (ApplyEvent lib cfg clock st event).2.events = st.events := by
  unfold ApplyEvent
  simp only [applyHandler_default cfg clock st event _ h1, syncCanonicalStateEvents,
    canonicalStateKinds_default event.Kind false false h1, emitKinds, ite_self]
  by_cases hg : resolveGroupID event = ""
  · simp [hg]
  · simp [hg, RelayState.Inc]

/-- C20: `eventStorageMode` is replaceable exactly for the kinds 0, 3 and
10000..19999, ephemeral exactly for 20000..29999, parameterized replaceable
exactly for 30000..39999 and regular for every other kind, negative ones
included; and `Ingest` leaves the event store as it was for every ephemeral
event, which it accepts once validation, the rate limit and the PoW check have
passed. -/
theorem C20_storage_mode_and_ephemeral_ingest (kind : Int) :
    (eventStorageMode kind = .storageModeReplaceable ↔
      kind = 0 ∨ kind = 3 ∨ (10000 ≤ kind ∧ kind ≤ 19999)) ∧
    (eventStorageMode kind = .storageModeEphemeral ↔ 20000 ≤ kind ∧ kind ≤ 29999) ∧
    (eventStorageMode kind = .storageModeParameterizedReplaceable ↔
      30000 ≤ kind ∧ kind ≤ 39999) ∧
    (eventStorageMode kind = .storageModeRegular ↔
      ¬ (kind = 0 ∨ kind = 3 ∨ (10000 ≤ kind ∧ kind ≤ 39999))) ∧
    (kind < 0 → eventStorageMode kind = .storageModeRegular) ∧
    ∀ (lib : Crypto) (cfg : IngestConfig) (clock : Clock) (st : RelayState) (event : Event),
      event.Kind = kind → eventStorageMode kind = .storageModeEphemeral →
      (Ingest lib cfg clock st event).2.events = st.events ∧
      (ValidateEvent lib cfg.maxSkew clock.validate event = .ok () →
        (st.abuse.Allow event.PubKey clock.allow).1 = true →
        ValidatePow event ((st.abuse.Allow event.PubKey clock.allow).2.RequiredPowBits
          event.Kind) = .ok () →
        (Ingest lib cfg clock st event).1 = .ok ()) := by
  have hmode : ∀ k : Int, eventStorageMode k = .storageModeEphemeral ↔
      20000 ≤ k ∧ k ≤ 29999 := by
    intro k
    unfold eventStorageMode
    split_ifs with h1 h2 h3 <;> simp <;> omega
  refine ⟨?_, hmode kind, ?_, ?_, ?_, ?_⟩
  · unfold eventStorageMode
    split_ifs with h1 h2 h3 <;> simp <;> omega
  · unfold eventStorageMode
    split_ifs with h1 h2 h3 <;> simp <;> omega
  · unfold eventStorageMode
    split_ifs with h1 h2 h3 <;> simp <;> omega
  · intro hneg
    unfold eventStorageMode
    split_ifs with h1 h2 h3 <;> first | rfl | omega
  · intro lib cfg clock st event hk hm
    subst hk
    have hrange := (hmode event.Kind).1 hm
    have hrelay : relayOnlyKind event.Kind = false := by
      unfold relayOnlyKind
      have e1 : ¬ event.Kind = 39000 := by omega
      have e2 : ¬ event.Kind = 39001 := by omega
      have e3 : ¬ event.Kind = 39002 := by omega
      have e4 : ¬ event.Kind = 39003 := by omega
      simp [e1, e2, e3, e4]
    have hstore : ∀ s : RelayState, storeEvent s event = (.ok (), s) := by
      intro s; unfold storeEvent; rw [hm]
    have happly := fun (p : ProjectionConfig) (s : RelayState) =>
      ApplyEvent_other_kind lib p clock s event hrange.1
    refine ⟨?_, ?_⟩
    · unfold Ingest
      cases hv : ValidateEvent lib cfg.maxSkew clock.validate event with
      | error e => simp [RelayState.Inc]
      | ok u =>
        simp only []
        by_cases ha : (st.abuse.Allow event.PubKey clock.allow).1 = true
        · simp only [ha, Bool.not_true, Bool.false_eq_true, if_false]
          cases hp : ValidatePow event
              (((st.abuse.Allow event.PubKey clock.allow).2).RequiredPowBits event.Kind) with
          | error e => simp [RelayState.Inc]
          | ok u2 =>
            simp only [hrelay, Bool.false_eq_true, false_and, if_false, hstore]
            cases hproj : cfg.projection with
            | none => simp
            | some p =>
              simp only []
              have h2 := (happly p { st with abuse := (st.abuse.Allow event.PubKey clock.allow).2 }).2
              split
              · rename_i e st2 heq
                rw [heq] at h2; simpa [RelayState.Inc] using h2
              · rename_i u3 st2 heq
                rw [heq] at h2; simpa using h2
        · simp [ha, RelayState.Inc]
    · intro hv ha hp
      unfold Ingest
      simp only [hv, ha, hp, Bool.not_true, Bool.false_eq_true, if_false, hrelay, false_and,
        hstore]
      cases hproj : cfg.projection with
      | none => simp
      | some p =>
        simp only []
        have h1 := (happly p { st with abuse := (st.abuse.Allow event.PubKey clock.allow).2 }).1
        split
        · rename_i e st2 heq
          rw [heq] at h1; cases h1
        · rfl

/-- C20 (at a concrete input): the ephemeral `sampleNote`, kind 20000, is
accepted by `Ingest` and the event store stays empty. -/
theorem C20_ephemeral_ingest_witness :
    eventStorageMode sampleNote.Kind = .storageModeEphemeral ∧
    (Ingest sampleCrypto sampleIngest sampleClock (RelayState.initial 30 120 0)
      sampleNote).1 = .ok () ∧
    (Ingest sampleCrypto sampleIngest sampleClock (RelayState.initial 30 120 0)
      sampleNote).2.events = EventStore.empty := by
  have h := (C20_storage_mode_and_ephemeral_ingest 20000).2.2.2.2.2 sampleCrypto sampleIngest
    sampleClock (RelayState.initial 30 120 0) sampleNote rfl (by decide)
  have ha := Allow_fresh (RelayState.initial 30 120 0).abuse sampleNote.PubKey
    sampleClock.allow rfl (by decide)
  refine ⟨by decide, h.2 (by decide) (by rw [ha]) (by rw [ha]; rfl), h.1⟩

/-! ## Group rows: `updated_at` across writes -/

theorem length_le_goLen (s : String) : s.length ≤ goLen s := by
  have h : ∀ l : List Char, l.length ≤ String.utf8ByteSize.go l := by
    intro l
    induction l with
    | nil => simp [String.utf8ByteSize.go]
    | cons c cs ih =>
      simp only [String.utf8ByteSize.go, List.length_cons]
      have := Char.utf8Size_pos c
      omega
  exact h s.data

/-- The row at a place of an upserted table is the old row of that place,
updated when it has the key of the new row. -/
theorem getElem?_upsertRow {α : Type} (sameKey : α → α → Bool) (update : α → α → α)
    (rows : List α) (new old : α) (i : Nat) (h : rows[i]? = some old) :
    (upsertRow sameKey update rows new)[i]? =
      some (if sameKey new old then update old new else old) := by
  unfold upsertRow
  split
  · rw [List.getElem?_map, h]; rfl
  · rename_i hany
    rcases List.getElem?_eq_some_iff.1 h with ⟨hi, hget⟩
    rw [List.getElem?_append_left hi, h]
    have hmem : old ∈ rows := hget ▸ List.getElem_mem hi
    have : sameKey new old = false := by
      cases hk : sameKey new old with
      | false => rfl
      | true => exact absurd (List.any_eq_true.2 ⟨old, hmem, hk⟩) hany
    simp [this]

/-- An upsert whose update leaves every row with the new row's key as it is,
in a table that has such a row, changes nothing. -/
theorem upsertRow_noop {α : Type} (sameKey : α → α → Bool) (update : α → α → α)
    (rows : List α) (new : α) (hany : rows.any (sameKey new) = true)
    (hkeep : ∀ r ∈ rows, sameKey new r = true → update r new = r) :
    upsertRow sameKey update rows new = rows := by
  unfold upsertRow
  rw [if_pos hany]
  conv => rhs; rw [← List.map_id rows]
  apply List.map_congr_left
  intro r hr
  by_cases hk : sameKey new r = true
  · simp [hk, hkeep r hr hk]
  · simp [hk]

/-- C15: `UpsertGroup` of a `Group` whose `updated_at` is strictly less than
that of the stored row with its `group_id` leaves that row as it is, column by
column: the row at its place in the table, the row `GetGroup` returns, and,
when every stored row of that id is newer, the whole store.  A `Group` whose
geohash has more than 6 characters is rejected with the error "geohash
precision exceeds level 6", and no store is written. -/
theorem C15_stale_upsert_group_changes_nothing (gs : GroupStore) (group : Group) :
    (∀ (i : Nat) (old : Group) (gs2 : GroupStore), gs.groups[i]? = some old →
      old.GroupID = group.GroupID → group.UpdatedAt < old.UpdatedAt →
      UpsertGroup gs group = .ok gs2 → gs2.groups[i]? = some old) ∧
    (∀ (old : Group) (gs2 : GroupStore), GetGroup gs group.GroupID = some old →
      group.UpdatedAt < old.UpdatedAt →
      UpsertGroup gs group = .ok gs2 → GetGroup gs2 group.GroupID = some old) ∧
    ((∃ g ∈ gs.groups, g.GroupID = group.GroupID) →
      (∀ g ∈ gs.groups, g.GroupID = group.GroupID → group.UpdatedAt < g.UpdatedAt) →
      ∀ gs2, UpsertGroup gs group = .ok gs2 → gs2 = gs) ∧
    (6 < group.Geohash.length → UpsertGroup gs group = .error .geohashPrecision) := by
  have hstale : ∀ old : Group, group.UpdatedAt < old.UpdatedAt →
      updateGroup old group = old := by
    intro old hlt
    unfold updateGroup
    rw [if_neg (by omega)]
  have hok : ∀ gs2, UpsertGroup gs group = .ok gs2 →
      gs2.groups = upsertRow (fun a b => a.GroupID = b.GroupID) updateGroup gs.groups group ∧
      gs2.roles = gs.roles ∧ gs2.members = gs.members ∧ gs2.bans = gs.bans ∧
      gs2.invites = gs.invites ∧ gs2.joinRequests = gs.joinRequests ∧
      gs2.groupEvents = gs.groupEvents := by
    intro gs2 h
    unfold UpsertGroup at h
    split at h
    · cases h
    · injection h with h; subst h; exact ⟨rfl, rfl, rfl, rfl, rfl, rfl, rfl⟩
  refine ⟨?_, ?_, ?_, ?_⟩
  · intro i old gs2 hi hid hlt h
    rw [(hok gs2 h).1, getElem?_upsertRow _ _ _ _ old i hi, hstale old hlt]
    simp
  · intro old gs2 hget hlt h
    unfold GetGroup at hget ⊢
    rw [(hok gs2 h).1, GetGroup_upsert, hget]
    simp [hstale old hlt]
  · rintro ⟨g, hg, hgid⟩ hall gs2 h
    have h2 := hok gs2 h
    rw [upsertRow_noop] at h2
    · cases gs; cases gs2
      simp only [GroupStore.mk.injEq]
      exact h2
    · exact List.any_eq_true.2 ⟨g, hg, by simp [hgid]⟩
    · intro r hr hk
      have hk2 : group.GroupID = r.GroupID := by simpa using hk
      exact hstale r (hall r hr hk2.symm)
  · intro hlen
    unfold UpsertGroup
    have h1 := length_le_goLen group.Geohash
    have hne : group.Geohash ≠ "" := by
      intro h0; rw [h0] at hlen; simp at hlen
    rw [if_pos ⟨hne, by omega⟩]

/-- C15 (at a concrete input): the stale `staleGroup` leaves the store of
`groupOfAlice` as it is, and the same `Group` with a geohash of seven
characters is rejected. -/
theorem C15_stale_upsert_witness :
    staleGroup.UpdatedAt < 10 ∧
    UpsertGroup groupOfAlice.groups staleGroup = .ok groupOfAlice.groups ∧
    UpsertGroup groupOfAlice.groups { staleGroup with Geohash := "u4pruyd" }
      = .error .geohashPrecision := by
  have h2 := C15_stale_upsert_group_changes_nothing groupOfAlice.groups
    { staleGroup with Geohash := "u4pruyd" }
  refine ⟨by decide, by decide, h2.2.2.2 (by decide)⟩

/-- C14 (the code at the failing input): `UpsertGroup` never lowers the
`updated_at` of a stored row, but `CloseGroup` does.  In `groupOfAlice` the
group `group-1` was last updated at time 10; the kind-9008 event `aliceClose`
of its creator, created at time 5, is applied without error and the stored
`updated_at` becomes 5. -/
theorem C14_close_group_lowers_updated_at :
    (∀ (gs gs2 : GroupStore) (group old : Group) (i : Nat),
      UpsertGroup gs group = .ok gs2 → gs.groups[i]? = some old →
      ∃ new, gs2.groups[i]? = some new ∧ old.UpdatedAt ≤ new.UpdatedAt) ∧
    (GetGroup groupOfAlice.groups "group-1").map (fun g => g.UpdatedAt) = some 10 ∧
    (ApplyEvent sampleCrypto sampleProjection sampleClock groupOfAlice aliceClose).1
      = .ok () ∧
    (GetGroup (ApplyEvent sampleCrypto sampleProjection sampleClock groupOfAlice
      aliceClose).2.groups "group-1").map (fun g => g.UpdatedAt) = some 5 ∧
    (GetGroup (CloseGroup groupOfAlice.groups "group-1" 5 "alice-pub") "group-1").map
      (fun g => g.UpdatedAt) = some 5 := by
  refine ⟨?_, by decide, by decide, by decide, by decide⟩
  intro gs gs2 group old i h hi
  unfold UpsertGroup at h
  split at h
  · cases h
  · injection h with h
    subst h
    simp only []
    rw [getElem?_upsertRow _ _ _ _ old i hi]
    refine ⟨_, rfl, ?_⟩
    split
    · unfold updateGroup
      split
      · simp only []; omega
      · exact le_refl _
    · exact le_refl _

/-! ## Projection: put user (kind 9000) -/

theorem GetMemberRole_exists (gs : GroupStore) (groupID pubKey : String) :
    (GetMemberRole gs groupID pubKey).2 = IsMember gs groupID pubKey := by
  unfold GetMemberRole IsMember
  cases findMember gs groupID pubKey <;> rfl

theorem applyHandler_put_user (cfg : ProjectionConfig) (clock : Clock) (st : RelayState)
    (event : Event) (groupID : String) (hk : event.Kind = 9000) :
    applyHandler cfg clock st event groupID = applyPutUser st event groupID := by
  unfold applyHandler
  simp [hk]

/-- What `ApplyEvent` returns and leaves when the kind's handler fails. -/
theorem ApplyEvent_handler_error (lib : Crypto) (cfg : ProjectionConfig) (clock : Clock)
    (st st1 : RelayState) (event : Event) (e : Err) (hg : resolveGroupID event ≠ "")
    (h : applyHandler cfg clock st event (resolveGroupID event) = (.error e, st1)) :
    ApplyEvent lib cfg clock st event = (.error e, st1) := by
  unfold ApplyEvent
  simp only [hg, if_false, h]

theorem IsMember_UpsertMember (gs : GroupStore) (member : GroupMember) :
    IsMember (UpsertMember gs member) member.GroupID member.PubKey = true := by
  unfold IsMember findMember UpsertMember
  simp only []
  rw [findMember_upsert]
  rfl

/-- C11: for a kind-9000 event with a group id and a usable `p` tag,
`ApplyEvent` upserts the target only if the author holds `add-user` (target
not yet a member) or `promote-user` (target already a member) and, when the
requested role is not exactly "member", also `promote-user`.  When these
hold, the member table is the old one with the target upserted, the target's
join request is removed and the target is a member; otherwise the result is
a not-authorized error, naming the missing permission, and the member table
and the join requests are as before.  The requested role is the trimmed third
element of the `p` tag, else the trimmed `role` tag, else "member". -/
theorem C11_put_user_needs_permission (lib : Crypto) (cfg : ProjectionConfig) (clock : Clock)
    (st : RelayState) (event : Event) (memberKey tagRole : String)
    (hk : event.Kind = 9000) (hg : resolveGroupID event ≠ "")
    (hp : parsePutUserTag event.Tags = .ok (memberKey, tagRole)) :
    ((HasPermission st.groups (resolveGroupID event) event.PubKey
        (if IsMember st.groups (resolveGroupID event) memberKey then PermissionPromoteUser
          else PermissionAddUser) = true ∧
      (requestedRoleOf event tagRole ≠ "member" →
        HasPermission st.groups (resolveGroupID event) event.PubKey PermissionPromoteUser
          = true)) →
      (ApplyEvent lib cfg clock st event).2.groups.members =
        (UpsertMember st.groups (putUserMember event (resolveGroupID event) memberKey
          (requestedRoleOf event tagRole))).members ∧
      (ApplyEvent lib cfg clock st event).2.groups.joinRequests =
        (DeleteJoinRequest st.groups (resolveGroupID event) memberKey).joinRequests ∧
      IsMember (ApplyEvent lib cfg clock st event).2.groups (resolveGroupID event) memberKey
        = true) ∧
    (¬ (HasPermission st.groups (resolveGroupID event) event.PubKey
        (if IsMember st.groups (resolveGroupID event) memberKey then PermissionPromoteUser
          else PermissionAddUser) = true ∧
      (requestedRoleOf event tagRole ≠ "member" →
        HasPermission st.groups (resolveGroupID event) event.PubKey PermissionPromoteUser
          = true)) →
      (ApplyEvent lib cfg clock st event).1 = .error (.notAuthorized
        (if HasPermission st.groups (resolveGroupID event) event.PubKey
            (if IsMember st.groups (resolveGroupID event) memberKey then PermissionPromoteUser
              else PermissionAddUser) = true
          then PermissionPromoteUser
          else if IsMember st.groups (resolveGroupID event) memberKey
            then PermissionPromoteUser else PermissionAddUser)) ∧
      (ApplyEvent lib cfg clock st event).2.groups.members = st.groups.members ∧
      (ApplyEvent lib cfg clock st event).2.groups.joinRequests = st.groups.joinRequests) := by
  have htab := ApplyEvent_tables lib cfg clock st event hg
  rw [applyHandler_put_user cfg clock st event _ hk] at htab
  have hh := applyHandler_put_user cfg clock st event (resolveGroupID event) hk
  by_cases h1 : HasPermission st.groups (resolveGroupID event) event.PubKey
      (if IsMember st.groups (resolveGroupID event) memberKey then PermissionPromoteUser
        else PermissionAddUser) = true
  · by_cases h2 : requestedRoleOf event tagRole ≠ "member" →
        HasPermission st.groups (resolveGroupID event) event.PubKey PermissionPromoteUser = true
    · -- both checks pass
      have hput : (applyPutUser st event (resolveGroupID event)).2.groups =
          DeleteJoinRequest (UpsertMember st.groups (putUserMember event (resolveGroupID event)
            memberKey (requestedRoleOf event tagRole))) (resolveGroupID event) memberKey := by
        unfold applyPutUser
        simp only [hp, GetMemberRole_exists, requirePermission, h1, Bool.not_true,
          Bool.false_eq_true, if_false]
        by_cases hr : requestedRoleOf event tagRole ≠ "member"
        · rw [if_pos hr]
          simp only [h2 hr, Bool.not_true, Bool.false_eq_true, if_false]
          rfl
        · rw [if_neg hr]
          rfl
      rw [hput] at htab
      refine ⟨fun _ => ⟨htab.2.2.1, ?_, ?_⟩, fun hn => absurd ⟨h1, h2⟩ hn⟩
      · rw [htab.2.2.2.2.2]
        rfl
      · unfold IsMember findMember
        rw [htab.2.2.1]
        exact IsMember_UpsertMember st.groups (putUserMember event (resolveGroupID event)
          memberKey (requestedRoleOf event tagRole))
    · -- the second check fails
      have hr : requestedRoleOf event tagRole ≠ "member" := by
        intro h; exact h2 (fun hne => absurd h hne)
      have hperm : HasPermission st.groups (resolveGroupID event) event.PubKey
          PermissionPromoteUser = false := by
        cases hc : HasPermission st.groups (resolveGroupID event) event.PubKey
            PermissionPromoteUser with
        | false => rfl
        | true => exact absurd (fun _ => hc) h2
      have hput : applyPutUser st event (resolveGroupID event) =
          (.error (.notAuthorized PermissionPromoteUser), st) := by
        unfold applyPutUser
        simp only [hp, GetMemberRole_exists, requirePermission, h1, Bool.not_true,
          Bool.false_eq_true, if_false]
        rw [if_pos hr]
        simp only [hperm, Bool.not_false, if_true]
      rw [hput] at hh
      rw [ApplyEvent_handler_error lib cfg clock st st event _ hg hh]
      refine ⟨fun h => absurd h.2 h2, fun _ => ⟨?_, rfl, rfl⟩⟩
      simp only [h1, if_true]
  · -- the first check fails
    have hperm : HasPermission st.groups (resolveGroupID event) event.PubKey
        (if IsMember st.groups (resolveGroupID event) memberKey then PermissionPromoteUser
          else PermissionAddUser) = false := by
      cases hc : HasPermission st.groups (resolveGroupID event) event.PubKey
          (if IsMember st.groups (resolveGroupID event) memberKey then PermissionPromoteUser
            else PermissionAddUser) with
      | false => rfl
      | true => exact absurd hc h1
    have hput : applyPutUser st event (resolveGroupID event) =
        (.error (.notAuthorized
          (if IsMember st.groups (resolveGroupID event) memberKey then PermissionPromoteUser
            else PermissionAddUser)), st) := by
      unfold applyPutUser
      simp only [hp, GetMemberRole_exists, requirePermission, hperm, Bool.not_false, if_true]
    rw [hput] at hh
    rw [ApplyEvent_handler_error lib cfg clock st st event _ hg hh]
    refine ⟨fun h => absurd h.1 h1, fun _ => ⟨?_, rfl, rfl⟩⟩
    simp only [hperm, Bool.false_eq_true, if_false]

/-- C11 (witness): the plain member `bob-pub` asks to add `carol-pub` to
`group-1`; a member holds no `add-user`, so the event is refused and the
tables stay. -/
theorem C11_put_user_witness :
    (ApplyEvent sampleCrypto sampleProjection sampleClock groupOfAlice bobAddsCarol).1
      = .error (.notAuthorized PermissionAddUser) ∧
    (ApplyEvent sampleCrypto sampleProjection sampleClock groupOfAlice
      bobAddsCarol).2.groups.members = groupOfAlice.groups.members ∧
    (ApplyEvent sampleCrypto sampleProjection sampleClock groupOfAlice
      bobAddsCarol).2.groups.joinRequests = groupOfAlice.groups.joinRequests := by
  have h := (C11_put_user_needs_permission sampleCrypto sampleProjection sampleClock
    groupOfAlice bobAddsCarol "carol-pub" "member" (by decide) (by decide) (by decide)).2
    (by decide)
  exact ⟨h.1.trans (by decide), h.2⟩

/-! ## Projection: join requests (kind 9021) -/

theorem applyHandler_join_request (cfg : ProjectionConfig) (clock : Clock) (st : RelayState)
    (event : Event) (groupID : String) (hk : event.Kind = 9021) :
    applyHandler cfg clock st event groupID = applyJoinRequest clock st event groupID := by
  unfold applyHandler
  simp [hk]

/-- An upsert into a table without a row of the new row's key appends it. -/
theorem upsertRow_absent {α : Type} (sameKey : α → α → Bool) (update : α → α → α)
    (rows : List α) (new : α) (h : rows.find? (sameKey new) = none) :
    upsertRow sameKey update rows new = rows ++ [new] := by
  unfold upsertRow
  have : rows.any (sameKey new) = false := by
    cases hc : rows.any (sameKey new) with
    | false => rfl
    | true =>
      rcases List.any_eq_true.1 hc with ⟨r, hr, hk⟩
      have := List.find?_eq_none.1 h r hr
      exact absurd hk this
  simp [this]

theorem UpsertMember_absent (gs : GroupStore) (member : GroupMember)
    (h : IsMember gs member.GroupID member.PubKey = false) :
    (UpsertMember gs member).members = gs.members ++ [member] := by
  unfold UpsertMember
  simp only []
  apply upsertRow_absent
  unfold IsMember findMember at h
  have h2 : List.find? (fun m => decide (m.GroupID = member.GroupID ∧ m.PubKey = member.PubKey))
      gs.members = none := by
    cases hc : List.find? (fun m => decide (m.GroupID = member.GroupID ∧
        m.PubKey = member.PubKey)) gs.members with
    | none => rfl
    | some m => rw [hc] at h; cases h
  rw [← h2]
  congr 1
  funext m
  simp only [decide_eq_decide]
  constructor
  · rintro ⟨h1, h2⟩; exact ⟨h1.symm, h2.symm⟩
  · rintro ⟨h1, h2⟩; exact ⟨h1.symm, h2.symm⟩

theorem find?_UpsertJoinRequest (gs : GroupStore) (req : GroupJoinRequest) :
    ∃ r, (UpsertJoinRequest gs req).joinRequests.find?
        (fun r => decide (r.GroupID = req.GroupID ∧ r.PubKey = req.PubKey)) = some r ∧
      req.CreatedAt ≤ r.CreatedAt := by
  unfold UpsertJoinRequest
  simp only []
  rw [find?_upsertRow (fun r => decide (r.GroupID = req.GroupID ∧ r.PubKey = req.PubKey))
    (fun a b => decide (a.GroupID = b.GroupID ∧ a.PubKey = b.PubKey)) updateJoinRequest
    gs.joinRequests req ?_ ?_ ?_]
  · refine ⟨_, rfl, ?_⟩
    cases List.find? (fun r => decide (r.GroupID = req.GroupID ∧ r.PubKey = req.PubKey))
      gs.joinRequests with
    | none => exact le_refl _
    | some old => simp [updateJoinRequest]
  · intro r
    simp only [decide_eq_decide]
    constructor
    · rintro ⟨h1, h2⟩; exact ⟨h1.symm, h2.symm⟩
    · rintro ⟨h1, h2⟩; exact ⟨h1.symm, h2.symm⟩
  · simp
  · intro old; rfl

/-- C12: for a kind-9021 event with a group id, `ApplyEvent` returns an error
and leaves the state as it was when the `p` tag names a key other than the
author (letter case ignored), when the requester is already a member, or when
the requester is banned.  Otherwise, when the group exists and is not vetted,
the requester is appended to the members with role "member" and the join
requests stay; and when the group is vetted or unknown, the members stay and
a join request of the requester is recorded.  The requester is the trimmed
`p` tag when there is one, else the trimmed author. -/
theorem C12_join_request_outcomes (lib : Crypto) (cfg : ProjectionConfig) (clock : Clock)
    (st : RelayState) (event : Event)
    (hk : event.Kind = 9021) (hg : resolveGroupID event ≠ "") :
    ((TrimSpace (firstTagValue event.Tags "p") ≠ "" ∧
        EqualFold (TrimSpace (firstTagValue event.Tags "p")) (TrimSpace event.PubKey) = false) →
      ApplyEvent lib cfg clock st event = (.error .joinRequestPMismatch, st)) ∧
    (¬ (TrimSpace (firstTagValue event.Tags "p") ≠ "" ∧
        EqualFold (TrimSpace (firstTagValue event.Tags "p")) (TrimSpace event.PubKey) = false) →
      joinRequestPubKey event = .ok
        (if TrimSpace (firstTagValue event.Tags "p") = "" then TrimSpace event.PubKey
          else TrimSpace (firstTagValue event.Tags "p"))) ∧
    ∀ requester, joinRequestPubKey event = .ok requester →
      (IsMember st.groups (resolveGroupID event) requester = true →
        ApplyEvent lib cfg clock st event = (.error .alreadyMember, st)) ∧
      (IsMember st.groups (resolveGroupID event) requester = false →
        IsBanned st.groups clock.ban (resolveGroupID event) requester = true →
        ApplyEvent lib cfg clock st event = (.error .userBanned, st)) ∧
      (IsMember st.groups (resolveGroupID event) requester = false →
        IsBanned st.groups clock.ban (resolveGroupID event) requester = false →
        ((∃ g, GetGroup st.groups (resolveGroupID event) = some g ∧ g.IsVetted = false) →
          (ApplyEvent lib cfg clock st event).2.groups.members =
            st.groups.members ++ [joinedMember event (resolveGroupID event) requester] ∧
          (ApplyEvent lib cfg clock st event).2.groups.joinRequests = st.groups.joinRequests ∧
          IsMember (ApplyEvent lib cfg clock st event).2.groups (resolveGroupID event) requester
            = true) ∧
        (¬ (∃ g, GetGroup st.groups (resolveGroupID event) = some g ∧ g.IsVetted = false) →
          (ApplyEvent lib cfg clock st event).2.groups.members = st.groups.members ∧
          (ApplyEvent lib cfg clock st event).2.groups.joinRequests =
            (UpsertJoinRequest st.groups
              ⟨resolveGroupID event, requester, event.CreatedAt⟩).joinRequests ∧
          ∃ r, (ApplyEvent lib cfg clock st event).2.groups.joinRequests.find?
              (fun r => decide (r.GroupID = resolveGroupID event ∧ r.PubKey = requester))
              = some r ∧ event.CreatedAt ≤ r.CreatedAt)) := by
  have htab := ApplyEvent_tables lib cfg clock st event hg
  rw [applyHandler_join_request cfg clock st event _ hk] at htab
  have hh := applyHandler_join_request cfg clock st event (resolveGroupID event) hk
  refine ⟨?_, ?_, ?_⟩
  · rintro ⟨hp, hf⟩
    have hj : applyJoinRequest clock st event (resolveGroupID event) =
        (.error .joinRequestPMismatch, st) := by
      unfold applyJoinRequest joinRequestPubKey
      simp only [hp, if_false, hf, Bool.not_false, if_true]
    rw [hj] at hh
    exact ApplyEvent_handler_error lib cfg clock st st event _ hg hh
  · intro hn
    unfold joinRequestPubKey
    simp only []
    by_cases hp : TrimSpace (firstTagValue event.Tags "p") = ""
    · simp only [hp, if_true]
    · have hf : EqualFold (TrimSpace (firstTagValue event.Tags "p")) (TrimSpace event.PubKey)
          = true := by
        cases hc : EqualFold (TrimSpace (firstTagValue event.Tags "p"))
            (TrimSpace event.PubKey) with
        | true => rfl
        | false => exact absurd ⟨hp, hc⟩ hn
      simp only [hp, if_false, hf, Bool.not_true, Bool.false_eq_true]
  · intro requester hreq
    refine ⟨?_, ?_, ?_⟩
    · intro hm
      have hj : applyJoinRequest clock st event (resolveGroupID event) =
          (.error .alreadyMember, st) := by
        unfold applyJoinRequest
        simp only [hreq, hm, if_true]
      rw [hj] at hh
      exact ApplyEvent_handler_error lib cfg clock st st event _ hg hh
    · intro hm hb
      have hj : applyJoinRequest clock st event (resolveGroupID event) =
          (.error .userBanned, st) := by
        unfold applyJoinRequest
        simp only [hreq, hm, hb, Bool.false_eq_true, if_false, if_true]
      rw [hj] at hh
      exact ApplyEvent_handler_error lib cfg clock st st event _ hg hh
    · intro hm hb
      refine ⟨?_, ?_⟩
      · rintro ⟨g, hget, hv⟩
        have hauto : CanAutoApprove st.groups clock.ban (resolveGroupID event) requester
            = true := by
          unfold CanAutoApprove JoinRequiresApproval
          simp [hget, hv, hb]
        have hj : (applyJoinRequest clock st event (resolveGroupID event)).2.groups =
            UpsertMember st.groups (joinedMember event (resolveGroupID event) requester) := by
          unfold applyJoinRequest
          simp only [hreq, hm, hb, hauto, Bool.false_eq_true, if_false, if_true]
          rfl
        rw [hj] at htab
        have happ := UpsertMember_absent st.groups
          (joinedMember event (resolveGroupID event) requester) hm
        refine ⟨htab.2.2.1.trans happ, htab.2.2.2.2.2, ?_⟩
        unfold IsMember findMember
        rw [htab.2.2.1]
        exact IsMember_UpsertMember st.groups
          (joinedMember event (resolveGroupID event) requester)
      · intro hno
        have hauto : CanAutoApprove st.groups clock.ban (resolveGroupID event) requester
            = false := by
          unfold CanAutoApprove JoinRequiresApproval
          cases hget : GetGroup st.groups (resolveGroupID event) with
          | none => simp
          | some g =>
            cases hv : g.IsVetted with
            | true => simp [hv]
            | false => exact absurd ⟨g, hget, hv⟩ hno
        have hj : (applyJoinRequest clock st event (resolveGroupID event)).2.groups =
            UpsertJoinRequest st.groups ⟨resolveGroupID event, requester, event.CreatedAt⟩ := by
          unfold applyJoinRequest
          simp only [hreq, hm, hb, hauto, Bool.false_eq_true, if_false]
        rw [hj] at htab
        refine ⟨htab.2.2.1, htab.2.2.2.2.2, ?_⟩
        rw [htab.2.2.2.2.2]
        exact find?_UpsertJoinRequest st.groups ⟨resolveGroupID event, requester, event.CreatedAt⟩

/-- C12 (witness): `carol-pub` asks to join `group-1`, which exists and is not
vetted, and becomes a member with role "member". -/
theorem C12_join_request_witness :
    (ApplyEvent sampleCrypto sampleProjection sampleClock groupOfAlice
      carolJoins).2.groups.members =
      groupOfAlice.groups.members ++
        [⟨"group-1", "carol-pub", 130, "carol-pub", "member", 0, ""⟩] ∧
    (ApplyEvent sampleCrypto sampleProjection sampleClock groupOfAlice
      carolJoins).2.groups.joinRequests = [] := by
  have h := (((C12_join_request_outcomes sampleCrypto sampleProjection sampleClock
    groupOfAlice carolJoins (by decide) (by decide)).2.2 "carol-pub" (by decide)).2.2
    (by decide) (by decide)).1
    ⟨⟨"group-1", "Group One", "", "", "", false, false, false, false, false,
      10, "alice-pub", 10, "alice-pub"⟩, by decide, by decide⟩
  exact ⟨h.1, h.2.1⟩

/-! ## Deletion -/

/-- An upsert that replaces the whole row leaves the new row under its key. -/
theorem find?_upsertRow_replace {α : Type} (key : α → Bool) (sameKey : α → α → Bool)
    (rows : List α) (new : α) (hk : ∀ r, sameKey new r = key r) (hnew : key new = true) :
    (upsertRow sameKey (fun _ n => n) rows new).find? key = some new := by
  have hfun : sameKey new = key := funext hk
  unfold upsertRow
  rw [hfun]
  split
  · rename_i hany
    induction rows with
    | nil => simp at hany
    | cons r rest ih =>
      cases hr : key r with
      | true => simp [hr, hnew]
      | false =>
        have hany2 : rest.any key = true := by simpa [hr] using hany
        simp only [List.map_cons, hr, Bool.false_eq_true, if_false, List.find?_cons]
        exact ih hany2
  · rename_i hany
    have hnone : rows.find? key = none := by
      apply List.find?_eq_none.2
      intro r hr hkr
      exact hany (List.any_eq_true.2 ⟨r, hr, hkr⟩)
    rw [List.find?_append, hnone]
    simp [hnew]

/-- The request `DeleteEvent` works with: `deleted_at` defaults to `now`. -/
theorem deleteRequest_fields (now : Int) (req : DeletedEvent) :
    (if req.DeletedAt = 0 then { req with DeletedAt := now } else req).EventID = req.EventID ∧
    (if req.DeletedAt = 0 then { req with DeletedAt := now } else req).DeletedBy
      = req.DeletedBy := by
  split <;> exact ⟨rfl, rfl⟩

/-- The branches of `DeleteEvent`, one equation each. -/
theorem DeleteEvent_cases (hasProjection : Bool) (now : Int) (faults : DeleteFaults)
    (st : RelayState) (req r : DeletedEvent)
    (hr : r = if req.DeletedAt = 0 then { req with DeletedAt := now } else req) :
    ((req.EventID = "" ∨ req.DeletedBy = "") ∧
      DeleteEvent hasProjection now faults st req =
        (.error (.deleteRequest "event_id and deleted_by are required"), st)) ∨
    (req.EventID ≠ "" ∧ req.DeletedBy ≠ "" ∧
      ((∃ err, faults.GetEvent = some err ∧
          DeleteEvent hasProjection now faults st req = (.error (.storage (.other err)), st)) ∨
       (faults.GetEvent = none ∧
        ((GetEvent st.events req.EventID = none ∧
            DeleteEvent hasProjection now faults st req = (.error (.storage .noRows), st)) ∨
         (∃ event, GetEvent st.events req.EventID = some event ∧
          ((event.PubKey ≠ req.DeletedBy ∧
              DeleteEvent hasProjection now faults st req =
                (.error (.deleteRequest "delete not authorized for this pubkey"), st)) ∨
           (event.PubKey = req.DeletedBy ∧
            ((∃ err, faults.MarkDeleted = some err ∧
                DeleteEvent hasProjection now faults st req =
                  (.error (.storage (.other ("upsert deleted event: " ++ err))), st)) ∨
             (faults.MarkDeleted = none ∧
              ((hasProjection = false ∧
                  DeleteEvent hasProjection now faults st req =
                    (.ok (), ({ st with events := MarkDeleted st.events r }).Inc
                        "events_deleted_total")) ∨
               (hasProjection = true ∧
                ((∃ err, faults.RemoveGroupEventByEventID = some err ∧
                    DeleteEvent hasProjection now faults st req =
                      (.error (.storage (.other ("remove group event mapping: " ++ err))),
                        ({ st with events := MarkDeleted st.events r }).Inc
                            "events_deleted_total")) ∨
                 (faults.RemoveGroupEventByEventID = none ∧
                    DeleteEvent hasProjection now faults st req =
                      (.ok (), ({ (({ st with events := MarkDeleted st.events r }).Inc
                            "events_deleted_total") with
                        groups := RemoveGroupEventByEventID st.groups req.EventID }).Inc
                          "group_projection_deletion_applied_total")))))))))))))) := by
  obtain ⟨hid, hby⟩ := deleteRequest_fields now req
  subst hr
  by_cases h0 : req.EventID = "" ∨ req.DeletedBy = ""
  · left
    refine ⟨h0, ?_⟩
    unfold DeleteEvent
    rw [if_pos h0]
  · right
    refine ⟨fun h => h0 (Or.inl h), fun h => h0 (Or.inr h), ?_⟩
    cases hf1 : faults.GetEvent with
    | some err =>
      left
      refine ⟨err, rfl, ?_⟩
      unfold DeleteEvent
      rw [if_neg h0]
      simp only [hf1]
    | none =>
      right
      refine ⟨rfl, ?_⟩
      cases hget : GetEvent st.events req.EventID with
      | none =>
        left
        refine ⟨rfl, ?_⟩
        unfold DeleteEvent
        rw [if_neg h0]
        simp only [hf1, hid, hget]
      | some ev =>
        right
        refine ⟨ev, rfl, ?_⟩
        by_cases hpk : ev.PubKey = req.DeletedBy
        · right
          refine ⟨hpk, ?_⟩
          cases hf2 : faults.MarkDeleted with
          | some err =>
            left
            refine ⟨err, rfl, ?_⟩
            unfold DeleteEvent
            rw [if_neg h0]
            simp only [hf1, hid, hby, hget, hpk, ne_eq, not_true_eq_false, if_false, hf2]
          | none =>
            right
            refine ⟨rfl, ?_⟩
            cases hasProjection with
            | false =>
              left
              refine ⟨rfl, ?_⟩
              unfold DeleteEvent
              rw [if_neg h0]
              simp only [hf1, hid, hby, hget, hpk, ne_eq, not_true_eq_false, if_false, hf2,
                Bool.false_eq_true]
            | true =>
              right
              refine ⟨rfl, ?_⟩
              cases hf3 : faults.RemoveGroupEventByEventID with
              | some err =>
                left
                refine ⟨err, rfl, ?_⟩
                unfold DeleteEvent
                rw [if_neg h0]
                simp only [hf1, hid, hby, hget, hpk, ne_eq, not_true_eq_false, if_false, hf2,
                  if_true, hf3, ApplyDeletion]
              | none =>
                right
                refine ⟨rfl, ?_⟩
                unfold DeleteEvent
                rw [if_neg h0]
                simp only [hf1, hid, hby, hget, hpk, ne_eq, not_true_eq_false, if_false, hf2,
                  if_true, hf3, ApplyDeletion]
                rfl
        · left
          refine ⟨hpk, ?_⟩
          unfold DeleteEvent
          rw [if_neg h0]
          simp only [hf1, hid, hby, hget, ne_eq, hpk, not_false_eq_true, if_true]

/-- The state `DeleteEvent` leaves when the tombstone is written: the
tombstone of the event is stored and the counter is one higher. -/
theorem markDeleted_counted (now : Int) (st : RelayState) (req r : DeletedEvent)
    (hr : r = if req.DeletedAt = 0 then { req with DeletedAt := now } else req) :
    (∃ d : DeletedEvent, (({ st with events := MarkDeleted st.events r } : RelayState).Inc
          "events_deleted_total").events.deleted.find?
          (fun d : DeletedEvent => decide (d.EventID = req.EventID)) = some d ∧
        d.DeletedBy = req.DeletedBy) ∧
    mapGet (({ st with events := MarkDeleted st.events r } : RelayState).Inc
          "events_deleted_total").metrics "events_deleted_total" =
      some ((mapGet st.metrics "events_deleted_total").getD 0 + 1) ∧
    (({ st with events := MarkDeleted st.events r } : RelayState).Inc
          "events_deleted_total").groups = st.groups := by
  obtain ⟨hid, hby⟩ := deleteRequest_fields now req
  rw [← hr] at hid hby
  clear hr
  refine ⟨⟨r, ?_, hby⟩, ?_, rfl⟩
  · show (MarkDeleted st.events r).deleted.find? (fun d => decide (d.EventID = req.EventID))
      = some r
    unfold MarkDeleted
    simp only []
    rw [← hid]
    refine find?_upsertRow_replace (fun d => decide (d.EventID = r.EventID))
      (fun a b => decide (a.EventID = b.EventID)) st.events.deleted r ?_ ?_
    · intro d; simp only [decide_eq_decide]; exact eq_comm
    · simp
  · unfold RelayState.Inc
    exact mapGet_mapPut_self _ _ _

/-- C17 (counterexample): the service has a projection, `alice` asks to delete
her own stored event, and the database fails the statement of
`RemoveGroupEventByEventID`.  `DeleteEvent` returns the error, a failing case,
yet the tombstone is written and `events_deleted_total` is 1, where the state
before the call has no tombstone and no such counter. -/
theorem C17_counterexample :
    (DeleteEvent true 500 ⟨none, none, some "conn closed"⟩ storeOfAlice
      ⟨"evt-delete-1", 121, "alice", "cleanup"⟩).1 =
      .error (.storage (.other "remove group event mapping: conn closed")) ∧
    (DeleteEvent true 500 ⟨none, none, some "conn closed"⟩ storeOfAlice
      ⟨"evt-delete-1", 121, "alice", "cleanup"⟩).2.events.deleted =
      [⟨"evt-delete-1", 121, "alice", "cleanup"⟩] ∧
    storeOfAlice.events.deleted = [] ∧
    mapGet (DeleteEvent true 500 ⟨none, none, some "conn closed"⟩ storeOfAlice
      ⟨"evt-delete-1", 121, "alice", "cleanup"⟩).2.metrics "events_deleted_total" = some 1 ∧
    mapGet storeOfAlice.metrics "events_deleted_total" = none := by
  decide

/-- C17 (amended): `DeleteEvent` changes the tombstones only if `event_id` and
`deleted_by` are both non-empty, the event exists and its stored pubkey equals
`deleted_by`.  With both fields set and a stored event of another pubkey it
returns the error "delete not authorized for this pubkey" and leaves the
state.  Whenever it returns an error, either the state is the one before the
call (tombstones, group-event links and counters unchanged), or the service has
a projection and the error is that of `ApplyDeletion`: then the three
conditions hold, the tombstone of the event is stored, `events_deleted_total`
is one higher and the group store is unchanged.  That case occurs whenever the
statement of `RemoveGroupEventByEventID` fails after the others went through.
When the three conditions hold and no statement fails, the call succeeds, the
tombstone is stored and the counter is one higher. -/
theorem C17_delete_event_checks (hasProjection : Bool) (now : Int) (faults : DeleteFaults)
    (st : RelayState) (req : DeletedEvent) :
    ((DeleteEvent hasProjection now faults st req).2.events.deleted ≠ st.events.deleted →
      req.EventID ≠ "" ∧ req.DeletedBy ≠ "" ∧
      ∃ event, GetEvent st.events req.EventID = some event ∧ event.PubKey = req.DeletedBy) ∧
    (∀ event, req.EventID ≠ "" → req.DeletedBy ≠ "" → faults.GetEvent = none →
      GetEvent st.events req.EventID = some event → event.PubKey ≠ req.DeletedBy →
      DeleteEvent hasProjection now faults st req =
        (.error (.deleteRequest "delete not authorized for this pubkey"), st)) ∧
    (∀ e, (DeleteEvent hasProjection now faults st req).1 = .error e →
      (DeleteEvent hasProjection now faults st req).2 = st ∨
      (hasProjection = true ∧
        (∃ err, faults.RemoveGroupEventByEventID = some err ∧
          e = .storage (.other ("remove group event mapping: " ++ err))) ∧
        req.EventID ≠ "" ∧ req.DeletedBy ≠ "" ∧
        (∃ event, GetEvent st.events req.EventID = some event ∧
          event.PubKey = req.DeletedBy) ∧
        (∃ d, (DeleteEvent hasProjection now faults st req).2.events.deleted.find?
            (fun d => decide (d.EventID = req.EventID)) = some d ∧
          d.DeletedBy = req.DeletedBy) ∧
        mapGet (DeleteEvent hasProjection now faults st req).2.metrics "events_deleted_total" =
          some ((mapGet st.metrics "events_deleted_total").getD 0 + 1) ∧
        (DeleteEvent hasProjection now faults st req).2.groups = st.groups)) ∧
    (∀ event err, hasProjection = true → req.EventID ≠ "" → req.DeletedBy ≠ "" →
      faults.GetEvent = none → faults.MarkDeleted = none →
      faults.RemoveGroupEventByEventID = some err →
      GetEvent st.events req.EventID = some event → event.PubKey = req.DeletedBy →
      (DeleteEvent hasProjection now faults st req).1 =
        .error (.storage (.other ("remove group event mapping: " ++ err))) ∧
      (∃ d, (DeleteEvent hasProjection now faults st req).2.events.deleted.find?
          (fun d => decide (d.EventID = req.EventID)) = some d ∧
        d.DeletedBy = req.DeletedBy) ∧
      mapGet (DeleteEvent hasProjection now faults st req).2.metrics "events_deleted_total" =
        some ((mapGet st.metrics "events_deleted_total").getD 0 + 1)) ∧
    (∀ event, req.EventID ≠ "" → req.DeletedBy ≠ "" →
      faults.GetEvent = none → faults.MarkDeleted = none →
      (hasProjection = true → faults.RemoveGroupEventByEventID = none) →
      GetEvent st.events req.EventID = some event → event.PubKey = req.DeletedBy →
      (DeleteEvent hasProjection now faults st req).1 = .ok () ∧
      (∃ d, (DeleteEvent hasProjection now faults st req).2.events.deleted.find?
          (fun d => decide (d.EventID = req.EventID)) = some d ∧
        d.DeletedBy = req.DeletedBy) ∧
      mapGet (DeleteEvent hasProjection now faults st req).2.metrics "events_deleted_total" =
        some ((mapGet st.metrics "events_deleted_total").getD 0 + 1)) := by
  obtain ⟨hmark, hcount, hgroups⟩ := markDeleted_counted now st req _ rfl
  have hcount2 : ∀ s : RelayState,
      mapGet (s.Inc "group_projection_deletion_applied_total").metrics
        "events_deleted_total" = mapGet s.metrics "events_deleted_total" := by
    intro s
    unfold RelayState.Inc
    exact mapGet_mapPut_other _ _ _ _ (by decide)
  rcases DeleteEvent_cases hasProjection now faults st req _ rfl with
    ⟨h0, h⟩ | ⟨hid, hby, ⟨err, hf1, h⟩ | ⟨hf1, ⟨hget, h⟩ | ⟨ev, hget, ⟨hpk, h⟩ | ⟨hpk,
      ⟨err, hf2, h⟩ | ⟨hf2, ⟨hp, h⟩ | ⟨hp, ⟨err, hf3, h⟩ | ⟨hf3, h⟩⟩⟩⟩⟩⟩⟩
  · -- a field is missing
    rw [h]
    refine ⟨fun hne => absurd rfl hne, ?_, fun _ _ => Or.inl rfl, ?_, ?_⟩
    · intro _ h1 h2
      rcases h0 with h0 | h0
      · exact absurd h0 h1
      · exact absurd h0 h2
    · intro _ _ _ h1 h2
      rcases h0 with h0 | h0
      · exact absurd h0 h1
      · exact absurd h0 h2
    · intro _ h1 h2
      rcases h0 with h0 | h0
      · exact absurd h0 h1
      · exact absurd h0 h2
  · -- the query of `GetEvent` fails
    rw [h]
    refine ⟨fun hne => absurd rfl hne, ?_, fun _ _ => Or.inl rfl, ?_, ?_⟩
    · intro _ _ _ hn; rw [hf1] at hn; cases hn
    · intro _ _ _ _ _ hn; rw [hf1] at hn; cases hn
    · intro _ _ _ hn; rw [hf1] at hn; cases hn
  · -- no such event
    rw [h]
    refine ⟨fun hne => absurd rfl hne, ?_, fun _ _ => Or.inl rfl, ?_, ?_⟩
    · intro _ _ _ _ hs; rw [hget] at hs; cases hs
    · intro _ _ _ _ _ _ _ _ hs; rw [hget] at hs; cases hs
    · intro _ _ _ _ _ _ hs; rw [hget] at hs; cases hs
  · -- another pubkey
    rw [h]
    refine ⟨fun hne => absurd rfl hne, fun _ _ _ _ _ _ => rfl, fun _ _ => Or.inl rfl, ?_, ?_⟩
    · intro _ _ _ _ _ _ _ _ hs heq
      rw [hget] at hs; cases hs
      exact absurd heq hpk
    · intro _ _ _ _ _ _ hs heq
      rw [hget] at hs; cases hs
      exact absurd heq hpk
  · -- the statement of `MarkDeleted` fails
    rw [h]
    refine ⟨fun hne => absurd rfl hne, ?_, fun _ _ => Or.inl rfl, ?_, ?_⟩
    · intro _ _ _ _ hs hne
      rw [hget] at hs; cases hs
      exact absurd hpk hne
    · intro _ _ _ _ _ _ hn; rw [hf2] at hn; cases hn
    · intro _ _ _ _ hn; rw [hf2] at hn; cases hn
  · -- no projection: the deletion goes through
    rw [h]
    refine ⟨fun _ => ⟨hid, hby, ev, hget, hpk⟩, ?_, ?_, ?_, ?_⟩
    · intro _ _ _ _ hs hne
      rw [hget] at hs; cases hs
      exact absurd hpk hne
    · intro e he; cases he
    · intro _ _ hn; rw [hp] at hn; cases hn
    · intro _ _ _ _ _ _ _ _
      exact ⟨rfl, hmark, hcount⟩
  · -- the statement of `RemoveGroupEventByEventID` fails
    rw [h]
    refine ⟨fun _ => ⟨hid, hby, ev, hget, hpk⟩, ?_, ?_, ?_, ?_⟩
    · intro _ _ _ _ hs hne
      rw [hget] at hs; cases hs
      exact absurd hpk hne
    · intro e he
      right
      refine ⟨hp, ⟨err, hf3, ?_⟩, hid, hby, ⟨ev, hget, hpk⟩, hmark, hcount, hgroups⟩
      injection he with he
      exact he.symm
    · intro _ err2 _ _ _ _ _ hf _ _
      rw [hf3] at hf
      injection hf with hf
      subst hf
      exact ⟨rfl, hmark, hcount⟩
    · intro _ _ _ _ _ hn
      have := hn hp
      rw [hf3] at this; cases this
  · -- the deletion goes through and is applied to the projection
    rw [h]
    refine ⟨fun _ => ⟨hid, hby, ev, hget, hpk⟩, ?_, ?_, ?_, ?_⟩
    · intro _ _ _ _ hs hne
      rw [hget] at hs; cases hs
      exact absurd hpk hne
    · intro e he; cases he
    · intro _ _ _ _ _ _ _ hn; rw [hf3] at hn; cases hn
    · intro _ _ _ _ _ _ _ _
      refine ⟨rfl, hmark, ?_⟩
      rw [hcount2]
      exact hcount

/-- C17 (at a concrete input): the repository's deletion test, and the same
request with a projection whose statement fails.  `mallory` may not delete the
event of `alice`, a request without an event id is refused, the request of
`alice` stores the tombstone and counts it, also when `ApplyDeletion` fails
afterwards. -/
theorem C17_delete_event_witness :
    DeleteEvent false 500 noFaults storeOfAlice ⟨"evt-delete-1", 120, "mallory", ""⟩ =
      (.error (.deleteRequest "delete not authorized for this pubkey"), storeOfAlice) ∧
    DeleteEvent false 500 noFaults storeOfAlice ⟨"", 0, "alice", ""⟩ =
      (.error (.deleteRequest "event_id and deleted_by are required"), storeOfAlice) ∧
    (DeleteEvent false 500 noFaults storeOfAlice ⟨"evt-delete-1", 121, "alice", "cleanup"⟩).1
      = .ok () ∧
    mapGet (DeleteEvent false 500 noFaults storeOfAlice
      ⟨"evt-delete-1", 121, "alice", "cleanup"⟩).2.metrics "events_deleted_total" = some 1 ∧
    (DeleteEvent true 500 ⟨none, none, some "conn closed"⟩ storeOfAlice
      ⟨"evt-delete-1", 121, "alice", "cleanup"⟩).1 =
      .error (.storage (.other "remove group event mapping: conn closed")) ∧
    mapGet (DeleteEvent true 500 ⟨none, none, some "conn closed"⟩ storeOfAlice
      ⟨"evt-delete-1", 121, "alice", "cleanup"⟩).2.metrics "events_deleted_total" = some 1 := by
  have h := (C17_delete_event_checks false 500 noFaults storeOfAlice
    ⟨"evt-delete-1", 121, "alice", "cleanup"⟩).2.2.2.2 aliceNote (by decide) (by decide)
    rfl rfl (fun _ => rfl) (by decide) (by decide)
  have h2 := (C17_delete_event_checks true 500 ⟨none, none, some "conn closed"⟩ storeOfAlice
    ⟨"evt-delete-1", 121, "alice", "cleanup"⟩).2.2.2.1 aliceNote "conn closed" rfl
    (by decide) (by decide) rfl rfl rfl (by decide) (by decide)
  have h1 := (C17_delete_event_checks false 500 noFaults storeOfAlice
    ⟨"evt-delete-1", 120, "mallory", ""⟩).2.1 aliceNote (by decide) (by decide) rfl
    (by decide) (by decide)
  refine ⟨h1, by decide, h.1, h.2.2.trans (by decide), h2.1, h2.2.2.trans (by decide)⟩

/-! ## `ORDER BY` as a stable insertion sort -/

theorem mem_insertBy {α : Type} (le : α → α → Bool) (x y : α) (l : List α) :
    y ∈ insertBy le x l ↔ y = x ∨ y ∈ l := by
  induction l with
  | nil => simp [insertBy]
  | cons z zs ih =>
    unfold insertBy
    split
    · simp only [List.mem_cons, ih]
      constructor
      · rintro (h | h | h)
        · exact Or.inr (Or.inl h)
        · exact Or.inl h
        · exact Or.inr (Or.inr h)
      · rintro (h | h | h)
        · exact Or.inr (Or.inl h)
        · exact Or.inl h
        · exact Or.inr (Or.inr h)
    · simp only [List.mem_cons]

theorem perm_insertBy {α : Type} (le : α → α → Bool) (x : α) (l : List α) :
    (insertBy le x l).Perm (x :: l) := by
  induction l with
  | nil => exact List.Perm.refl _
  | cons z zs ih =>
    unfold insertBy
    split
    · exact (List.Perm.cons z ih).trans (List.Perm.swap x z zs)
    · exact List.Perm.refl _

theorem pairwise_insertBy {α : Type} (le : α → α → Bool)
    (htot : ∀ a b, le a b = true ∨ le b a = true)
    (htrans : ∀ a b c, le a b = true → le b c = true → le a c = true)
    (x : α) (l : List α) (hs : l.Pairwise (fun a b => le a b = true)) :
    (insertBy le x l).Pairwise (fun a b => le a b = true) := by
  induction l with
  | nil => simp [insertBy]
  | cons z zs ih =>
    rcases List.pairwise_cons.1 hs with ⟨hz, hzs⟩
    unfold insertBy
    split
    · rename_i hle
      refine List.pairwise_cons.2 ⟨?_, ih hzs⟩
      intro y hy
      rcases (mem_insertBy le x y zs).1 hy with h | h
      · subst h; exact hle
      · exact hz y h
    · rename_i hle
      have hxz : le x z = true := by
        rcases htot x z with h | h
        · exact h
        · exact absurd h hle
      refine List.pairwise_cons.2 ⟨?_, hs⟩
      intro y hy
      rcases List.mem_cons.1 hy with h | h
      · subst h; exact hxz
      · exact htrans x z y hxz (hz y h)

theorem perm_foldl_insertBy {α : Type} (le : α → α → Bool) (l : List α) :
    ∀ acc : List α, (l.foldl (fun acc x => insertBy le x acc) acc).Perm (l ++ acc) := by
  induction l with
  | nil => intro acc; exact List.Perm.refl _
  | cons x xs ih =>
    intro acc
    simp only [List.foldl_cons, List.cons_append]
    refine (ih (insertBy le x acc)).trans ?_
    refine (List.Perm.append_left xs (perm_insertBy le x acc)).trans ?_
    exact List.perm_middle

theorem perm_orderBy {α : Type} (le : α → α → Bool) (l : List α) : (orderBy le l).Perm l := by
  have h := perm_foldl_insertBy le l []
  simpa [orderBy] using h

theorem mem_orderBy {α : Type} (le : α → α → Bool) (l : List α) (x : α) :
    x ∈ orderBy le l ↔ x ∈ l :=
  (perm_orderBy le l).mem_iff

theorem pairwise_foldl_insertBy {α : Type} (le : α → α → Bool)
    (htot : ∀ a b, le a b = true ∨ le b a = true)
    (htrans : ∀ a b c, le a b = true → le b c = true → le a c = true) (l : List α) :
    ∀ acc : List α, acc.Pairwise (fun a b => le a b = true) →
      (l.foldl (fun acc x => insertBy le x acc) acc).Pairwise (fun a b => le a b = true) := by
  induction l with
  | nil => intro acc h; exact h
  | cons x xs ih =>
    intro acc h
    exact ih _ (pairwise_insertBy le htot htrans x acc h)

theorem pairwise_orderBy {α : Type} (le : α → α → Bool)
    (htot : ∀ a b, le a b = true ∨ le b a = true)
    (htrans : ∀ a b c, le a b = true → le b c = true → le a c = true) (l : List α) :
    (orderBy le l).Pairwise (fun a b => le a b = true) :=
  pairwise_foldl_insertBy le htot htrans l [] List.Pairwise.nil

theorem insertBy_of_all_after {α : Type} (le : α → α → Bool) (x : α) (l : List α)
    (h : ∀ z ∈ l, ¬ le z x = true) : insertBy le x l = x :: l := by
  cases l with
  | nil => rfl
  | cons z zs =>
    unfold insertBy
    rw [if_neg (h z (List.mem_cons_self z zs))]

theorem filter_insertBy {α : Type} (le : α → α → Bool)
    (htrans : ∀ a b c, le a b = true → le b c = true → le a c = true)
    (p : α → Bool) (x : α) (l : List α) (hs : l.Pairwise (fun a b => le a b = true)) :
    (insertBy le x l).filter p =
      if p x = true then insertBy le x (l.filter p) else l.filter p := by
  induction l with
  | nil =>
    cases hp : p x <;> simp [insertBy, hp]
  | cons z zs ih =>
    rcases List.pairwise_cons.1 hs with ⟨hz, hzs⟩
    have ih := ih hzs
    by_cases hle : le z x = true
    · have h1 : insertBy le x (z :: zs) = z :: insertBy le x zs := by
        rw [insertBy, if_pos hle]
      rw [h1]
      cases hpz : p z with
      | false =>
        rw [List.filter_cons_of_neg (by simp [hpz]), List.filter_cons_of_neg (by simp [hpz])]
        exact ih
      | true =>
        rw [List.filter_cons_of_pos hpz, List.filter_cons_of_pos hpz, ih]
        cases hpx : p x with
        | false => simp
        | true =>
          simp only [if_true]
          rw [insertBy, if_pos hle]
    · have h1 : insertBy le x (z :: zs) = x :: z :: zs := by
        rw [insertBy, if_neg hle]
      rw [h1]
      cases hpx : p x with
      | false =>
        rw [List.filter_cons_of_neg (by simp [hpx])]
        simp
      | true =>
        rw [List.filter_cons_of_pos hpx]
        simp only [if_true]
        rw [insertBy_of_all_after]
        intro y hy hyx
        have hy2 : y ∈ z :: zs := (List.mem_filter.1 hy).1
        rcases List.mem_cons.1 hy2 with h | h
        · subst h; exact hle hyx
        · exact hle (htrans z y x (hz y h) hyx)

theorem filter_foldl_insertBy {α : Type} (le : α → α → Bool)
    (htot : ∀ a b, le a b = true ∨ le b a = true)
    (htrans : ∀ a b c, le a b = true → le b c = true → le a c = true)
    (p : α → Bool) (l : List α) :
    ∀ acc : List α, acc.Pairwise (fun a b => le a b = true) →
      (l.foldl (fun acc x => insertBy le x acc) acc).filter p =
        (l.filter p).foldl (fun acc x => insertBy le x acc) (acc.filter p) := by
  induction l with
  | nil => intro acc _; rfl
  | cons x xs ih =>
    intro acc hacc
    simp only [List.foldl_cons]
    rw [ih _ (pairwise_insertBy le htot htrans x acc hacc), filter_insertBy le htrans p x acc hacc]
    cases hpx : p x with
    | false =>
      rw [List.filter_cons_of_neg (by simp [hpx])]
      simp
    | true =>
      rw [List.filter_cons_of_pos hpx]
      simp

/-- Sorting commutes with filtering. -/
theorem filter_orderBy {α : Type} (le : α → α → Bool)
    (htot : ∀ a b, le a b = true ∨ le b a = true)
    (htrans : ∀ a b c, le a b = true → le b c = true → le a c = true)
    (p : α → Bool) (l : List α) :
    (orderBy le l).filter p = orderBy le (l.filter p) := by
  unfold orderBy
  exact filter_foldl_insertBy le htot htrans p l [] List.Pairwise.nil

/-- In a strictly ordered list, the elements strictly after the one at place
`k` are the ones at the places after `k`. -/
theorem filter_after_eq_drop {α : Type} (lt : α → α → Prop) [DecidableRel lt]
    (hirr : ∀ a, ¬ lt a a) (hasymm : ∀ a b, lt a b → ¬ lt b a) :
    ∀ (l : List α) (k : Nat) (e : α), l.Pairwise lt → l[k]? = some e →
      l.filter (fun x => decide (lt e x)) = l.drop (k + 1) := by
  intro l
  induction l with
  | nil => intro k e _ h; simp at h
  | cons a rest ih =>
    intro k e hs hk
    rcases List.pairwise_cons.1 hs with ⟨ha, hrest⟩
    cases k with
    | zero =>
      simp only [List.getElem?_cons_zero, Option.some.injEq] at hk
      subst hk
      rw [List.filter_cons_of_neg (by simpa using hirr a)]
      simp only [zero_add, List.drop_succ_cons, List.drop_zero]
      apply List.filter_eq_self.2
      intro b hb
      simpa using ha b hb
    | succ k =>
      simp only [List.getElem?_cons_succ] at hk
      have he : e ∈ rest := by
        rcases List.getElem?_eq_some_iff.1 hk with ⟨hi, hget⟩
        exact hget ▸ List.getElem_mem hi
      rw [List.filter_cons_of_neg (by simpa using hasymm a e (ha e he))]
      simp only [List.drop_succ_cons]
      exact ih k e hrest hk

/-! ## Queries and tombstones -/

theorem mem_selectEvents (db : EventStore) (filter : EventFilter) (x : Event) :
    x ∈ selectEvents db filter ↔ x ∈ db.events ∧ matchesFilter db filter x = true := by
  unfold selectEvents
  rw [mem_orderBy, List.mem_filter]

theorem mem_QueryEvents (db : EventStore) (filter : EventFilter) (x : Event)
    (h : x ∈ QueryEvents db filter) : x ∈ db.events ∧ matchesFilter db filter x = true :=
  (mem_selectEvents db filter x).1 (List.mem_of_mem_take h)

/-- C16: a stored event with a tombstone is never returned by `QueryEvents`
with `IncludeDeleted = false`.  With `IncludeDeleted = true` the tombstones
play no part: the rows selected are the stored events that satisfy the other
conditions of the filter, a selected event at a place below the limit is
returned, and the result is the one the same store without tombstones gives.
`EventQueryService.QueryEvents` is `QueryEvents` on the caller's filter with
`IncludeDeleted` set to false and every other field as the caller gave it, so
its result does not depend on the caller's `IncludeDeleted` and holds no event
with a tombstone. -/
theorem C16_queries_and_tombstones (db : EventStore) (filter : EventFilter) (e : Event) :
    ((∃ d ∈ db.deleted, d.EventID = e.ID) →
      e ∉ QueryEvents db { filter with IncludeDeleted := false }) ∧
    (e ∈ selectEvents db { filter with IncludeDeleted := true } ↔
      e ∈ db.events ∧ plainConditions filter e = true ∧ untilCondition filter e = true ∧
        tagCondition db filter e = true) ∧
    (∀ k, (selectEvents db { filter with IncludeDeleted := true })[k]? = some e →
      k < queryLimit filter → e ∈ QueryEvents db { filter with IncludeDeleted := true }) ∧
    QueryEvents db { filter with IncludeDeleted := true } =
      QueryEvents ⟨db.events, db.eventTags, []⟩ filter ∧
    (∃ used : EventFilter, EventQueryService.QueryEvents db filter = QueryEvents db used ∧
      used.IncludeDeleted = false ∧ used.Author = filter.Author ∧ used.Kind = filter.Kind ∧
      used.Since = filter.Since ∧ used.Until = filter.Until ∧
      used.UntilID = filter.UntilID ∧ used.Tag = filter.Tag ∧ used.Limit = filter.Limit) ∧
    (∀ b, EventQueryService.QueryEvents db { filter with IncludeDeleted := b } =
      EventQueryService.QueryEvents db filter) ∧
    ((∃ d ∈ db.deleted, d.EventID = e.ID) → e ∉ EventQueryService.QueryEvents db filter) := by
  have hdel : (∃ d ∈ db.deleted, d.EventID = e.ID) → hasTombstone db e = true := by
    rintro ⟨d, hd, hid⟩
    unfold hasTombstone
    exact List.any_eq_true.2 ⟨d, hd, by simpa using hid⟩
  have hexcl : (∃ d ∈ db.deleted, d.EventID = e.ID) →
      e ∉ QueryEvents db { filter with IncludeDeleted := false } := by
    intro hd hmem
    have h := (mem_QueryEvents db _ e hmem).2
    unfold matchesFilter at h
    simp [hdel hd] at h
  refine ⟨hexcl, ?_, ?_, ?_, ?_, ?_, hexcl⟩
  · rw [mem_selectEvents]
    unfold matchesFilter plainConditions untilCondition tagCondition
    simp only [Bool.true_or, Bool.true_and, Bool.and_eq_true, and_assoc]
  · intro k hk hlt
    unfold QueryEvents
    have hq : queryLimit { filter with IncludeDeleted := true } = queryLimit filter := rfl
    rw [hq]
    rcases List.getElem?_eq_some_iff.1 hk with ⟨hi, hget⟩
    have hi2 : k < ((selectEvents db { filter with IncludeDeleted := true }).take
        (queryLimit filter)).length := by
      rw [List.length_take]; omega
    have : ((selectEvents db { filter with IncludeDeleted := true }).take
        (queryLimit filter))[k] = e := by
      rw [List.getElem_take]; exact hget
    exact this ▸ List.getElem_mem hi2
  · unfold QueryEvents selectEvents
    have hq : queryLimit { filter with IncludeDeleted := true } = queryLimit filter := rfl
    rw [hq]
    congr 2
    apply List.filter_congr
    intro x _
    unfold matchesFilter plainConditions untilCondition tagCondition hasTombstone
    simp
  · exact ⟨{ filter with IncludeDeleted := false }, rfl, rfl, rfl, rfl, rfl, rfl, rfl, rfl, rfl⟩
  · intro b; rfl

/-- C16 (at a concrete input): the repository's query test after `event-b`
was marked deleted. -/
theorem C16_queries_and_tombstones_witness :
    (QueryEvents queryTestStoreDeleted
      { EventFilter.all 10 with Tag := "t:nostr" }).map (fun e => e.ID)
      = ["event-d", "event-a"] ∧
    (QueryEvents queryTestStoreDeleted
      { EventFilter.all 10 with Tag := "t:nostr", IncludeDeleted := true }).map (fun e => e.ID)
      = ["event-b", "event-d", "event-a"] ∧
    (EventQueryService.QueryEvents queryTestStoreDeleted
      { EventFilter.all 10 with Tag := "t:nostr", IncludeDeleted := true }).map (fun e => e.ID)
      = ["event-d", "event-a"] ∧
    (⟨"event-b", "alice", 101, 1, [["t", "nostr"]], "b", "sig"⟩ : Event) ∉
      QueryEvents queryTestStoreDeleted
        { { EventFilter.all 10 with Tag := "t:nostr" } with IncludeDeleted := false } :=
  ⟨by decide, by decide, by decide,
    (C16_queries_and_tombstones queryTestStoreDeleted { EventFilter.all 10 with Tag := "t:nostr" }
      ⟨"event-b", "alice", 101, 1, [["t", "nostr"]], "b", "sig"⟩).1
      ⟨⟨"event-b", 200, "alice", "test"⟩, by decide, rfl⟩⟩

/-! ## Queries: order and keyset cursor -/

theorem queryOrder_iff (a b : Event) :
    queryOrder a b = true ↔
      b.CreatedAt < a.CreatedAt ∨ (a.CreatedAt = b.CreatedAt ∧ a.ID ≤ b.ID) := by
  unfold queryOrder
  have h := ltChars_data_iff b.ID a.ID
  simp only [Bool.or_eq_true, Bool.and_eq_true, decide_eq_true_eq, Bool.not_eq_true',
    gt_iff_lt]
  constructor
  · rintro (h1 | ⟨h1, h2⟩)
    · exact Or.inl h1
    · refine Or.inr ⟨h1, ?_⟩
      apply le_of_not_lt
      intro hlt
      rw [h.2 hlt] at h2
      cases h2
  · rintro (h1 | ⟨h1, h2⟩)
    · exact Or.inl h1
    · refine Or.inr ⟨h1, ?_⟩
      cases hc : ltChars b.ID.data a.ID.data with
      | false => rfl
      | true => exact absurd (h.1 hc) (not_lt_of_le h2)

theorem queryOrder_total (a b : Event) : queryOrder a b = true ∨ queryOrder b a = true := by
  rw [queryOrder_iff, queryOrder_iff]
  rcases lt_trichotomy a.CreatedAt b.CreatedAt with h | h | h
  · exact Or.inr (Or.inl h)
  · rcases le_total a.ID b.ID with h2 | h2
    · exact Or.inl (Or.inr ⟨h, h2⟩)
    · exact Or.inr (Or.inr ⟨h.symm, h2⟩)
  · exact Or.inl (Or.inl h)

theorem queryOrder_trans (a b c : Event) (h1 : queryOrder a b = true)
    (h2 : queryOrder b c = true) : queryOrder a c = true := by
  rw [queryOrder_iff] at h1 h2 ⊢
  rcases h1 with h1 | ⟨h1, h1b⟩
  · rcases h2 with h2 | ⟨h2, _⟩
    · exact Or.inl (lt_trans h2 h1)
    · exact Or.inl (by omega)
  · rcases h2 with h2 | ⟨h2, h2b⟩
    · exact Or.inl (by omega)
    · exact Or.inr ⟨h1.trans h2, le_trans h1b h2b⟩

theorem queryBefore_irrefl (a : Event) : ¬ queryBefore a a := by
  unfold queryBefore
  rintro (h | ⟨_, h⟩)
  · exact lt_irrefl _ h
  · exact lt_irrefl _ h

theorem queryBefore_asymm (a b : Event) (h : queryBefore a b) : ¬ queryBefore b a := by
  unfold queryBefore at h ⊢
  rintro (h2 | ⟨h2, h3⟩)
  · rcases h with h | ⟨h, _⟩
    · omega
    · omega
  · rcases h with h | ⟨_, h⟩
    · omega
    · exact lt_asymm h h3

theorem queryBefore_trans (a b c : Event) (h1 : queryBefore a b) (h2 : queryBefore b c) :
    queryBefore a c := by
  unfold queryBefore at h1 h2 ⊢
  rcases h1 with h1 | ⟨h1, h1b⟩
  · rcases h2 with h2 | ⟨h2, _⟩
    · exact Or.inl (lt_trans h2 h1)
    · exact Or.inl (by omega)
  · rcases h2 with h2 | ⟨h2, h2b⟩
    · exact Or.inl (by omega)
    · exact Or.inr ⟨h1.trans h2, lt_trans h1b h2b⟩

/-- With a cursor whose id is not blank, the `until` condition selects the
events strictly after the cursor. -/
theorem untilCondition_cursor (filter : EventFilter) (e x : Event)
    (hid : TrimSpace e.ID ≠ "") :
    untilCondition (cursorAfter filter e) x = decide (queryBefore e x) := by
  unfold untilCondition cursorAfter queryBefore
  simp only [hid, ne_eq, not_false_eq_true, if_true]
  rw [Bool.eq_iff_iff]
  simp only [Bool.or_eq_true, Bool.and_eq_true, decide_eq_true_eq, ltChars_data_iff]
  constructor
  · rintro (h | ⟨h1, h2⟩)
    · exact Or.inl h
    · exact Or.inr ⟨h1.symm, h2⟩
  · rintro (h | ⟨h1, h2⟩)
    · exact Or.inl h
    · exact Or.inr ⟨h1.symm, h2⟩

/-- An event after one that satisfies the `until` condition satisfies it. -/
theorem untilCondition_of_after (filter : EventFilter) (e x : Event)
    (he : untilCondition filter e = true) (hx : queryBefore e x) :
    untilCondition filter x = true := by
  unfold untilCondition at he ⊢
  cases hu : filter.Until with
  | none => rfl
  | some u =>
    rw [hu] at he
    simp only [] at he ⊢
    unfold queryBefore at hx
    by_cases hb : TrimSpace filter.UntilID ≠ ""
    · rw [if_pos hb] at he ⊢
      simp only [Bool.or_eq_true, Bool.and_eq_true, decide_eq_true_eq, ltChars_data_iff]
        at he ⊢
      rcases he with he | ⟨he1, he2⟩
      · rcases hx with hx | ⟨hx, _⟩
        · exact Or.inl (by omega)
        · exact Or.inl (by omega)
      · rcases hx with hx | ⟨hx1, hx2⟩
        · exact Or.inl (by omega)
        · exact Or.inr ⟨by omega, lt_trans he2 hx2⟩
    · rw [if_neg hb] at he ⊢
      simp only [decide_eq_true_eq] at he ⊢
      rcases hx with hx | ⟨hx, _⟩
      · omega
      · omega

theorem matchesFilter_cursor (db : EventStore) (filter : EventFilter) (e x : Event)
    (hid : TrimSpace e.ID ≠ "") :
    matchesFilter db (cursorAfter filter e) x =
      (((filter.IncludeDeleted || !hasTombstone db x) && plainConditions filter x &&
        tagCondition db filter x) && decide (queryBefore e x)) := by
  unfold matchesFilter
  rw [untilCondition_cursor filter e x hid]
  have h1 : plainConditions (cursorAfter filter e) x = plainConditions filter x := rfl
  have h2 : tagCondition db (cursorAfter filter e) x = tagCondition db filter x := rfl
  have h3 : (cursorAfter filter e).IncludeDeleted = filter.IncludeDeleted := rfl
  rw [h1, h2, h3]
  cases (filter.IncludeDeleted || !hasTombstone db x) <;> cases plainConditions filter x <;>
    cases tagCondition db filter x <;> cases decide (queryBefore e x) <;> rfl

theorem pairwise_queryBefore (l : List Event)
    (hs : l.Pairwise (fun a b => queryOrder a b = true))
    (hn : (l.map (fun ev => ev.ID)).Nodup) : l.Pairwise queryBefore := by
  have hne : l.Pairwise (fun a b => a.ID ≠ b.ID) := by
    unfold List.Nodup at hn
    exact List.pairwise_map.1 hn
  refine (hs.and hne).imp ?_
  rintro a b ⟨h1, h2⟩
  rw [queryOrder_iff] at h1
  unfold queryBefore
  rcases h1 with h1 | ⟨h1, h3⟩
  · exact Or.inl h1
  · exact Or.inr ⟨h1, lt_of_le_of_ne h3 h2⟩

theorem nodup_selectEvents_ids (db : EventStore) (filter : EventFilter)
    (hn : (db.events.map (fun ev => ev.ID)).Nodup) :
    ((selectEvents db filter).map (fun ev => ev.ID)).Nodup := by
  unfold selectEvents
  have hp := (perm_orderBy queryOrder (db.events.filter (matchesFilter db filter))).map
    (fun ev => ev.ID)
  rw [hp.nodup_iff]
  exact hn.sublist ((List.filter_sublist db.events).map _)

/-- C18: the result of `QueryEvents` is ordered by `created_at` descending
and, within equal `created_at`, by id ascending.  For an event `e` whose id is
not blank, the query with the cursor `Until = e.created_at`, `UntilID = e.id`
selects exactly the stored events that satisfy the other conditions of the
filter and come strictly after `e` in this order.  When the ids of the store
are distinct, the ordered selection has no event twice, and for the event `e`
at place `k` of it the query with the cursor at `e` returns the events at the
places `k + 1`, `k + 2`, ... up to the limit: paging with the last event of a
page as the next cursor walks through the selection without a gap or a
repeat. -/
theorem C18_query_order_and_cursor (db : EventStore) (filter : EventFilter) :
    (QueryEvents db filter).Pairwise (fun a b =>
      b.CreatedAt < a.CreatedAt ∨ (a.CreatedAt = b.CreatedAt ∧ a.ID ≤ b.ID)) ∧
    QueryEvents db filter = (selectEvents db filter).take (queryLimit filter) ∧
    (∀ e x, TrimSpace e.ID ≠ "" →
      (x ∈ selectEvents db (cursorAfter filter e) ↔
        x ∈ db.events ∧
        ((filter.IncludeDeleted || !hasTombstone db x) && plainConditions filter x &&
          tagCondition db filter x) = true ∧
        (x.CreatedAt < e.CreatedAt ∨ (e.CreatedAt = x.CreatedAt ∧ e.ID < x.ID)))) ∧
    ((db.events.map (fun ev => ev.ID)).Nodup →
      (selectEvents db filter).Nodup ∧
      ∀ e k, TrimSpace e.ID ≠ "" → (selectEvents db filter)[k]? = some e →
        QueryEvents db (cursorAfter filter e) =
          ((selectEvents db filter).drop (k + 1)).take (queryLimit filter)) := by
  have hsorted : ∀ f : EventFilter,
      (selectEvents db f).Pairwise (fun a b => queryOrder a b = true) := by
    intro f
    unfold selectEvents
    exact pairwise_orderBy queryOrder queryOrder_total queryOrder_trans _
  refine ⟨?_, rfl, ?_, ?_⟩
  · unfold QueryEvents
    refine ((hsorted filter).sublist (List.take_sublist _ _)).imp ?_
    intro a b h
    exact (queryOrder_iff a b).1 h
  · intro e x hid
    rw [mem_selectEvents, matchesFilter_cursor db filter e x hid]
    simp only [Bool.and_eq_true, decide_eq_true_eq]
    unfold queryBefore
    constructor
    · rintro ⟨h1, h2, h3⟩
      exact ⟨h1, by simpa [Bool.and_eq_true] using h2, h3⟩
    · rintro ⟨h1, h2, h3⟩
      exact ⟨h1, by simpa [Bool.and_eq_true] using h2, h3⟩
  · intro hn
    have hids := nodup_selectEvents_ids db filter hn
    refine ⟨(List.Nodup.of_map _ hids), ?_⟩
    intro e k hid hk
    have hstrict := pairwise_queryBefore _ (hsorted filter) hids
    have hdrop := filter_after_eq_drop queryBefore queryBefore_irrefl queryBefore_asymm
      (selectEvents db filter) k e hstrict hk
    have hemem : e ∈ selectEvents db filter := by
      rcases List.getElem?_eq_some_iff.1 hk with ⟨hi, hget⟩
      exact hget ▸ List.getElem_mem hi
    have hem := ((mem_selectEvents db filter e).1 hemem).2
    have heu : untilCondition filter e = true := by
      unfold matchesFilter at hem
      simp only [Bool.and_eq_true] at hem
      exact hem.1.2
    have hfilter : db.events.filter (matchesFilter db (cursorAfter filter e)) =
        (db.events.filter (matchesFilter db filter)).filter
          (fun x => decide (queryBefore e x)) := by
      rw [List.filter_filter]
      apply List.filter_congr
      intro x _
      rw [matchesFilter_cursor db filter e x hid]
      unfold matchesFilter
      by_cases hx : queryBefore e x
      · have := untilCondition_of_after filter e x heu hx
        simp [hx, this]
      · simp [hx]
    unfold QueryEvents
    have hq : queryLimit (cursorAfter filter e) = queryLimit filter := rfl
    rw [hq]
    congr 1
    rw [← hdrop]
    unfold selectEvents
    rw [hfilter, filter_orderBy queryOrder queryOrder_total queryOrder_trans]

/-- C18 (at a concrete input): the cursor query of the repository's test.  In
the store of the test the events of kind 1 are ordered `event-b`, `event-d`,
`event-a`; the page after `event-b` is `event-d`, `event-a`. -/
theorem C18_query_cursor_witness :
    (selectEvents queryTestStore { EventFilter.all 10 with Kind := some 1 }).map
      (fun e => e.ID) = ["event-b", "event-d", "event-a"] ∧
    QueryEvents queryTestStore
      (cursorAfter { EventFilter.all 10 with Kind := some 1 }
        ⟨"event-b", "alice", 101, 1, [["t", "nostr"]], "b", "sig"⟩) =
      ((selectEvents queryTestStore { EventFilter.all 10 with Kind := some 1 }).drop 1).take
        10 ∧
    (QueryEvents queryTestStore
      (cursorAfter { EventFilter.all 10 with Kind := some 1 }
        ⟨"event-b", "alice", 101, 1, [["t", "nostr"]], "b", "sig"⟩)).map (fun e => e.ID)
      = ["event-d", "event-a"] :=
  ⟨by decide,
    ((C18_query_order_and_cursor queryTestStore
      { EventFilter.all 10 with Kind := some 1 }).2.2.2 (by decide)).2
      ⟨"event-b", "alice", 101, 1, [["t", "nostr"]], "b", "sig"⟩ 0 (by decide) (by decide),
    by decide⟩

/-! ## Canonical state events: what the replaceable upsert stores -/

theorem matchesDTag_congr (db db2 : EventStore) (dTag : String) (e : Event)
    (h : tagRowsOf db2 e.ID = tagRowsOf db e.ID) :
    matchesDTag db2 dTag e = matchesDTag db dTag e := by
  have hrows : ∀ d : EventStore,
      d.eventTags.filter (fun t => decide (t.EventID = e.ID ∧ t.TagName = "d")) =
        (tagRowsOf d e.ID).filter (fun t => decide (t.TagName = "d")) := by
    intro d
    unfold tagRowsOf
    rw [List.filter_filter]
    apply List.filter_congr
    intro t _
    simp [Bool.and_comm]
  unfold matchesDTag
  simp only [hrows, h]

theorem tagRowsOf_deleteEventRow (db : EventStore) (id x : String) (hx : x ≠ id) :
    tagRowsOf (deleteEventRow db id) x = tagRowsOf db x := by
  unfold tagRowsOf deleteEventRow
  simp only []
  split
  · rw [List.filter_filter]
    apply List.filter_congr
    intro t _
    by_cases ht : t.EventID = x
    · have : t.EventID ≠ id := fun h => hx (ht.symm.trans h)
      simp [ht, this, hx]
    · simp [ht]
  · rfl

theorem events_foldl_deleteEventRow (ids : List String) :
    ∀ db : EventStore,
      (ids.foldl deleteEventRow db).events = db.events.filter (fun e => decide (e.ID ∉ ids)) ∧
      (ids.foldl deleteEventRow db).deleted = db.deleted ∧
      ∀ x, x ∉ ids → tagRowsOf (ids.foldl deleteEventRow db) x = tagRowsOf db x := by
  induction ids with
  | nil => intro db; simp
  | cons id rest ih =>
    intro db
    simp only [List.foldl_cons]
    obtain ⟨h1, h2, h3⟩ := ih (deleteEventRow db id)
    refine ⟨?_, ?_, ?_⟩
    · rw [h1]
      show List.filter _ (List.filter _ db.events) = _
      rw [List.filter_filter]
      apply List.filter_congr
      intro e _
      by_cases he : e.ID = id
      · simp [he]
      · by_cases he2 : e.ID ∈ rest
        · simp [he, he2]
        · simp [he, he2]
    · rw [h2]; rfl
    · intro x hx
      have hx1 : x ≠ id := fun h => hx (h ▸ List.mem_cons_self _ _)
      have hx2 : x ∉ rest := fun h => hx (List.mem_cons_of_mem _ h)
      rw [h3 x hx2, tagRowsOf_deleteEventRow db id x hx1]

theorem tagRowsOf_deleteTagRows (db : EventStore) (id x : String) :
    tagRowsOf (deleteTagRows db id) x = if x = id then [] else tagRowsOf db x := by
  unfold tagRowsOf deleteTagRows
  simp only []
  rw [List.filter_filter]
  split
  · rename_i h
    subst h
    apply List.filter_eq_nil_iff.2
    intro t _
    by_cases ht : t.EventID = x <;> simp [ht]
  · rename_i h
    apply List.filter_congr
    intro t _
    by_cases ht : t.EventID = x
    · have : t.EventID ≠ id := fun h2 => h (ht.symm.trans h2)
      simp [ht, this, h]
    · simp [ht]

theorem normalizeFrom_eventID (id : String) (tags : List (List String)) :
    ∀ idx, ∀ t ∈ normalizeFrom id idx tags, t.EventID = id := by
  induction tags with
  | nil => intro idx t ht; simp [normalizeFrom] at ht
  | cons tag rest ih =>
    intro idx t ht
    unfold normalizeFrom at ht
    split at ht
    · exact ih _ t ht
    · split at ht
      · exact ih _ t ht
      · rcases List.mem_cons.1 ht with h | h
        · rw [h]
        · exact ih _ t h

theorem tagRowsOf_Normalize (db : EventStore) (ev : Event) (x : String) :
    (db.eventTags ++ Normalize ev.ID ev.Tags).filter (fun t => decide (t.EventID = x)) =
      tagRowsOf db x ++ (if x = ev.ID then Normalize ev.ID ev.Tags else []) := by
  rw [List.filter_append]
  unfold tagRowsOf
  congr 1
  split
  · rename_i h
    subst h
    apply List.filter_eq_self.2
    intro t ht
    simpa using normalizeFrom_eventID ev.ID ev.Tags 0 t ht
  · rename_i h
    apply List.filter_eq_nil_iff.2
    intro t ht
    have := normalizeFrom_eventID ev.ID ev.Tags 0 t ht
    simp only [decide_eq_true_eq]
    intro h2
    exact h (h2.symm.trans this)

/-- The state of the scan after the rows `rows`. -/
theorem scan_rows (id : String) (rows : List (String × Int)) :
    (rows.foldl (scanRow id) ⟨[], "", 0, false⟩).existingIDs =
      (rows.filter (fun r => decide (r.1 ≠ id))).map (fun r => r.1) ∧
    ((rows.foldl (scanRow id) ⟨[], "", 0, false⟩).hasExisting = true ↔ rows ≠ []) ∧
    (rows ≠ [] → ∃ r ∈ rows,
      (rows.foldl (scanRow id) ⟨[], "", 0, false⟩).bestExistingCreatedAt = r.2) ∧
    (∀ r ∈ rows, r.2 ≤ (rows.foldl (scanRow id) ⟨[], "", 0, false⟩).bestExistingCreatedAt) := by
  induction rows using List.reverseRecOn with
  | nil => simp
  | append_singleton rows row ih =>
    obtain ⟨h1, h2, h3, h4⟩ := ih
    rw [List.foldl_append]
    simp only [List.foldl_cons, List.foldl_nil]
    generalize hs : rows.foldl (scanRow id) ⟨[], "", 0, false⟩ = s at h1 h2 h3 h4
    have hcmp : ∀ (a : Int) (ia : String) (b : Int) (ib : String),
        (compareReplaceableVersion a ia b ib > 0 → b ≤ a) ∧
        (¬ compareReplaceableVersion a ia b ib > 0 → a ≤ b) := by
      intro a ia b ib
      unfold compareReplaceableVersion
      by_cases hab : a > b
      · simp [hab]; omega
      · by_cases hba : a < b
        · simp [hab, hba]; omega
        · simp only [hab, hba, if_false]
          have : a = b := by omega
          subst this
          simp
    refine ⟨?_, ?_, ?_, ?_⟩
    · unfold scanRow
      simp only []
      rw [List.filter_append, List.map_append]
      by_cases hne : row.1 ≠ id
      · simp only [hne, ne_eq, not_false_eq_true, if_true]
        split <;> simp [h1, hne]
      · simp only [hne, if_false]
        split <;> simp [h1, hne]
    · have : (scanRow id s row).hasExisting = true := by
        unfold scanRow
        simp only []
        cases hh : s.hasExisting with
        | false => split <;> simp
        | true =>
          split <;> split <;> simp [hh]
      simp [this]
    · intro _
      by_cases hrows : rows = []
      · subst hrows
        simp only [List.foldl_nil] at hs
        subst hs
        refine ⟨row, by simp, ?_⟩
        unfold scanRow
        simp only [Bool.not_false, Bool.true_or, if_true]
        split <;> rfl
      · obtain ⟨r, hr, hbest⟩ := h3 hrows
        have hex : s.hasExisting = true := h2.2 hrows
        by_cases hc : compareReplaceableVersion row.2 row.1 s.bestExistingCreatedAt
            s.bestExistingID > 0
        · refine ⟨row, by simp, ?_⟩
          unfold scanRow
          simp only [hex, Bool.not_true, Bool.false_or, hc, decide_True, if_true]
          split <;> rfl
        · refine ⟨r, by simp [hr], ?_⟩
          unfold scanRow
          simp only [hex, Bool.not_true, Bool.false_or, hc, decide_False, Bool.false_eq_true,
            if_false]
          split <;> exact hbest
    · intro r hr
      by_cases hrows : rows = []
      · subst hrows
        simp only [List.foldl_nil] at hs
        subst hs
        simp only [List.nil_append, List.mem_singleton] at hr
        subst hr
        unfold scanRow
        simp only [Bool.not_false, Bool.true_or, if_true]
        split <;> exact le_refl _
      · have hex : s.hasExisting = true := h2.2 hrows
        by_cases hc : compareReplaceableVersion row.2 row.1 s.bestExistingCreatedAt
            s.bestExistingID > 0
        · have hbest : (scanRow id s row).bestExistingCreatedAt = row.2 := by
            unfold scanRow
            simp only [hex, Bool.not_true, Bool.false_or, hc, decide_True, if_true]
            split <;> rfl
          rw [hbest]
          rcases List.mem_append.1 hr with h | h
          · exact le_trans (h4 r h) ((hcmp _ _ _ _).1 hc)
          · simp only [List.mem_singleton] at h
            rw [h]
        · have hbest : (scanRow id s row).bestExistingCreatedAt = s.bestExistingCreatedAt := by
            unfold scanRow
            simp only [hex, Bool.not_true, Bool.false_or, hc, decide_False, Bool.false_eq_true,
              if_false]
            split <;> rfl
          rw [hbest]
          rcases List.mem_append.1 hr with h | h
          · exact h4 r h
          · simp only [List.mem_singleton] at h
            rw [h]
            exact (hcmp _ _ _ _).2 hc

/-- With a stored row that is strictly newer, the upsert stores nothing. -/
theorem upsertLatestEventTx_stale (db : EventStore) (ev : Event) (rows : List (String × Int))
    (h : ∃ r ∈ rows, ev.CreatedAt < r.2) : upsertLatestEventTx db ev rows = .ok db := by
  obtain ⟨r, hr, hlt⟩ := h
  obtain ⟨_, h2, _, h4⟩ := scan_rows ev.ID rows
  have hne : rows ≠ [] := List.ne_nil_of_mem hr
  have hbest := h4 r hr
  unfold upsertLatestEventTx
  simp only []
  rw [h2.2 hne]
  have hc : compareReplaceableVersion ev.CreatedAt ev.ID
      (rows.foldl (scanRow ev.ID) ⟨[], "", 0, false⟩).bestExistingCreatedAt
      (rows.foldl (scanRow ev.ID) ⟨[], "", 0, false⟩).bestExistingID = -1 := by
    unfold compareReplaceableVersion
    have h1 : ¬ ev.CreatedAt >
        (rows.foldl (scanRow ev.ID) ⟨[], "", 0, false⟩).bestExistingCreatedAt := by omega
    have h3 : ev.CreatedAt <
        (rows.foldl (scanRow ev.ID) ⟨[], "", 0, false⟩).bestExistingCreatedAt := by omega
    simp [h1, h3]
  rw [hc]
  simp

/-- With every stored row strictly older, the upsert deletes the rows, the
tag rows under the event's id and a row with the event's id, and inserts the
event. -/
theorem upsertLatestEventTx_fresh (db : EventStore) (ev : Event) (rows : List (String × Int))
    (h : ∀ r ∈ rows, r.2 < ev.CreatedAt) :
    upsertLatestEventTx db ev rows =
      insertEventTx (deleteEventRow (deleteTagRows
        (((rows.filter (fun r => decide (r.1 ≠ ev.ID))).map (fun r => r.1)).foldl
          deleteEventRow db) ev.ID) ev.ID) ev := by
  obtain ⟨h1, h2, h3, _⟩ := scan_rows ev.ID rows
  unfold upsertLatestEventTx
  simp only []
  rw [h1]
  by_cases hne : rows = []
  · subst hne
    simp
  · obtain ⟨r, hr, hbest⟩ := h3 hne
    have hc : compareReplaceableVersion ev.CreatedAt ev.ID
        (rows.foldl (scanRow ev.ID) ⟨[], "", 0, false⟩).bestExistingCreatedAt
        (rows.foldl (scanRow ev.ID) ⟨[], "", 0, false⟩).bestExistingID = 1 := by
      unfold compareReplaceableVersion
      rw [hbest]
      have := h r hr
      simp [this]
    rw [hc]
    simp

theorem tagRowsOf_deleteEventRow_nil (db : EventStore) (id x : String)
    (h : tagRowsOf db x = []) : tagRowsOf (deleteEventRow db id) x = [] := by
  unfold tagRowsOf deleteEventRow at *
  simp only []
  split
  · rw [List.filter_filter]
    apply List.filter_eq_nil_iff.2
    intro t ht
    have := List.filter_eq_nil_iff.1 h t ht
    simp only [Bool.and_eq_true, not_and]
    intro h1
    exact absurd h1 this
  · exact h

theorem matchesDTag_of_first_tag (db : EventStore) (ev : Event) (dTag : String)
    (rest : List (List String)) (htags : ev.Tags = ["d", dTag] :: rest)
    (hrows : tagRowsOf db ev.ID = Normalize ev.ID ev.Tags) :
    matchesDTag db dTag ev = true := by
  have hfilter : db.eventTags.filter (fun t => decide (t.EventID = ev.ID ∧ t.TagName = "d")) =
      (tagRowsOf db ev.ID).filter (fun t => decide (t.TagName = "d")) := by
    unfold tagRowsOf
    rw [List.filter_filter]
    apply List.filter_congr
    intro t _
    simp [Bool.and_comm]
  unfold matchesDTag
  simp only [hfilter, hrows, htags, Normalize, normalizeFrom]
  by_cases hd : dTag = "" <;> simp [hd]

/-- With every stored row of the address strictly older than the event, the
parameterized replaceable upsert leaves the event as the only row of its
address. -/
theorem UpsertParameterized_fresh (db : EventStore) (ev : Event) (dTag : String)
    (rest : List (List String)) (htags : ev.Tags = ["d", dTag] :: rest)
    (hfresh : ∀ r ∈ canonicalRows db ev.PubKey ev.Kind dTag, r.CreatedAt < ev.CreatedAt) :
    ∃ db2, UpsertParameterizedReplaceableEvent db ev dTag = .ok db2 ∧
      canonicalRows db2 ev.PubKey ev.Kind dTag = [ev] := by
  unfold UpsertParameterizedReplaceableEvent
  simp only []
  have hrowsdef : (db.events.filter
      (fun e => atAddress ev.PubKey ev.Kind e && matchesDTag db dTag e)) =
      canonicalRows db ev.PubKey ev.Kind dTag := rfl
  rw [hrowsdef, upsertLatestEventTx_fresh]
  · generalize hids : (((canonicalRows db ev.PubKey ev.Kind dTag).map
        (fun e => (e.ID, e.CreatedAt))).filter (fun r => decide (r.1 ≠ ev.ID))).map
        (fun r => r.1) = ids
    obtain ⟨he1, _, ht1⟩ := events_foldl_deleteEventRow ids db
    generalize hdb1 : ids.foldl deleteEventRow db = db1 at he1 ht1
    have hany : (deleteEventRow (deleteTagRows db1 ev.ID) ev.ID).events.any
        (fun e => e.ID = ev.ID) = false := by
      simp [deleteEventRow]
    unfold insertEventTx
    rw [hany]
    simp only [Bool.false_eq_true, if_false]
    refine ⟨_, rfl, ?_⟩
    -- the tag rows of the new store
    have htag : ∀ x, tagRowsOf
        { deleteEventRow (deleteTagRows db1 ev.ID) ev.ID with
          events := (deleteEventRow (deleteTagRows db1 ev.ID) ev.ID).events ++ [ev]
          eventTags := (deleteEventRow (deleteTagRows db1 ev.ID) ev.ID).eventTags ++
            Normalize ev.ID ev.Tags } x =
        tagRowsOf (deleteEventRow (deleteTagRows db1 ev.ID) ev.ID) x ++
          (if x = ev.ID then Normalize ev.ID ev.Tags else []) := by
      intro x
      exact tagRowsOf_Normalize _ ev x
    have hown : tagRowsOf (deleteEventRow (deleteTagRows db1 ev.ID) ev.ID) ev.ID = [] := by
      apply tagRowsOf_deleteEventRow_nil
      rw [tagRowsOf_deleteTagRows]
      simp
    have hother : ∀ x, x ≠ ev.ID → x ∉ ids →
        tagRowsOf (deleteEventRow (deleteTagRows db1 ev.ID) ev.ID) x = tagRowsOf db x := by
      intro x hx hxi
      rw [tagRowsOf_deleteEventRow _ _ _ hx, tagRowsOf_deleteTagRows, if_neg hx, ht1 x hxi]
    unfold canonicalRows
    simp only []
    rw [List.filter_append]
    have hnew : List.filter (fun e => atAddress ev.PubKey ev.Kind e &&
        matchesDTag
          { deleteEventRow (deleteTagRows db1 ev.ID) ev.ID with
            events := (deleteEventRow (deleteTagRows db1 ev.ID) ev.ID).events ++ [ev]
            eventTags := (deleteEventRow (deleteTagRows db1 ev.ID) ev.ID).eventTags ++
              Normalize ev.ID ev.Tags } dTag e) [ev] = [ev] := by
      have h1 : atAddress ev.PubKey ev.Kind ev = true := by simp [atAddress]
      have h2 := matchesDTag_of_first_tag
        { deleteEventRow (deleteTagRows db1 ev.ID) ev.ID with
          events := (deleteEventRow (deleteTagRows db1 ev.ID) ev.ID).events ++ [ev]
          eventTags := (deleteEventRow (deleteTagRows db1 ev.ID) ev.ID).eventTags ++
            Normalize ev.ID ev.Tags } ev dTag rest htags
        (by rw [htag, hown]; simp)
      simp [h1, h2]
    have hold : List.filter (fun e => atAddress ev.PubKey ev.Kind e &&
        matchesDTag
          { deleteEventRow (deleteTagRows db1 ev.ID) ev.ID with
            events := (deleteEventRow (deleteTagRows db1 ev.ID) ev.ID).events ++ [ev]
            eventTags := (deleteEventRow (deleteTagRows db1 ev.ID) ev.ID).eventTags ++
              Normalize ev.ID ev.Tags } dTag e)
        (deleteEventRow (deleteTagRows db1 ev.ID) ev.ID).events = [] := by
      apply List.filter_eq_nil_iff.2
      intro r hr
      have hr1 : r ∈ (deleteTagRows db1 ev.ID).events ∧ r.ID ≠ ev.ID := by
        have : r ∈ (deleteTagRows db1 ev.ID).events.filter (fun e => e.ID ≠ ev.ID) := hr
        simpa using List.mem_filter.1 this
      have hr2 : r ∈ db.events ∧ r.ID ∉ ids := by
        have : r ∈ db1.events := hr1.1
        rw [he1] at this
        simpa using List.mem_filter.1 this
      have hm : matchesDTag
          { deleteEventRow (deleteTagRows db1 ev.ID) ev.ID with
            events := (deleteEventRow (deleteTagRows db1 ev.ID) ev.ID).events ++ [ev]
            eventTags := (deleteEventRow (deleteTagRows db1 ev.ID) ev.ID).eventTags ++
              Normalize ev.ID ev.Tags } dTag r = matchesDTag db dTag r := by
        apply matchesDTag_congr
        rw [htag, if_neg hr1.2, hother r.ID hr1.2 hr2.2]
        simp
      rw [hm]
      intro hP
      apply hr2.2
      rw [← hids]
      refine List.mem_map.2 ⟨(r.ID, r.CreatedAt), ?_, rfl⟩
      refine List.mem_filter.2 ⟨?_, by simpa using hr1.2⟩
      refine List.mem_map.2 ⟨r, ?_, rfl⟩
      exact List.mem_filter.2 ⟨hr2.1, hP⟩
    rw [hold, hnew]
    rfl
  · intro r hr
    obtain ⟨e, he, hre⟩ := List.mem_map.1 hr
    rw [← hre]
    exact hfresh e he

/-- With a stored row of the address that is strictly newer than the event,
the parameterized replaceable upsert returns without storing anything. -/
theorem UpsertParameterized_stale (db : EventStore) (ev : Event) (dTag : String)
    (hstale : ∃ r ∈ canonicalRows db ev.PubKey ev.Kind dTag, ev.CreatedAt < r.CreatedAt) :
    UpsertParameterizedReplaceableEvent db ev dTag = .ok db := by
  unfold UpsertParameterizedReplaceableEvent
  simp only []
  apply upsertLatestEventTx_stale
  obtain ⟨r, hr, hlt⟩ := hstale
  exact ⟨(r.ID, r.CreatedAt), List.mem_map.2 ⟨r, hr, rfl⟩, hlt⟩

theorem EqualFold_iff (a b : String) : EqualFold a b = true ↔ ToLower a = ToLower b := by
  simp [EqualFold]

/-- What a successful canonical emission leaves in the event store: with only
strictly older rows at the address, the emitted event alone; with a strictly
newer row, the store as it was. -/
theorem upsertCanonicalStateEvent_stored (lib : Crypto) (cfg : ProjectionConfig)
    (st st2 : RelayState) (kind : Int) (groupID : String) (createdAt : Int)
    (rest : List (List String))
    (h : upsertCanonicalStateEvent lib cfg st kind groupID createdAt (["d", groupID] :: rest)
      = (.ok (), st2)) :
    ((∀ r ∈ canonicalRows st.events (ToLower cfg.relayPubKey) kind groupID,
        r.CreatedAt < createdAt) →
      ∃ s, canonicalRows st2.events (ToLower cfg.relayPubKey) kind groupID = [s] ∧
        s.CreatedAt = createdAt ∧ s.Tags = ["d", groupID] :: rest) ∧
    ((∃ r ∈ canonicalRows st.events (ToLower cfg.relayPubKey) kind groupID,
        createdAt < r.CreatedAt) → st2.events = st.events) := by
  unfold upsertCanonicalStateEvent at h
  simp only [] at h
  split at h
  · cases h
  · rename_i signed hsign
    split at h
    · cases h
    · rename_i hfold
      have hpk : ToLower signed.PubKey = ToLower cfg.relayPubKey := by
        apply (EqualFold_iff _ _).1
        cases hc : EqualFold signed.PubKey cfg.relayPubKey with
        | true => rfl
        | false => simp [hc] at hfold
      refine ⟨?_, ?_⟩
      · intro hfresh
        obtain ⟨db2, hup, hrows⟩ := UpsertParameterized_fresh st.events
          { ID := signed.ID, PubKey := ToLower signed.PubKey, CreatedAt := createdAt,
            Kind := kind, Tags := ["d", groupID] :: rest, Content := "", Sig := signed.Sig }
          groupID rest rfl (by simpa only [hpk] using hfresh)
        rw [hup] at h
        simp only [Prod.mk.injEq, true_and] at h
        subst h
        simp only [hpk] at hrows
        exact ⟨_, hrows, rfl, rfl⟩
      · intro hstale
        have hup := UpsertParameterized_stale st.events
          { ID := signed.ID, PubKey := ToLower signed.PubKey, CreatedAt := createdAt,
            Kind := kind, Tags := ["d", groupID] :: rest, Content := "", Sig := signed.Sig }
          groupID (by simpa only [hpk] using hstale)
        rw [hup] at h
        simp only [Prod.mk.injEq, true_and] at h
        subst h
        rfl

theorem ListMembers_congr (a b : GroupStore) (h : a.members = b.members) (groupID : String) :
    ListMembers a groupID = ListMembers b groupID := by
  unfold ListMembers
  rw [h]

/-- What a successful emission of the member snapshot leaves. -/
theorem emitMembersStateEvent_stored (lib : Crypto) (cfg : ProjectionConfig)
    (st st2 : RelayState) (groupID : String) (createdAt : Int)
    (h : emitMembersStateEvent lib cfg st groupID createdAt = (.ok (), st2)) :
    st2.groups.members = st.groups.members ∧
    ((∀ r ∈ canonicalRows st.events (ToLower cfg.relayPubKey) 39002 groupID,
        r.CreatedAt < createdAt) →
      ∃ s, canonicalRows st2.events (ToLower cfg.relayPubKey) 39002 groupID = [s] ∧
        s.CreatedAt = createdAt ∧
        s.Tags = groupMembersStateTags groupID (ListMembers st2.groups groupID)) ∧
    ((∃ r ∈ canonicalRows st.events (ToLower cfg.relayPubKey) 39002 groupID,
        createdAt < r.CreatedAt) → st2.events = st.events) := by
  unfold emitMembersStateEvent at h
  have hframe := upsertCanonicalStateEvent_frame lib cfg st 39002 groupID createdAt
    (groupMembersStateTags groupID (ListMembers st.groups groupID))
  rw [h] at hframe
  have hmem : st2.groups.members = st.groups.members := hframe.2.2.1
  have hlist := ListMembers_congr st2.groups st.groups hmem groupID
  have hs := upsertCanonicalStateEvent_stored lib cfg st st2 39002 groupID createdAt
    ((ListMembers st.groups groupID).map (fun member : GroupMember => ["p", member.PubKey])) h
  refine ⟨hmem, ?_, hs.2⟩
  intro hfresh
  obtain ⟨s, h1, h2, h3⟩ := hs.1 hfresh
  refine ⟨s, h1, h2, ?_⟩
  rw [h3, hlist]
  rfl

/-- C13 (counterexample): with canonical emission configured, `alice-pub`
adds `carol-pub` to `group-1` with an event created at 200, and then
`dave-pub` with an event created at 150.  Both events are applied without
error, and `dave-pub` is a member; but the 39002 event stored for the group is
still the one of time 200, which lists `bob-pub` and `carol-pub` only.  The
same holds when `dave-pub` is added by `ApproveJoinRequest` at time 150. -/
theorem C13_counterexample :
    (ApplyEvent canonCrypto canonProjection sampleClock groupOfAlice aliceAddsCarol).1
      = .ok () ∧
    (ApplyEvent canonCrypto canonProjection sampleClock
      (ApplyEvent canonCrypto canonProjection sampleClock groupOfAlice aliceAddsCarol).2
      aliceAddsDave).1 = .ok () ∧
    (ListMembers (ApplyEvent canonCrypto canonProjection sampleClock
      (ApplyEvent canonCrypto canonProjection sampleClock groupOfAlice aliceAddsCarol).2
      aliceAddsDave).2.groups "group-1").map (fun m => m.PubKey)
      = ["bob-pub", "dave-pub", "carol-pub"] ∧
    (canonicalRows (ApplyEvent canonCrypto canonProjection sampleClock
      (ApplyEvent canonCrypto canonProjection sampleClock groupOfAlice aliceAddsCarol).2
      aliceAddsDave).2.events "relay-key" 39002 "group-1").map (fun e => (e.CreatedAt, e.Tags))
      = [(200, [["d", "group-1"], ["p", "bob-pub"], ["p", "carol-pub"]])] ∧
    (ApproveJoinRequest canonCrypto canonProjection
      (ApplyEvent canonCrypto canonProjection sampleClock groupOfAlice aliceAddsCarol).2
      "group-1" "dave-pub" "alice-pub" 150).1 = .ok () ∧
    (ListMembers (ApproveJoinRequest canonCrypto canonProjection
      (ApplyEvent canonCrypto canonProjection sampleClock groupOfAlice aliceAddsCarol).2
      "group-1" "dave-pub" "alice-pub" 150).2.groups "group-1").map (fun m => m.PubKey)
      = ["bob-pub", "dave-pub", "carol-pub"] ∧
    (canonicalRows (ApproveJoinRequest canonCrypto canonProjection
      (ApplyEvent canonCrypto canonProjection sampleClock groupOfAlice aliceAddsCarol).2
      "group-1" "dave-pub" "alice-pub" 150).2.events "relay-key" 39002 "group-1").map
      (fun e => (e.CreatedAt, e.Tags))
      = [(200, [["d", "group-1"], ["p", "bob-pub"], ["p", "carol-pub"]])] := by
  refine ⟨by decide, by decide, by decide, by decide, by decide, by decide, by decide⟩

/-- The store after the deletes and the insert of the replaceable upsert. -/
theorem insert_after_deletes (db : EventStore) (ev : Event) (ids : List String) :
    ∃ db2, insertEventTx (deleteEventRow (deleteTagRows (ids.foldl deleteEventRow db) ev.ID)
        ev.ID) ev = .ok db2 ∧
      db2.events = db.events.filter
        (fun e => decide (e.ID ∉ ids) && decide (e.ID ≠ ev.ID)) ++ [ev] ∧
      (∀ x, x ∉ ids → x ≠ ev.ID → tagRowsOf db2 x = tagRowsOf db x) ∧
      tagRowsOf db2 ev.ID = Normalize ev.ID ev.Tags := by
  obtain ⟨he1, _, ht1⟩ := events_foldl_deleteEventRow ids db
  generalize ids.foldl deleteEventRow db = db1 at he1 ht1
  have hany : (deleteEventRow (deleteTagRows db1 ev.ID) ev.ID).events.any
      (fun e => e.ID = ev.ID) = false := by
    simp [deleteEventRow]
  unfold insertEventTx
  rw [hany]
  simp only [Bool.false_eq_true, if_false]
  refine ⟨_, rfl, ?_, ?_, ?_⟩
  · show List.filter _ (deleteTagRows db1 ev.ID).events ++ [ev] = _
    have : (deleteTagRows db1 ev.ID).events = db1.events := rfl
    rw [this, he1, List.filter_filter]
    congr 1
    apply List.filter_congr
    intro e _
    simp [Bool.and_comm]
  · intro x hx1 hx2
    have h := tagRowsOf_Normalize (deleteEventRow (deleteTagRows db1 ev.ID) ev.ID) ev x
    unfold tagRowsOf at h ⊢
    simp only [] at h ⊢
    rw [h, if_neg hx2, List.append_nil]
    have h3 := tagRowsOf_deleteEventRow (deleteTagRows db1 ev.ID) ev.ID x hx2
    have h4 := tagRowsOf_deleteTagRows db1 ev.ID x
    rw [if_neg hx2] at h4
    unfold tagRowsOf at h3 h4
    rw [h3, h4]
    exact ht1 x hx1
  · have h := tagRowsOf_Normalize (deleteEventRow (deleteTagRows db1 ev.ID) ev.ID) ev ev.ID
    have hown : tagRowsOf (deleteEventRow (deleteTagRows db1 ev.ID) ev.ID) ev.ID = [] := by
      apply tagRowsOf_deleteEventRow_nil
      rw [tagRowsOf_deleteTagRows]
      simp
    unfold tagRowsOf at h ⊢
    simp only [] at h ⊢
    rw [h]
    unfold tagRowsOf at hown
    rw [hown]
    simp

/-- A successful replaceable upsert either leaves the store as it was, or
removes the selected rows and the rows with the event's id and appends the
event, with the tag rows of every other id untouched. -/
theorem upsertLatestEventTx_shape (db db2 : EventStore) (ev : Event)
    (rows : List (String × Int)) (h : upsertLatestEventTx db ev rows = .ok db2) :
    db2 = db ∨
    (db2.events = db.events.filter (fun e =>
        decide (e.ID ∉ (rows.filter (fun r => decide (r.1 ≠ ev.ID))).map (fun r => r.1)) &&
        decide (e.ID ≠ ev.ID)) ++ [ev] ∧
      (∀ x, x ∉ (rows.filter (fun r => decide (r.1 ≠ ev.ID))).map (fun r => r.1) →
        x ≠ ev.ID → tagRowsOf db2 x = tagRowsOf db x) ∧
      tagRowsOf db2 ev.ID = Normalize ev.ID ev.Tags) := by
  obtain ⟨h1, _, _, _⟩ := scan_rows ev.ID rows
  unfold upsertLatestEventTx at h
  simp only [] at h
  split at h
  · left
    injection h with h
    exact h.symm
  · right
    rw [h1] at h
    obtain ⟨db3, h3, h4, h5, h6⟩ := insert_after_deletes db ev
      ((rows.filter (fun r => decide (r.1 ≠ ev.ID))).map (fun r => r.1))
    rw [h3] at h
    injection h with h
    subst h
    exact ⟨h4, h5, h6⟩

/-- An upsert of an event of another kind takes no row to an address and,
for an address whose only row `s` is the only row of the store with its id,
leaves that so when the event has another id. -/
theorem UpsertParameterized_other_kind (db db2 : EventStore) (ev : Event) (dTag2 : String)
    (pk : String) (k : Int) (g : String) (hk : ev.Kind ≠ k)
    (h : UpsertParameterizedReplaceableEvent db ev dTag2 = .ok db2) :
    (∀ r ∈ canonicalRows db2 pk k g, r ∈ canonicalRows db pk k g) ∧
    (∀ s, canonicalRows db pk k g = [s] → (∀ r ∈ db.events, r.ID = s.ID → r = s) →
      ev.ID ≠ s.ID →
      canonicalRows db2 pk k g = [s] ∧ (∀ r ∈ db2.events, r.ID = s.ID → r = s)) := by
  unfold UpsertParameterizedReplaceableEvent at h
  simp only [] at h
  rcases upsertLatestEventTx_shape db db2 ev _ h with h0 | ⟨he, ht, _⟩
  · subst h0
    exact ⟨fun r hr => hr, fun s h1 h2 _ => ⟨h1, h2⟩⟩
  · generalize hids : (((db.events.filter (fun e => atAddress ev.PubKey ev.Kind e &&
        matchesDTag db dTag2 e)).map (fun e => (e.ID, e.CreatedAt))).filter
        (fun r => decide (r.1 ≠ ev.ID))).map (fun r => r.1) = ids at he ht
    have hrows : canonicalRows db2 pk k g =
        (canonicalRows db pk k g).filter
          (fun e => decide (e.ID ∉ ids) && decide (e.ID ≠ ev.ID)) := by
      unfold canonicalRows
      rw [he, List.filter_append, List.filter_filter, List.filter_filter]
      have hnew : List.filter (fun e => atAddress pk k e && matchesDTag db2 g e) [ev] = [] := by
        have : atAddress pk k ev = false := by
          simp [atAddress, hk]
        simp [this]
      rw [hnew, List.append_nil]
      apply List.filter_congr
      intro r _
      by_cases hr1 : r.ID ∈ ids
      · simp [hr1]
      · by_cases hr2 : r.ID = ev.ID
        · simp [hr2]
        · have hm := matchesDTag_congr db db2 g r (ht r.ID hr1 hr2)
          simp [hr1, hr2, hm, Bool.and_comm]
    refine ⟨?_, ?_⟩
    · intro r hr
      rw [hrows] at hr
      exact (List.mem_filter.1 hr).1
    · intro s hs huniq hne
      have hsmem : s ∈ canonicalRows db pk k g := by rw [hs]; exact List.mem_singleton.2 rfl
      have hskind : s.Kind = k := by
        have := (List.mem_filter.1 hsmem).2
        simp only [Bool.and_eq_true] at this
        exact ((atAddress_iff pk k s).1 this.1).2
      have hsids : s.ID ∉ ids := by
        intro hin
        rw [← hids] at hin
        obtain ⟨row, hrow, hrowid⟩ := List.mem_map.1 hin
        obtain ⟨hrow2, _⟩ := List.mem_filter.1 hrow
        obtain ⟨r, hr, hre⟩ := List.mem_map.1 hrow2
        obtain ⟨hrdb, hrP⟩ := List.mem_filter.1 hr
        have hrid : r.ID = s.ID := by
          rw [← hre] at hrowid
          exact hrowid
        have hrs := huniq r hrdb hrid
        simp only [Bool.and_eq_true] at hrP
        have hrk := ((atAddress_iff _ _ r).1 hrP.1).2
        rw [hrs, hskind] at hrk
        exact hk hrk.symm
      refine ⟨?_, ?_⟩
      · rw [hrows, hs]
        have hne2 : s.ID ≠ ev.ID := fun h => hne h.symm
        simp [hsids, hne2]
      · intro r hr hrid
        rw [he] at hr
        rcases List.mem_append.1 hr with h1 | h1
        · exact huniq r (List.mem_filter.1 h1).1 hrid
        · rw [List.mem_singleton.1 h1] at hrid
          exact absurd hrid hne

/-- The event a fresh upsert stores is the only row of the store with its
id. -/
theorem UpsertParameterized_fresh_unique (db : EventStore) (ev : Event) (dTag : String)
    (rest : List (List String)) (htags : ev.Tags = ["d", dTag] :: rest)
    (hfresh : ∀ r ∈ canonicalRows db ev.PubKey ev.Kind dTag, r.CreatedAt < ev.CreatedAt) :
    ∃ db2, UpsertParameterizedReplaceableEvent db ev dTag = .ok db2 ∧
      canonicalRows db2 ev.PubKey ev.Kind dTag = [ev] ∧
      ∀ r ∈ db2.events, r.ID = ev.ID → r = ev := by
  obtain ⟨db2, h1, h2⟩ := UpsertParameterized_fresh db ev dTag rest htags hfresh
  refine ⟨db2, h1, h2, ?_⟩
  have h3 := h1
  unfold UpsertParameterizedReplaceableEvent at h3
  simp only [] at h3
  rcases upsertLatestEventTx_shape db db2 ev _ h3 with h0 | ⟨he, _, _⟩
  · -- the store is unchanged: the event is its own row
    subst h0
    intro r hr hrid
    have hev : ev ∈ canonicalRows db2 ev.PubKey ev.Kind dTag := by
      rw [h2]; exact List.mem_singleton.2 rfl
    exact absurd (hfresh ev hev) (lt_irrefl _)
  · intro r hr hrid
    rw [he] at hr
    rcases List.mem_append.1 hr with h4 | h4
    · have := (List.mem_filter.1 h4).2
      simp only [Bool.and_eq_true, decide_eq_true_eq] at this
      exact absurd hrid this.2
    · exact List.mem_singleton.1 h4

/-- A canonical emission of another kind stores no member snapshot and keeps
a held one whose id it does not reuse. -/
theorem upsertCanonicalStateEvent_other (lib : Crypto) (cfg : ProjectionConfig)
    (st st2 : RelayState) (kind : Int) (dTag groupID : String) (createdAt : Int)
    (tags : List (List String)) (pk : String) (hk : kind ≠ 39002)
    (h : upsertCanonicalStateEvent lib cfg st kind dTag createdAt tags = (.ok (), st2)) :
    (∀ r ∈ canonicalRows st2.events pk 39002 groupID,
      r ∈ canonicalRows st.events pk 39002 groupID) ∧
    (∀ s, snapshotHeld st.events pk groupID s → ¬ signedAs lib cfg kind s.ID →
      snapshotHeld st2.events pk groupID s) := by
  unfold upsertCanonicalStateEvent at h
  simp only [] at h
  split at h
  · cases h
  · rename_i signed hsign
    split at h
    · cases h
    · split at h
      · cases h
      · rename_i db2 hup
        simp only [Prod.mk.injEq, true_and] at h
        subst h
        obtain ⟨h1, h2⟩ := UpsertParameterized_other_kind st.events db2 _ dTag pk 39002 groupID
          hk hup
        refine ⟨h1, ?_⟩
        intro s hs hns
        refine h2 s hs.1 hs.2 ?_
        intro hid
        apply hns
        exact ⟨_, signed, rfl, hsign, hid⟩

/-- A fresh emission of the member snapshot leaves it held. -/
theorem upsertCanonicalStateEvent_held (lib : Crypto) (cfg : ProjectionConfig)
    (st st2 : RelayState) (groupID : String) (createdAt : Int) (rest : List (List String))
    (h : upsertCanonicalStateEvent lib cfg st 39002 groupID createdAt
      (["d", groupID] :: rest) = (.ok (), st2))
    (hfresh : ∀ r ∈ canonicalRows st.events (ToLower cfg.relayPubKey) 39002 groupID,
      r.CreatedAt < createdAt) :
    ∃ s, snapshotHeld st2.events (ToLower cfg.relayPubKey) groupID s ∧
      s.CreatedAt = createdAt ∧ s.Tags = ["d", groupID] :: rest ∧
      signedAs lib cfg 39002 s.ID := by
  unfold upsertCanonicalStateEvent at h
  simp only [] at h
  split at h
  · cases h
  · rename_i signed hsign
    split at h
    · cases h
    · rename_i hfold
      have hpk : ToLower signed.PubKey = ToLower cfg.relayPubKey := by
        apply (EqualFold_iff _ _).1
        cases hc : EqualFold signed.PubKey cfg.relayPubKey with
        | true => rfl
        | false => simp [hc] at hfold
      obtain ⟨db2, hup, hrows, huniq⟩ := UpsertParameterized_fresh_unique st.events
        { ID := signed.ID, PubKey := ToLower signed.PubKey, CreatedAt := createdAt,
          Kind := 39002, Tags := ["d", groupID] :: rest, Content := "", Sig := signed.Sig }
        groupID rest rfl (by simpa only [hpk] using hfresh)
      rw [hup] at h
      simp only [Prod.mk.injEq, true_and] at h
      subst h
      simp only [hpk] at hrows huniq
      exact ⟨_, ⟨hrows, huniq⟩, rfl, rfl, ⟨_, signed, rfl, hsign, rfl⟩⟩

theorem upsertCanonicalStateEvent_members (lib : Crypto) (cfg : ProjectionConfig)
    (st st2 : RelayState) (kind : Int) (groupID : String) (createdAt : Int)
    (tags : List (List String)) (r : Except Err Unit)
    (h : upsertCanonicalStateEvent lib cfg st kind groupID createdAt tags = (r, st2)) :
    st2.groups.members = st.groups.members := by
  have hf := upsertCanonicalStateEvent_frame lib cfg st kind groupID createdAt tags
  rw [h] at hf
  exact hf.2.2.1

/-- One step of the emission loop for a kind other than 39002. -/
theorem emit_other_kind (lib : Crypto) (cfg : ProjectionConfig) (st st2 : RelayState)
    (groupID : String) (createdAt : Int) (kind : Int) (pk : String) (hk : kind ≠ 39002)
    (h : (if kind = 39000 then emitGroupMetadataStateEvent lib cfg st groupID createdAt
      else if kind = 39001 then emitAdminsStateEvent lib cfg st groupID createdAt
      else if kind = 39002 then emitMembersStateEvent lib cfg st groupID createdAt
      else if kind = 39003 then emitRolesStateEvent lib cfg st groupID createdAt
      else (.ok (), st)) = (.ok (), st2)) :
    st2.groups.members = st.groups.members ∧
    (∀ r ∈ canonicalRows st2.events pk 39002 groupID,
      r ∈ canonicalRows st.events pk 39002 groupID) ∧
    (∀ s, snapshotHeld st.events pk groupID s →
      (∀ k, k = 39000 ∨ k = 39001 ∨ k = 39003 → ¬ signedAs lib cfg k s.ID) →
      snapshotHeld st2.events pk groupID s) := by
  rw [if_neg hk] at h
  by_cases h0 : kind = 39000
  · rw [if_pos h0] at h
    unfold emitGroupMetadataStateEvent at h
    split at h
    · cases h
    · obtain ⟨h1, h2⟩ := upsertCanonicalStateEvent_other lib cfg st st2 39000 groupID groupID
        createdAt _ pk (by decide) h
      exact ⟨upsertCanonicalStateEvent_members _ _ _ _ _ _ _ _ _ h, h1,
        fun s hs hn => h2 s hs (hn 39000 (Or.inl rfl))⟩
  · rw [if_neg h0] at h
    by_cases h1 : kind = 39001
    · rw [if_pos h1] at h
      unfold emitAdminsStateEvent at h
      split at h
      · cases h
      · obtain ⟨h3, h2⟩ := upsertCanonicalStateEvent_other lib cfg st st2 39001 groupID groupID
          createdAt _ pk (by decide) h
        exact ⟨upsertCanonicalStateEvent_members _ _ _ _ _ _ _ _ _ h, h3,
          fun s hs hn => h2 s hs (hn 39001 (Or.inr (Or.inl rfl)))⟩
    · rw [if_neg h1] at h
      by_cases h3 : kind = 39003
      · rw [if_pos h3] at h
        unfold emitRolesStateEvent at h
        obtain ⟨h4, h2⟩ := upsertCanonicalStateEvent_other lib cfg st st2 39003 groupID groupID
          createdAt _ pk (by decide) h
        exact ⟨upsertCanonicalStateEvent_members _ _ _ _ _ _ _ _ _ h, h4,
          fun s hs hn => h2 s hs (hn 39003 (Or.inr (Or.inr rfl)))⟩
      · rw [if_neg h3] at h
        simp only [Prod.mk.injEq, true_and] at h
        subst h
        exact ⟨rfl, fun r hr => hr, fun s hs _ => hs⟩

/-- The step of the emission loop and the rest of the loop, from a
successful run. -/
theorem emitKinds_cons_ok (lib : Crypto) (cfg : ProjectionConfig) (groupID : String)
    (createdAt : Int) (st st2 : RelayState) (kind : Int) (rest : List Int)
    (h : emitKinds lib cfg groupID createdAt st (kind :: rest) = (.ok (), st2)) :
    ∃ st1,
      (if kind = 39000 then emitGroupMetadataStateEvent lib cfg st groupID createdAt
        else if kind = 39001 then emitAdminsStateEvent lib cfg st groupID createdAt
        else if kind = 39002 then emitMembersStateEvent lib cfg st groupID createdAt
        else if kind = 39003 then emitRolesStateEvent lib cfg st groupID createdAt
        else (.ok (), st)) = (.ok (), st1) ∧
      emitKinds lib cfg groupID createdAt st1 rest = (.ok (), st2) := by
  unfold emitKinds at h
  simp only [] at h
  generalize (if kind = 39000 then emitGroupMetadataStateEvent lib cfg st groupID createdAt
    else if kind = 39001 then emitAdminsStateEvent lib cfg st groupID createdAt
    else if kind = 39002 then emitMembersStateEvent lib cfg st groupID createdAt
    else if kind = 39003 then emitRolesStateEvent lib cfg st groupID createdAt
    else (.ok (), st)) = r at h
  obtain ⟨r1, r2⟩ := r
  cases r1 with
  | error e => simp at h
  | ok u => exact ⟨r2, rfl, h⟩

/-- A run of the emission loop without the kind 39002. -/
theorem emitKinds_without_members (lib : Crypto) (cfg : ProjectionConfig) (groupID : String)
    (createdAt : Int) (pk : String) (kinds : List Int) :
    ∀ st st2 : RelayState, 39002 ∉ kinds →
      emitKinds lib cfg groupID createdAt st kinds = (.ok (), st2) →
      st2.groups.members = st.groups.members ∧
      (∀ r ∈ canonicalRows st2.events pk 39002 groupID,
        r ∈ canonicalRows st.events pk 39002 groupID) ∧
      (∀ s, snapshotHeld st.events pk groupID s →
        (∀ k, k = 39000 ∨ k = 39001 ∨ k = 39003 → ¬ signedAs lib cfg k s.ID) →
        snapshotHeld st2.events pk groupID s) := by
  induction kinds with
  | nil =>
    intro st st2 _ h
    unfold emitKinds at h
    simp only [Prod.mk.injEq, true_and] at h
    subst h
    exact ⟨rfl, fun r hr => hr, fun s hs _ => hs⟩
  | cons kind rest ih =>
    intro st st2 hnot h
    obtain ⟨st1, hstep, hrest⟩ := emitKinds_cons_ok lib cfg groupID createdAt st st2 kind rest h
    have hk : kind ≠ 39002 := fun hk => hnot (hk ▸ List.mem_cons_self _ _)
    have hnot2 : 39002 ∉ rest := fun hin => hnot (List.mem_cons_of_mem _ hin)
    obtain ⟨a1, a2, a3⟩ := emit_other_kind lib cfg st st1 groupID createdAt kind pk hk hstep
    obtain ⟨b1, b2, b3⟩ := ih st1 st2 hnot2 hrest
    exact ⟨b1.trans a1, fun r hr => a2 r (b2 r hr), fun s hs hn => b3 s (a3 s hs hn) hn⟩

/-- A successful run of the emission loop over kinds that include 39002, from
a store whose member snapshots for the group are all strictly older, leaves
the snapshot of the members held. -/
theorem emitKinds_with_members (lib : Crypto) (cfg : ProjectionConfig) (groupID : String)
    (createdAt : Int)
    (hdist : ∀ id k, signedAs lib cfg 39002 id → k = 39000 ∨ k = 39001 ∨ k = 39003 →
      ¬ signedAs lib cfg k id)
    (kinds : List Int) :
    ∀ st st2 : RelayState, 39002 ∈ kinds → kinds.Nodup →
      emitKinds lib cfg groupID createdAt st kinds = (.ok (), st2) →
      (∀ r ∈ canonicalRows st.events (ToLower cfg.relayPubKey) 39002 groupID,
        r.CreatedAt < createdAt) →
      ∃ s, snapshotHeld st2.events (ToLower cfg.relayPubKey) groupID s ∧
        s.CreatedAt = createdAt ∧
        s.Tags = groupMembersStateTags groupID (ListMembers st2.groups groupID) := by
  induction kinds with
  | nil => intro st st2 hin; cases hin
  | cons kind rest ih =>
    intro st st2 hin hnd h hfresh
    obtain ⟨st1, hstep, hrest⟩ := emitKinds_cons_ok lib cfg groupID createdAt st st2 kind rest h
    obtain ⟨hnotin, hnd2⟩ := List.nodup_cons.1 hnd
    by_cases hk : kind = 39002
    · subst hk
      simp only [show ¬ ((39002 : Int) = 39000) from by decide,
        show ¬ ((39002 : Int) = 39001) from by decide, if_false, if_true] at hstep
      have hframe := upsertCanonicalStateEvent_frame lib cfg st 39002 groupID createdAt
        (groupMembersStateTags groupID (ListMembers st.groups groupID))
      unfold emitMembersStateEvent at hstep
      rw [hstep] at hframe
      obtain ⟨s, hheld, hcreated, htags, hsigned⟩ := upsertCanonicalStateEvent_held lib cfg st
        st1 groupID createdAt
        ((ListMembers st.groups groupID).map (fun member : GroupMember => ["p", member.PubKey]))
        hstep hfresh
      obtain ⟨b1, _, b3⟩ := emitKinds_without_members lib cfg groupID createdAt
        (ToLower cfg.relayPubKey) rest st1 st2 hnotin hrest
      refine ⟨s, b3 s hheld (fun k hk => hdist s.ID k hsigned hk), hcreated, ?_⟩
      rw [htags]
      have hm : st2.groups.members = st.groups.members := b1.trans hframe.2.2.1
      rw [ListMembers_congr st2.groups st.groups hm groupID]
      rfl
    · have hin2 : 39002 ∈ rest := by
        rcases List.mem_cons.1 hin with h1 | h1
        · exact absurd h1.symm hk
        · exact h1
      obtain ⟨_, a2, _⟩ := emit_other_kind lib cfg st st1 groupID createdAt kind
        (ToLower cfg.relayPubKey) hk hstep
      exact ih st1 st2 hin2 hnd2 hrest (fun r hr => hfresh r (a2 r hr))

/-- A successful run of the emission loop that starts with the kind 39002,
from a store that holds a strictly newer member snapshot for the group,
stores no member snapshot. -/
theorem emitKinds_stale (lib : Crypto) (cfg : ProjectionConfig) (groupID : String)
    (createdAt : Int) (rest : List Int) (st st2 : RelayState) (hnot : 39002 ∉ rest)
    (h : emitKinds lib cfg groupID createdAt st (39002 :: rest) = (.ok (), st2))
    (hstale : ∃ r ∈ canonicalRows st.events (ToLower cfg.relayPubKey) 39002 groupID,
      createdAt < r.CreatedAt) :
    ∀ r ∈ canonicalRows st2.events (ToLower cfg.relayPubKey) 39002 groupID,
      r ∈ canonicalRows st.events (ToLower cfg.relayPubKey) 39002 groupID := by
  obtain ⟨st1, hstep, hrest⟩ := emitKinds_cons_ok lib cfg groupID createdAt st st2 39002 rest h
  simp only [show ¬ ((39002 : Int) = 39000) from by decide,
    show ¬ ((39002 : Int) = 39001) from by decide, if_false, if_true] at hstep
  have hs := (emitMembersStateEvent_stored lib cfg st st1 groupID createdAt hstep).2.2 hstale
  obtain ⟨_, b2, _⟩ := emitKinds_without_members lib cfg groupID createdAt
    (ToLower cfg.relayPubKey) rest st1 st2 hnot hrest
  intro r hr
  have := b2 r hr
  rw [hs] at this
  exact this

theorem intercalate_go_prefix (s : String) (l : List String) :
    ∀ acc : String, ∃ tail, (String.intercalate.go acc s l).data = acc.data ++ tail := by
  induction l with
  | nil => intro acc; exact ⟨[], by simp [String.intercalate.go]⟩
  | cons a rest ih =>
    intro acc
    obtain ⟨tail, h⟩ := ih (acc ++ s ++ a)
    refine ⟨s.data ++ a.data ++ tail, ?_⟩
    simp only [String.intercalate.go, h, String.data_append, List.append_assoc]

/-- The ids `canonSign` gives start with the decimal text of the kind. -/
theorem canonSign_id_prefix (cfg : ProjectionConfig) (kind : Int) (id : String)
    (h : signedAs canonCrypto cfg kind id) :
    ∃ tail, id.data = (toString kind).data ++ tail := by
  obtain ⟨e, r, hk, hs, hid⟩ := h
  have hr : r.ID = String.intercalate "|"
      (toString e.Kind :: toString e.CreatedAt :: e.Tags.map (String.intercalate ",")) := by
    have : canonSign e cfg.relayPrivKey = .ok r := hs
    unfold canonSign at this
    injection this with this
    rw [← this]
  rw [← hid, hr, hk]
  exact intercalate_go_prefix "|" _ (toString kind)

/-- The sample signer gives a member snapshot an id that no canonical event
of another kind gets. -/
theorem canonCrypto_distinct (cfg : ProjectionConfig) (id : String) (k : Int)
    (h1 : signedAs canonCrypto cfg 39002 id) (hk : k = 39000 ∨ k = 39001 ∨ k = 39003) :
    ¬ signedAs canonCrypto cfg k id := by
  intro h2
  obtain ⟨t1, e1⟩ := canonSign_id_prefix cfg 39002 id h1
  obtain ⟨t2, e2⟩ := canonSign_id_prefix cfg k id h2
  have h5 : (toString (39002 : Int)).data = id.data.take 5 := by
    rw [e1]
    have : (toString (39002 : Int)).data.length = 5 := by decide
    rw [List.take_append_of_le_length (by omega), List.take_of_length_le (by omega)]
  rcases hk with hk | hk | hk
  · subst hk
    have h6 : (toString (39000 : Int)).data = id.data.take 5 := by
      rw [e2]
      have : (toString (39000 : Int)).data.length = 5 := by decide
      rw [List.take_append_of_le_length (by omega), List.take_of_length_le (by omega)]
    rw [← h6] at h5
    exact absurd h5 (by decide)
  · subst hk
    have h6 : (toString (39001 : Int)).data = id.data.take 5 := by
      rw [e2]
      have : (toString (39001 : Int)).data.length = 5 := by decide
      rw [List.take_append_of_le_length (by omega), List.take_of_length_le (by omega)]
    rw [← h6] at h5
    exact absurd h5 (by decide)
  · subst hk
    have h6 : (toString (39003 : Int)).data = id.data.take 5 := by
      rw [e2]
      have : (toString (39003 : Int)).data.length = 5 := by decide
      rw [List.take_append_of_le_length (by omega), List.take_of_length_le (by omega)]
    rw [← h6] at h5
    exact absurd h5 (by decide)

theorem canonicalStateKinds_nodup (kind : Int) (mc ac : Bool) :
    (canonicalStateKindsForSource kind mc ac).Nodup := by
  unfold canonicalStateKindsForSource appendUnique
  split_ifs <;> simp

/-- The canonical kinds of the sources that carry the kind 39002. -/
theorem canonicalStateKinds_cases (kind : Int) (mc ac : Bool) :
    (kind = 9007 ∧ canonicalStateKindsForSource kind mc ac = [39000, 39002, 39003, 39001]) ∨
    (kind = 9000 ∧ mc = true ∧ ac = true ∧
      canonicalStateKindsForSource kind mc ac = [39002, 39001]) ∨
    (mc = true ∧ (kind = 9000 ∧ ac = false ∨ kind = 9001 ∨ kind = 9022 ∨ kind = 9021) ∧
      canonicalStateKindsForSource kind mc ac = [39002]) ∨
    (kind ≠ 9007 ∧ ¬ (mc = true ∧ (kind = 9000 ∨ kind = 9001 ∨ kind = 9022 ∨ kind = 9021)) ∧
      39002 ∉ canonicalStateKindsForSource kind mc ac) := by
  by_cases h7 : kind = 9007
  · subst h7
    left
    cases mc <;> cases ac <;> exact ⟨rfl, by decide⟩
  by_cases h0 : kind = 9000
  · subst h0
    cases mc <;> cases ac
    · right; right; right
      exact ⟨by decide, by decide, by decide⟩
    · right; right; right
      exact ⟨by decide, by decide, by decide⟩
    · right; right; left
      exact ⟨rfl, Or.inl ⟨rfl, rfl⟩, by decide⟩
    · right; left
      exact ⟨rfl, rfl, rfl, by decide⟩
  by_cases h1 : kind = 9001
  · subst h1
    cases mc <;> cases ac
    · right; right; right; exact ⟨by decide, by decide, by decide⟩
    · right; right; right; exact ⟨by decide, by decide, by decide⟩
    · right; right; left; exact ⟨rfl, Or.inr (Or.inl rfl), by decide⟩
    · right; right; left; exact ⟨rfl, Or.inr (Or.inl rfl), by decide⟩
  by_cases h22 : kind = 9022
  · subst h22
    cases mc <;> cases ac
    · right; right; right; exact ⟨by decide, by decide, by decide⟩
    · right; right; right; exact ⟨by decide, by decide, by decide⟩
    · right; right; left; exact ⟨rfl, Or.inr (Or.inr (Or.inl rfl)), by decide⟩
    · right; right; left; exact ⟨rfl, Or.inr (Or.inr (Or.inl rfl)), by decide⟩
  by_cases h21 : kind = 9021
  · subst h21
    cases mc <;> cases ac
    · right; right; right; exact ⟨by decide, by decide, by decide⟩
    · right; right; right; exact ⟨by decide, by decide, by decide⟩
    · right; right; left; exact ⟨rfl, Or.inr (Or.inr (Or.inr rfl)), by decide⟩
    · right; right; left; exact ⟨rfl, Or.inr (Or.inr (Or.inr rfl)), by decide⟩
  right; right; right
  refine ⟨h7, ?_, ?_⟩
  · rintro ⟨_, h | h | h | h⟩
    · exact h0 h
    · exact h1 h
    · exact h22 h
    · exact h21 h
  · unfold canonicalStateKindsForSource
    have e1 : ¬ (kind = 9000 ∨ kind = 9001 ∨ kind = 9022) := by
      rintro (h | h | h)
      · exact h0 h
      · exact h1 h
      · exact h22 h
    have e2 : ¬ (kind = 9000 ∧ ac = true) := fun h => h0 h.1
    simp only [h7, e1, h21, e2, if_false]
    by_cases ha : kind = 9002 ∨ kind = 9008
    · simp only [ha, if_true, appendUnique]
      decide
    · simp only [ha, if_false]
      by_cases hb : kind = 9003 ∨ kind = 9004
      · simp only [hb, if_true, appendUnique]
        decide
      · simp only [hb, if_false]
        exact List.not_mem_nil _

theorem mem_canonicalStateKinds (kind : Int) (mc ac : Bool) :
    39002 ∈ canonicalStateKindsForSource kind mc ac ↔
      kind = 9007 ∨ (mc = true ∧ (kind = 9000 ∨ kind = 9001 ∨ kind = 9022 ∨ kind = 9021)) := by
  rcases canonicalStateKinds_cases kind mc ac with ⟨h1, h2⟩ | ⟨h1, h2, _, h3⟩ | ⟨h1, h2, h3⟩ |
    ⟨h1, h2, h3⟩
  · rw [h2]
    exact ⟨fun _ => Or.inl h1, fun _ => by decide⟩
  · rw [h3]
    exact ⟨fun _ => Or.inr ⟨h2, Or.inl h1⟩, fun _ => by decide⟩
  · rw [h3]
    refine ⟨fun _ => Or.inr ⟨h1, ?_⟩, fun _ => by decide⟩
    rcases h2 with h | h | h | h
    · exact Or.inl h.1
    · exact Or.inr (Or.inl h)
    · exact Or.inr (Or.inr (Or.inl h))
    · exact Or.inr (Or.inr (Or.inr h))
  · constructor
    · intro h; exact absurd h h3
    · rintro (h | h)
      · exact absurd h h1
      · exact absurd h h2

theorem canonicalStateKinds_head (kind : Int) (mc ac : Bool) (hk : kind ≠ 9007)
    (h : 39002 ∈ canonicalStateKindsForSource kind mc ac) :
    ∃ rest, canonicalStateKindsForSource kind mc ac = 39002 :: rest ∧ 39002 ∉ rest := by
  rcases canonicalStateKinds_cases kind mc ac with ⟨h1, _⟩ | ⟨_, _, _, h3⟩ | ⟨_, _, h3⟩ |
    ⟨_, _, h3⟩
  · exact absurd h1 hk
  · exact ⟨[39001], h3, by decide⟩
  · exact ⟨[], h3, by decide⟩
  · exact absurd h h3

/-- The handlers of the kinds 9000, 9001 and 9022 report a membership change
whenever they succeed. -/
theorem applyHandler_membership_flag (cfg : ProjectionConfig) (clock : Clock)
    (st st1 : RelayState) (event : Event) (groupID : String) (flags : Bool × Bool)
    (hk : event.Kind = 9000 ∨ event.Kind = 9001 ∨ event.Kind = 9022)
    (h : applyHandler cfg clock st event groupID = (.ok flags, st1)) : flags.1 = true := by
  unfold applyHandler at h
  rcases hk with hk | hk | hk
  · simp only [hk, show ¬ ((9000 : Int) = 9007) from by decide,
      show ¬ ((9000 : Int) = 9002) from by decide, show ¬ ((9000 : Int) = 9003) from by decide,
      show ¬ ((9000 : Int) = 9004) from by decide, if_false, if_true] at h
    unfold applyPutUser at h
    split at h
    · cases h
    · simp only [] at h
      split at h
      · cases h
      · split at h
        · cases h
        · injection h with h1 _
          injection h1 with h1
          rw [← h1]
  · simp only [hk, show ¬ ((9001 : Int) = 9007) from by decide,
      show ¬ ((9001 : Int) = 9002) from by decide, show ¬ ((9001 : Int) = 9003) from by decide,
      show ¬ ((9001 : Int) = 9004) from by decide, show ¬ ((9001 : Int) = 9000) from by decide,
      if_false, if_true] at h
    unfold applyRemoveUser at h
    split at h
    · cases h
    · simp only [] at h
      split at h
      · cases h
      · injection h with h1 _
        injection h1 with h1
        rw [← h1]
  · simp only [hk, show ¬ ((9022 : Int) = 9007) from by decide,
      show ¬ ((9022 : Int) = 9002) from by decide, show ¬ ((9022 : Int) = 9003) from by decide,
      show ¬ ((9022 : Int) = 9004) from by decide, show ¬ ((9022 : Int) = 9000) from by decide,
      show ¬ ((9022 : Int) = 9001) from by decide, show ¬ ((9022 : Int) = 9009) from by decide,
      show ¬ ((9022 : Int) = 9021) from by decide, if_false, if_true] at h
    unfold applyLeave at h
    injection h with h1 _
    injection h1 with h1
    rw [← h1]

/-- C13 (amended): with canonical emission configured and a signer that gives
a member snapshot an id no canonical event of another kind gets, the kind
39002 is among the kinds emitted exactly for the kind 9007 and, when the
handler reports a membership change (as the handlers of 9000, 9001 and 9022
always do), for 9000, 9001, 9022 and 9021.  After a successful `ApplyEvent` of
such an event, and after a successful `ApproveJoinRequest`, the address (relay
pubkey in lower case, 39002, group id) holds exactly one event, whose tags are
the `d` tag and one `p` tag per member the projection then holds, provided
every event stored at that address before was strictly older than the
emission.  When an event stored there is strictly newer, `ApproveJoinRequest`
succeeds and leaves the event store as it was, and `ApplyEvent` of an event of
a kind other than 9007 succeeds and stores no event at that address that was
not there before. -/
theorem C13_snapshot_stored_when_newer (lib : Crypto) (cfg : ProjectionConfig)
    (hcfg : cfg.hasEventsRepo = true ∧ TrimSpace cfg.relayPubKey ≠ "" ∧
      TrimSpace cfg.relayPrivKey ≠ "")
    (hdist : ∀ id k, signedAs lib cfg 39002 id → k = 39000 ∨ k = 39001 ∨ k = 39003 →
      ¬ signedAs lib cfg k id) :
    (∀ (kind : Int) (mc ac : Bool), 39002 ∈ canonicalStateKindsForSource kind mc ac ↔
      kind = 9007 ∨ (mc = true ∧ (kind = 9000 ∨ kind = 9001 ∨ kind = 9022 ∨ kind = 9021))) ∧
    (∀ (clock : Clock) (st st1 : RelayState) (event : Event) (flags : Bool × Bool),
      event.Kind = 9000 ∨ event.Kind = 9001 ∨ event.Kind = 9022 →
      applyHandler cfg clock st event (resolveGroupID event) = (.ok flags, st1) →
      flags.1 = true) ∧
    (∀ (st st2 : RelayState) (groupID pubKey approvedBy : String) (approvedAt : Int),
      ApproveJoinRequest lib cfg st groupID pubKey approvedBy approvedAt = (.ok (), st2) →
      IsMember st2.groups groupID pubKey = true ∧
      ((∀ r ∈ canonicalRows st.events (ToLower cfg.relayPubKey) 39002 groupID,
          r.CreatedAt < approvedAt) →
        ∃ s, canonicalRows st2.events (ToLower cfg.relayPubKey) 39002 groupID = [s] ∧
          s.CreatedAt = approvedAt ∧
          s.Tags = groupMembersStateTags groupID (ListMembers st2.groups groupID)) ∧
      ((∃ r ∈ canonicalRows st.events (ToLower cfg.relayPubKey) 39002 groupID,
          approvedAt < r.CreatedAt) → st2.events = st.events)) ∧
    (∀ (clock : Clock) (st st1 st2 : RelayState) (event : Event) (flags : Bool × Bool),
      resolveGroupID event ≠ "" →
      applyHandler cfg clock st event (resolveGroupID event) = (.ok flags, st1) →
      39002 ∈ canonicalStateKindsForSource event.Kind flags.1 flags.2 →
      ApplyEvent lib cfg clock st event = (.ok (), st2) →
      st2.groups.members = st1.groups.members ∧
      ((∀ r ∈ canonicalRows st1.events (ToLower cfg.relayPubKey) 39002
          (resolveGroupID event), r.CreatedAt < event.CreatedAt) →
        ∃ s, canonicalRows st2.events (ToLower cfg.relayPubKey) 39002
            (resolveGroupID event) = [s] ∧
          s.CreatedAt = event.CreatedAt ∧
          s.Tags = groupMembersStateTags (resolveGroupID event)
            (ListMembers st2.groups (resolveGroupID event))) ∧
      (event.Kind ≠ 9007 →
        (∃ r ∈ canonicalRows st1.events (ToLower cfg.relayPubKey) 39002
          (resolveGroupID event), event.CreatedAt < r.CreatedAt) →
        ∀ r ∈ canonicalRows st2.events (ToLower cfg.relayPubKey) 39002 (resolveGroupID event),
          r ∈ canonicalRows st1.events (ToLower cfg.relayPubKey) 39002
            (resolveGroupID event))) := by
  refine ⟨mem_canonicalStateKinds, ?_, ?_, ?_⟩
  · intro clock st st1 event flags hk h
    exact applyHandler_membership_flag cfg clock st st1 event _ flags hk h
  · intro st st2 groupID pubKey approvedBy approvedAt h
    unfold ApproveJoinRequest at h
    split at h
    · cases h
    · simp only [] at h
      split at h
      · cases h
      · rename_i u st3 hemit
        simp only [Prod.mk.injEq, true_and] at h
        subst h
        obtain ⟨hm, hfresh, hstale⟩ := emitMembersStateEvent_stored lib cfg _ st3 groupID
          approvedAt hemit
        have hlist : ListMembers (st3.Inc "group_join_approved_total").groups groupID =
            ListMembers st3.groups groupID := rfl
        refine ⟨?_, ?_, ?_⟩
        · unfold IsMember findMember
          show (List.find? _ st3.groups.members).isSome = true
          rw [hm]
          exact IsMember_UpsertMember st.groups
            { GroupID := groupID, PubKey := pubKey, AddedAt := approvedAt,
              AddedBy := approvedBy, RoleName := "member", PromotedAt := approvedAt,
              PromotedBy := approvedBy }
        · intro hf
          obtain ⟨s, h1, h2, h3⟩ := hfresh hf
          exact ⟨s, h1, h2, by rw [hlist]; exact h3⟩
        · intro hs
          exact hstale hs
  · intro clock st st1 st2 event flags hg hh hkinds h
    have htab := ApplyEvent_tables lib cfg clock st event hg
    rw [h, hh] at htab
    unfold ApplyEvent at h
    simp only [hg, if_false, hh] at h
    unfold syncCanonicalStateEvents at h
    have hc : (!cfg.hasEventsRepo || decide (TrimSpace cfg.relayPubKey = "") ||
        decide (TrimSpace cfg.relayPrivKey = "")) = false := by
      simp [hcfg.1, hcfg.2.1, hcfg.2.2]
    simp only [hc, Bool.false_eq_true, if_false] at h
    rcases hemit : emitKinds lib cfg (resolveGroupID event) event.CreatedAt st1
      (canonicalStateKindsForSource event.Kind flags.1 flags.2) with ⟨r, st3⟩
    rw [hemit] at h
    cases r with
    | error e => simp at h
    | ok u =>
      simp only [Prod.mk.injEq, true_and] at h
      subst h
      have hlist : ∀ gs : GroupStore, gs.members = st3.groups.members →
          ListMembers gs (resolveGroupID event) = ListMembers st3.groups (resolveGroupID event) :=
        fun gs hgs => ListMembers_congr gs st3.groups hgs _
      refine ⟨htab.2.2.1, ?_, ?_⟩
      · intro hf
        obtain ⟨s, h1, h2, h3⟩ := emitKinds_with_members lib cfg (resolveGroupID event)
          event.CreatedAt hdist _ st1 st3 hkinds (canonicalStateKinds_nodup _ _ _) hemit hf
        refine ⟨s, h1.1, h2, ?_⟩
        rw [h3]
        exact congrArg _ (hlist _ rfl).symm
      · intro hk7 hs
        obtain ⟨rest, hrest, hnot⟩ := canonicalStateKinds_head event.Kind flags.1 flags.2 hk7
          hkinds
        rw [hrest] at hemit
        exact emitKinds_stale lib cfg (resolveGroupID event) event.CreatedAt rest st1 st3 hnot
          hemit hs

/-- C13 (witness): with the sample signer, the kind-9007 event `aliceCreates`
emits the four canonical kinds for the new group `group-2`, and the member
snapshot stored for it lists `alice-pub`. -/
theorem C13_snapshot_witness :
    ∃ s, canonicalRows (ApplyEvent canonCrypto canonProjection sampleClock groupOfAlice
        aliceCreates).2.events "relay-key" 39002 "group-2" = [s] ∧
      s.CreatedAt = 300 ∧ s.Tags = [["d", "group-2"], ["p", "alice-pub"]] := by
  have h := ((C13_snapshot_stored_when_newer canonCrypto canonProjection (by decide)
    (canonCrypto_distinct canonProjection)).2.2.2 sampleClock groupOfAlice
    (applyHandler canonProjection sampleClock groupOfAlice aliceCreates "group-2").2
    (ApplyEvent canonCrypto canonProjection sampleClock groupOfAlice aliceCreates).2
    aliceCreates (true, true) (by decide) (Prod.ext (by decide) rfl) (by decide)
    (Prod.ext (by decide) rfl)).2.1
    (by
      have hnone : canonicalRows
          (applyHandler canonProjection sampleClock groupOfAlice aliceCreates "group-2").2.events
          (ToLower canonProjection.relayPubKey) 39002 (resolveGroupID aliceCreates) = [] := by
        decide
      intro r hr
      rw [hnone] at hr
      cases hr)
  obtain ⟨s, h1, h2, h3⟩ := h
  refine ⟨s, h1, h2, ?_⟩
  rw [h3]
  decide

/-! ## The order of replaceable versions -/

/-- The three results of `compareReplaceableVersion`, each characterised by
the timestamps and the normalised ids. -/
theorem compareReplaceableVersion_spec (tA : Int) (idA : String) (tB : Int) (idB : String) :
    (compareReplaceableVersion tA idA tB idB = 1 ↔
      (tB < tA ∨ (tA = tB ∧ norm idA < norm idB))) ∧
    (compareReplaceableVersion tA idA tB idB = -1 ↔
      (tA < tB ∨ (tA = tB ∧ norm idB < norm idA))) ∧
    (compareReplaceableVersion tA idA tB idB = 0 ↔ (tA = tB ∧ norm idA = norm idB)) := by
  unfold compareReplaceableVersion norm
  by_cases h1 : tA > tB
  · have h2 : ¬ tA < tB := by omega
    have h3 : ¬ tA = tB := by omega
    have h4 : tB < tA := h1
    simp [h1, h2, h3, h4]
  · by_cases h2 : tA < tB
    · have h3 : ¬ tA = tB := by omega
      have h4 : ¬ tB < tA := h1
      simp [h2, h3, h4]
    · have heq : tA = tB := by omega
      subst heq
      simp only [h1, h2, if_false, lt_self_iff_false, false_or, true_and]
      generalize ToLower (TrimSpace idA) = a
      generalize ToLower (TrimSpace idB) = b
      rcases lt_trichotomy a b with h | h | h
      · have c1 := (stringsCompare_eq_neg_one a b).2 h
        have n2 : ¬ b < a := not_lt_of_gt h
        have n3 : ¬ a = b := ne_of_lt h
        rw [c1]
        simp only [if_true, h, n2, n3, true_iff, iff_false]
        decide
      · subst h
        have c1 : ¬ stringsCompare a a = -1 := fun c =>
          lt_irrefl a ((stringsCompare_eq_neg_one a a).1 c)
        have c2 : ¬ stringsCompare a a = 1 := fun c =>
          lt_irrefl a ((stringsCompare_eq_one a a).1 c)
        simp only [if_neg c1, if_neg c2, lt_self_iff_false, iff_false, iff_true]
        decide
      · have c2 := (stringsCompare_eq_one a b).2 h
        have n2 : ¬ a < b := not_lt_of_gt h
        have n3 : ¬ a = b := ne_of_gt h
        rw [c2]
        simp only [h, n2, n3, true_iff, iff_false]
        decide

/-- C21: `compareReplaceableVersion` returns 1 for the later timestamp and -1
for the earlier one; on equal timestamps it returns 1 when the first id,
trimmed and lower-cased, is lexicographically smaller (by code point), -1 when
it is larger and 0 when the two are equal. It is a total order on (created_at,
normalised id): the result is one of 1, -1 and 0, it is 0 exactly on equal
timestamps and equal normalised ids, swapping the arguments negates it, and it
is transitive (both as "at least as new" and as "strictly newer"). -/
theorem C21_compare_replaceable_total_order (tA tB tC : Int) (idA idB idC : String) :
    (tB < tA → compareReplaceableVersion tA idA tB idB = 1) ∧
    (tA < tB → compareReplaceableVersion tA idA tB idB = -1) ∧
    (tA = tB →
      (norm idA < norm idB → compareReplaceableVersion tA idA tB idB = 1) ∧
      (norm idB < norm idA → compareReplaceableVersion tA idA tB idB = -1) ∧
      (norm idA = norm idB → compareReplaceableVersion tA idA tB idB = 0)) ∧
    (compareReplaceableVersion tA idA tB idB = 1 ∨
      compareReplaceableVersion tA idA tB idB = -1 ∨
      compareReplaceableVersion tA idA tB idB = 0) ∧
    (compareReplaceableVersion tA idA tB idB = 0 ↔ (tA = tB ∧ norm idA = norm idB)) ∧
    compareReplaceableVersion tB idB tA idA = -compareReplaceableVersion tA idA tB idB ∧
    (compareReplaceableVersion tA idA tB idB = 1 → compareReplaceableVersion tB idB tC idC = 1 →
      compareReplaceableVersion tA idA tC idC = 1) ∧
    (0 ≤ compareReplaceableVersion tA idA tB idB → 0 ≤ compareReplaceableVersion tB idB tC idC →
      0 ≤ compareReplaceableVersion tA idA tC idC) := by
  obtain ⟨ab1, abm, ab0⟩ := compareReplaceableVersion_spec tA idA tB idB
  obtain ⟨ba1, bam, ba0⟩ := compareReplaceableVersion_spec tB idB tA idA
  obtain ⟨bc1, bcm, bc0⟩ := compareReplaceableVersion_spec tB idB tC idC
  obtain ⟨ac1, acm, ac0⟩ := compareReplaceableVersion_spec tA idA tC idC
  have habc := compareReplaceableVersion_cases tA idA tB idB
  refine ⟨fun h => ab1.2 (Or.inl h), fun h => abm.2 (Or.inl h), fun h =>
    ⟨fun h2 => ab1.2 (Or.inr ⟨h, h2⟩), fun h2 => abm.2 (Or.inr ⟨h, h2⟩),
      fun h2 => ab0.2 ⟨h, h2⟩⟩, habc, ab0, ?_, ?_, ?_⟩
  · rcases habc with h | h | h
    · rw [h]
      exact bam.2 (by rcases ab1.1 h with h | ⟨h, h2⟩
                      · exact Or.inl h
                      · exact Or.inr ⟨h.symm, h2⟩)
    · rw [h]
      exact ba1.2 (by rcases abm.1 h with h | ⟨h, h2⟩
                      · exact Or.inl h
                      · exact Or.inr ⟨h.symm, h2⟩)
    · rw [h]
      exact ba0.2 ⟨(ab0.1 h).1.symm, (ab0.1 h).2.symm⟩
  · intro h1 h2
    apply ac1.2
    rcases ab1.1 h1 with h | ⟨h, hs⟩ <;> rcases bc1.1 h2 with g | ⟨g, gs⟩
    · exact Or.inl (by omega)
    · exact Or.inl (by omega)
    · exact Or.inl (by omega)
    · exact Or.inr ⟨h.trans g, lt_trans hs gs⟩
  · have key : ∀ (t u : Int) (x y : String),
        0 ≤ compareReplaceableVersion t x u y ↔ (u < t ∨ (t = u ∧ norm x ≤ norm y)) := by
      intro t u x y
      obtain ⟨k1, km, k0⟩ := compareReplaceableVersion_spec t x u y
      rcases compareReplaceableVersion_cases t x u y with h | h | h
      · rw [h]
        refine ⟨fun _ => ?_, fun _ => by decide⟩
        rcases k1.1 h with h | ⟨h, h2⟩
        · exact Or.inl h
        · exact Or.inr ⟨h, le_of_lt h2⟩
      · rw [h]
        refine ⟨fun h0 => absurd h0 (by decide), ?_⟩
        rintro (g | ⟨g, gs⟩) <;> rcases km.1 h with h | ⟨h, h2⟩
        · omega
        · omega
        · omega
        · exact absurd h2 (not_lt_of_ge gs)
      · rw [h]
        refine ⟨fun _ => Or.inr ⟨(k0.1 h).1, le_of_eq (k0.1 h).2⟩, fun _ => by decide⟩
    intro h1 h2
    apply (key _ _ _ _).2
    rcases (key _ _ _ _).1 h1 with h | ⟨h, hs⟩ <;> rcases (key _ _ _ _).1 h2 with g | ⟨g, gs⟩
    · exact Or.inl (by omega)
    · exact Or.inl (by omega)
    · exact Or.inl (by omega)
    · exact Or.inr ⟨h.trans g, le_trans hs gs⟩

/-! ## The canonical kinds of every source kind -/

/-- The canonical kinds of a source kind outside the moderation kinds. -/
theorem canonicalStateKinds_other (kind : Int) (mc ac : Bool)
    (h : kind ∉ ([9007, 9002, 9008, 9003, 9004, 9000, 9001, 9022, 9021] : List Int)) :
    canonicalStateKindsForSource kind mc ac = [] := by
  simp only [List.mem_cons, List.mem_singleton, List.not_mem_nil, or_false, not_or] at h
  obtain ⟨h1, h2, h3, h4, h5, h6, h7, h8, h9⟩ := h
  unfold canonicalStateKindsForSource
  have e2 : ¬ (kind = 9002 ∨ kind = 9008) := by omega
  have e3 : ¬ (kind = 9003 ∨ kind = 9004) := by omega
  have e4 : ¬ (kind = 9000 ∨ kind = 9001 ∨ kind = 9022) := by omega
  have e6 : ¬ (kind = 9000 ∧ ac = true) := by omega
  simp only [h1, e2, e3, e4, h9, e6, if_false]

/-- C25: `canonicalStateKindsForSource` returns a duplicate-free list: the
four kinds 39000, 39002, 39003, 39001 for 9007 whatever the flags; 39000 alone
for 9002 and 9008; 39003 alone for 9003 and 9004; for 9000 the kind 39002 iff
membershipChanged followed by 39001 iff adminsChanged; for 9001, 9022 and 9021
the kind 39002 iff membershipChanged; nothing for every other kind. Hence
39001 is emitted only for the sources 9007 and 9000. -/
theorem C25_canonical_kinds_for_source (kind : Int) (membershipChanged adminsChanged : Bool) :
    (canonicalStateKindsForSource kind membershipChanged adminsChanged).Nodup ∧
    (kind = 9007 → canonicalStateKindsForSource kind membershipChanged adminsChanged =
      [39000, 39002, 39003, 39001]) ∧
    (kind = 9002 ∨ kind = 9008 →
      canonicalStateKindsForSource kind membershipChanged adminsChanged = [39000]) ∧
    (kind = 9003 ∨ kind = 9004 →
      canonicalStateKindsForSource kind membershipChanged adminsChanged = [39003]) ∧
    (kind = 9000 → canonicalStateKindsForSource kind membershipChanged adminsChanged =
      (if membershipChanged then [39002] else []) ++ (if adminsChanged then [39001] else [])) ∧
    (kind = 9001 ∨ kind = 9022 ∨ kind = 9021 →
      canonicalStateKindsForSource kind membershipChanged adminsChanged =
        (if membershipChanged then [39002] else [])) ∧
    (kind ∉ ([9007, 9002, 9008, 9003, 9004, 9000, 9001, 9022, 9021] : List Int) →
      canonicalStateKindsForSource kind membershipChanged adminsChanged = []) ∧
    (39001 ∈ canonicalStateKindsForSource kind membershipChanged adminsChanged →
      kind = 9007 ∨ kind = 9000) := by
  refine ⟨canonicalStateKinds_nodup _ _ _, ?_, ?_, ?_, ?_, ?_,
    canonicalStateKinds_other kind _ _, ?_⟩
  · intro h
    subst h
    cases membershipChanged <;> cases adminsChanged <;> decide
  · rintro (h | h) <;> subst h <;> cases membershipChanged <;> cases adminsChanged <;> decide
  · rintro (h | h) <;> subst h <;> cases membershipChanged <;> cases adminsChanged <;> decide
  · intro h
    subst h
    cases membershipChanged <;> cases adminsChanged <;> decide
  · rintro (h | h | h) <;> subst h <;> cases membershipChanged <;> cases adminsChanged <;> decide
  · intro hm
    by_cases h1 : kind = 9007
    · exact Or.inl h1
    by_cases h2 : kind = 9000
    · exact Or.inr h2
    exfalso
    by_cases h3 : kind = 9002
    · subst h3; revert hm; cases membershipChanged <;> cases adminsChanged <;> decide
    by_cases h4 : kind = 9008
    · subst h4; revert hm; cases membershipChanged <;> cases adminsChanged <;> decide
    by_cases h5 : kind = 9003
    · subst h5; revert hm; cases membershipChanged <;> cases adminsChanged <;> decide
    by_cases h6 : kind = 9004
    · subst h6; revert hm; cases membershipChanged <;> cases adminsChanged <;> decide
    by_cases h7 : kind = 9001
    · subst h7; revert hm; cases membershipChanged <;> cases adminsChanged <;> decide
    by_cases h8 : kind = 9022
    · subst h8; revert hm; cases membershipChanged <;> cases adminsChanged <;> decide
    by_cases h9 : kind = 9021
    · subst h9; revert hm; cases membershipChanged <;> cases adminsChanged <;> decide
    rw [canonicalStateKinds_other kind _ _ (by simp [*])] at hm
    exact List.not_mem_nil _ hm

/-! ## Admin assignment -/

theorem normalizeRoleName_idem (s : String) :
    normalizeRoleName (normalizeRoleName s) = normalizeRoleName s :=
  normalizePermission_idem s

/-- When `roleGrantsAdmin` holds: the normalised name is not blank, and it is
`owner` or `admin` or one of the permissions is `admin` in normal form. -/
theorem roleGrantsAdmin_iff (roleName : String) (permissions : List String) :
    roleGrantsAdmin roleName permissions = true ↔
      normalizeRoleName roleName ≠ "" ∧
      (normalizeRoleName roleName = "owner" ∨ normalizeRoleName roleName = "admin" ∨
        ∃ q ∈ permissions, normalizePermission q = "admin") := by
  unfold roleGrantsAdmin
  simp only []
  by_cases h0 : normalizeRoleName roleName = ""
  · simp [h0]
  · by_cases h1 : normalizeRoleName roleName = "owner" ∨ normalizeRoleName roleName = "admin"
    · rw [if_neg h0, if_pos h1]
      simp only [ne_eq, h0, not_false_eq_true, true_and, true_iff]
      rcases h1 with h | h
      · exact Or.inl h
      · exact Or.inr (Or.inl h)
    · rw [if_neg h0, if_neg h1]
      have n1 : ¬ normalizeRoleName roleName = "owner" := fun h => h1 (Or.inl h)
      have n2 : ¬ normalizeRoleName roleName = "admin" := fun h => h1 (Or.inr h)
      simp [h0, n1, n2, PermissionAdmin]

theorem roleGrantsAdmin_normalized (roleName : String) (permissions : List String) :
    roleGrantsAdmin (normalizeRoleName roleName) permissions
      = roleGrantsAdmin roleName permissions := by
  unfold roleGrantsAdmin
  simp only [normalizeRoleName_idem]

/-- C24 (counterexample): in `group-1`, `alice-pub` stores a role whose name
is one space with the `admin` permission, which `rolePermissionsByName` files
under the blank name; `carol-pub`, not a member, has the blank name as
previous role and is given the role `member`. Taking a role to grant admin
when its stored permissions contain `admin`, the blank role grants admin and
`member` does not, so the assignment would count as a change; the code
answers false, since `roleGrantsAdmin` denies every blank name. -/
theorem C24_counterexample :
    (ApplyEvent sampleCrypto sampleProjection sampleClock groupOfAlice aliceNamesBlankRole).1
      = .ok () ∧
    rolePermissionsByName
      (ApplyEvent sampleCrypto sampleProjection sampleClock groupOfAlice
        aliceNamesBlankRole).2.groups "group-1" = [("", ["admin"])] ∧
    GetMemberRole (ApplyEvent sampleCrypto sampleProjection sampleClock groupOfAlice
        aliceNamesBlankRole).2.groups "group-1" "carol-pub" = ("", false) ∧
    ((mapGet [("", ["admin"])] (normalizeRoleName "")).getD []).any
        (fun q => decide (normalizePermission q = "admin")) = true ∧
    ((mapGet [("", ["admin"])] (normalizeRoleName "member")).getD []).any
        (fun q => decide (normalizePermission q = "admin")) = false ∧
    normalizeRoleName "member" = "member" ∧
    roleGrantsAdmin "" ["admin"] = false ∧
    adminAssignmentChanged "" "member" [("", ["admin"])] = false := by decide

/-- C24 (amended): with a role granting admin when its normalised name is not
blank and is `owner` or `admin` or its stored permissions contain `admin`,
`adminAssignmentChanged` is true exactly when the two roles differ in
admin-hood, or both grant admin and their normalised names differ; it is false
whenever the two normalised names are equal, and it is symmetric in the two
roles. -/
theorem C24_admin_assignment_changed (previousRole requestedRole : String)
    (rolePermissionsByRole : List (String × List String)) :
    (∀ role : String,
      roleGrantsAdmin role ((mapGet rolePermissionsByRole (normalizeRoleName role)).getD [])
          = true ↔
        normalizeRoleName role ≠ "" ∧
        (normalizeRoleName role = "owner" ∨ normalizeRoleName role = "admin" ∨
          ∃ q ∈ (mapGet rolePermissionsByRole (normalizeRoleName role)).getD [],
            normalizePermission q = "admin")) ∧
    (adminAssignmentChanged previousRole requestedRole rolePermissionsByRole = true ↔
      (roleGrantsAdmin previousRole
          ((mapGet rolePermissionsByRole (normalizeRoleName previousRole)).getD []) ≠
        roleGrantsAdmin requestedRole
          ((mapGet rolePermissionsByRole (normalizeRoleName requestedRole)).getD [])) ∨
      (roleGrantsAdmin previousRole
          ((mapGet rolePermissionsByRole (normalizeRoleName previousRole)).getD []) = true ∧
        roleGrantsAdmin requestedRole
          ((mapGet rolePermissionsByRole (normalizeRoleName requestedRole)).getD []) = true ∧
        normalizeRoleName previousRole ≠ normalizeRoleName requestedRole)) ∧
    (normalizeRoleName previousRole = normalizeRoleName requestedRole →
      adminAssignmentChanged previousRole requestedRole rolePermissionsByRole = false) ∧
    adminAssignmentChanged previousRole requestedRole rolePermissionsByRole =
      adminAssignmentChanged requestedRole previousRole rolePermissionsByRole := by
  refine ⟨fun role => roleGrantsAdmin_iff _ _, ?_, ?_, ?_⟩
  · unfold adminAssignmentChanged
    simp only [roleGrantsAdmin_normalized]
    by_cases h : normalizeRoleName previousRole = normalizeRoleName requestedRole
    · have hg : roleGrantsAdmin previousRole
            ((mapGet rolePermissionsByRole (normalizeRoleName requestedRole)).getD []) =
          roleGrantsAdmin requestedRole
            ((mapGet rolePermissionsByRole (normalizeRoleName requestedRole)).getD []) := by
        rw [← roleGrantsAdmin_normalized previousRole, h, roleGrantsAdmin_normalized]
      simp [h, hg]
    · rw [if_neg h]
      generalize roleGrantsAdmin previousRole _ = a
      generalize roleGrantsAdmin requestedRole _ = b
      cases a <;> cases b <;> simp [h]
  · intro h
    unfold adminAssignmentChanged
    simp [h]
  · unfold adminAssignmentChanged
    simp only [roleGrantsAdmin_normalized]
    by_cases h : normalizeRoleName previousRole = normalizeRoleName requestedRole
    · simp [h]
    · have h2 : ¬ normalizeRoleName requestedRole = normalizeRoleName previousRole :=
        fun e => h e.symm
      rw [if_neg h, if_neg h2]
      generalize roleGrantsAdmin previousRole _ = a
      generalize roleGrantsAdmin requestedRole _ = b
      cases a <;> cases b <;> simp

/-! ## The metadata tags read back -/

theorem firstTagValue_skip (c : Prop) [Decidable c] (t : List String)
    (l : List (List String)) (n : String) (h : t.head? ≠ some n) :
    firstTagValue ((if c then [t] else []) ++ l) n = firstTagValue l n := by
  split
  · cases t with
    | nil => simp [firstTagValue]
    | cons a r =>
      have ha : ¬ a = n := fun e => h (by simp [e])
      cases r with
      | nil => simp [firstTagValue]
      | cons b r2 => simp [firstTagValue, ha]
  · rfl

theorem firstTagValue_hit (v : String) (l : List (List String)) (n : String) :
    firstTagValue ((if v ≠ "" then [[n, v]] else []) ++ l) n
      = if v ≠ "" then v else firstTagValue l n := by
  split
  · simp [firstTagValue]
  · rfl

theorem tagBoolValue_skip (c : Prop) [Decidable c] (t : List String)
    (l : List (List String)) (n : String) (h : t.head? ≠ some n) :
    tagBoolValue ((if c then [t] else []) ++ l) n = tagBoolValue l n := by
  split
  · cases t with
    | nil => simp [tagBoolValue]
    | cons a r =>
      have ha : a ≠ n := fun e => h (by simp [e])
      simp [tagBoolValue, ha]
  · rfl

theorem tagBoolValue_hit (b : Bool) (l : List (List String)) (n : String) :
    tagBoolValue ((if b = true then [[n]] else []) ++ l) n
      = if b = true then (true, true) else tagBoolValue l n := by
  split
  · simp [tagBoolValue]
  · rfl

theorem filter_skip (c : Prop) [Decidable c] (t : List String)
    (l : List (List String)) (n : String) (h : t.head? ≠ some n) :
    ((if c then [t] else []) ++ l).filter (fun tag => decide (tag.head? = some n))
      = l.filter (fun tag => decide (tag.head? = some n)) := by
  split
  · simp [List.filter_cons, h]
  · rfl

theorem filter_hit (c : Prop) [Decidable c] (t : List String)
    (l : List (List String)) (n : String) (h : t.head? = some n) :
    ((if c then [t] else []) ++ l).filter (fun tag => decide (tag.head? = some n))
      = (if c then [t] else []) ++ l.filter (fun tag => decide (tag.head? = some n)) := by
  split
  · simp [List.filter_cons, h]
  · rfl

theorem length_goBytes_chars (l : List Char) :
    (l.flatMap String.utf8EncodeChar).length = String.utf8ByteSize.go l := by
  induction l with
  | nil => rfl
  | cons c cs ih =>
    simp only [List.flatMap_cons, List.length_append, String.length_utf8EncodeChar,
      String.utf8ByteSize.go, ih]
    omega

theorem length_goBytes (s : String) : (goBytes s).length = goLen s := by
  unfold goBytes goLen String.utf8ByteSize
  exact length_goBytes_chars s.data

theorem takeBytes_initial (l : List Char) : ∀ n : Nat, takeBytes n l <+: l := by
  induction l with
  | nil => intro n; simp [takeBytes]
  | cons c cs ih =>
    intro n
    unfold takeBytes
    split
    · exact (List.prefix_cons_inj c).2 (ih _)
    · exact List.nil_prefix

theorem flatMap_initial {α β : Type} (f : α → List β) (l1 l2 : List α) (h : l1 <+: l2) :
    l1.flatMap f <+: l2.flatMap f := by
  obtain ⟨t, rfl⟩ := h
  rw [List.flatMap_append]
  exact List.prefix_append _ _

/-- The bytes of `truncateGeohashText` are the first bytes of what
`truncateGeohash` keeps, and all of them when the geohash has at most six
bytes or its sixth byte ends a character. -/
theorem truncateGeohashText_bytes (gh : String) :
    goBytes (truncateGeohashText gh) <+: truncateGeohash (goBytes gh) ∧
    (goLen gh ≤ 6 ∨ goLen (truncateGeohashText gh) = 6 →
      goBytes (truncateGeohashText gh) = truncateGeohash (goBytes gh)) := by
  unfold truncateGeohashText truncateGeohash
  rw [length_goBytes]
  by_cases h : goLen gh ≤ 6
  · simp only [h, if_true]
    exact ⟨List.prefix_refl _, fun _ => trivial⟩
  · simp only [h, if_false, false_or]
    have hp : goBytes ⟨takeBytes 6 gh.data⟩ <+: goBytes gh :=
      flatMap_initial _ _ _ (takeBytes_initial gh.data 6)
    have hlen : (goBytes ⟨takeBytes 6 gh.data⟩).length ≤ 6 := by
      rw [length_goBytes]
      exact utf8Size_takeBytes gh.data 6
    have e := List.prefix_iff_eq_take.1 hp
    constructor
    · rw [e]
      exact (List.take_prefix_take_left _ hlen)
    · intro h6
      rw [← length_goBytes] at h6
      rw [e, h6]

theorem truncateGeohashText_idem (gh : String) :
    truncateGeohashText (truncateGeohashText gh) = truncateGeohashText gh := by
  have h := goLen_truncateGeohashText gh
  generalize truncateGeohashText gh = t at h
  unfold truncateGeohashText
  rw [if_pos h]

theorem takeBytes_ascii (l : List Char) (h : ∀ c ∈ l, c.toNat < 128) :
    ∀ n : Nat, takeBytes n l = l.take n := by
  induction l with
  | nil => intro n; simp [takeBytes]
  | cons c cs ih =>
    intro n
    have hc : c.utf8Size = 1 := by
      have h1 := h c (List.mem_cons_self _ _)
      have h2 : c.val ≤ 127 := by
        have h3 : c.val.toNat < 128 := h1
        show c.val.toNat ≤ 127
        omega
      simp [Char.utf8Size, h2]
    unfold takeBytes
    rw [hc]
    cases n with
    | zero => simp
    | succ m =>
      simp only [Nat.le_add_left, if_true, List.take_succ_cons, Nat.add_sub_cancel]
      rw [ih (fun x hx => h x (List.mem_cons_of_mem _ hx))]

/-- The tag list of `groupMetadataStateTags` as a chain of optional tags. -/
theorem groupMetadataStateTags_chain (g : Group) :
    groupMetadataStateTags g =
      (if True then [["d", g.GroupID]] else []) ++
      ((if g.Name ≠ "" then [["name", g.Name]] else []) ++
      ((if g.Picture ≠ "" then [["picture", g.Picture]] else []) ++
      ((if g.About ≠ "" then [["about", g.About]] else []) ++
      ((if g.Geohash ≠ "" then [["g", truncateGeohashText g.Geohash]] else []) ++
      ((if g.IsPrivate = true then [["private"]] else []) ++
      ((if g.IsRestricted = true then [["restricted"]] else []) ++
      ((if g.IsVetted = true then [["vetted"]] else []) ++
      ((if g.IsHidden = true then [["hidden"]] else []) ++
      ((if g.IsClosed = true then [["closed"]] else []) ++ []))))))))) := by
  simp only [groupMetadataStateTags, List.append_assoc, List.append_nil, if_true]

/-- C30 (counterexample): the geohash of four letters `é` has four characters,
so cut to six characters it is itself; it has eight bytes, `truncateGeohash`
keeps six of them, and the `g` tag read back holds three letters. On the
geohash `abcdeé`, of six characters and seven bytes, `truncateGeohash` keeps
the five letters and the first byte of the sixth character. -/
theorem C30_counterexample :
    ("éééé" : String).length = 4 ∧
    (⟨("éééé" : String).data.take 6⟩ : String) = "éééé" ∧
    firstTagValue (groupMetadataStateTags
      ⟨"group-1", "", "", "", "éééé", false, false, false, false, false, 0, "", 0, ""⟩) "g"
      = "ééé" ∧
    truncateGeohash (goBytes "éééé") = goBytes "ééé" ∧
    ("abcdeé" : String).length = 6 ∧
    goBytes "abcdeé" = [0x61, 0x62, 0x63, 0x64, 0x65, 0xc3, 0xa9] ∧
    truncateGeohash (goBytes "abcdeé") = [0x61, 0x62, 0x63, 0x64, 0x65, 0xc3] := by
  decide

/-- C30 (amended): `groupMetadataStateTags g` begins with the tag `d` of the
group id; its tag named name, picture, about or g is the two-element tag of
the field (for g of the truncated geohash), present exactly when the field is
not empty; its tag named private, restricted, vetted, hidden or closed is a
one-element tag, present exactly when the flag is true. Read back as the kind
9007 handler reads tags, `firstTagValue` yields the name, the about text, the
picture and the geohash cut to six bytes: its bytes are the first bytes of
what `truncateGeohash` keeps, and all of them when the geohash has at most six
bytes or its sixth byte ends a character; they are its first six characters
when it is ASCII. `tagBoolValue` yields each flag, so the group the handler
builds from these tags has the fields of `g`. -/
theorem C30_metadata_tags_round_trip (g : Group) :
    (groupMetadataStateTags g).head? = some ["d", g.GroupID] ∧
    ((groupMetadataStateTags g).filter (fun tag => decide (tag.head? = some "name"))
        = if g.Name ≠ "" then [["name", g.Name]] else []) ∧
    ((groupMetadataStateTags g).filter (fun tag => decide (tag.head? = some "picture"))
        = if g.Picture ≠ "" then [["picture", g.Picture]] else []) ∧
    ((groupMetadataStateTags g).filter (fun tag => decide (tag.head? = some "about"))
        = if g.About ≠ "" then [["about", g.About]] else []) ∧
    ((groupMetadataStateTags g).filter (fun tag => decide (tag.head? = some "g"))
        = if g.Geohash ≠ "" then [["g", truncateGeohashText g.Geohash]] else []) ∧
    ((groupMetadataStateTags g).filter (fun tag => decide (tag.head? = some "private"))
        = if g.IsPrivate = true then [["private"]] else []) ∧
    ((groupMetadataStateTags g).filter (fun tag => decide (tag.head? = some "restricted"))
        = if g.IsRestricted = true then [["restricted"]] else []) ∧
    ((groupMetadataStateTags g).filter (fun tag => decide (tag.head? = some "vetted"))
        = if g.IsVetted = true then [["vetted"]] else []) ∧
    ((groupMetadataStateTags g).filter (fun tag => decide (tag.head? = some "hidden"))
        = if g.IsHidden = true then [["hidden"]] else []) ∧
    ((groupMetadataStateTags g).filter (fun tag => decide (tag.head? = some "closed"))
        = if g.IsClosed = true then [["closed"]] else []) ∧
    firstTagValue (groupMetadataStateTags g) "name" = g.Name ∧
    firstTagValue (groupMetadataStateTags g) "about" = g.About ∧
    firstTagValue (groupMetadataStateTags g) "picture" = g.Picture ∧
    firstTagValue (groupMetadataStateTags g) "g" = truncateGeohashText g.Geohash ∧
    goLen (truncateGeohashText g.Geohash) ≤ 6 ∧
    goBytes (firstTagValue (groupMetadataStateTags g) "g")
      <+: truncateGeohash (goBytes g.Geohash) ∧
    (goLen g.Geohash ≤ 6 ∨ goLen (truncateGeohashText g.Geohash) = 6 →
      goBytes (firstTagValue (groupMetadataStateTags g) "g")
        = truncateGeohash (goBytes g.Geohash)) ∧
    ((∀ c ∈ g.Geohash.data, c.toNat < 128) →
      truncateGeohashText g.Geohash = ⟨g.Geohash.data.take 6⟩) ∧
    tagBoolValue (groupMetadataStateTags g) "private" = (g.IsPrivate, g.IsPrivate) ∧
    tagBoolValue (groupMetadataStateTags g) "restricted" = (g.IsRestricted, g.IsRestricted) ∧
    tagBoolValue (groupMetadataStateTags g) "vetted" = (g.IsVetted, g.IsVetted) ∧
    tagBoolValue (groupMetadataStateTags g) "hidden" = (g.IsHidden, g.IsHidden) ∧
    tagBoolValue (groupMetadataStateTags g) "closed" = (g.IsClosed, g.IsClosed) ∧
    (∀ (event : Event) (groupID : String), event.Tags = groupMetadataStateTags g →
      createdGroup event groupID =
        { g with GroupID := groupID, Geohash := truncateGeohashText g.Geohash,
                 CreatedAt := event.CreatedAt, CreatedBy := event.PubKey,
                 UpdatedAt := event.CreatedAt, UpdatedBy := event.PubKey }) := by
  have hname : firstTagValue (groupMetadataStateTags g) "name" = g.Name := by
    rw [groupMetadataStateTags_chain, firstTagValue_skip _ _ _ _ (by simp), firstTagValue_hit]
    iterate 8 rw [firstTagValue_skip _ _ _ _ (by simp)]
    by_cases h : g.Name = "" <;> simp [h, firstTagValue]
  have hpicture : firstTagValue (groupMetadataStateTags g) "picture" = g.Picture := by
    rw [groupMetadataStateTags_chain]
    iterate 2 rw [firstTagValue_skip _ _ _ _ (by simp)]
    rw [firstTagValue_hit]
    iterate 7 rw [firstTagValue_skip _ _ _ _ (by simp)]
    by_cases h : g.Picture = "" <;> simp [h, firstTagValue]
  have habout : firstTagValue (groupMetadataStateTags g) "about" = g.About := by
    rw [groupMetadataStateTags_chain]
    iterate 3 rw [firstTagValue_skip _ _ _ _ (by simp)]
    rw [firstTagValue_hit]
    iterate 6 rw [firstTagValue_skip _ _ _ _ (by simp)]
    by_cases h : g.About = "" <;> simp [h, firstTagValue]
  have hg : firstTagValue (groupMetadataStateTags g) "g" = truncateGeohashText g.Geohash := by
    rw [groupMetadataStateTags_chain]
    iterate 4 rw [firstTagValue_skip _ _ _ _ (by simp)]
    by_cases h : g.Geohash = ""
    · rw [if_neg (not_not.2 h), List.nil_append]
      iterate 5 rw [firstTagValue_skip _ _ _ _ (by simp)]
      rw [h]
      decide
    · rw [if_pos h]
      simp [firstTagValue]
  have hb1 : tagBoolValue (groupMetadataStateTags g) "private" = (g.IsPrivate, g.IsPrivate) := by
    rw [groupMetadataStateTags_chain]
    iterate 5 rw [tagBoolValue_skip _ _ _ _ (by simp)]
    rw [tagBoolValue_hit]
    iterate 4 rw [tagBoolValue_skip _ _ _ _ (by simp)]
    cases g.IsPrivate <;> simp [tagBoolValue]
  have hb2 : tagBoolValue (groupMetadataStateTags g) "restricted"
      = (g.IsRestricted, g.IsRestricted) := by
    rw [groupMetadataStateTags_chain]
    iterate 6 rw [tagBoolValue_skip _ _ _ _ (by simp)]
    rw [tagBoolValue_hit]
    iterate 3 rw [tagBoolValue_skip _ _ _ _ (by simp)]
    cases g.IsRestricted <;> simp [tagBoolValue]
  have hb3 : tagBoolValue (groupMetadataStateTags g) "vetted" = (g.IsVetted, g.IsVetted) := by
    rw [groupMetadataStateTags_chain]
    iterate 7 rw [tagBoolValue_skip _ _ _ _ (by simp)]
    rw [tagBoolValue_hit]
    iterate 2 rw [tagBoolValue_skip _ _ _ _ (by simp)]
    cases g.IsVetted <;> simp [tagBoolValue]
  have hb4 : tagBoolValue (groupMetadataStateTags g) "hidden" = (g.IsHidden, g.IsHidden) := by
    rw [groupMetadataStateTags_chain]
    iterate 8 rw [tagBoolValue_skip _ _ _ _ (by simp)]
    rw [tagBoolValue_hit]
    iterate 1 rw [tagBoolValue_skip _ _ _ _ (by simp)]
    cases g.IsHidden <;> simp [tagBoolValue]
  have hb5 : tagBoolValue (groupMetadataStateTags g) "closed" = (g.IsClosed, g.IsClosed) := by
    rw [groupMetadataStateTags_chain]
    iterate 9 rw [tagBoolValue_skip _ _ _ _ (by simp)]
    rw [tagBoolValue_hit]
    cases g.IsClosed <;> simp [tagBoolValue]
  refine ⟨by simp [groupMetadataStateTags], ?_, ?_, ?_, ?_, ?_, ?_, ?_, ?_, ?_, hname, habout,
    hpicture, hg, goLen_truncateGeohashText _,
    by rw [hg]; exact (truncateGeohashText_bytes _).1,
    by rw [hg]; exact (truncateGeohashText_bytes _).2, ?_, hb1, hb2, hb3, hb4, hb5, ?_⟩
  · rw [groupMetadataStateTags_chain, filter_skip _ _ _ _ (by simp),
      filter_hit _ _ _ _ (by simp)]
    iterate 8 rw [filter_skip _ _ _ _ (by simp)]
    simp
  · rw [groupMetadataStateTags_chain]
    iterate 2 rw [filter_skip _ _ _ _ (by simp)]
    rw [filter_hit _ _ _ _ (by simp)]
    iterate 7 rw [filter_skip _ _ _ _ (by simp)]
    simp
  · rw [groupMetadataStateTags_chain]
    iterate 3 rw [filter_skip _ _ _ _ (by simp)]
    rw [filter_hit _ _ _ _ (by simp)]
    iterate 6 rw [filter_skip _ _ _ _ (by simp)]
    simp
  · rw [groupMetadataStateTags_chain]
    iterate 4 rw [filter_skip _ _ _ _ (by simp)]
    rw [filter_hit _ _ _ _ (by simp)]
    iterate 5 rw [filter_skip _ _ _ _ (by simp)]
    simp
  · rw [groupMetadataStateTags_chain]
    iterate 5 rw [filter_skip _ _ _ _ (by simp)]
    rw [filter_hit _ _ _ _ (by simp)]
    iterate 4 rw [filter_skip _ _ _ _ (by simp)]
    simp
  · rw [groupMetadataStateTags_chain]
    iterate 6 rw [filter_skip _ _ _ _ (by simp)]
    rw [filter_hit _ _ _ _ (by simp)]
    iterate 3 rw [filter_skip _ _ _ _ (by simp)]
    simp
  · rw [groupMetadataStateTags_chain]
    iterate 7 rw [filter_skip _ _ _ _ (by simp)]
    rw [filter_hit _ _ _ _ (by simp)]
    iterate 2 rw [filter_skip _ _ _ _ (by simp)]
    simp
  · rw [groupMetadataStateTags_chain]
    iterate 8 rw [filter_skip _ _ _ _ (by simp)]
    rw [filter_hit _ _ _ _ (by simp)]
    iterate 1 rw [filter_skip _ _ _ _ (by simp)]
    simp
  · rw [groupMetadataStateTags_chain]
    iterate 9 rw [filter_skip _ _ _ _ (by simp)]
    rw [filter_hit _ _ _ _ (by simp)]
    simp
  · intro hascii
    unfold truncateGeohashText
    split
    · rename_i hlen
      have hl : g.Geohash.data.length ≤ 6 := le_trans (length_le_goLen _) hlen
      rw [List.take_of_length_le hl]
    · rw [takeBytes_ascii _ hascii]
  · intro event groupID htags
    unfold createdGroup
    rw [htags, hname, habout, hpicture, hg, hb1, hb2, hb3, hb4, hb5, truncateGeohashText_idem]

/-! ## The admins snapshot -/

theorem groupAdminsStateTags_eq (groupID : String) (group : Group)
    (members : List GroupMember) (rolePermissionsByRole : List (String × List String)) :
    groupAdminsStateTags groupID group members rolePermissionsByRole =
      ["d", groupID] ::
        (orderBy (fun a b => !ltChars b.data a.data)
          ((adminRolesWithCreator group members rolePermissionsByRole).map (fun kv => kv.1))).map
          (fun pubKey => ["p", pubKey, defaultString
            ((mapGet (adminRolesWithCreator group members rolePermissionsByRole) pubKey).getD "")
            "owner"]) := rfl

theorem mem_keys_mapPut {ν : Type} (m : List (String × ν)) (key : String) (v : ν) (x : String) :
    x ∈ (mapPut m key v).map (fun kv => kv.1) ↔ x = key ∨ x ∈ m.map (fun kv => kv.1) := by
  induction m with
  | nil => simp [mapPut]
  | cons kv rest ih =>
    obtain ⟨k, v0⟩ := kv
    by_cases h : k = key
    · subst h
      simp [mapPut]
    · simp only [mapPut, if_neg h, List.map_cons, List.mem_cons, ih]
      tauto

theorem nodup_keys_mapPut {ν : Type} (m : List (String × ν)) (key : String) (v : ν)
    (hm : (m.map (fun kv => kv.1)).Nodup) : ((mapPut m key v).map (fun kv => kv.1)).Nodup := by
  induction m with
  | nil => simp [mapPut]
  | cons kv rest ih =>
    obtain ⟨k, v0⟩ := kv
    rcases List.nodup_cons.1 hm with ⟨hk, hrest⟩
    by_cases h : k = key
    · subst h
      simpa [mapPut] using hm
    · simp only [mapPut, if_neg h, List.map_cons]
      refine List.nodup_cons.2 ⟨?_, ih hrest⟩
      intro hmem
      rcases (mem_keys_mapPut rest key v k).1 hmem with h2 | h2
      · exact h h2
      · exact hk h2

theorem mem_keys_iff_mapGet {ν : Type} (m : List (String × ν)) (key : String) :
    key ∈ m.map (fun kv => kv.1) ↔ ∃ v, mapGet m key = some v := by
  induction m with
  | nil => simp [mapGet]
  | cons kv rest ih =>
    obtain ⟨k, v0⟩ := kv
    by_cases h : k = key
    · subst h
      simp [mapGet]
    · have h2 : ¬ key = k := fun e => h e.symm
      simp [mapGet, h, h2, ih]

/-- The loop of `emitAdminsStateEvent` from any map: the keys stay distinct,
every entry is an old one or comes from an admin member, and every old key
and every key of an admin member has an entry. -/
theorem adminRoles_foldl (rp : List (String × List String)) (members : List GroupMember) :
    ∀ acc : List (String × String),
      ((acc.map (fun kv => kv.1)).Nodup →
        ((members.foldl (fun m member =>
          if memberIsAdmin rp member then mapPut m member.PubKey (memberRoleName member) else m)
          acc).map (fun kv => kv.1)).Nodup) ∧
      (∀ k r, mapGet (members.foldl (fun m member =>
          if memberIsAdmin rp member then mapPut m member.PubKey (memberRoleName member) else m)
          acc) k = some r →
        mapGet acc k = some r ∨
        ∃ member ∈ members, member.PubKey = k ∧ memberIsAdmin rp member = true ∧
          r = memberRoleName member) ∧
      (∀ k, ((∃ r, mapGet acc k = some r) ∨
          ∃ member ∈ members, member.PubKey = k ∧ memberIsAdmin rp member = true) →
        ∃ r, mapGet (members.foldl (fun m member =>
          if memberIsAdmin rp member then mapPut m member.PubKey (memberRoleName member) else m)
          acc) k = some r) := by
  induction members with
  | nil =>
    intro acc
    refine ⟨fun h => h, fun k r h => Or.inl h, ?_⟩
    rintro k (h | ⟨member, hm, _⟩)
    · exact h
    · cases hm
  | cons member rest ih =>
    intro acc
    simp only [List.foldl_cons]
    obtain ⟨ih1, ih2, ih3⟩ := ih
      (if memberIsAdmin rp member then mapPut acc member.PubKey (memberRoleName member) else acc)
    refine ⟨fun h => ih1 ?_, ?_, ?_⟩
    · split
      · exact nodup_keys_mapPut _ _ _ h
      · exact h
    · intro k r h
      rcases ih2 k r h with h2 | ⟨mb, hmb, h3⟩
      · by_cases ha : memberIsAdmin rp member = true
        · rw [if_pos ha] at h2
          by_cases hk : member.PubKey = k
          · rw [← hk, mapGet_mapPut_self] at h2
            refine Or.inr ⟨member, List.mem_cons_self _ _, hk, ha, ?_⟩
            injection h2 with h2
            exact h2.symm
          · rw [mapGet_mapPut_other _ _ _ _ hk] at h2
            exact Or.inl h2
        · rw [if_neg ha] at h2
          exact Or.inl h2
      · exact Or.inr ⟨mb, List.mem_cons_of_mem _ hmb, h3⟩
    · intro k h
      apply ih3 k
      rcases h with ⟨r, h⟩ | ⟨mb, hmb, hk, ha⟩
      · left
        by_cases ha : memberIsAdmin rp member = true
        · rw [if_pos ha]
          by_cases hk : member.PubKey = k
          · rw [← hk, mapGet_mapPut_self]
            exact ⟨_, rfl⟩
          · rw [mapGet_mapPut_other _ _ _ _ hk]
            exact ⟨r, h⟩
        · rw [if_neg ha]
          exact ⟨r, h⟩
      · rcases List.mem_cons.1 hmb with he | hr
        · subst he
          left
          rw [if_pos ha, hk, mapGet_mapPut_self]
          exact ⟨_, rfl⟩
        · exact Or.inr ⟨mb, hr, hk, ha⟩

theorem adminRolesOfMembers_spec (rp : List (String × List String))
    (members : List GroupMember) :
    ((adminRolesOfMembers members rp).map (fun kv => kv.1)).Nodup ∧
    (∀ k r, mapGet (adminRolesOfMembers members rp) k = some r →
      ∃ member ∈ members, member.PubKey = k ∧ memberIsAdmin rp member = true ∧
        r = memberRoleName member) ∧
    (∀ k, (∃ member ∈ members, member.PubKey = k ∧ memberIsAdmin rp member = true) →
      ∃ r, mapGet (adminRolesOfMembers members rp) k = some r) := by
  obtain ⟨h1, h2, h3⟩ := adminRoles_foldl rp members []
  refine ⟨h1 List.nodup_nil, ?_, fun k h => h3 k (Or.inr h)⟩
  intro k r h
  rcases h2 k r h with h | h
  · cases h
  · exact h

theorem defaultString_memberRoleName (member : GroupMember) :
    defaultString (memberRoleName member) "owner" = memberRoleName member := by
  unfold memberRoleName defaultString
  by_cases h : TrimSpace member.RoleName = ""
  · rw [if_pos h]
    decide
  · rw [if_neg h, if_neg h]

/-- The map of `emitAdminsStateEvent` with the creator: distinct keys, every
entry an admin member with its role name or the creator as `owner`, and an
entry for every admin member and for the creator. -/
theorem adminRolesWithCreator_spec (group : Group) (rp : List (String × List String))
    (members : List GroupMember) :
    ((adminRolesWithCreator group members rp).map (fun kv => kv.1)).Nodup ∧
    (∀ k r, mapGet (adminRolesWithCreator group members rp) k = some r →
      (∃ member ∈ members, member.PubKey = k ∧ memberIsAdmin rp member = true ∧
        r = memberRoleName member) ∨
      (group.CreatedBy ≠ "" ∧ k = group.CreatedBy ∧
        (∀ member ∈ members, member.PubKey = k → memberIsAdmin rp member = false) ∧
        r = "owner")) ∧
    (∀ k, ((∃ member ∈ members, member.PubKey = k ∧ memberIsAdmin rp member = true) ∨
        (group.CreatedBy ≠ "" ∧ k = group.CreatedBy)) →
      ∃ r, mapGet (adminRolesWithCreator group members rp) k = some r) := by
  obtain ⟨h1, h2, h3⟩ := adminRolesOfMembers_spec rp members
  unfold adminRolesWithCreator
  by_cases hc : group.CreatedBy = ""
  · rw [if_neg (not_not.2 hc)]
    refine ⟨h1, fun k r h => Or.inl (h2 k r h), ?_⟩
    rintro k (h | ⟨h, _⟩)
    · exact h3 k h
    · exact absurd hc h
  · rw [if_pos hc]
    cases hg : mapGet (adminRolesOfMembers members rp) group.CreatedBy with
    | some r0 =>
      simp only []
      refine ⟨h1, fun k r h => Or.inl (h2 k r h), ?_⟩
      rintro k (h | ⟨_, h⟩)
      · exact h3 k h
      · rw [h]
        exact ⟨r0, hg⟩
    | none =>
      simp only []
      refine ⟨nodup_keys_mapPut _ _ _ h1, ?_, ?_⟩
      · intro k r h
        by_cases hk : group.CreatedBy = k
        · rw [← hk, mapGet_mapPut_self] at h
          injection h with h
          refine Or.inr ⟨hc, hk.symm, ?_, h.symm⟩
          intro mb hmb hpk
          cases ha : memberIsAdmin rp mb with
          | false => rfl
          | true =>
            obtain ⟨r1, hr1⟩ := h3 k ⟨mb, hmb, hpk, ha⟩
            rw [← hk, hg] at hr1
            cases hr1
        · rw [mapGet_mapPut_other _ _ _ _ hk] at h
          exact Or.inl (h2 k r h)
      · rintro k (h | ⟨_, h⟩)
        · by_cases hk : group.CreatedBy = k
          · rw [← hk, mapGet_mapPut_self]
            exact ⟨_, rfl⟩
          · rw [mapGet_mapPut_other _ _ _ _ hk]
            exact h3 k h
        · rw [h, mapGet_mapPut_self]
          exact ⟨_, rfl⟩

theorem pairwise_lt_orderBy_keys (keys : List String) (hn : keys.Nodup) :
    (orderBy (fun a b => !ltChars b.data a.data) keys).Pairwise (fun a b => a < b) := by
  have hle : ∀ a b : String, (!ltChars b.data a.data) = true ↔ a ≤ b := by
    intro a b
    rw [Bool.not_eq_true', ← Bool.not_eq_true, ltChars_data_iff]
    exact not_lt
  have hs := pairwise_orderBy (fun a b : String => !ltChars b.data a.data)
    (fun a b => by
      simp only [hle]
      exact le_total a b)
    (fun a b c h1 h2 => by
      simp only [hle] at h1 h2 ⊢
      exact le_trans h1 h2) keys
  have hnd : (orderBy (fun a b : String => !ltChars b.data a.data) keys).Nodup :=
    (perm_orderBy _ keys).nodup_iff.2 hn
  refine (hs.and hnd).imp ?_
  rintro a b ⟨h1, h2⟩
  exact lt_of_le_of_ne ((hle a b).1 h1) h2

/-- C26: the tag list `emitAdminsStateEvent` builds for kind 39001 is the tag
`d` of the group id followed by three-element tags `p`, pubkey, role, one per
entry; the pubkeys are strictly ascending; a pubkey is listed exactly when it
is the key of a member whose role grants admin or is the non-empty
`created_by` of the group; a listed member carries the role name of such a
member row (the row's own when the member keys are distinct, as in the
table), and the creator carries `owner` when no member row of the creator
grants admin. -/
theorem C26_admins_state_tags (groupID : String) (group : Group) (members : List GroupMember)
    (rolePermissionsByRole : List (String × List String)) :
    ∃ entries : List (String × String),
      groupAdminsStateTags groupID group members rolePermissionsByRole =
        ["d", groupID] :: entries.map (fun e => ["p", e.1, e.2]) ∧
      (entries.map (fun e => e.1)).Pairwise (fun a b => a < b) ∧
      (∀ k, k ∈ entries.map (fun e => e.1) ↔
        ((∃ member ∈ members, member.PubKey = k ∧
            memberIsAdmin rolePermissionsByRole member = true) ∨
          (group.CreatedBy ≠ "" ∧ k = group.CreatedBy))) ∧
      (∀ e ∈ entries,
        (∃ member ∈ members, member.PubKey = e.1 ∧
            memberIsAdmin rolePermissionsByRole member = true ∧
            e.2 = defaultString member.RoleName "member") ∨
        (group.CreatedBy ≠ "" ∧ e.1 = group.CreatedBy ∧
          (∀ member ∈ members, member.PubKey = e.1 →
            memberIsAdmin rolePermissionsByRole member = false) ∧
          e.2 = "owner")) ∧
      ((members.map (fun member => member.PubKey)).Nodup →
        ∀ member ∈ members, memberIsAdmin rolePermissionsByRole member = true →
          (member.PubKey, defaultString member.RoleName "member") ∈ entries) := by
  obtain ⟨h1, h2, h3⟩ := adminRolesWithCreator_spec group rolePermissionsByRole members
  have hmem : ∀ k, k ∈ orderBy (fun a b => !ltChars b.data a.data)
      ((adminRolesWithCreator group members rolePermissionsByRole).map (fun kv => kv.1)) ↔
      ∃ r, mapGet (adminRolesWithCreator group members rolePermissionsByRole) k = some r :=
    fun k => (mem_orderBy _ _ k).trans (mem_keys_iff_mapGet _ k)
  have hentry : ∀ k r, mapGet (adminRolesWithCreator group members rolePermissionsByRole) k
        = some r →
      defaultString ((mapGet (adminRolesWithCreator group members rolePermissionsByRole)
        k).getD "") "owner" = r := by
    intro k r h
    rw [h]
    rcases h2 k r h with ⟨mb, _, _, _, hr⟩ | ⟨_, _, _, hr⟩
    · rw [hr]
      exact defaultString_memberRoleName mb
    · rw [hr]
      decide
  have hkeys : ((orderBy (fun a b => !ltChars b.data a.data)
      ((adminRolesWithCreator group members rolePermissionsByRole).map (fun kv => kv.1))).map
        (fun pubKey => (pubKey, defaultString
          ((mapGet (adminRolesWithCreator group members rolePermissionsByRole) pubKey).getD "")
          "owner"))).map (fun e => e.1)
      = orderBy (fun a b => !ltChars b.data a.data)
        ((adminRolesWithCreator group members rolePermissionsByRole).map (fun kv => kv.1)) := by
    rw [List.map_map]
    exact List.map_id _
  have hent : ∀ e ∈ (orderBy (fun a b => !ltChars b.data a.data)
      ((adminRolesWithCreator group members rolePermissionsByRole).map (fun kv => kv.1))).map
        (fun pubKey => (pubKey, defaultString
          ((mapGet (adminRolesWithCreator group members rolePermissionsByRole) pubKey).getD "")
          "owner")),
      mapGet (adminRolesWithCreator group members rolePermissionsByRole) e.1 = some e.2 := by
    intro e he
    rcases List.mem_map.1 he with ⟨k, hk, hke⟩
    obtain ⟨r, hr⟩ := (hmem k).1 hk
    rw [← hke]
    simp only []
    rw [hentry k r hr]
    exact hr
  refine ⟨(orderBy (fun a b => !ltChars b.data a.data)
      ((adminRolesWithCreator group members rolePermissionsByRole).map (fun kv => kv.1))).map
        (fun pubKey => (pubKey, defaultString
          ((mapGet (adminRolesWithCreator group members rolePermissionsByRole) pubKey).getD "")
          "owner")), ?_, ?_, ?_, ?_, ?_⟩
  · rw [groupAdminsStateTags_eq, List.map_map]
    rfl
  · rw [hkeys]
    exact pairwise_lt_orderBy_keys _ h1
  · intro k
    rw [hkeys, hmem]
    constructor
    · rintro ⟨r, hr⟩
      rcases h2 k r hr with ⟨mb, hmb, hk, ha, _⟩ | ⟨hc, hk, _, _⟩
      · exact Or.inl ⟨mb, hmb, hk, ha⟩
      · exact Or.inr ⟨hc, hk⟩
    · exact h3 k
  · intro e he
    exact h2 e.1 e.2 (hent e he)
  · intro hnd member hm ha
    obtain ⟨r, hr⟩ := h3 member.PubKey (Or.inl ⟨member, hm, rfl, ha⟩)
    have hr2 : r = defaultString member.RoleName "member" := by
      rcases h2 _ r hr with ⟨mb, hmb, hk, _, hrole⟩ | ⟨_, _, hno, _⟩
      · have : mb = member := by
          exact List.inj_on_of_nodup_map hnd hmb hm hk
        rw [hrole, this]
        rfl
      · rw [hno member hm rfl] at ha
        cases ha
    refine List.mem_map.2 ⟨member.PubKey, (hmem _).2 ⟨r, hr⟩, ?_⟩
    rw [hentry _ r hr, hr2]

/-! ## Proof of work -/

theorem isHexChar_iff (c : Char) : isHexChar c = true ↔ ∃ v, hexVal c = some v ∧ v < 16 := by
  unfold isHexChar hexVal
  simp only [Bool.or_eq_true, Bool.and_eq_true, decide_eq_true_eq]
  constructor
  · rintro ((h | h) | h)
    · exact ⟨c.toNat - 48, by rw [if_pos h], by omega⟩
    · have n1 : ¬ (48 ≤ c.toNat ∧ c.toNat ≤ 57) := by omega
      exact ⟨c.toNat - 87, by rw [if_neg n1, if_pos h], by omega⟩
    · have n1 : ¬ (48 ≤ c.toNat ∧ c.toNat ≤ 57) := by omega
      have n2 : ¬ (97 ≤ c.toNat ∧ c.toNat ≤ 102) := by omega
      exact ⟨c.toNat - 55, by rw [if_neg n1, if_neg n2, if_pos h], by omega⟩
  · rintro ⟨v, hv, _⟩
    by_cases h1 : 48 ≤ c.toNat ∧ c.toNat ≤ 57
    · exact Or.inl (Or.inl h1)
    · by_cases h2 : 97 ≤ c.toNat ∧ c.toNat ≤ 102
      · exact Or.inl (Or.inr h2)
      · by_cases h3 : 65 ≤ c.toNat ∧ c.toNat ≤ 70
        · exact Or.inr h3
        · rw [if_neg h1, if_neg h2, if_neg h3] at hv
          cases hv

theorem isHexChar_false (c : Char) (h : isHexChar c = false) : hexVal c = none := by
  cases hv : hexVal c with
  | none => rfl
  | some v =>
    have hlt : v < 16 := by
      unfold hexVal at hv
      simp only [] at hv
      split at hv
      · injection hv with hv; omega
      · split at hv
        · injection hv with hv; omega
        · split at hv
          · injection hv with hv; omega
          · cases hv
    rw [(isHexChar_iff c).2 ⟨v, hv, hlt⟩] at h
    cases h

theorem hexVal_zero_iff (c : Char) : hexVal c = some 0 ↔ c = '0' := by
  constructor
  · intro h
    unfold hexVal at h
    simp only [] at h
    split at h
    · rename_i h1
      injection h with h
      have : c.toNat = 48 := by omega
      rw [← Char.ofNat_toNat c, this]
    · split at h
      · injection h with h; omega
      · split at h
        · injection h with h; omega
        · cases h
  · intro h
    subst h
    decide

theorem isHexChar_ascii (c : Char) (h : isHexChar c = true) : c.utf8Size = 1 := by
  unfold isHexChar at h
  simp only [Bool.or_eq_true, Bool.and_eq_true, decide_eq_true_eq] at h
  have h2 : c.val ≤ 127 := by
    show c.val.toNat ≤ 127
    have : c.toNat = c.val.toNat := rfl
    omega
  simp [Char.utf8Size, h2]

theorem utf8ByteSize_hex (l : List Char) (h : ∀ c ∈ l, isHexChar c = true) :
    String.utf8ByteSize.go l = l.length := by
  induction l with
  | nil => rfl
  | cons c cs ih =>
    simp only [String.utf8ByteSize.go, List.length_cons]
    rw [ih (fun x hx => h x (List.mem_cons_of_mem _ hx)),
      isHexChar_ascii c (h c (List.mem_cons_self _ _))]

theorem leadingZeroCount_append_of_any (bits rest : List Bool) (h : bits.any id = true) :
    leadingZeroCount (bits ++ rest) = leadingZeroCount bits := by
  induction bits with
  | nil => cases h
  | cons b bs ih =>
    cases b with
    | true => simp [leadingZeroCount, List.takeWhile]
    | false =>
      have h2 : bs.any id = true := by simpa using h
      have := ih h2
      simp only [leadingZeroCount] at this ⊢
      simp [List.takeWhile, this]

theorem leadingZeroCount_append_of_all (bits rest : List Bool) (h : bits.all (fun b => !b) = true) :
    leadingZeroCount (bits ++ rest) = bits.length + leadingZeroCount rest := by
  induction bits with
  | nil => simp
  | cons b bs ih =>
    cases b with
    | true => simp at h
    | false =>
      have h2 : bs.all (fun b => !b) = true := by simpa using h
      have := ih h2
      simp only [leadingZeroCount] at this ⊢
      simp [List.takeWhile, this]
      omega

theorem leadingZeroCount_le (bits : List Bool) : leadingZeroCount bits ≤ bits.length := by
  unfold leadingZeroCount
  exact (List.takeWhile_sublist _).length_le

theorem leadingZeroCount_eq_length (bits : List Bool) :
    leadingZeroCount bits = bits.length ↔ ∀ b ∈ bits, b = false := by
  induction bits with
  | nil => simp [leadingZeroCount]
  | cons b bs ih =>
    cases b with
    | true => simp [leadingZeroCount, List.takeWhile]
    | false =>
      simp only [leadingZeroCount] at ih
      simp [leadingZeroCount, List.takeWhile, ih]

/-- One byte of two hex digits: a zero byte adds eight zero bits, any other
byte ends the count where the inner loop of `leadingZeroBits` ends it. -/
theorem byte_bits (x y : Fin 16) :
    (16 * x.val + y.val = 0 →
      (nibbleBits x.val ++ nibbleBits y.val).all (fun b => !b) = true) ∧
    (16 * x.val + y.val ≠ 0 →
      (nibbleBits x.val ++ nibbleBits y.val).any id = true ∧
      leadingZeroCount (nibbleBits x.val ++ nibbleBits y.val)
        = leadingZerosFrom (16 * x.val + y.val) 7) := by
  revert x y
  decide

theorem hexStringBits_cons2 (a b : Char) (rest : List Char) :
    hexStringBits (a :: b :: rest) =
      (nibbleBits ((hexVal a).getD 0) ++ nibbleBits ((hexVal b).getD 0)) ++ hexStringBits rest := by
  simp [hexStringBits, List.flatMap_cons]

/-- The two loops of `leadingZeroBits` on an even number of hex digits: the
bytes are read, and the count is the number of leading zero bits. -/
theorem parseHexPairs_hex : ∀ cs : List Char, cs.length % 2 = 0 →
    (∀ c ∈ cs, isHexChar c = true) →
    ∃ bytes, parseHexPairs cs = .ok bytes ∧
      countLeadingZeroBits bytes = leadingZeroCount (hexStringBits cs)
  | [], _, _ => ⟨[], rfl, rfl⟩
  | [_], h, _ => by simp at h
  | a :: b :: rest, hlen, hall => by
    have hrl : rest.length % 2 = 0 := by
      simp only [List.length_cons] at hlen
      omega
    obtain ⟨bytes, hb, hc⟩ := parseHexPairs_hex rest hrl
      (fun c hc => hall c (List.mem_cons_of_mem _ (List.mem_cons_of_mem _ hc)))
    obtain ⟨x, hx, hxl⟩ := (isHexChar_iff a).1 (hall a (List.mem_cons_self _ _))
    obtain ⟨y, hy, hyl⟩ := (isHexChar_iff b).1
      (hall b (List.mem_cons_of_mem _ (List.mem_cons_self _ _)))
    refine ⟨(16 * x + y) :: bytes, by simp [parseHexPairs, hx, hy, hb], ?_⟩
    rw [hexStringBits_cons2, hx, hy]
    simp only [Option.getD_some]
    obtain ⟨h0, h1⟩ := byte_bits ⟨x, hxl⟩ ⟨y, hyl⟩
    simp only [] at h0 h1
    unfold countLeadingZeroBits
    by_cases hz : 16 * x + y = 0
    · rw [if_pos hz, leadingZeroCount_append_of_all _ _ (h0 hz), hc]
      simp [nibbleBits]
    · rw [if_neg hz, leadingZeroCount_append_of_any _ _ (h1 hz).1, (h1 hz).2]

theorem parseHexPairs_odd : ∀ cs : List Char, cs.length % 2 = 1 →
    ∃ e, parseHexPairs cs = .error e
  | [], h => by simp at h
  | [_], _ => ⟨_, rfl⟩
  | a :: b :: rest, hlen => by
    have hrl : rest.length % 2 = 1 := by
      simp only [List.length_cons] at hlen
      omega
    obtain ⟨e, he⟩ := parseHexPairs_odd rest hrl
    unfold parseHexPairs
    rw [he]
    cases hexVal a <;> cases hexVal b <;> exact ⟨_, rfl⟩

theorem parseHexPairs_bad : ∀ cs : List Char, (∃ c ∈ cs, isHexChar c = false) →
    ∃ e, parseHexPairs cs = .error e
  | [], h => by
    obtain ⟨c, hc, _⟩ := h
    cases hc
  | [_], _ => ⟨_, rfl⟩
  | a :: b :: rest, h => by
    unfold parseHexPairs
    obtain ⟨c, hc, hbad⟩ := h
    rcases List.mem_cons.1 hc with he | hc
    · rw [← he, isHexChar_false c hbad]
      exact ⟨_, rfl⟩
    · rcases List.mem_cons.1 hc with he | hc
      · rw [← he, isHexChar_false c hbad]
        cases hexVal a <;> exact ⟨_, rfl⟩
      · obtain ⟨e, he⟩ := parseHexPairs_bad rest ⟨c, hc, hbad⟩
        rw [he]
        cases hexVal a <;> cases hexVal b <;> exact ⟨_, rfl⟩

theorem length_hexStringBits (cs : List Char) : (hexStringBits cs).length = 4 * cs.length := by
  induction cs with
  | nil => rfl
  | cons c cs ih =>
    simp only [hexStringBits, List.flatMap_cons, List.length_append, List.length_cons] at ih ⊢
    rw [ih]
    simp [nibbleBits]
    omega

theorem nibbleBits_zero_iff (v : Nat) (hv : v < 16) :
    (∀ b ∈ nibbleBits v, b = false) ↔ v = 0 := by
  revert hv
  have : ∀ w : Fin 16, (∀ b ∈ nibbleBits w.val, b = false) ↔ w.val = 0 := by decide
  intro hv
  exact this ⟨v, hv⟩

theorem hexStringBits_all_zero (cs : List Char) (hall : ∀ c ∈ cs, isHexChar c = true) :
    (∀ b ∈ hexStringBits cs, b = false) ↔ ∀ c ∈ cs, c = '0' := by
  induction cs with
  | nil => simp [hexStringBits]
  | cons c cs ih =>
    obtain ⟨x, hx, hxl⟩ := (isHexChar_iff c).1 (hall c (List.mem_cons_self _ _))
    have ih2 := ih (fun d hd => hall d (List.mem_cons_of_mem _ hd))
    have hcons : hexStringBits (c :: cs) = nibbleBits x ++ hexStringBits cs := by
      simp [hexStringBits, List.flatMap_cons, hx]
    rw [hcons]
    simp only [List.mem_append, List.mem_cons]
    constructor
    · intro h d hd
      rcases hd with hd | hd
      · have hz := (nibbleBits_zero_iff x hxl).1 (fun b hb => h b (Or.inl hb))
        rw [hd]
        rw [hz] at hx
        exact (hexVal_zero_iff c).1 hx
      · exact ih2.1 (fun b hb => h b (Or.inr hb)) d hd
    · intro h b hb
      rcases hb with hb | hb
      · have hc0 := h c (Or.inl rfl)
        have hz : x = 0 := by
          rw [(hexVal_zero_iff c).2 hc0] at hx
          injection hx with hx
          exact hx.symm
        exact (nibbleBits_zero_iff x hxl).2 hz b hb
      · exact ih2.2 (fun d hd => h d (Or.inr hd)) b hb

/-- What `leadingZeroBits` returns: the number of leading zero bits on a
valid hex string (after trimming), an error on every other string. -/
theorem leadingZeroBits_spec (hexID : String) :
    (isHexString (TrimSpace hexID) = true →
      leadingZeroBits hexID
        = .ok (leadingZeroCount (hexStringBits (TrimSpace hexID).data) : Nat)) ∧
    (isHexString (TrimSpace hexID) = false → ∃ cause, leadingZeroBits hexID = .error cause) := by
  unfold isHexString leadingZeroBits
  simp only [Bool.and_eq_true, beq_iff_eq, List.all_eq_true]
  constructor
  · rintro ⟨hlen, hall⟩
    have hsize : (TrimSpace hexID).utf8ByteSize = (TrimSpace hexID).length :=
      utf8ByteSize_hex _ hall
    obtain ⟨bytes, hb, hc⟩ := parseHexPairs_hex (TrimSpace hexID).data hlen hall
    have h0 : ¬ (TrimSpace hexID).utf8ByteSize % 2 ≠ 0 := by
      rw [hsize]
      exact not_not.2 hlen
    rw [if_neg h0, hb]
    simp only [hc]
  · intro h
    by_cases hsz : (TrimSpace hexID).utf8ByteSize % 2 ≠ 0
    · exact ⟨_, if_pos hsz⟩
    · rw [if_neg hsz]
      have hnone : ∃ e, parseHexPairs (TrimSpace hexID).data = .error e := by
        by_cases hall : ∀ c ∈ (TrimSpace hexID).data, isHexChar c = true
        · have hodd : ¬ (TrimSpace hexID).length % 2 = 0 := by
            intro hl
            have : ((TrimSpace hexID).length % 2 == 0 &&
                (TrimSpace hexID).data.all isHexChar) = true := by
              simp only [hl, beq_self_eq_true, Bool.true_and, List.all_eq_true]
              exact hall
            rw [this] at h
            cases h
          apply parseHexPairs_odd
          have : (TrimSpace hexID).length = (TrimSpace hexID).data.length := rfl
          omega
        · apply parseHexPairs_bad
          push_neg at hall
          obtain ⟨c, hc, hbad⟩ := hall
          exact ⟨c, hc, by simpa using hbad⟩
      obtain ⟨e, he⟩ := hnone
      rw [he]
      exact ⟨_, rfl⟩

theorem declaredNonceTarget_pos (tag : List String) (bits : Int)
    (h : declaredNonceTarget tag = some bits) : 0 < bits := by
  unfold declaredNonceTarget at h
  split at h
  · split at h
    · split at h
      · split at h
        · injection h with h
          omega
        · cases h
      · cases h
    · cases h
  · cases h

/-- The loop of `extractNonceDifficulty` returns the target of the first tag
that declares one, and 0 when no tag does. -/
theorem extractNonceDifficulty_eq (tags : List (List String)) :
    extractNonceDifficulty tags = ((tags.filterMap declaredNonceTarget).head?).getD 0 := by
  induction tags with
  | nil => rfl
  | cons tag rest ih =>
    unfold extractNonceDifficulty
    rw [List.filterMap_cons]
    match tag with
    | [] => simpa [declaredNonceTarget] using ih
    | [_] => simpa [declaredNonceTarget] using ih
    | [_, _] => simpa [declaredNonceTarget] using ih
    | name :: _ :: target :: _ =>
      simp only [declaredNonceTarget]
      by_cases hn : name = "nonce"
      · rw [if_neg (not_not.2 hn), if_pos hn]
        cases ha : Atoi target with
        | none => simpa using ih
        | some bits =>
          simp only []
          by_cases hb : bits > 0
          · simp [hb]
          · simpa [hb] using ih
      · rw [if_pos hn, if_neg hn]
        simpa using ih

/-- C23: for every string that, with its surrounding whitespace removed, has
even length and consists of hex digits only, `leadingZeroBits` returns without
error the number of leading zero bits of the bytes it encodes, read
big-endian; the number is at most four times the length, and equals it exactly
when every digit is 0. For every string that, with its surrounding whitespace
removed, has odd length or holds a character that is not a hex digit, it
returns an error. The four strings of `TestLeadingZeroBits` are evaluated, and
a string whose first pair of bytes ends inside a character. -/
theorem C23_leading_zero_bits (hexID : String) :
    ((TrimSpace hexID).length % 2 = 0 ∧ (∀ c ∈ (TrimSpace hexID).data, isHexChar c = true) →
      leadingZeroBits hexID
        = .ok (leadingZeroCount (hexStringBits (TrimSpace hexID).data) : Nat) ∧
      leadingZeroCount (hexStringBits (TrimSpace hexID).data) ≤ 4 * (TrimSpace hexID).length ∧
      (leadingZeroCount (hexStringBits (TrimSpace hexID).data) = 4 * (TrimSpace hexID).length ↔
        ∀ c ∈ (TrimSpace hexID).data, c = '0')) ∧
    ((TrimSpace hexID).length % 2 = 1 ∨ (∃ c ∈ (TrimSpace hexID).data, isHexChar c = false) →
      ∃ cause, leadingZeroBits hexID = .error cause) ∧
    leadingZeroBits "0000" = .ok 16 ∧ leadingZeroBits "0f" = .ok 4 ∧
    leadingZeroBits "abc" = .error .oddHexLength ∧
    leadingZeroBits "zz" = .error (.parseUintSyntax [0x7a, 0x7a]) ∧
    leadingZeroBits "0é0" = .error (.parseUintSyntax [0x30, 0xc3]) := by
  obtain ⟨hok, herr⟩ := leadingZeroBits_spec hexID
  refine ⟨?_, ?_, by decide, by decide, by decide, by decide, by decide⟩
  · rintro ⟨hlen, hall⟩
    have hhex : isHexString (TrimSpace hexID) = true := by
      unfold isHexString
      simp only [hlen, beq_self_eq_true, Bool.true_and, List.all_eq_true]
      exact hall
    have hl := length_hexStringBits (TrimSpace hexID).data
    have hlen2 : (TrimSpace hexID).data.length = (TrimSpace hexID).length := rfl
    refine ⟨hok hhex, ?_, ?_⟩
    · have := leadingZeroCount_le (hexStringBits (TrimSpace hexID).data)
      omega
    · rw [← hlen2, ← hl, leadingZeroCount_eq_length]
      exact hexStringBits_all_zero _ hall
  · intro h
    apply herr
    unfold isHexString
    rcases h with h | ⟨c, hc, hbad⟩
    · have : ¬ (TrimSpace hexID).length % 2 = 0 := by omega
      simp [this]
    · have : (TrimSpace hexID).data.all isHexChar = false := by
        rw [List.all_eq_false]
        exact ⟨c, hc, by simp [hbad]⟩
      rw [this, Bool.and_false]

/-- C22 (counterexample): the id of one space, two zeros and one space is not
a valid hex string (it has four characters, two of them no hex digits), and
`ValidatePow` accepts the event at 8 required bits, since `leadingZeroBits`
removes the surrounding whitespace before it reads the digits. -/
theorem C22_counterexample :
    isHexString " 00 " = false ∧
    (" 00 " : String).data.all isHexChar = false ∧
    ValidatePow { sampleNote with ID := " 00 ", Tags := [] } 8 = .ok () := by decide

/-- C22 (amended): for a positive `requiredBits`, `ValidatePow` accepts the
event if and only if its id with the surrounding whitespace removed is a
string of hex digits of even length with at least `requiredBits` leading
zero bits and, when some `nonce` tag of three or more elements has a third
element that parses to a positive integer, the target of the first such tag is
at least `requiredBits`. For `requiredBits` zero or negative it accepts every
event, also one whose id is not hex. The calls of `TestValidatePowBranches`
and `TestValidatePowChecksNonceDifficulty` are evaluated. -/
theorem C22_validate_pow (event : Event) (requiredBits : Int) :
    (0 < requiredBits →
      (ValidatePow event requiredBits = .ok () ↔
        (isHexString (TrimSpace event.ID) = true ∧
          requiredBits ≤ (leadingZeroCount (hexStringBits (TrimSpace event.ID).data) : Nat)) ∧
        (∀ bits, (event.Tags.filterMap declaredNonceTarget).head? = some bits →
          requiredBits ≤ bits))) ∧
    (requiredBits ≤ 0 → ValidatePow event requiredBits = .ok ()) ∧
    ValidatePow { sampleNote with ID := "zz" } 0 = .ok () ∧
    ValidatePow { sampleNote with ID := "zz" } 4
      = .error (.invalidPowID (.parseUintSyntax [0x7a, 0x7a])) ∧
    ValidatePow { sampleNote with ID := "0f", Tags := [] } 8 = .error (.insufficientPow 4 8) ∧
    ValidatePow { sampleNote with ID := "0f", Tags := [["nonce", "123", "4"]] } 4 = .ok () ∧
    ValidatePow { sampleNote with ID := "000f", Tags := [["nonce", "123", "4"]] } 8
      = .error .powNonceBelowTarget := by
  refine ⟨?_, ?_, by decide, by decide, by decide, by decide, by decide⟩
  · intro hpos
    obtain ⟨hok, herr⟩ := leadingZeroBits_spec event.ID
    have hnp : ¬ requiredBits ≤ 0 := by omega
    unfold ValidatePow
    rw [if_neg hnp, extractNonceDifficulty_eq]
    cases hh : isHexString (TrimSpace event.ID) with
    | false =>
      obtain ⟨cause, hc⟩ := herr hh
      rw [hc]
      simp
    | true =>
      rw [hok hh]
      simp only [true_and]
      by_cases hlt : ((leadingZeroCount (hexStringBits (TrimSpace event.ID).data) : Nat) : Int)
          < requiredBits
      · rw [if_pos hlt]
        constructor
        · intro h
          cases h
        · rintro ⟨h, _⟩
          omega
      · rw [if_neg hlt]
        cases hd : (event.Tags.filterMap declaredNonceTarget).head? with
        | none =>
          simp only [Option.getD_none]
          constructor
          · intro _
            exact ⟨by omega, fun bits hb => by cases hb⟩
          · intro _
            rw [if_neg (by omega)]
        | some d =>
          have hdpos : 0 < d := by
            rcases List.mem_filterMap.1 (List.mem_of_mem_head? hd) with ⟨tag, _, ht⟩
            exact declaredNonceTarget_pos tag d ht
          simp only [Option.getD_some]
          by_cases hdr : d < requiredBits
          · rw [if_pos ⟨hdpos, hdr⟩]
            constructor
            · intro h
              cases h
            · rintro ⟨_, h⟩
              have := h d rfl
              omega
          · rw [if_neg (fun h => hdr h.2)]
            constructor
            · intro _
              refine ⟨by omega, fun bits hb => ?_⟩
              injection hb with hb
              omega
            · intro _
              rfl
  · intro h
    unfold ValidatePow
    rw [if_pos h]

/-! ## The token bucket -/

/-- The calls of one key, as `Allow` answers them, are the calls on its
bucket. -/
theorem allowCalls_same_key (key : String) (times : List Int) :
    ∀ a : AbuseControls,
      (allowCalls a (times.map (fun t => (key, t)))).1 =
        (bucketCalls a.burst a.sustainedPerMinute (mapGet a.buckets key) times).1 ∧
      (times ≠ [] →
        mapGet (allowCalls a (times.map (fun t => (key, t)))).2.buckets key =
          (bucketCalls a.burst a.sustainedPerMinute (mapGet a.buckets key) times).2) ∧
      (allowCalls a (times.map (fun t => (key, t)))).2.burst = a.burst ∧
      (allowCalls a (times.map (fun t => (key, t)))).2.sustainedPerMinute
        = a.sustainedPerMinute := by
  induction times with
  | nil =>
    intro a
    exact ⟨rfl, fun h => absurd rfl h, rfl, rfl⟩
  | cons t rest ih =>
    intro a
    obtain ⟨h1, h2, h3, h4⟩ := ih (a.Allow key t).2
    obtain ⟨hb, hr⟩ := Allow_burst a key t
    simp only [List.map_cons, allowCalls, bucketCalls]
    rw [hb, hr, Allow_bucket_self] at h1 h2
    rw [hb] at h3
    rw [hr] at h4
    refine ⟨?_, ?_, h3, h4⟩
    · rw [h1, Allow_eq_spendToken]
    · intro _
      cases rest with
      | nil =>
        simp only [List.map_nil, allowCalls, bucketCalls]
        exact Allow_bucket_self a key t
      | cons t2 rest2 => exact h2 (List.cons_ne_nil _ _)

/-- The answers to the calls of one key do not depend on the calls of other
keys in between. -/
theorem answersFor_allowCalls (key : String) (calls : List (String × Int)) :
    ∀ a : AbuseControls,
      answersFor key calls (allowCalls a calls).1 =
        (bucketCalls a.burst a.sustainedPerMinute (mapGet a.buckets key)
          ((calls.filter (fun call => decide (call.1 = key))).map (fun call => call.2))).1 := by
  induction calls with
  | nil => intro a; rfl
  | cons call rest ih =>
    intro a
    obtain ⟨hb, hr⟩ := Allow_burst a call.1 call.2
    have h := ih (a.Allow call.1 call.2).2
    rw [hb, hr] at h
    simp only [allowCalls, answersFor]
    by_cases hk : call.1 = key
    · rw [if_pos hk, List.filter_cons_of_pos (by simpa using hk)]
      simp only [List.map_cons, bucketCalls]
      rw [h, hk, Allow_bucket_self, Allow_eq_spendToken]
    · rw [if_neg hk, List.filter_cons_of_neg (by simpa using hk), h,
        Allow_bucket_other a key call.1 call.2 hk]

theorem timeSub_pos_iff (t u : Int) : 0 < timeSub t u ↔ u < t := by
  unfold timeSub
  simp only []
  split_ifs <;> omega

theorem timeSub_le (t u : Int) (h : u ≤ t) : timeSub t u ≤ t - u := by
  unfold timeSub
  simp only []
  split_ifs <;> omega

/-- Calls at one instant for a key without a bucket, with a burst below
`2^53`: one call is allowed per token of the burst. -/
theorem bucketCalls_instant_fresh (burst rate : Int) (hb : 0 ≤ burst) (hb2 : burst < 2 ^ 53)
    (t : Int) (n : Nat) :
    (bucketCalls burst rate none (List.replicate n t)).1.count true = min n burst.toNat := by
  cases n with
  | zero => simp [bucketCalls]
  | succ n =>
    have hk : float64.ofInt burst = ⟨((burst.toNat * float64.one : Nat) : Int)⟩ := by
      have h1 : ((burst.toNat : Nat) : Int) = burst := Int.toNat_of_nonneg hb
      have h2 : burst.toNat < 2 ^ 53 := by omega
      rw [← ofInt_exact burst.toNat h2, h1]
    have h := bucketCalls_instant burst rate t (n + 1) burst.toNat (by omega)
    simp only [List.replicate_succ, bucketCalls, Option.getD_some, Option.getD_none] at h ⊢
    rw [hk]
    exact h

/-- The first two calls of the failing input and the refill between them. -/
theorem spendToken_rounds_up :
    spendToken 1000000 1 ⟨float64.ofInt 1000000, 0⟩ 0
      = (true, ⟨⟨((999999 * float64.one : Nat) : Int)⟩, 0⟩) ∧
    float64.add ⟨((999999 * float64.one : Nat) : Int)⟩
      (float64.mul (Seconds 59999999999) (float64.div (float64.ofInt 1) (float64.ofInt 60)))
      = ⟨((1000000 * float64.one : Nat) : Int)⟩ ∧
    spendToken 1000000 1 ⟨⟨((999999 * float64.one : Nat) : Int)⟩, 0⟩ 59999999999
      = (true, ⟨⟨((999999 * float64.one : Nat) : Int)⟩, 59999999999⟩) := by
  decide

/-- The first two calls of the failing input, whatever calls follow. -/
theorem bucketCalls_rounds_up (rest : List Int) :
    (bucketCalls 1000000 1 none (0 :: 59999999999 :: rest)).1 =
      true :: true ::
        (bucketCalls 1000000 1
          (some ⟨⟨((999999 * float64.one : Nat) : Int)⟩, 59999999999⟩) rest).1 := by
  simp only [bucketCalls, Option.getD_none, Option.getD_some]
  rw [spendToken_rounds_up.1, spendToken_rounds_up.2.2]

theorem filter_key_eq (key : String) (calls : List (String × Int)) :
    calls.filter (fun call => decide (call.1 = key)) =
      ((calls.filter (fun call => decide (call.1 = key))).map (fun call => call.2)).map
        (fun t => (key, t)) := by
  induction calls with
  | nil => rfl
  | cons call rest ih =>
    by_cases hk : call.1 = key
    · rw [List.filter_cons_of_pos (by simpa using hk)]
      simp only [List.map_cons]
      rw [← ih, ← hk]
    · rw [List.filter_cons_of_neg (by simpa using hk)]
      exact ih

/-- What holds of the calls of one key: with no bucket yet and a burst below
`2^53`, of `n` calls at one instant `min(n, burst)` are allowed, so exactly
burst once there are that many; and the answers to the calls of the key are
the same when calls of other keys come in between. -/
theorem allowCalls_one_key (a : AbuseControls) (key : String) (hb : 0 ≤ a.burst)
    (hb2 : a.burst < 2 ^ 53) :
    (mapGet a.buckets key = none → ∀ (n : Nat) (t : Int),
      (allowCalls a ((List.replicate n t).map (fun t => (key, t)))).1.count true
        = min n a.burst.toNat) ∧
    (∀ calls : List (String × Int),
      answersFor key calls (allowCalls a calls).1 =
        (allowCalls a (calls.filter (fun call => decide (call.1 = key)))).1) := by
  refine ⟨?_, ?_⟩
  · intro hnone n t
    obtain ⟨h1, _, _, _⟩ := allowCalls_same_key key (List.replicate n t) a
    rw [h1, hnone]
    exact bucketCalls_instant_fresh a.burst a.sustainedPerMinute hb hb2 t n
  · intro calls
    rw [answersFor_allowCalls, filter_key_eq key calls]
    obtain ⟨h1, _, _, _⟩ := allowCalls_same_key key
      ((calls.filter (fun call => decide (call.1 = key))).map (fun call => call.2)) a
    rw [h1, ← filter_key_eq key calls]

/-- C28 (the code at the failing input): controls with a burst of 1000000 and
one token per minute; the key `k` calls once at the clock reading 0 and
1000000 times at the reading 59999999999 ns.  After the first call the bucket
holds 999999 tokens; at the second reading the refill adds the double nearest
to 59.999999999 / 60 and the sum 999999.99999999998... rounds to the double
1000000, so every one of the 1000001 calls is allowed, while the bound of the
claim, burst + (tn - t0) * sustainedPerMinute / 60, is below 1000001. -/
theorem C28_allow_exceeds_bound :
    ((allowCalls (NewAbuseControls 1000000 1 0)
      ((0 :: 59999999999 :: List.replicate 999999 59999999999).map
        (fun t => ("k", t)))).1.count true = 1000001) ∧
    (0 :: 59999999999 :: List.replicate 999999 (59999999999 : Int)).length = 1000001 ∧
    (1000000 : ℚ) + ((59999999999 - 0 : Int) : ℚ) / 1000000000 * ((1 : ℚ) / 60) < 1000001 ∧
    float64.sub (float64.ofInt 1000000) (float64.ofInt 1)
      = ⟨((999999 * float64.one : Nat) : Int)⟩ ∧
    float64.add ⟨((999999 * float64.one : Nat) : Int)⟩
      (float64.mul (Seconds 59999999999) (float64.div (float64.ofInt 1) (float64.ofInt 60)))
      = float64.ofInt 1000000 := by
  refine ⟨?_, ?_, ?_, by decide, by decide⟩
  · rw [(allowCalls_same_key "k" _ (NewAbuseControls 1000000 1 0)).1]
    have hb : mapGet (NewAbuseControls 1000000 1 0).buckets "k" = none := rfl
    have h1 : (NewAbuseControls 1000000 1 0).burst = 1000000 := rfl
    have h2 : (NewAbuseControls 1000000 1 0).sustainedPerMinute = 1 := rfl
    rw [hb, h1, h2, bucketCalls_rounds_up, List.count_cons_self, List.count_cons_self,
      bucketCalls_instant 1000000 1 59999999999 999999 999999 (by decide)]
    decide
  · rw [List.length_cons, List.length_cons, List.length_replicate]
  · norm_num

/-! ## Members with a pending join request -/

/-- C29 (the code at the failing input): on the empty store, `alice-pub`
creates the vetted group `group-v`, `carol-pub` asks to join (the request is
recorded), `alice-pub` ends the vetting, and `carol-pub` asks again. All four
calls of `ApplyEvent` succeed, the last by auto-approval, which upserts the
member and leaves the request: `carol-pub` is then a member of `group-v` and
has a row in `group_join_requests`. The same holds after `carol-pub` asks to
join the group `group-v` that does not exist yet and then creates it. -/
theorem C29_member_keeps_pending_request :
    (applyEvents sampleCrypto sampleProjection sampleClock (RelayState.initial 30 120 0)
      [aliceCreatesVetted, carolAsks]).1 = [.ok (), .ok ()] ∧
    IsMember (applyEvents sampleCrypto sampleProjection sampleClock (RelayState.initial 30 120 0)
      [aliceCreatesVetted, carolAsks]).2.groups "group-v" "carol-pub" = false ∧
    hasJoinRequest (applyEvents sampleCrypto sampleProjection sampleClock
      (RelayState.initial 30 120 0)
      [aliceCreatesVetted, carolAsks]).2.groups "group-v" "carol-pub" = true ∧
    (applyEvents sampleCrypto sampleProjection sampleClock (RelayState.initial 30 120 0)
      [aliceCreatesVetted, carolAsks, aliceOpens, carolAsksAgain]).1
        = [.ok (), .ok (), .ok (), .ok ()] ∧
    IsMember (applyEvents sampleCrypto sampleProjection sampleClock (RelayState.initial 30 120 0)
      [aliceCreatesVetted, carolAsks, aliceOpens, carolAsksAgain]).2.groups
        "group-v" "carol-pub" = true ∧
    hasJoinRequest (applyEvents sampleCrypto sampleProjection sampleClock
      (RelayState.initial 30 120 0)
      [aliceCreatesVetted, carolAsks, aliceOpens, carolAsksAgain]).2.groups
        "group-v" "carol-pub" = true ∧
    (applyEvents sampleCrypto sampleProjection sampleClock (RelayState.initial 30 120 0)
      [carolAsks, carolCreates]).1 = [.ok (), .ok ()] ∧
    IsMember (applyEvents sampleCrypto sampleProjection sampleClock (RelayState.initial 30 120 0)
      [carolAsks, carolCreates]).2.groups "group-v" "carol-pub" = true ∧
    hasJoinRequest (applyEvents sampleCrypto sampleProjection sampleClock
      (RelayState.initial 30 120 0)
      [carolAsks, carolCreates]).2.groups "group-v" "carol-pub" = true := by decide

/-! ## Nostr filters -/

/-- A round of the paging loop whose page is not empty and shorter than the
page size is the last one: the loop returns what the scan of the page kept. -/
theorem queryLoop_short_page (db : EventStore) (filter : NostrFilter) (coarse : EventFilter)
    (fuel : Nat) (st : PageState)
    (hroom : (st.filtered.length : Int) < targetLimit filter)
    (hne : EventQueryService.QueryEvents db (pageQuery coarse st) ≠ [])
    (hshort : ((EventQueryService.QueryEvents db (pageQuery coarse st)).length : Int)
      < (pageQuery coarse st).Limit) :
    queryLoop db filter coarse (fuel + 1) st =
      some (scanPage filter (EventQueryService.QueryEvents db (pageQuery coarse st))
        (st.filtered, st.seen)).1 := by
  unfold queryLoop
  rw [if_neg (not_not.2 hroom)]
  simp only []
  cases hl : (EventQueryService.QueryEvents db (pageQuery coarse st)).getLast? with
  | none => exact absurd (List.getLast?_eq_none_iff.1 hl) hne
  | some oldest =>
    simp only []
    rw [if_pos (Or.inr hshort)]

/-- An event the service may return: stored, without tombstone, and matching
the nostr filter. -/
theorem mem_service_QueryEvents (db : EventStore) (query : EventFilter) (e : Event)
    (h : e ∈ EventQueryService.QueryEvents db query) :
    e ∈ db.events ∧ hasTombstone db e = false := by
  unfold EventQueryService.QueryEvents at h
  obtain ⟨h1, h2⟩ := mem_QueryEvents db _ e h
  refine ⟨h1, ?_⟩
  unfold matchesFilter at h2
  simp only [Bool.false_or, Bool.and_eq_true, Bool.not_eq_true'] at h2
  exact h2.1.1.1

/-- The scan of one page keeps what was kept, and adds only events of the
page that match the filter and whose ids were not seen before. -/
theorem scanPage_inv (db : EventStore) (filter : NostrFilter) (page : List Event)
    (hpage : ∀ e ∈ page, e ∈ db.events ∧ hasTombstone db e = false) :
    ∀ acc : List Event × List String,
      (∀ e ∈ acc.1, e ∈ db.events ∧ hasTombstone db e = false ∧
        matchesNostrFilter e filter = true) →
      (∀ e ∈ acc.1, e.ID ∈ acc.2) → (acc.1.map (fun e => e.ID)).Nodup →
      (∀ e ∈ (scanPage filter page acc).1, e ∈ db.events ∧ hasTombstone db e = false ∧
        matchesNostrFilter e filter = true) ∧
      (∀ e ∈ (scanPage filter page acc).1, e.ID ∈ (scanPage filter page acc).2) ∧
      ((scanPage filter page acc).1.map (fun e => e.ID)).Nodup := by
  induction page with
  | nil =>
    intro acc h1 h2 h3
    exact ⟨h1, h2, h3⟩
  | cons event rest ih =>
    intro acc h1 h2 h3
    obtain ⟨filtered, seen⟩ := acc
    have hrest : ∀ e ∈ rest, e ∈ db.events ∧ hasTombstone db e = false :=
      fun e he => hpage e (List.mem_cons_of_mem _ he)
    unfold scanPage
    by_cases hs : event.ID ∈ seen
    · rw [if_pos hs]
      exact ih hrest (filtered, seen) h1 h2 h3
    · rw [if_neg hs]
      by_cases hm : matchesNostrFilter event filter = true
      · rw [if_pos hm]
        have g1 : ∀ e ∈ filtered ++ [event], e ∈ db.events ∧ hasTombstone db e = false ∧
            matchesNostrFilter e filter = true := by
          intro e he
          rcases List.mem_append.1 he with he | he
          · exact h1 e he
          · rw [List.mem_singleton.1 he]
            exact ⟨(hpage event (List.mem_cons_self _ _)).1,
              (hpage event (List.mem_cons_self _ _)).2, hm⟩
        have g2 : ∀ e ∈ filtered ++ [event], e.ID ∈ event.ID :: seen := by
          intro e he
          rcases List.mem_append.1 he with he | he
          · exact List.mem_cons_of_mem _ (h2 e he)
          · rw [List.mem_singleton.1 he]
            exact List.mem_cons_self _ _
        have g3 : ((filtered ++ [event]).map (fun e => e.ID)).Nodup := by
          rw [List.map_append, List.nodup_append]
          refine ⟨h3, by simp, ?_⟩
          intro x hx hy
          simp only [List.map_cons, List.map_nil, List.mem_singleton] at hy
          rcases List.mem_map.1 hx with ⟨e, he, hid⟩
          exact hs (hy ▸ hid ▸ h2 e he)
        split
        · exact ⟨g1, g2, g3⟩
        · exact ih hrest (filtered ++ [event], event.ID :: seen) g1 g2 g3
      · rw [if_neg hm]
        exact ih hrest (filtered, event.ID :: seen) h1
          (fun e he => List.mem_cons_of_mem _ (h2 e he)) h3

/-- What `QueryNostrFilter` returns is sound: a duplicate-free list of stored
events without tombstone that satisfy `matchesNostrFilter`. -/
theorem queryLoop_sound (db : EventStore) (filter : NostrFilter) (coarse : EventFilter) :
    ∀ (fuel : Nat) (st : PageState) (result : List Event),
      (∀ e ∈ st.filtered, e ∈ db.events ∧ hasTombstone db e = false ∧
        matchesNostrFilter e filter = true) →
      (∀ e ∈ st.filtered, e.ID ∈ st.seen) → (st.filtered.map (fun e => e.ID)).Nodup →
      queryLoop db filter coarse fuel st = some result →
      (∀ e ∈ result, e ∈ db.events ∧ hasTombstone db e = false ∧
        matchesNostrFilter e filter = true) ∧
      (result.map (fun e => e.ID)).Nodup := by
  intro fuel
  induction fuel with
  | zero =>
    intro st result _ _ _ h
    cases h
  | succ fuel ih =>
    intro st result h1 h2 h3 h
    unfold queryLoop at h
    by_cases hroom : (st.filtered.length : Int) < targetLimit filter
    · rw [if_neg (not_not.2 hroom)] at h
      simp only [] at h
      obtain ⟨s1, s2, s3⟩ := scanPage_inv db filter
        (EventQueryService.QueryEvents db (pageQuery coarse st))
        (fun e he => mem_service_QueryEvents db _ e he) (st.filtered, st.seen) h1 h2 h3
      cases hl : (EventQueryService.QueryEvents db (pageQuery coarse st)).getLast? with
      | none =>
        rw [hl] at h
        injection h with h
        rw [← h]
        exact ⟨h1, h3⟩
      | some oldest =>
        rw [hl] at h
        simp only [] at h
        split at h
        · injection h with h
          rw [← h]
          exact ⟨s1, s3⟩
        · split at h
          · injection h with h
            rw [← h]
            exact ⟨s1, s3⟩
          · split at h
            · injection h with h
              rw [← h]
              exact ⟨s1, s3⟩
            · exact ih _ result s1 s2 s3 h
    · rw [if_pos hroom] at h
      injection h with h
      rw [← h]
      exact ⟨h1, h3⟩

theorem QueryNostrFilter_sound (fuel : Nat) (db : EventStore) (filter : NostrFilter)
    (result : List Event) (h : QueryNostrFilter fuel db filter = some result) :
    (∀ e ∈ result, e ∈ db.events ∧ hasTombstone db e = false ∧
      matchesNostrFilter e filter = true) ∧
    (result.map (fun e => e.ID)).Nodup :=
  queryLoop_sound db filter (coarseFilter filter) fuel ⟨[], [], filter.Until, ""⟩ result
    (fun e he => by cases he) (fun e he => by cases he) List.nodup_nil h

/-- C27 (the code at the failing input): the store of the repository's query
test holds four events, none deleted, each with a tag `t` whose value is
`nostr` or `other`, so each satisfies `matchesNostrFilter` for the filter with
the tag values `nostr` and `other` and no limit (target 100). The coarse
query of `QueryNostrFilter` asks the store for the first value only
(`t:nostr`), and the call returns three events: `event-c`, tagged `other`, is
missing. With the two values in the other order only `event-c` is returned.
A filter with two authors and two kinds returns all four. -/
theorem C27_query_nostr_filter_misses_tag_values :
    queryTestStore.events.map (fun e => e.ID) = ["event-a", "event-b", "event-d", "event-c"] ∧
    (∀ e ∈ queryTestStore.events,
      hasTombstone queryTestStore e = false ∧ matchesNostrFilter e twoTopicsFilter = true) ∧
    targetLimit twoTopicsFilter = 100 ∧
    (coarseFilter twoTopicsFilter).Tag = "t:nostr" ∧
    (∀ fuel : Nat,
      (QueryNostrFilter (fuel + 1) queryTestStore twoTopicsFilter).map
        (fun l => l.map (fun e => e.ID)) = some ["event-b", "event-d", "event-a"]) ∧
    (∀ fuel : Nat,
      (QueryNostrFilter (fuel + 1) queryTestStore
        { twoTopicsFilter with Tags := [("#t", ["other", "nostr"])] }).map
        (fun l => l.map (fun e => e.ID)) = some ["event-c"]) ∧
    (∀ fuel : Nat,
      (QueryNostrFilter (fuel + 1) queryTestStore twoAuthorsFilter).map
        (fun l => l.map (fun e => e.ID))
          = some ["event-b", "event-c", "event-d", "event-a"]) := by
  refine ⟨by decide, by decide, by decide, by decide, ?_, ?_, ?_⟩
  · intro fuel
    unfold QueryNostrFilter
    rw [queryLoop_short_page _ _ _ _ _ (by decide) (by decide) (by decide)]
    decide
  · intro fuel
    unfold QueryNostrFilter
    rw [queryLoop_short_page _ _ _ _ _ (by decide) (by decide) (by decide)]
    decide
  · intro fuel
    unfold QueryNostrFilter
    rw [queryLoop_short_page _ _ _ _ _ (by decide) (by decide) (by decide)]
    decide

end SCity
